import Mathlib

/-!
Flow cache of p2f.c.

A shallow embedding of the flow-key, flow-record and flow-cache functions of
src/p2f.c, and the properties of the specification that are stated about them.

Conventions of the embedding:
* unsigned int is a natural number reduced modulo 2^32 after each arithmetic
  operation; time_t and suseconds_t are integers;
* a pointer to a struct flow_record is an `Option Nat` (none is NULL), the heap
  is a partial map from addresses to records, and free removes the address;
* a function that can dereference an invalid pointer, call exit, or loop
  returns in `Except Err`; loops over linked lists take a fuel argument.
-/

namespace P2F

/-! ## Definitions -/

/-- The struct timeval of the C library: seconds and microseconds. Both are
mathematical integers here: the model covers the times for which the subtractions of
timer_sub stay inside the range of time_t. -/
structure timeval where
  tv_sec : Int
  tv_usec : Int
deriving DecidableEq, Repr

/-- The function timer_gt. -/
def timer_gt (a b : timeval) : Bool :=
  if a.tv_sec = b.tv_sec then decide (a.tv_usec > b.tv_usec) else decide (a.tv_sec > b.tv_sec)

/-- The function timer_lt. -/
def timer_lt (a b : timeval) : Bool :=
  if a.tv_sec = b.tv_sec then decide (a.tv_usec < b.tv_usec) else decide (a.tv_sec < b.tv_sec)

/-- The function timer_sub, returning the value it stores in its result argument. -/
def timer_sub (a b : timeval) : timeval :=
  let result : timeval := { tv_sec := a.tv_sec - b.tv_sec, tv_usec := a.tv_usec - b.tv_usec }
  if result.tv_usec < 0 then
    { tv_sec := result.tv_sec - 1, tv_usec := result.tv_usec + 1000000 }
  else result

/-- The function timer_clear, as the value it stores. -/
def timer_clear : timeval := { tv_sec := 0, tv_usec := 0 }

/-- The macro T_WINDOW. -/
def T_WINDOW : Nat := 10

/-- The macro T_ACTIVE. -/
def T_ACTIVE : Nat := 20

/-- The global time_window. -/
def time_window : timeval := { tv_sec := T_WINDOW, tv_usec := 0 }

/-- The global active_timeout. -/
def active_timeout : timeval := { tv_sec := T_ACTIVE, tv_usec := 0 }

/-- The global active_max. -/
def active_max : Nat := T_WINDOW + T_ACTIVE

/-- The macro expiration_type_active, the character a. -/
def expiration_type_active : Nat := 97

/-- The macro expiration_type_inactive, the character i. -/
def expiration_type_inactive : Nat := 105

/-- The macro flow_key_hash_mask. -/
def flow_key_hash_mask : Nat := 0x000fffff

/-- The macro FLOW_RECORD_LIST_LEN. -/
def FLOW_RECORD_LIST_LEN : Nat := flow_key_hash_mask + 1

/-- The enum twins_match. -/
inductive twins_match where
  | exact
  | near
deriving DecidableEq, Repr

/-- The part of the global configuration that the flow cache reads:
config.flow_key_match_method and the global bidir (non-zero is true). -/
structure configuration where
  flow_key_match_method : twins_match
  bidir : Bool
deriving DecidableEq, Repr

/-- The struct flow_key: sa and da are 32-bit addresses, sp and dp 16-bit ports,
prot an 8-bit protocol number. -/
structure flow_key where
  sa : Nat
  da : Nat
  sp : Nat
  dp : Nat
  prot : Nat
deriving DecidableEq, Repr

/-- The field widths of a struct flow_key. -/
def flow_key.wf (k : flow_key) : Prop :=
  k.sa < 2 ^ 32 ∧ k.da < 2 ^ 32 ∧ k.sp < 2 ^ 16 ∧ k.dp < 2 ^ 16 ∧ k.prot < 2 ^ 8

instance (k : flow_key) : Decidable k.wf := by
  unfold flow_key.wf; infer_instance

/-- Multiplication of two unsigned int values. -/
def umul (a b : Nat) : Nat := (a * b) % 2 ^ 32

/-- The function flow_key_hash. -/
def flow_key_hash (config : configuration) (f : flow_key) : Nat :=
  if config.flow_key_match_method = twins_match.exact then
    ((umul (f.sa % 2 ^ 32) 0xef6e15aa)
      ^^^ (umul (f.da % 2 ^ 32) 0x65cd52a0)
      ^^^ (umul (f.sp % 2 ^ 32) 0x8216)
      ^^^ (umul (f.dp % 2 ^ 32) 0xdda37)
      ^^^ (umul (f.prot % 2 ^ 32) 0xbc06)) &&& flow_key_hash_mask
  else
    let hi := if f.sp > f.dp then f.sp % 2 ^ 32 else f.dp % 2 ^ 32
    let lo := if f.sp > f.dp then f.dp % 2 ^ 32 else f.sp % 2 ^ 32
    ((umul hi 0x8216) ^^^ (umul lo 0xdda37)
      ^^^ (umul (f.prot % 2 ^ 32) 0xbc06)) &&& flow_key_hash_mask

/-- The function flow_key_is_eq: 0 when the keys are equal, 1 otherwise. -/
def flow_key_is_eq (a b : flow_key) : Nat :=
  if a.sa ≠ b.sa then 1
  else if a.da ≠ b.da then 1
  else if a.sp ≠ b.sp then 1
  else if a.dp ≠ b.dp then 1
  else if a.prot ≠ b.prot then 1
  else 0

/-- The function flow_key_is_twin: 0 when the keys are twins, 1 otherwise. -/
def flow_key_is_twin (config : configuration) (a b : flow_key) : Nat :=
  let ports_and_prot : Nat :=
    if a.sp ≠ b.dp then 1
    else if a.dp ≠ b.sp then 1
    else if a.prot ≠ b.prot then 1
    else 0
  if config.flow_key_match_method = twins_match.near then
    if a.sa ≠ b.da ∧ a.da ≠ b.sa then 1
    else ports_and_prot
  else
    if a.sa ≠ b.da then 1
    else if a.da ≠ b.sa then 1
    else ports_and_prot

/-- The key that flow_key_get_twin builds in exact mode: addresses and ports swapped. -/
def flow_key_swap (key : flow_key) : flow_key :=
  { sa := key.da, da := key.sa, sp := key.dp, dp := key.sp, prot := key.prot }

/-- Ways in which a call does not return to its caller. -/
inductive Err where
  /-- A NULL pointer or a pointer to freed memory is dereferenced. -/
  | invalid_pointer
  /-- The call exit(1) of flow_record_list_remove. -/
  | exit
  /-- The fuel of a loop is used up. -/
  | out_of_fuel
  /-- The allocator is asked to return an address that is still allocated. -/
  | bad_malloc
deriving DecidableEq, Repr

/-- The struct flow_record, without its per-packet arrays and the sub-records owned by
the extractors. The field end is named end_. -/
structure flow_record where
  key : flow_key
  np : Nat
  op : Nat
  ob : Nat
  num_bytes : Nat
  invalid : Nat
  retrans : Nat
  ttl : Nat
  start : timeval
  end_ : timeval
  last_pkt_len : Nat
  exp_type : Nat
  first_switched_found : Nat
  next : Option Nat
  prev : Option Nat
  time_prev : Option Nat
  time_next : Option Nat
  twin : Option Nat
deriving DecidableEq, Repr

/-- The macro MAX_TTL. -/
def MAX_TTL : Nat := 255

/-- The struct flocap_stats. -/
structure flocap_stats where
  num_packets : Nat
  num_bytes : Nat
  num_records_in_table : Nat
  num_records_output : Nat
  malloc_fail : Nat
deriving DecidableEq, Repr

/-- What one call of flow_record_print_json reads: the record it is given, the record
its twin pointer refers to, the record rec (here rec_) chosen as primary and the record the twin
pointer of rec refers to, the two times it prints, and whether it printed a leading
comma. -/
structure emission where
  record : flow_record
  twin : Option flow_record
  rec_ : flow_record
  rec_twin : Option flow_record
  ts_start : timeval
  ts_end : timeval
  comma : Bool
deriving DecidableEq, Repr

/-- The memory that holds the struct flow_record objects: the allocated addresses and
their contents. -/
abbrev Heap := Nat → Option flow_record

/-- The global state of the flow cache: the heap, flow_record_list_array,
flow_record_chrono_first, flow_record_chrono_last, stats, records_in_file and what was
written to output. -/
structure flow_cache where
  heap : Heap
  flow_record_list_array : Nat → Option Nat
  flow_record_chrono_first : Option Nat
  flow_record_chrono_last : Option Nat
  stats : flocap_stats
  records_in_file : Nat
  output : List emission

/-- The state of the globals at program start, before any record is allocated. -/
def flow_cache_start : flow_cache :=
  { heap := fun _ => none
    flow_record_list_array := fun _ => none
    flow_record_chrono_first := none
    flow_record_chrono_last := none
    stats := { num_packets := 0, num_bytes := 0, num_records_in_table := 0,
               num_records_output := 0, malloc_fail := 0 }
    records_in_file := 0
    output := [] }

/-- The function flow_record_list_init. -/
def flow_record_list_init (s : flow_cache) : flow_cache :=
  { s with
    flow_record_chrono_first := none
    flow_record_chrono_last := none
    flow_record_list_array :=
      fun i => if i < FLOW_RECORD_LIST_LEN then none else s.flow_record_list_array i }

/-- The contents that flow_record_init stores in the record. -/
def flow_record_initial (key : flow_key) : flow_record :=
  { key := key
    np := 0
    op := 0
    ob := 0
    num_bytes := 0
    invalid := 0
    retrans := 0
    ttl := MAX_TTL
    start := timer_clear
    end_ := timer_clear
    last_pkt_len := 0
    exp_type := 0
    first_switched_found := 0
    next := none
    prev := none
    time_prev := none
    time_next := none
    twin := none }

/-- Modelled from the spec: the counter macros flocap_stats_incr_records_in_table,
flocap_stats_decr_records_in_table, flocap_stats_incr_records_output and
flocap_stats_incr_malloc_fail of p2f.h, which add one to or take one from their
counter. This one is flocap_stats_incr_records_in_table. -/
def flocap_stats_incr_records_in_table (st : flocap_stats) : flocap_stats :=
  { st with num_records_in_table := st.num_records_in_table + 1 }

/-- Modelled from the spec: the counter macro flocap_stats_decr_records_in_table of p2f.h. -/
def flocap_stats_decr_records_in_table (st : flocap_stats) : flocap_stats :=
  { st with num_records_in_table := st.num_records_in_table - 1 }

/-- Modelled from the spec: the counter macro flocap_stats_incr_records_output of p2f.h. -/
def flocap_stats_incr_records_output (st : flocap_stats) : flocap_stats :=
  { st with num_records_output := st.num_records_output + 1 }

/-- Modelled from the spec: the counter macro flocap_stats_incr_malloc_fail of p2f.h. -/
def flocap_stats_incr_malloc_fail (st : flocap_stats) : flocap_stats :=
  { st with malloc_fail := st.malloc_fail + 1 }

/-- The function flow_record_init, on the memory at address record. -/
def flow_record_init (s : flow_cache) (record : Nat) (key : flow_key) : flow_cache :=
  { s with
    stats := flocap_stats_incr_records_in_table s.stats
    heap := Function.update s.heap record (some (flow_record_initial key)) }

/-- The function flow_record_list_find_record_by_key; list is the value of the head. -/
def flow_record_list_find_record_by_key (fuel : Nat) (heap : Heap) (list : Option Nat)
    (key : flow_key) : Except Err (Option Nat) :=
  match list, fuel with
  | none, _ => .ok none
  | some _, 0 => .error Err.out_of_fuel
  | some record, fuel + 1 =>
    match heap record with
    | none => .error Err.invalid_pointer
    | some r =>
      if flow_key_is_eq key r.key = 0 then .ok (some record)
      else flow_record_list_find_record_by_key fuel heap r.next key

/-- The function flow_record_list_find_twin_by_key; list is the value of the head. -/
def flow_record_list_find_twin_by_key (config : configuration) (fuel : Nat) (heap : Heap)
    (list : Option Nat) (key : flow_key) : Except Err (Option Nat) :=
  match list, fuel with
  | none, _ => .ok none
  | some _, 0 => .error Err.out_of_fuel
  | some record, fuel + 1 =>
    match heap record with
    | none => .error Err.invalid_pointer
    | some r =>
      if flow_key_is_twin config key r.key = 0 then .ok (some record)
      else flow_record_list_find_twin_by_key config fuel heap r.next key

/-- The function flow_record_list_prepend; returns the heap and the new value of the head. -/
def flow_record_list_prepend (heap : Heap) (head : Option Nat) (record : Nat) :
    Except Err (Heap × Option Nat) :=
  match head with
  | some tmp =>
    match heap tmp with
    | none => .error Err.invalid_pointer
    | some rt =>
      let heap1 := Function.update heap tmp (some { rt with prev := some record })
      match heap1 record with
      | none => .error Err.invalid_pointer
      | some rr =>
        .ok (Function.update heap1 record (some { rr with next := some tmp }), some record)
  | none => .ok (heap, some record)

/-- The function flow_record_list_remove; returns the heap, the new value of the head
and the return value. -/
def flow_record_list_remove (heap : Heap) (head : Option Nat) (r : Option Nat) :
    Except Err (Heap × Option Nat × Nat) :=
  match r with
  | none => .ok (heap, head, 1)
  | some rp =>
    match heap rp with
    | none => .error Err.invalid_pointer
    | some rr =>
      match rr.prev with
      | none =>
        if head ≠ some rp then .error Err.exit
        else
          match rr.next with
          | none => .ok (heap, none, 0)
          | some n =>
            match heap n with
            | none => .error Err.invalid_pointer
            | some rn => .ok (Function.update heap n (some { rn with prev := none }), some n, 0)
      | some p =>
        match heap p with
        | none => .error Err.invalid_pointer
        | some rpv =>
          let heap1 := Function.update heap p (some { rpv with next := rr.next })
          match rr.next with
          | none => .ok (heap1, head, 0)
          | some n =>
            match heap1 n with
            | none => .error Err.invalid_pointer
            | some rn =>
              .ok (Function.update heap1 n (some { rn with prev := rr.prev }), head, 0)

/-- The function flow_record_chrono_list_append. -/
def flow_record_chrono_list_append (s : flow_cache) (record : Nat) : Except Err flow_cache :=
  match s.flow_record_chrono_first with
  | none =>
    .ok { s with flow_record_chrono_first := some record, flow_record_chrono_last := some record }
  | some _ =>
    match s.flow_record_chrono_last with
    | none => .error Err.invalid_pointer
    | some last =>
      match s.heap last with
      | none => .error Err.invalid_pointer
      | some rl =>
        let heap1 := Function.update s.heap last (some { rl with time_next := some record })
        match heap1 record with
        | none => .error Err.invalid_pointer
        | some rr =>
          .ok { s with
                heap := Function.update heap1 record (some { rr with time_prev := some last })
                flow_record_chrono_last := some record }

/-- The function flow_record_is_in_chrono_list. -/
def flow_record_is_in_chrono_list (heap : Heap) (record : Nat) : Except Err Nat :=
  match heap record with
  | none => .error Err.invalid_pointer
  | some r => .ok (if r.time_next ≠ none ∨ r.time_prev ≠ none then 1 else 0)

/-- The function flow_record_chrono_list_remove. -/
def flow_record_chrono_list_remove (s : flow_cache) (record : Option Nat) :
    Except Err flow_cache :=
  match record with
  | none => .ok s
  | some rp =>
    match s.heap rp with
    | none => .error Err.invalid_pointer
    | some rr =>
      let first := if some rp = s.flow_record_chrono_first then rr.time_next
                   else s.flow_record_chrono_first
      let last := if some rp = s.flow_record_chrono_last then rr.time_prev
                  else s.flow_record_chrono_last
      match (match rr.time_prev with
             | none => Except.ok s.heap
             | some p =>
               match s.heap p with
               | none => Except.error Err.invalid_pointer
               | some rpv =>
                 Except.ok (Function.update s.heap p (some { rpv with time_next := rr.time_next })))
      with
      | .error e => .error e
      | .ok heap1 =>
        match rr.time_next with
        | none =>
          .ok { s with heap := heap1, flow_record_chrono_first := first,
                       flow_record_chrono_last := last }
        | some n =>
          match heap1 n with
          | none => .error Err.invalid_pointer
          | some rn =>
            .ok { s with
                  heap := Function.update heap1 n (some { rn with time_prev := rr.time_prev })
                  flow_record_chrono_first := first
                  flow_record_chrono_last := last }

/-- The function flow_record_is_past_active_expiration. -/
def flow_record_is_past_active_expiration (heap : Heap) (record : Nat) : Except Err Nat :=
  match heap record with
  | none => .error Err.invalid_pointer
  | some r =>
    if r.end_.tv_sec > r.start.tv_sec + active_max then
      match r.twin with
      | none => .ok 1
      | some t =>
        match heap t with
        | none => .error Err.invalid_pointer
        | some rt => if r.end_.tv_sec > rt.start.tv_sec + active_max then .ok 1 else .ok 0
    else .ok 0

/-- The function flow_record_delete. -/
def flow_record_delete (config : configuration) (s : flow_cache) (r : Nat) :
    Except Err flow_cache :=
  match s.heap r with
  | none => .error Err.invalid_pointer
  | some rr =>
    let i := flow_key_hash config rr.key
    match flow_record_list_remove s.heap (s.flow_record_list_array i) (some r) with
    | .error e => .error e
    | .ok (heap1, head1, ret) =>
      let s1 := { s with heap := heap1
                         flow_record_list_array := Function.update s.flow_record_list_array i head1 }
      if ret ≠ 0 then .ok s1
      else
        .ok { s1 with stats := flocap_stats_decr_records_in_table s1.stats
                      heap := Function.update s1.heap r none }

/-- The function flow_record_print_json, as far as the flow cache is concerned: the
records it reads, the counters it changes, and an entry in the output. -/
def flow_record_print_json (s : flow_cache) (record : Nat) : Except Err flow_cache :=
  match s.heap record with
  | none => .error Err.invalid_pointer
  | some r =>
    let out (e : emission) : flow_cache :=
      { s with stats := flocap_stats_incr_records_output s.stats
               records_in_file := s.records_in_file + 1
               output := s.output ++ [e] }
    let comma := decide (s.records_in_file ≠ 0)
    match r.twin with
    | none =>
      .ok (out { record := r, twin := none, rec_ := r, rec_twin := none,
                 ts_start := r.start, ts_end := r.end_, comma := comma })
    | some t =>
      match s.heap t with
      | none => .error Err.invalid_pointer
      | some rt =>
        let ts_start := if timer_lt r.start rt.start then r.start else rt.start
        let ts_end := if timer_lt r.end_ rt.end_ then r.end_ else rt.end_
        if timer_lt r.start rt.start then
          .ok (out { record := r, twin := some rt, rec_ := r, rec_twin := some rt,
                     ts_start := ts_start, ts_end := ts_end, comma := comma })
        else
          match rt.twin with
          | none =>
            .ok (out { record := r, twin := some rt, rec_ := rt, rec_twin := none,
                       ts_start := ts_start, ts_end := ts_end, comma := comma })
          | some tt =>
            match s.heap tt with
            | none => .error Err.invalid_pointer
            | some rtt =>
              .ok (out { record := r, twin := some rt, rec_ := rt, rec_twin := some rtt,
                         ts_start := ts_start, ts_end := ts_end, comma := comma })

/-- The function flow_record_print_and_delete. -/
def flow_record_print_and_delete (config : configuration) (s : flow_cache) (record : Nat) :
    Except Err flow_cache :=
  match flow_record_print_json s record with
  | .error e => .error e
  | .ok s1 =>
    match s1.heap record with
    | none => .error Err.invalid_pointer
    | some rr =>
      match (match rr.twin with
             | some t => flow_record_delete config s1 t
             | none => Except.ok s1) with
      | .error e => .error e
      | .ok s2 =>
        match flow_record_chrono_list_remove s2 (some record) with
        | .error e => .error e
        | .ok s3 => flow_record_delete config s3 record

/-- The function flow_record_is_inactive; returns the heap and the return value. -/
def flow_record_is_inactive (heap : Heap) (record : Nat) (expiration : timeval) :
    Except Err (Heap × Nat) :=
  match heap record with
  | none => .error Err.invalid_pointer
  | some r =>
    if timer_lt r.end_ expiration then
      match r.twin with
      | some t =>
        match heap t with
        | none => .error Err.invalid_pointer
        | some rt =>
          if timer_lt rt.end_ expiration then
            .ok (Function.update heap record (some { r with exp_type := expiration_type_inactive }), 1)
          else .ok (heap, 0)
      | none =>
        .ok (Function.update heap record (some { r with exp_type := expiration_type_inactive }), 1)
    else .ok (heap, 0)

/-- The function flow_record_is_expired; returns the heap and the return value. -/
def flow_record_is_expired (heap : Heap) (record : Nat) (inactive_cutoff : timeval) :
    Except Err (Heap × Nat) :=
  let active_expiration := timer_sub inactive_cutoff active_timeout
  match heap record with
  | none => .error Err.invalid_pointer
  | some r =>
    if timer_lt r.start active_expiration then
      match r.twin with
      | some t =>
        match heap t with
        | none => .error Err.invalid_pointer
        | some rt =>
          if timer_lt rt.start active_expiration then
            .ok (Function.update heap record (some { r with exp_type := expiration_type_active }), 1)
          else flow_record_is_inactive heap record inactive_cutoff
      | none =>
        .ok (Function.update heap record (some { r with exp_type := expiration_type_active }), 1)
    else flow_record_is_inactive heap record inactive_cutoff

/-- The function flow_record_list_print_json; inactive_cutoff is none for a NULL
argument. -/
def flow_record_list_print_json (config : configuration) (fuel : Nat) (s : flow_cache)
    (inactive_cutoff : Option timeval) : Except Err flow_cache :=
  match s.flow_record_chrono_first, fuel with
  | none, _ => .ok s
  | some _, 0 => .error Err.out_of_fuel
  | some record, fuel + 1 =>
    match inactive_cutoff with
    | some c =>
      match flow_record_is_expired s.heap record c with
      | .error e => .error e
      | .ok (heap1, expired) =>
        if expired = 0 then .ok { s with heap := heap1 }
        else
          match flow_record_print_and_delete config { s with heap := heap1 } record with
          | .error e => .error e
          | .ok s2 => flow_record_list_print_json config fuel s2 inactive_cutoff
    | none =>
      match flow_record_print_and_delete config s record with
      | .error e => .error e
      | .ok s2 => flow_record_list_print_json config fuel s2 inactive_cutoff

/-- The function flow_key_get_twin. -/
def flow_key_get_twin (config : configuration) (fuel : Nat) (s : flow_cache) (key : flow_key) :
    Except Err (Option Nat) :=
  if config.flow_key_match_method = twins_match.exact then
    let twin : flow_key :=
      { sa := key.da, da := key.sa, sp := key.dp, dp := key.sp, prot := key.prot }
    flow_record_list_find_record_by_key fuel s.heap
      (s.flow_record_list_array (flow_key_hash config twin)) twin
  else
    flow_record_list_find_twin_by_key config fuel s.heap
      (s.flow_record_list_array (flow_key_hash config key)) key

/-- The end of flow_key_get_record, from the test of record->twin to the return, for
the record just allocated: when its twin pointer is set, set the twin pointer of the
twin unless that one is set already; otherwise append the record to the chronological
list. -/
def flow_key_get_record_link (s3 : flow_cache) (record : Nat) :
    Except Err (flow_cache × Option Nat) :=
  match s3.heap record with
  | none => .error Err.invalid_pointer
  | some rr =>
    match rr.twin with
    | some t =>
      match s3.heap t with
      | none => .error Err.invalid_pointer
      | some rt =>
        if rt.twin ≠ none then .ok (s3, some record)
        else
          let heap4 := Function.update s3.heap t (some { rt with twin := some record })
          .ok ({ s3 with heap := heap4 }, some record)
    | none =>
      match flow_record_chrono_list_append s3 record with
      | .error e => .error e
      | .ok s4 => .ok (s4, some record)

/-- The part of flow_key_get_record from the test of bidir on, for the record just
allocated and prepended to its bucket: when bidir is set, store the result of
flow_key_get_twin in the twin pointer of the record; then continue with the test of
record->twin. -/
def flow_key_get_record_pair (config : configuration) (fuel : Nat) (s2 : flow_cache)
    (key : flow_key) (record : Nat) : Except Err (flow_cache × Option Nat) :=
  if config.bidir then
    match flow_key_get_twin config fuel s2 key with
    | .error e => .error e
    | .ok twin =>
      match s2.heap record with
      | none => .error Err.invalid_pointer
      | some rr =>
        let heap3 := Function.update s2.heap record (some { rr with twin := twin })
        flow_key_get_record_link { s2 with heap := heap3 } record
  else flow_key_get_record_link s2 record

/-- The part of flow_key_get_record that follows the lookup, entered with record
equal to NULL: when create_new_records is set, allocate, initialise, prepend to the
bucket hash_key and continue with the test of bidir. The argument malloc is
what the call of malloc returns: NULL or an address that is not allocated. -/
def flow_key_get_record_create (config : configuration) (fuel : Nat) (s : flow_cache)
    (key : flow_key) (hash_key : Nat) (create_new_records : Bool) (malloc : Option Nat) :
    Except Err (flow_cache × Option Nat) :=
  if create_new_records then
    match malloc with
    | none => .ok ({ s with stats := flocap_stats_incr_malloc_fail s.stats }, none)
    | some record =>
      if (s.heap record).isSome then .error Err.bad_malloc
      else
        let s1 := flow_record_init s record key
        match flow_record_list_prepend s1.heap (s1.flow_record_list_array hash_key) record with
        | .error e => .error e
        | .ok (heap2, head2) =>
          flow_key_get_record_pair config fuel
            { s1 with heap := heap2
                      flow_record_list_array :=
                        Function.update s1.flow_record_list_array hash_key head2 }
            key record
  else .ok (s, none)

/-- The function flow_key_get_record; returns the state and the pointer it returns. -/
def flow_key_get_record (config : configuration) (fuel : Nat) (s : flow_cache)
    (key : flow_key) (create_new_records : Bool) (malloc : Option Nat) :
    Except Err (flow_cache × Option Nat) :=
  let hash_key := flow_key_hash config key
  match flow_record_list_find_record_by_key fuel s.heap (s.flow_record_list_array hash_key) key with
  | .error e => .error e
  | .ok none => flow_key_get_record_create config fuel s key hash_key create_new_records malloc
  | .ok (some record) =>
    if create_new_records then
      match flow_record_is_in_chrono_list s.heap record with
      | .error e => .error e
      | .ok in_chrono =>
        if in_chrono ≠ 0 then
          match flow_record_is_past_active_expiration s.heap record with
          | .error e => .error e
          | .ok past =>
            if past ≠ 0 then
              match flow_record_print_and_delete config s record with
              | .error e => .error e
              | .ok s1 =>
                flow_key_get_record_create config fuel s1 key hash_key create_new_records malloc
            else .ok (s, some record)
        else .ok (s, some record)
    else .ok (s, some record)

/-- The (prev, next) pair of each allocated node of a doubly linked list. -/
abbrev Link := Nat → Option (Option Nat × Option Nat)

/-- The nodes reached from cur by following next are exactly the list l, the prev of
the first of them is prev, and the prev of every other one is its predecessor. -/
def Dll (lk : Link) : Option Nat → Option Nat → List Nat → Prop
  | _, cur, [] => cur = none
  | prev, cur, p :: l => cur = some p ∧ ∃ nx, lk p = some (prev, nx) ∧ Dll lk (some p) nx l

/-- The last element of a list, or a when the list is empty. -/
def last_or (a : Option Nat) : List Nat → Option Nat
  | [] => a
  | x :: l => last_or (some x) l

/-- The prev and next pointers of the records of a heap. -/
def bucket_link (heap : Heap) : Link := fun p => (heap p).map (fun r => (r.prev, r.next))

/-- The time_prev and time_next pointers of the records of a heap. -/
def chrono_link (heap : Heap) : Link :=
  fun p => (heap p).map (fun r => (r.time_prev, r.time_next))

/-- The list whose head pointer is head is well formed and holds the records l, in
this order. -/
def is_bucket_list (heap : Heap) (head : Option Nat) (l : List Nat) : Prop :=
  Dll (bucket_link heap) none head l ∧ l.Nodup

/-- The chronological list is well formed and holds the records l, in this order. -/
def is_chrono_list (s : flow_cache) (l : List Nat) : Prop :=
  Dll (chrono_link s.heap) none s.flow_record_chrono_first l ∧ l.Nodup
    ∧ s.flow_record_chrono_last = last_or none l

/-- The buckets of the cache are the lists bl: each is well formed, each record of
bucket i has a key that hashes to i, and every allocated record is in the bucket of
its key. -/
def buckets_inv (config : configuration) (s : flow_cache) (bl : Nat → List Nat) : Prop :=
  (∀ i, is_bucket_list s.heap (s.flow_record_list_array i) (bl i))
  ∧ (∀ i, ∀ p ∈ bl i, ∃ r, s.heap p = some r ∧ flow_key_hash config r.key = i)
  ∧ (∀ p r, s.heap p = some r → p ∈ bl (flow_key_hash config r.key))

/-- Every allocated record outside the list cl has NULL time_prev and time_next. -/
def off_chrono_inv (heap : Heap) (cl : List Nat) : Prop :=
  ∀ p r, heap p = some r → p ∉ cl → r.time_prev = none ∧ r.time_next = none

/-- The twin pointer of a record of the list cl, when not NULL, refers to another
allocated record, which is not in cl and whose twin pointer refers back. -/
def twin_inv (heap : Heap) (cl : List Nat) : Prop :=
  ∀ p ∈ cl, ∀ r, heap p = some r → ∀ t, r.twin = some t →
    t ≠ p ∧ t ∉ cl ∧ ∃ rt, heap t = some rt ∧ rt.twin = some p

/-- The invariant of the flow cache, with bucket lists bl and chronological list cl. -/
def cache_inv (config : configuration) (s : flow_cache) (bl : Nat → List Nat)
    (cl : List Nat) : Prop :=
  buckets_inv config s bl ∧ is_chrono_list s cl ∧ off_chrono_inv s.heap cl ∧ twin_inv s.heap cl

/-- The states of the flow cache after flow_record_list_init at program start and any
sequence of returning calls of flow_key_get_record, flow_record_print_and_delete (on a
record of the chronological list, as in every call of the source) and
flow_record_list_print_json, with the configuration fixed. -/
inductive Reachable (config : configuration) : flow_cache → Prop where
  | init : Reachable config (flow_record_list_init flow_cache_start)
  | get_record (s : flow_cache) (fuel : Nat) (key : flow_key) (create_new_records : Bool)
      (malloc : Option Nat) (res : flow_cache × Option Nat) :
      Reachable config s →
      flow_key_get_record config fuel s key create_new_records malloc = .ok res →
      Reachable config res.1
  | print_and_delete (s : flow_cache) (record : Nat) (cl : List Nat) (s1 : flow_cache) :
      Reachable config s → is_chrono_list s cl → record ∈ cl →
      flow_record_print_and_delete config s record = .ok s1 →
      Reachable config s1
  | print_json (s : flow_cache) (fuel : Nat) (inactive_cutoff : Option timeval)
      (s1 : flow_cache) :
      Reachable config s →
      flow_record_list_print_json config fuel s inactive_cutoff = .ok s1 →
      Reachable config s1

/-- Two heaps have the same allocated addresses and agree on the part f of each record. -/
def heap_agree {α : Type} (f : flow_record → α) (h1 h2 : Heap) : Prop :=
  ∀ p, (h1 p).map f = (h2 p).map f

/-- A record without its next and prev pointers. -/
def strip_links (r : flow_record) : flow_record := { r with next := none, prev := none }

/-- A record without its time_next and time_prev pointers. -/
def strip_time (r : flow_record) : flow_record := { r with time_next := none, time_prev := none }

/-- The first record of the list l whose key passes the test (test returns 0). -/
def list_find (heap : Heap) (test : flow_key → Nat) : List Nat → Option Nat
  | [] => none
  | p :: l =>
    match heap p with
    | some r => if test r.key = 0 then some p else list_find heap test l
    | none => none

/-- A record without its exp_type. -/
def strip_exp (r : flow_record) : flow_record := { r with exp_type := 0 }

/-- The state in a result of flow_key_get_record, or the start state for a call that
does not return. -/
def state_of (x : Except Err (flow_cache × Option Nat)) : flow_cache :=
  match x with
  | .ok res => res.1
  | .error _ => flow_cache_start

/-- The key of scenario 2 of the specification: 10.0.0.1:1234 to 10.0.0.2:80, TCP. -/
def key_forward : flow_key :=
  { sa := 0x0a000001, da := 0x0a000002, sp := 1234, dp := 80, prot := 6 }

/-- Exact match mode with bidirectional flows. -/
def config_exact_bidir : configuration :=
  { flow_key_match_method := twins_match.exact, bidir := true }

/-- Near match mode with bidirectional flows. -/
def config_near_bidir : configuration :=
  { flow_key_match_method := twins_match.near, bidir := true }

/-- The cache after flow_record_list_init and one creating lookup of key_forward whose
record is allocated at address 1. -/
def cache_one (config : configuration) : flow_cache :=
  state_of (flow_key_get_record config 4 (flow_record_list_init flow_cache_start)
    key_forward true (some 1))

/-- The cache cache_one after a creating lookup of the swapped key, whose record is
allocated at address 2. -/
def cache_two (config : configuration) : flow_cache :=
  state_of (flow_key_get_record config 4 (cache_one config) (flow_key_swap key_forward)
    true (some 2))

/-- The record at address p is in the table: it is in the list of one of the
FLOW_RECORD_LIST_LEN buckets. -/
def in_table (s : flow_cache) (p : Nat) : Prop :=
  ∃ i, i < FLOW_RECORD_LIST_LEN ∧
    ∃ l, is_bucket_list s.heap (s.flow_record_list_array i) l ∧ p ∈ l

/-- Bucket placement (I1) of a cache state: every bucket is a well-formed list of
allocated records whose keys hash to the index of the bucket. -/
def bucket_placement (config : configuration) (s : flow_cache) : Prop :=
  ∀ i, i < FLOW_RECORD_LIST_LEN →
    ∃ l, is_bucket_list s.heap (s.flow_record_list_array i) l
      ∧ ∀ p ∈ l, ∃ r, s.heap p = some r ∧ flow_key_hash config r.key = i

/-- The flow key of scenario 6 of the specification: 1.1.1.1:5000 to 2.2.2.2:80, TCP. -/
def key_nat_flow : flow_key :=
  { sa := 0x01010101, da := 0x02020202, sp := 5000, dp := 80, prot := 6 }

/-- The reverse observation of scenario 6 of the specification, with both addresses
translated: 9.9.9.9:80 to 3.3.3.3:5000, TCP. -/
def key_nat_reverse : flow_key :=
  { sa := 0x09090909, da := 0x03030303, sp := 80, dp := 5000, prot := 6 }

/-- A reverse observation with only the source address translated: 9.9.9.9:80 to
1.1.1.1:5000, TCP. -/
def key_nat_reverse_one : flow_key :=
  { sa := 0x09090909, da := 0x01010101, sp := 80, dp := 5000, prot := 6 }

/-- The cache after flow_record_list_init and creating lookups of k1 and then k2, whose
records are allocated at the addresses 1 and 2. -/
def cache_pair (config : configuration) (k1 k2 : flow_key) : flow_cache :=
  state_of (flow_key_get_record config 4
    (state_of (flow_key_get_record config 4 (flow_record_list_init flow_cache_start)
      k1 true (some 1)))
    k2 true (some 2))

/-- The twin pointers of the records at the addresses 1 and 2 and the two ends of the
chronological list. -/
def pair_summary (s : flow_cache) :
    Option (Option Nat) × Option (Option Nat) × Option Nat × Option Nat :=
  ((s.heap 1).map (fun r => r.twin), (s.heap 2).map (fun r => r.twin),
    s.flow_record_chrono_first, s.flow_record_chrono_last)

/-- A heap for the list test of flow_record_list_unit_test: record a with key k1 at
address 1, alone in its list, and the freshly initialised record c with the same key
at address 2. -/
def unit_test_heap (k1 : flow_key) : Heap :=
  fun p => if p = 1 then some (flow_record_initial k1)
           else if p = 2 then some (flow_record_initial k1) else none

/-- The states of the flow cache after flow_record_list_init at program start and any
sequence of returning calls of flow_key_get_record, flow_record_print_and_delete and
flow_record_list_print_json, with any arguments and with the configuration fixed. -/
inductive ReachableAny (config : configuration) : flow_cache → Prop where
  | init : ReachableAny config (flow_record_list_init flow_cache_start)
  | get_record (s : flow_cache) (fuel : Nat) (key : flow_key) (create_new_records : Bool)
      (malloc : Option Nat) (res : flow_cache × Option Nat) :
      ReachableAny config s →
      flow_key_get_record config fuel s key create_new_records malloc = .ok res →
      ReachableAny config res.1
  | print_and_delete (s : flow_cache) (record : Nat) (s1 : flow_cache) :
      ReachableAny config s →
      flow_record_print_and_delete config s record = .ok s1 →
      ReachableAny config s1
  | print_json (s : flow_cache) (fuel : Nat) (inactive_cutoff : Option timeval)
      (s1 : flow_cache) :
      ReachableAny config s →
      flow_record_list_print_json config fuel s inactive_cutoff = .ok s1 →
      ReachableAny config s1

/-- A heap with the three records of a list 1, 2, 3: the records of
flow_record_list_unit_test at the addresses 1, 2 and 3, linked in this order. -/
def three_list_heap : Heap :=
  fun p =>
    if p = 1 then
      some { flow_record_initial { sa := 0xcafe, da := 0xbabe, sp := 0xfa, dp := 0xce, prot := 0xdd }
             with next := some 2 }
    else if p = 2 then
      some { flow_record_initial { sa := 0xdead, da := 0xbeef, sp := 0xfa, dp := 0xce, prot := 0xdd }
             with prev := some 1, next := some 3 }
    else if p = 3 then
      some { flow_record_initial { sa := 0xcafe, da := 0xbabe, sp := 0xfa, dp := 0xce, prot := 0xdd }
             with prev := some 2 }
    else none

/-- The heap and the head that a call of flow_record_list_remove leaves, or the empty
heap for a call that does not return. -/
def list_after_remove (x : Except Err (Heap × Option Nat × Nat)) : Heap × Option Nat :=
  match x with
  | .ok (heap, head, _) => (heap, head)
  | .error _ => (fun _ => none, none)

/-- The return value of a call of flow_record_list_remove, or none for a call that does
not return. -/
def remove_return (x : Except Err (Heap × Option Nat × Nat)) : Option Nat :=
  match x with
  | .ok (_, _, ret) => some ret
  | .error _ => none

/-- The time of a timeval in microseconds. -/
def usec (t : timeval) : Int := t.tv_sec * 1000000 + t.tv_usec

/-- A timeval is normalised when its microseconds are in the range of one second. -/
def timeval_normalised (t : timeval) : Prop := 0 ≤ t.tv_usec ∧ t.tv_usec < 1000000

instance (t : timeval) : Decidable (timeval_normalised t) := by
  unfold timeval_normalised; infer_instance

/-- The record that the twin pointer of a record points to, if it has one. -/
def twin_record (heap : Heap) (r : flow_record) : Option flow_record := r.twin.bind heap

/-- Modelled from the spec: the packet processing that fills np, op, ob, start and end
is not part of p2f.c. An unpaired record with the key key_forward that holds a single
packet of 100 bytes seen at the time 1.000000. -/
def single_packet_record : flow_record :=
  { flow_record_initial key_forward with
    np := 1, op := 1, ob := 100,
    start := { tv_sec := 1, tv_usec := 0 }, end_ := { tv_sec := 1, tv_usec := 0 } }

/-- A heap with the record single_packet_record at the address 1 and nothing else. -/
def single_packet_heap : Heap :=
  fun p => if p = 1 then some single_packet_record else none

/-- The state in a result of a function that returns nothing, or the start state for a
call that does not return. -/
def cache_of (x : Except Err flow_cache) : flow_cache :=
  match x with
  | .ok s => s
  | .error _ => flow_cache_start

/-- The expiration tag x that flow_record_print_json prints for an emission: the
character exp_type of the record rec, when it is not zero. -/
def expiration_tag (e : emission) : Option Char :=
  if e.rec_.exp_type ≠ 0 then some (Char.ofNat e.rec_.exp_type) else none

/-- Modelled from the spec: the packet processing that fills np, op, ob, start and end
is not part of p2f.c. The cache of scenario 1: the cache cache_one, whose only record
has the key key_forward, is unpaired and is on the chronological list, after that record
was given the single packet of the scenario (100 bytes at the time 1.000000). -/
def cache_single_packet (config : configuration) : flow_cache :=
  { cache_one config with
    heap := fun p => ((cache_one config).heap p).map (fun r =>
      { r with np := 1, op := 1, ob := 100,
               start := { tv_sec := 1, tv_usec := 0 }, end_ := { tv_sec := 1, tv_usec := 0 } }) }

/-- A third key whose ports are those of key_nat_flow, swapped, and whose destination
is the source of key_nat_flow: 3.3.3.3:80 to 1.1.1.1:5000, TCP. -/
def key_third : flow_key :=
  { sa := 0x03030303, da := 0x01010101, sp := 80, dp := 5000, prot := 6 }

/-- The cache in near mode after creating lookups of key_nat_flow (record A, at the
address 1), of its swapped key (record B, at the address 2), and of key_third (record
C, at the address 3). -/
def cache_refusal : flow_cache :=
  state_of (flow_key_get_record config_near_bidir 8
    (cache_pair config_near_bidir key_nat_flow (flow_key_swap key_nat_flow))
    key_third true (some 3))

/-- The twin pointer of the record at the address p, or none when p is not allocated. -/
def twin_of (s : flow_cache) (p : Nat) : Option (Option Nat) := (s.heap p).map (fun r => r.twin)

/-- A key with the ports of key_nat_flow and its destination: 3.3.3.3:5000 to
2.2.2.2:80, TCP. -/
def key_client_one : flow_key :=
  { sa := 0x03030303, da := 0x02020202, sp := 5000, dp := 80, prot := 6 }

/-- A key with the ports of key_nat_flow and its source: 1.1.1.1:5000 to 4.4.4.4:80,
TCP. -/
def key_client_two : flow_key :=
  { sa := 0x01010101, da := 0x04040404, sp := 5000, dp := 80, prot := 6 }

/-- The cache in near mode after creating lookups of key_client_one (address 1),
key_client_two (address 2) and the swapped key of key_nat_flow, 2.2.2.2:80 to
1.1.1.1:5000 (address 3). -/
def cache_first_twin : flow_cache :=
  state_of (flow_key_get_record config_near_bidir 8
    (cache_pair config_near_bidir key_client_one key_client_two)
    (flow_key_swap key_nat_flow) true (some 3))

/-- The records of the list created that are still allocated in the heap, in the order
of the list. -/
def still_allocated (heap : Heap) (created : List Nat) : List Nat :=
  created.filter (fun p => (heap p).isSome)

/-- The records in the order of their creation, after the part of flow_key_get_record
that follows the lookup: the record that malloc returned, if this part was asked to
create one and malloc returned one, comes last. -/
def created_after_create (create_new_records : Bool) (malloc : Option Nat)
    (created : List Nat) : List Nat :=
  if create_new_records then
    match malloc with
    | some record => created ++ [record]
    | none => created
  else created

/-- The records of the table in the order of their creation, after a call of
flow_key_get_record that returns, given this list before the call: the call follows
the branches of flow_key_get_record; a record that the call deletes leaves the list,
and a record that it creates comes last. -/
def flow_key_get_record_created (config : configuration) (fuel : Nat) (s : flow_cache)
    (key : flow_key) (create_new_records : Bool) (malloc : Option Nat)
    (created : List Nat) : List Nat :=
  let hash_key := flow_key_hash config key
  match flow_record_list_find_record_by_key fuel s.heap (s.flow_record_list_array hash_key) key with
  | .error _ => created
  | .ok none => created_after_create create_new_records malloc created
  | .ok (some record) =>
    if create_new_records then
      match flow_record_is_in_chrono_list s.heap record with
      | .error _ => created
      | .ok in_chrono =>
        if in_chrono ≠ 0 then
          match flow_record_is_past_active_expiration s.heap record with
          | .error _ => created
          | .ok past =>
            if past ≠ 0 then
              match flow_record_print_and_delete config s record with
              | .error _ => created
              | .ok s1 =>
                created_after_create create_new_records malloc (still_allocated s1.heap created)
            else created
        else created
    else created

/-- The states of the flow cache after flow_record_list_init at program start and any
sequence of returning calls of flow_key_get_record, flow_record_print_and_delete (on a
record of the chronological list) and flow_record_list_print_json, each with the list
of the allocated records in the order of their creation, oldest first. -/
inductive Created (config : configuration) : flow_cache → List Nat → Prop where
  | init : Created config (flow_record_list_init flow_cache_start) []
  | get_record (s : flow_cache) (created : List Nat) (fuel : Nat) (key : flow_key)
      (create_new_records : Bool) (malloc : Option Nat) (res : flow_cache × Option Nat) :
      Created config s created →
      flow_key_get_record config fuel s key create_new_records malloc = .ok res →
      Created config res.1
        (flow_key_get_record_created config fuel s key create_new_records malloc created)
  | print_and_delete (s : flow_cache) (created : List Nat) (record : Nat) (cl : List Nat)
      (s1 : flow_cache) :
      Created config s created → is_chrono_list s cl → record ∈ cl →
      flow_record_print_and_delete config s record = .ok s1 →
      Created config s1 (still_allocated s1.heap created)
  | print_json (s : flow_cache) (created : List Nat) (fuel : Nat)
      (inactive_cutoff : Option timeval) (s1 : flow_cache) :
      Created config s created →
      flow_record_list_print_json config fuel s inactive_cutoff = .ok s1 →
      Created config s1 (still_allocated s1.heap created)

/-- The list created holds each allocated record once, and the chronological list is a
sublist of it: it visits its records in the order of the list created. -/
def created_inv (config : configuration) (s : flow_cache) (created : List Nat) : Prop :=
  created.Nodup ∧ (∀ p, p ∈ created ↔ (s.heap p).isSome = true)
    ∧ ∃ bl cl, cache_inv config s bl cl ∧ cl.Sublist created

/-- A heap with a pair: the record at the address 1 has start 0.000000, end 31.000000
and the twin 2; the record at the address 2 has start and end 0.000000 and the twin 1. -/
def active_pair_heap : Heap :=
  fun p =>
    if p = 1 then
      some { flow_record_initial key_forward with
             start := { tv_sec := 0, tv_usec := 0 }, end_ := { tv_sec := 31, tv_usec := 0 },
             twin := some 2 }
    else if p = 2 then
      some { flow_record_initial (flow_key_swap key_forward) with
             start := { tv_sec := 0, tv_usec := 0 }, end_ := { tv_sec := 0, tv_usec := 0 },
             twin := some 1 }
    else none

/-- A heap with one unpaired record at the address 1, with start 0.000000 and end
30.500000. -/
def half_second_heap : Heap :=
  fun p =>
    if p = 1 then
      some { flow_record_initial key_forward with
             start := { tv_sec := 0, tv_usec := 0 }, end_ := { tv_sec := 30, tv_usec := 500000 } }
    else none

/-- The value in a result of type Except Err Nat, or none for a call that does not
return. -/
def value_of (x : Except Err Nat) : Option Nat :=
  match x with
  | .ok v => some v
  | .error _ => none

/-- Modelled from the spec: the packet processing that fills start and end is not part
of p2f.c. The state s after the record at the address 1 was given packets from the time
0.000000 to the time 31.000000. -/
def aged (s : flow_cache) : flow_cache :=
  { s with
    heap := fun p =>
      if p = 1 then
        (s.heap 1).map (fun r =>
          { r with np := 2, op := 2, ob := 100,
                   start := { tv_sec := 0, tv_usec := 0 }, end_ := { tv_sec := 31, tv_usec := 0 } })
      else s.heap p }

/-- Modelled from the spec: the packet processing that fills np, op, ob, start and end
is not part of p2f.c. The cache of scenario 2 in exact mode: the records of key_forward
(address 1) and of its swapped key (address 2) are paired; the first holds one packet
of 50 bytes at the time 1.000000, the second one packet of 60 bytes at the time
1.100000. -/
def cache_scenario_two : flow_cache :=
  { cache_two config_exact_bidir with
    heap := fun p =>
      ((cache_two config_exact_bidir).heap p).map (fun r =>
        if p = 1 then
          { r with np := 1, op := 1, ob := 50,
                   start := { tv_sec := 1, tv_usec := 0 }, end_ := { tv_sec := 1, tv_usec := 0 } }
        else
          { r with np := 1, op := 1, ob := 60,
                   start := { tv_sec := 1, tv_usec := 100000 },
                   end_ := { tv_sec := 1, tv_usec := 100000 } }) }

/-- The counters np, op and ob of the record at the address p. -/
def counters_of (s : flow_cache) (p : Nat) : Option (Nat × Nat × Nat) :=
  (s.heap p).map (fun r => (r.np, r.op, r.ob))

/-- The pointer in a result of flow_key_get_record, or none for a call that does not
return. -/
def returned (x : Except Err (flow_cache × Option Nat)) : Option (Option Nat) :=
  match x with
  | .ok res => some res.2
  | .error _ => none

/-- The fields of the JSON object flow that flow_record_print_json prints before the
TCP options, with ib, ip and ittl present when the record rec has a twin. -/
structure json_flow where
  sa : Nat
  da : Nat
  pr : Nat
  sp : Nat
  dp : Nat
  ob : Nat
  op : Nat
  ib : Option Nat
  ip : Option Nat
  ts : timeval
  te : timeval
  ottl : Nat
  ittl : Option Nat
deriving DecidableEq, Repr

/-- The values that flow_record_print_json prints for the fields of json_flow, from the
records it reads: the key, ob, np and ttl of the record rec, ob, np and ttl of the twin
of rec, ts_start and ts_end. The addresses are those of the key, before anonymization. -/
def flow_record_print_json_flow (e : emission) : json_flow :=
  { sa := e.rec_.key.sa
    da := e.rec_.key.da
    pr := e.rec_.key.prot
    sp := e.rec_.key.sp
    dp := e.rec_.key.dp
    ob := e.rec_.ob
    op := e.rec_.np
    ib := e.rec_twin.map (fun t => t.ob)
    ip := e.rec_twin.map (fun t => t.np)
    ts := e.ts_start
    te := e.ts_end
    ottl := e.rec_.ttl
    ittl := e.rec_twin.map (fun t => t.ttl) }

/-- The function timeval_to_milliseconds: the sum is computed in long (no overflow
modelled) with the truncating division of C, and converted to unsigned int. -/
def timeval_to_milliseconds (ts : timeval) : Nat :=
  ((ts.tv_usec.tdiv 1000 + ts.tv_sec * 1000) % 4294967296).toNat

/-- The macro OUT. -/
def OUT : String := "<"

/-- The macro IN. -/
def IN : String := ">"

/-- One object of the array non_norm_stats as print_bytes_dir_time prints it: the key
is rep when rep is set and b otherwise, with its value, then dir and ipt. -/
structure json_stats_entry where
  rep : Bool
  value : Nat
  dir : String
  ipt : Nat
deriving DecidableEq, Repr

/-- The function print_bytes_dir_time, as the object it prints; pkt_len is converted to
the unsigned short of the parameter. -/
def print_bytes_dir_time (pkt_len : Nat) (dir : String) (ts : timeval) : json_stats_entry :=
  if pkt_len % 65536 < 32768 then
    { rep := false, value := pkt_len % 65536, dir := dir, ipt := timeval_to_milliseconds ts }
  else
    { rep := true, value := 65536 - pkt_len % 65536, dir := dir,
      ipt := timeval_to_milliseconds ts }

/-- The fields op, pkt_len and pkt_time of a struct flow_record; the arrays are total
functions of the index. -/
structure flow_record_packets where
  op : Nat
  pkt_len : Nat → Nat
  pkt_time : Nat → timeval

/-- The while loop of flow_record_print_json that prints non_norm_stats for a record
with a twin, from the values i, j and ts_last on: the list of the objects it prints. -/
def flow_record_print_json_merge (rec_ twin : flow_record_packets) (imax jmax : Nat) :
    Nat → Nat → Nat → timeval → Except Err (List json_stats_entry)
  | 0, i, j, _ => if i < imax ∨ j < jmax then .error Err.out_of_fuel else .ok []
  | fuel + 1, i, j, ts_last =>
    if i < imax ∨ j < jmax then
      if i ≥ imax then
        match flow_record_print_json_merge rec_ twin imax jmax fuel i (j + 1) (twin.pkt_time j) with
        | .error e => .error e
        | .ok l =>
          .ok (print_bytes_dir_time (twin.pkt_len j) OUT
            (timer_sub (twin.pkt_time j) ts_last) :: l)
      else if j ≥ jmax then
        match flow_record_print_json_merge rec_ twin imax jmax fuel (i + 1) j (rec_.pkt_time i) with
        | .error e => .error e
        | .ok l =>
          .ok (print_bytes_dir_time (rec_.pkt_len i) IN
            (timer_sub (rec_.pkt_time i) ts_last) :: l)
      else if timer_lt (rec_.pkt_time i) (twin.pkt_time j) then
        match flow_record_print_json_merge rec_ twin imax jmax fuel
            (if i < imax then i + 1 else i) j (rec_.pkt_time i) with
        | .error e => .error e
        | .ok l =>
          .ok (print_bytes_dir_time (rec_.pkt_len i) IN
            (timer_sub (rec_.pkt_time i) ts_last) :: l)
      else
        match flow_record_print_json_merge rec_ twin imax jmax fuel i
            (if j < jmax then j + 1 else j) (twin.pkt_time j) with
        | .error e => .error e
        | .ok l =>
          .ok (print_bytes_dir_time (twin.pkt_len j) OUT
            (timer_sub (twin.pkt_time j) ts_last) :: l)
    else .ok []

/-- The part of flow_record_print_json that prints non_norm_stats for a record rec with
a twin: imax and jmax are op of rec and of the twin, capped by num_pkt_len, and the loop
starts with i = j = 0 and ts_last = ts_start. -/
def flow_record_print_json_non_norm_stats (num_pkt_len : Nat) (rec_ twin : flow_record_packets)
    (ts_start : timeval) (fuel : Nat) : Except Err (List json_stats_entry) :=
  let imax := if rec_.op > num_pkt_len then num_pkt_len else rec_.op
  let jmax := if twin.op > num_pkt_len then num_pkt_len else twin.op
  flow_record_print_json_merge rec_ twin imax jmax fuel 0 0 ts_start

/-- In the words of the specification: the first n entries (length and time) of a
record, from the index i on. -/
def packets_from (r : flow_record_packets) (i n : Nat) : List (Nat × timeval) :=
  (List.range' i n).map (fun k => (r.pkt_len k, r.pkt_time k))

/-- In the words of the specification: the two-way merge by time of the entries of the
primary and of the twin. At each step the side with the strictly smaller time is taken,
a tie takes the entry of the twin; entries of the primary carry the direction > and
entries of the twin the direction <. -/
def merge_by_time : List (Nat × timeval) → List (Nat × timeval) → List (String × Nat × timeval)
  | [], ys => ys.map (fun y => ("<", y.1, y.2))
  | x :: xs, [] => (x :: xs).map (fun x => (">", x.1, x.2))
  | x :: xs, y :: ys =>
    if usec x.2 < usec y.2 then (">", x.1, x.2) :: merge_by_time xs (y :: ys)
    else ("<", y.1, y.2) :: merge_by_time (x :: xs) ys
termination_by xs ys => xs.length + ys.length

/-- In the words of the specification: the difference of two times in milliseconds, as
an unsigned 32-bit number. -/
def milliseconds_between (ts previous : timeval) : Nat :=
  (((usec ts - usec previous) / 1000) % 4294967296).toNat

/-- In the words of the specification: the objects of merged entries, each with the
milliseconds between its time and the time of the entry before it, the first one
relative to the time previous; a length of 32768 or more is printed as rep. -/
def with_ipt : timeval → List (String × Nat × timeval) → List json_stats_entry
  | _, [] => []
  | previous, (dir, len, ts) :: l =>
    { rep := decide (32768 ≤ len), value := if len < 32768 then len else 65536 - len,
      dir := dir, ipt := milliseconds_between ts previous } :: with_ipt ts l

/-- In the words of the specification: non_norm_stats of a pair with primary p and twin
t, with L entries at most from each side. -/
def non_norm_stats_merge (L : Nat) (p t : flow_record_packets) (ts : timeval) :
    List json_stats_entry :=
  with_ipt ts (merge_by_time (packets_from p 0 (min p.op L)) (packets_from t 0 (min t.op L)))

/-- The packets of the primary of scenario 2: one packet of 50 bytes at 1.000000. -/
def scenario_two_primary : flow_record_packets :=
  { op := 1, pkt_len := fun i => if i = 0 then 50 else 0,
    pkt_time := fun i => if i = 0 then { tv_sec := 1, tv_usec := 0 } else timer_clear }

/-- The packets of the twin of scenario 2: one packet of 60 bytes at 1.100000. -/
def scenario_two_twin : flow_record_packets :=
  { op := 1, pkt_len := fun i => if i = 0 then 60 else 0,
    pkt_time := fun i => if i = 0 then { tv_sec := 1, tv_usec := 100000 } else timer_clear }

/-- A record without its four list pointers next, prev, time_next and time_prev. -/
def strip_ptrs (r : flow_record) : flow_record :=
  { r with next := none, prev := none, time_next := none, time_prev := none }

/-- The list l without the record that the pointer twin refers to, if it is not NULL. -/
def erase_twin (l : List Nat) (twin : Option Nat) : List Nat :=
  match twin with
  | none => l
  | some t => l.erase t

/-- The counters after flocap_stats_decr_records_in_table for the twin of a record, if
its twin pointer is not NULL. -/
def decr_twin (twin : Option Nat) (st : flocap_stats) : flocap_stats :=
  match twin with
  | none => st
  | some _ => flocap_stats_decr_records_in_table st

/-- No two allocated records have the same key. -/
def keys_unique (heap : Heap) : Prop :=
  ∀ p q rp rq, heap p = some rp → heap q = some rq → rp.key = rq.key → p = q

/-- Whether the sweep flow_record_list_print_json with this cutoff prints and deletes
the record p when it is the first of the chronological list: always for a NULL cutoff,
and otherwise when flow_record_is_expired returns non-zero. -/
def expired_at (heap : Heap) (inactive_cutoff : Option timeval) (p : Nat) : Bool :=
  match inactive_cutoff with
  | none => true
  | some c =>
    match flow_record_is_expired heap p c with
    | .ok (_, e) => decide (e ≠ 0)
    | .error _ => false

/-- What flow_record_is_expired reads of a record: start, end and the twin pointer. -/
def expiry_view (r : flow_record) : timeval × timeval × Option Nat := (r.start, r.end_, r.twin)

/-- The number of records of the list created that are allocated in the heap. -/
def live_count (heap : Heap) (created : List Nat) : Nat := (still_allocated heap created).length

/-- The while loop of flow_record_list_free for one bucket, from the value record on. -/
def flow_record_list_free_records (config : configuration) (fuel : Nat) (s : flow_cache)
    (record : Option Nat) : Except Err flow_cache :=
  match record, fuel with
  | none, _ => .ok s
  | some _, 0 => .error Err.out_of_fuel
  | some r, fuel + 1 =>
    match s.heap r with
    | none => .error Err.invalid_pointer
    | some rr =>
      let tmp := rr.next
      match flow_record_delete config s r with
      | .error e => .error e
      | .ok s1 => flow_record_list_free_records config fuel s1 tmp

/-- The for loop of flow_record_list_free, for the n buckets from the index i on. -/
def flow_record_list_free_buckets (config : configuration) (fuel : Nat) :
    Nat → Nat → flow_cache → Except Err flow_cache
  | 0, _, s => .ok s
  | n + 1, i, s =>
    match flow_record_list_free_records config fuel s (s.flow_record_list_array i) with
    | .error e => .error e
    | .ok s1 =>
      flow_record_list_free_buckets config fuel n (i + 1)
        { s1 with flow_record_list_array := Function.update s1.flow_record_list_array i none }

/-- The function flow_record_list_free. -/
def flow_record_list_free (config : configuration) (fuel : Nat) (s : flow_cache) :
    Except Err flow_cache :=
  match flow_record_list_free_buckets config fuel FLOW_RECORD_LIST_LEN 0 s with
  | .error e => .error e
  | .ok s1 => .ok { s1 with flow_record_chrono_first := none, flow_record_chrono_last := none }

/-- The states of the flow cache after flow_record_list_init at program start, with
zeroed counters, and any sequence of returning calls of flow_key_get_record,
flow_record_print_and_delete (on a record of the chronological list),
flow_record_list_print_json and flow_record_list_free, each with the list of the records
created and not yet deleted, oldest first: a call appends the record it creates and
removes the records it deletes. -/
inductive Counted (config : configuration) : flow_cache → List Nat → Prop where
  | init : Counted config (flow_record_list_init flow_cache_start) []
  | get_record (s : flow_cache) (created : List Nat) (fuel : Nat) (key : flow_key)
      (create_new_records : Bool) (malloc : Option Nat) (res : flow_cache × Option Nat) :
      Counted config s created →
      flow_key_get_record config fuel s key create_new_records malloc = .ok res →
      Counted config res.1
        (flow_key_get_record_created config fuel s key create_new_records malloc created)
  | print_and_delete (s : flow_cache) (created : List Nat) (record : Nat) (cl : List Nat)
      (s1 : flow_cache) :
      Counted config s created → is_chrono_list s cl → record ∈ cl →
      flow_record_print_and_delete config s record = .ok s1 →
      Counted config s1 (still_allocated s1.heap created)
  | print_json (s : flow_cache) (created : List Nat) (fuel : Nat)
      (inactive_cutoff : Option timeval) (s1 : flow_cache) :
      Counted config s created →
      flow_record_list_print_json config fuel s inactive_cutoff = .ok s1 →
      Counted config s1 (still_allocated s1.heap created)
  | list_free (s : flow_cache) (created : List Nat) (fuel : Nat) (s1 : flow_cache) :
      Counted config s created →
      flow_record_list_free config fuel s = .ok s1 →
      Counted config s1 (still_allocated s1.heap created)

/-- The counters agree with the list created and with the output: num_records_in_table
is the length of the list, which holds each allocated record once, and
num_records_output is the number of emissions. -/
def counted_inv (config : configuration) (s : flow_cache) (created : List Nat) : Prop :=
  created_inv config s created
    ∧ s.stats.num_records_in_table = created.length
    ∧ s.stats.num_records_output = s.output.length

/-- The part of flow_record_print_json that prints non_norm_stats for a record rec
without a twin, as the list of the objects it prints: imax is op capped by num_pkt_len;
the for loop prints the entries 0 .. imax - 2 and the statement after it the entry
imax - 1. -/
def flow_record_print_json_unidirectional (num_pkt_len : Nat) (rec_ : flow_record_packets) :
    List json_stats_entry :=
  let imax := if rec_.op > num_pkt_len then num_pkt_len else rec_.op
  if imax = 0 then []
  else
    let printed := (List.range (imax - 1)).map (fun i =>
      let ts := if i > 0 then timer_sub (rec_.pkt_time i) (rec_.pkt_time (i - 1))
        else timer_clear
      print_bytes_dir_time (rec_.pkt_len i) OUT ts)
    let i := imax - 1
    let ts := if i = 0 then timer_clear
      else timer_sub (rec_.pkt_time i) (rec_.pkt_time (i - 1))
    printed ++ [print_bytes_dir_time (rec_.pkt_len i) OUT ts]

/-- In the words of the specification: non_norm_stats of a record r without a twin, with
L entries at most: entry i carries the length pkt_len i (as rep from 32768 on), the
direction < and the milliseconds between pkt_time i and pkt_time (i - 1), zero for the
first entry. -/
def non_norm_stats_unidirectional (L : Nat) (r : flow_record_packets) : List json_stats_entry :=
  (List.range (min r.op L)).map (fun i =>
    { rep := decide (32768 ≤ r.pkt_len i),
      value := if r.pkt_len i < 32768 then r.pkt_len i else 65536 - r.pkt_len i,
      dir := "<",
      ipt := if i = 0 then 0 else milliseconds_between (r.pkt_time i) (r.pkt_time (i - 1)) })

/-- The length that an object of non_norm_stats stands for: the value of b, or 65536
less the value of rep. -/
def json_stats_entry_length (e : json_stats_entry) : Nat :=
  if e.rep then 65536 - e.value else e.value

/-- Three packets of a record without a twin: 100 bytes at 1.000000, 40000 bytes at
1.250000 and 7 bytes at 3.000500. -/
def three_packets : flow_record_packets :=
  { op := 3,
    pkt_len := fun i => if i = 0 then 100 else if i = 1 then 40000 else if i = 2 then 7 else 0,
    pkt_time := fun i =>
      if i = 0 then { tv_sec := 1, tv_usec := 0 }
      else if i = 1 then { tv_sec := 1, tv_usec := 250000 }
      else if i = 2 then { tv_sec := 3, tv_usec := 500 }
      else timer_clear }

/-- The fields ob, num_bytes, bd_mean, bd_variance and byte_count of a struct
flow_record. The doubles bd_mean and bd_variance are exact rationals here, num_bytes is
an unbounded natural, and the array byte_count of 256 unsigned int is a function of the
index. -/
structure flow_record_bytes where
  ob : Nat
  num_bytes : Nat
  bd_mean : ℚ
  bd_variance : ℚ
  byte_count : Nat → Nat

/-- The fields of flow_record_bytes as flow_record_init leaves them. -/
def flow_record_bytes_initial : flow_record_bytes :=
  { ob := 0, num_bytes := 0, bd_mean := 0, bd_variance := 0, byte_count := fun _ => 0 }

/-- The function flow_record_update_byte_count, on the len bytes data that x points to;
the increment of an unsigned int wraps at 2 ^ 32. The loop counter of the source is an
int, so the model covers len below 2 ^ 31. -/
def flow_record_update_byte_count (byte_distribution report_entropy : Bool)
    (f : flow_record_bytes) (data : List Nat) : flow_record_bytes :=
  if byte_distribution || report_entropy then
    data.foldl (fun (f : flow_record_bytes) (b : Nat) =>
      { f with byte_count := Function.update f.byte_count b ((f.byte_count b + 1) % 4294967296) })
      f
  else f

/-- The function flow_record_update_byte_dist_mean_var, on the len bytes data that x
points to. The loop counter of the source is an int, so the model covers len below
2 ^ 31. -/
def flow_record_update_byte_dist_mean_var (byte_distribution report_entropy : Bool)
    (f : flow_record_bytes) (data : List Nat) : flow_record_bytes :=
  if byte_distribution || report_entropy then
    data.foldl (fun (f : flow_record_bytes) (b : Nat) =>
      let num_bytes := f.num_bytes + 1
      let delta := (b : ℚ) - f.bd_mean
      let bd_mean := f.bd_mean + delta / (num_bytes : ℚ)
      { f with num_bytes := num_bytes, bd_mean := bd_mean,
               bd_variance := f.bd_variance + delta * ((b : ℚ) - bd_mean) })
      f
  else f

/-- The values num_bytes, bd_mean and bd_variance of a record. -/
def mean_var_of (f : flow_record_bytes) : Nat × ℚ × ℚ := (f.num_bytes, f.bd_mean, f.bd_variance)

/-- In the words of the specification: the mean of a byte sequence. -/
def batch_mean (xs : List Nat) : ℚ := (xs.map (fun (b : Nat) => (b : ℚ))).sum / (xs.length : ℚ)

/-- In the words of the specification: the sum of the squared deviations of a byte
sequence from its mean. -/
def batch_sum_squares (xs : List Nat) : ℚ := (xs.map (fun (b : Nat) => ((b : ℚ) - batch_mean xs) ^ 2)).sum

/-- In the words of the specification: the sample variance of a byte sequence. -/
def batch_sample_variance (xs : List Nat) : ℚ := batch_sum_squares xs / ((xs.length : ℚ) - 1)

/-- The sum of the 256 entries of a byte histogram. -/
def histogram_total (byte_count : Nat → Nat) : Nat :=
  ((List.range 256).map byte_count).sum

/-- The values that flow_record_print_json prepares for the fields bd, bd_mean and
bd_std: the array it prints as bd, the local num_bytes, mean, and variance as the square
of the number printed as bd_std. -/
structure json_byte_dist where
  array : Nat → Nat
  num_bytes : Nat
  mean : ℚ
  variance : ℚ

/-- The part of flow_record_print_json that prepares the byte distribution of the record
rec and its twin, under byte_distribution or report_entropy. The doubles are exact
rationals; tmp and the local num_bytes are unsigned int. The source replaces variance
by its square root and then by 0.0 when the number of bytes is 1: the field variance
here is the argument of sqrt, or 0 where the source sets or leaves 0.0, that is the
square of the number it prints. -/
def flow_record_print_json_byte_dist (rec_ : flow_record_bytes)
    (twin : Option flow_record_bytes) : json_byte_dist :=
  match twin with
  | none =>
    if rec_.num_bytes ≠ 0 then
      let variance := rec_.bd_variance / ((rec_.num_bytes - 1 : Nat) : ℚ)
      { array := rec_.byte_count, num_bytes := rec_.ob % 4294967296, mean := rec_.bd_mean,
        variance := if rec_.num_bytes = 1 then 0 else variance }
    else
      { array := rec_.byte_count, num_bytes := rec_.ob % 4294967296, mean := 0, variance := 0 }
  | some twin =>
    let tmp := fun i => (rec_.byte_count i + twin.byte_count i) % 4294967296
    let num_bytes := (rec_.ob + twin.ob) % 4294967296
    if rec_.num_bytes + twin.num_bytes ≠ 0 then
      let mean :=
        (rec_.num_bytes : ℚ) / ((rec_.num_bytes + twin.num_bytes : Nat) : ℚ) * rec_.bd_mean
        + (twin.num_bytes : ℚ) / ((rec_.num_bytes + twin.num_bytes : Nat) : ℚ) * twin.bd_mean
      let variance :=
        (rec_.num_bytes : ℚ) / ((rec_.num_bytes + twin.num_bytes : Nat) : ℚ) * rec_.bd_variance
        + (twin.num_bytes : ℚ) / ((rec_.num_bytes + twin.num_bytes : Nat) : ℚ) * twin.bd_variance
      let variance := variance / ((rec_.num_bytes + twin.num_bytes - 1 : Nat) : ℚ)
      { array := tmp, num_bytes := num_bytes, mean := mean,
        variance := if rec_.num_bytes + twin.num_bytes = 1 then 0 else variance }
    else
      { array := tmp, num_bytes := num_bytes, mean := 0, variance := 0 }

/-- In the words of the specification: the pooled variance of two sides with n_a and n_b
samples and the accumulators m2_a and m2_b, where the variance of a side is its
accumulator divided by its number of samples less one. -/
def pooled_variance (n_a n_b : Nat) (m2_a m2_b : ℚ) : ℚ :=
  (((n_a : ℚ) - 1) * (m2_a / ((n_a : ℚ) - 1)) + ((n_b : ℚ) - 1) * (m2_b / ((n_b : ℚ) - 1)))
    / ((n_a : ℚ) + (n_b : ℚ) - 2)

/-- A record after flow_record_init and the two payload bytes 0 and 2, with both
flags set. -/
def two_bytes_record : flow_record_bytes :=
  flow_record_update_byte_dist_mean_var true true
    (flow_record_update_byte_count true true { flow_record_bytes_initial with ob := 2 } [0, 2])
    [0, 2]

/-- The function isalnum of the C library in the C locale, on the value of a character:
the digits and the letters of ASCII. A value above 127 is not alphanumeric. -/
def isalnum (c : Nat) : Bool :=
  (decide (48 ≤ c) && decide (c ≤ 57)) || (decide (65 ≤ c) && decide (c ≤ 90))
    || (decide (97 ≤ c) && decide (c ≤ 122))

/-- The for loop of convert_string_to_printable from the index i on, with n = len - i
rounds left, on the buffer s of character values; a read outside the buffer gives
none. The character '.' is 46. -/
def convert_string_to_printable_loop : Nat → Nat → List Nat → Option (List Nat)
  | 0, _, s => some s
  | n + 1, i, s =>
    match s[i]? with
    | none => none
    | some c =>
      if c = 0 then some s
      else if !isalnum c then convert_string_to_printable_loop n (i + 1) (s.set i 46)
      else convert_string_to_printable_loop n (i + 1) s

/-- The function convert_string_to_printable, on the buffer s of character values: the
loop, then the store of 0 at the index len - 1, computed in unsigned int; a store
outside the buffer gives none. -/
def convert_string_to_printable (s : List Nat) (len : Nat) : Option (List Nat) :=
  match convert_string_to_printable_loop len 0 s with
  | none => none
  | some s1 =>
    let last := (len + 4294967295) % 4294967296
    if last < s1.length then some (s1.set last 0) else none

/-- The character that convert_string_to_printable leaves for the character c. -/
def printable_char (c : Nat) : Nat := if isalnum c then c else 46

/-- No character of s at an index from i to j is NUL. -/
def before_nul (s : List Nat) (i j : Nat) : Prop := ∀ m, i ≤ m → m ≤ j → s[m]? ≠ some 0

/-- The cache cache_one in exact mode after a creating lookup of key_third, whose record
is allocated at the address 2: two records without twin. -/
def cache_two_unpaired : flow_cache :=
  state_of (flow_key_get_record config_exact_bidir 4 (cache_one config_exact_bidir)
    key_third true (some 2))

/-- A key that is its own swap: 10.0.0.1:53 to 10.0.0.1:53, UDP. -/
def key_self : flow_key :=
  { sa := 0x0a000001, da := 0x0a000001, sp := 53, dp := 53, prot := 17 }

/-- The cache after flow_record_list_init and one creating lookup of key_self, whose
record is allocated at the address 1. -/
def cache_self (config : configuration) : flow_cache :=
  state_of (flow_key_get_record config 4 (flow_record_list_init flow_cache_start)
    key_self true (some 1))

/-- The key and the five pointers of a record: what the lists of the cache and the
lookup by key depend on. -/
def cache_view (r : flow_record) :
    flow_key × (Option Nat × Option Nat) × (Option Nat × Option Nat) × Option Nat :=
  (r.key, (r.prev, r.next), (r.time_prev, r.time_next), r.twin)

/-- The state s1 has the lists of s and records with the same keys and pointers: it is s
after packet processing changed other fields of records. -/
def same_lists (s1 s : flow_cache) : Prop :=
  s1.flow_record_list_array = s.flow_record_list_array
    ∧ s1.flow_record_chrono_first = s.flow_record_chrono_first
    ∧ s1.flow_record_chrono_last = s.flow_record_chrono_last
    ∧ heap_agree cache_view s1.heap s.heap

/-- The value of count in the part of flow_record_print_json that prints dns, for a
record rec with rec->op = op and a twin with twin->op = twin_op (none: no twin). The
macro MAX_NUM_PKT_LEN, the length of the arrays dns_name and pkt_len, is defined in
p2f.h and is a parameter here. -/
def flow_record_print_json_dns_count (MAX_NUM_PKT_LEN op : Nat) (twin_op : Option Nat) : Nat :=
  let count := if op > MAX_NUM_PKT_LEN then MAX_NUM_PKT_LEN else op
  match twin_op with
  | some top => if top > count then top else count
  | none => count

/-- The values of i in the for loop that prints dns, in both branches i = 0 .. count - 1:
at each of them the loop reads dns_name[i] of rec, and of the twin when there is one,
and pkt_len[i] of a record whose dns_name[i] is not NULL. -/
def flow_record_print_json_dns_reads (MAX_NUM_PKT_LEN op : Nat) (twin_op : Option Nat) :
    List Nat :=
  List.range (flow_record_print_json_dns_count MAX_NUM_PKT_LEN op twin_op)

/-! ## Theorems -/

theorem and_mask_eq_mod (x : Nat) : x &&& flow_key_hash_mask = x % 2 ^ 20 := by
  have h : flow_key_hash_mask = 2 ^ 20 - 1 := by decide
  rw [h, Nat.and_pow_two_sub_one_eq_mod]

theorem umul_mod (a c : Nat) : umul (a % 2 ^ 32) c = (a * c) % 2 ^ 32 := by
  unfold umul
  rw [Nat.mul_mod, Nat.mod_mod, ← Nat.mul_mod]

theorem xor5_mod (a b c d e : Nat) :
    ((a % 2 ^ 32) ^^^ (b % 2 ^ 32) ^^^ (c % 2 ^ 32) ^^^ (d % 2 ^ 32) ^^^ (e % 2 ^ 32)) % 2 ^ 20
      = (a ^^^ b ^^^ c ^^^ d ^^^ e) % 2 ^ 20 := by
  apply Nat.eq_of_testBit_eq
  intro i
  simp only [Nat.testBit_mod_two_pow, Nat.testBit_xor]
  by_cases h : i < 20
  · have h32 : i < 32 := by omega
    simp [h, h32]
  · simp [h]

theorem xor3_mod (a b c : Nat) :
    ((a % 2 ^ 32) ^^^ (b % 2 ^ 32) ^^^ (c % 2 ^ 32)) % 2 ^ 20
      = (a ^^^ b ^^^ c) % 2 ^ 20 := by
  apply Nat.eq_of_testBit_eq
  intro i
  simp only [Nat.testBit_mod_two_pow, Nat.testBit_xor]
  by_cases h : i < 20
  · have h32 : i < 32 := by omega
    simp [h, h32]
  · simp [h]

theorem flow_key_hash_exact_eq (config : configuration) (f : flow_key)
    (h : config.flow_key_match_method = twins_match.exact) :
    flow_key_hash config f
      = ((f.sa * 0xef6e15aa) ^^^ (f.da * 0x65cd52a0) ^^^ (f.sp * 0x8216)
          ^^^ (f.dp * 0xdda37) ^^^ (f.prot * 0xbc06)) % 2 ^ 20 := by
  unfold flow_key_hash
  rw [if_pos h, and_mask_eq_mod]
  simp only [umul_mod]
  exact xor5_mod _ _ _ _ _

theorem flow_key_hash_near_eq (config : configuration) (f : flow_key)
    (h : config.flow_key_match_method = twins_match.near) :
    flow_key_hash config f
      = ((max f.sp f.dp * 0x8216) ^^^ (min f.sp f.dp * 0xdda37) ^^^ (f.prot * 0xbc06)) % 2 ^ 20 := by
  unfold flow_key_hash
  have hne : ¬ config.flow_key_match_method = twins_match.exact := by rw [h]; decide
  rw [if_neg hne, and_mask_eq_mod]
  by_cases hgt : f.sp > f.dp
  · have h1 : max f.sp f.dp = f.sp := max_eq_left (le_of_lt hgt)
    have h2 : min f.sp f.dp = f.dp := min_eq_right (le_of_lt hgt)
    simp only [if_pos hgt, umul_mod, h1, h2]
    exact xor3_mod _ _ _
  · have hle : f.sp ≤ f.dp := not_lt.mp hgt
    have h1 : max f.sp f.dp = f.dp := max_eq_right hle
    have h2 : min f.sp f.dp = f.sp := min_eq_left hle
    simp only [if_neg hgt, umul_mod, h1, h2]
    exact xor3_mod _ _ _

theorem flow_key_hash_lt (config : configuration) (f : flow_key) :
    flow_key_hash config f < FLOW_RECORD_LIST_LEN := by
  have hpos : 0 < 2 ^ 20 := by norm_num
  have hlen : FLOW_RECORD_LIST_LEN = 2 ^ 20 := by decide
  rw [hlen]
  unfold flow_key_hash
  split
  · rw [and_mask_eq_mod]; exact Nat.mod_lt _ hpos
  · rw [and_mask_eq_mod]; exact Nat.mod_lt _ hpos

/-- C2: in exact mode flow_key_hash is the low 20 bits of the exclusive-or of the five
exact (unbounded) products, so the 32-bit wrap-around of the C multiplications does not
change it, and it is below 2^20, the number of buckets. -/
theorem flow_key_hash_exact_low20 (bidir : Bool) (f : flow_key) :
    flow_key_hash { flow_key_match_method := twins_match.exact, bidir := bidir } f
      = ((f.sa * 0xef6e15aa) ^^^ (f.da * 0x65cd52a0) ^^^ (f.sp * 0x8216)
          ^^^ (f.dp * 0xdda37) ^^^ (f.prot * 0xbc06)) % 2 ^ 20
    ∧ flow_key_hash { flow_key_match_method := twins_match.exact, bidir := bidir } f < 2 ^ 20
    ∧ FLOW_RECORD_LIST_LEN = 2 ^ 20 := by
  refine ⟨flow_key_hash_exact_eq _ f rfl, ?_, by decide⟩
  have h := flow_key_hash_lt { flow_key_match_method := twins_match.exact, bidir := bidir } f
  have hlen : FLOW_RECORD_LIST_LEN = 2 ^ 20 := by decide
  rw [hlen] at h
  exact h

/-- C3: in near mode two keys with the same protocol and the same unordered port pair
have the same hash whatever their addresses are; in particular the swap of (sa, sp)
with (da, dp) keeps the bucket. -/
theorem flow_key_hash_near_ports (bidir : Bool) (a b : flow_key)
    (hprot : a.prot = b.prot)
    (hports : (a.sp = b.sp ∧ a.dp = b.dp) ∨ (a.sp = b.dp ∧ a.dp = b.sp)) :
    flow_key_hash { flow_key_match_method := twins_match.near, bidir := bidir } a
      = flow_key_hash { flow_key_match_method := twins_match.near, bidir := bidir } b
    ∧ flow_key_hash { flow_key_match_method := twins_match.near, bidir := bidir } (flow_key_swap a)
      = flow_key_hash { flow_key_match_method := twins_match.near, bidir := bidir } a := by
  rw [flow_key_hash_near_eq _ a rfl, flow_key_hash_near_eq _ b rfl,
    flow_key_hash_near_eq _ (flow_key_swap a) rfl]
  constructor
  · rcases hports with ⟨h1, h2⟩ | ⟨h1, h2⟩
    · rw [h1, h2, hprot]
    · rw [h1, h2, hprot, max_comm, min_comm]
  · simp only [flow_key_swap]
    rw [max_comm, min_comm]

theorem flow_key_hash_near_ports_witness :
    flow_key_hash { flow_key_match_method := twins_match.near, bidir := true }
        { sa := 0x01010101, da := 0x02020202, sp := 5000, dp := 80, prot := 6 }
      = flow_key_hash { flow_key_match_method := twins_match.near, bidir := true }
        { sa := 0x09090909, da := 0x03030303, sp := 80, dp := 5000, prot := 6 }
    ∧ flow_key_hash { flow_key_match_method := twins_match.near, bidir := true }
        (flow_key_swap { sa := 0x01010101, da := 0x02020202, sp := 5000, dp := 80, prot := 6 })
      = flow_key_hash { flow_key_match_method := twins_match.near, bidir := true }
        { sa := 0x01010101, da := 0x02020202, sp := 5000, dp := 80, prot := 6 } :=
  flow_key_hash_near_ports true
    { sa := 0x01010101, da := 0x02020202, sp := 5000, dp := 80, prot := 6 }
    { sa := 0x09090909, da := 0x03030303, sp := 80, dp := 5000, prot := 6 }
    rfl (Or.inr ⟨rfl, rfl⟩)

theorem flow_key_is_twin_exact (config : configuration) (a b : flow_key)
    (h : config.flow_key_match_method = twins_match.exact) :
    flow_key_is_twin config a b
      = if a.sa = b.da ∧ a.da = b.sa ∧ a.sp = b.dp ∧ a.dp = b.sp ∧ a.prot = b.prot
        then 0 else 1 := by
  have hne : ¬ config.flow_key_match_method = twins_match.near := by rw [h]; decide
  unfold flow_key_is_twin
  rw [if_neg hne]
  by_cases h1 : a.sa = b.da <;> by_cases h2 : a.da = b.sa <;> by_cases h3 : a.sp = b.dp <;>
    by_cases h4 : a.dp = b.sp <;> by_cases h5 : a.prot = b.prot <;> simp [h1, h2, h3, h4, h5]

theorem flow_key_is_twin_near (config : configuration) (a b : flow_key)
    (h : config.flow_key_match_method = twins_match.near) :
    flow_key_is_twin config a b
      = if (a.sa = b.da ∨ a.da = b.sa) ∧ a.sp = b.dp ∧ a.dp = b.sp ∧ a.prot = b.prot
        then 0 else 1 := by
  unfold flow_key_is_twin
  rw [if_pos h]
  by_cases h1 : a.sa = b.da <;> by_cases h2 : a.da = b.sa <;> by_cases h3 : a.sp = b.dp <;>
    by_cases h4 : a.dp = b.sp <;> by_cases h5 : a.prot = b.prot <;> simp [h1, h2, h3, h4, h5]

theorem flow_key_is_eq_zero (a b : flow_key) : flow_key_is_eq a b = 0 ↔ a = b := by
  cases a with
  | mk sa da sp dp prot =>
    cases b with
    | mk sa2 da2 sp2 dp2 prot2 =>
      unfold flow_key_is_eq
      by_cases h1 : sa = sa2 <;> by_cases h2 : da = da2 <;> by_cases h3 : sp = sp2 <;>
        by_cases h4 : dp = dp2 <;> by_cases h5 : prot = prot2 <;> simp [h1, h2, h3, h4, h5]

/-- C4: in exact mode flow_key_is_twin returns 0 exactly when b is the address and port
swap of a with the same protocol. -/
theorem flow_key_is_twin_exact_iff (bidir : Bool) (a b : flow_key) :
    flow_key_is_twin { flow_key_match_method := twins_match.exact, bidir := bidir } a b = 0
      ↔ (a.sa = b.da ∧ a.da = b.sa ∧ a.sp = b.dp ∧ a.dp = b.sp ∧ a.prot = b.prot) := by
  rw [flow_key_is_twin_exact _ a b rfl]
  split <;> simp_all

/-- C6: twin-ness is symmetric in both match modes. -/
theorem flow_key_is_twin_symm (config : configuration) (a b : flow_key) :
    flow_key_is_twin config a b = flow_key_is_twin config b a := by
  cases hm : config.flow_key_match_method with
  | exact =>
    rw [flow_key_is_twin_exact _ a b hm, flow_key_is_twin_exact _ b a hm]
    apply if_congr _ rfl rfl
    constructor <;> rintro ⟨h1, h2, h3, h4, h5⟩ <;> exact ⟨h2.symm, h1.symm, h4.symm, h3.symm, h5.symm⟩
  | near =>
    rw [flow_key_is_twin_near _ a b hm, flow_key_is_twin_near _ b a hm]
    apply if_congr _ rfl rfl
    constructor <;> rintro ⟨h1, h3, h4, h5⟩ <;>
      exact ⟨h1.elim (fun h => Or.inr h.symm) (fun h => Or.inl h.symm), h4.symm, h3.symm, h5.symm⟩

/-- C7, as stated, fails: a key whose two addresses are equal and whose two ports are
equal is its own twin in both match modes. -/
theorem flow_key_is_twin_self_counterexample :
    flow_key_is_twin { flow_key_match_method := twins_match.exact, bidir := true }
        { sa := 0x0a000001, da := 0x0a000001, sp := 53, dp := 53, prot := 17 }
        { sa := 0x0a000001, da := 0x0a000001, sp := 53, dp := 53, prot := 17 } = 0
    ∧ flow_key_is_twin { flow_key_match_method := twins_match.near, bidir := true }
        { sa := 0x0a000001, da := 0x0a000001, sp := 53, dp := 53, prot := 17 }
        { sa := 0x0a000001, da := 0x0a000001, sp := 53, dp := 53, prot := 17 } = 0 := by
  constructor <;> decide

/-- C7, amended: in both match modes flow_key_is_twin(k, k) returns 0 exactly when
k.sa = k.da and k.sp = k.dp, so every key with different addresses or different ports
is not its own twin. -/
theorem flow_key_is_twin_self_iff (config : configuration) (k : flow_key) :
    flow_key_is_twin config k k = 0 ↔ (k.sa = k.da ∧ k.sp = k.dp) := by
  cases hm : config.flow_key_match_method with
  | exact =>
    rw [flow_key_is_twin_exact _ k k hm]
    constructor
    · intro h
      split at h
      · rename_i hc; exact ⟨hc.1, hc.2.2.1⟩
      · simp at h
    · rintro ⟨h1, h2⟩
      rw [if_pos ⟨h1, h1.symm, h2, h2.symm, rfl⟩]
  | near =>
    rw [flow_key_is_twin_near _ k k hm]
    constructor
    · intro h
      split at h
      · rename_i hc; exact ⟨hc.1.elim id Eq.symm, hc.2.1⟩
      · simp at h
    · rintro ⟨h1, h2⟩
      rw [if_pos ⟨Or.inl h1, h2, h2.symm, rfl⟩]

/-! ### Doubly linked lists -/

theorem Dll_congr {lk lk2 : Link} : ∀ (l : List Nat) (a h : Option Nat),
    (∀ p ∈ l, lk2 p = lk p) → Dll lk a h l → Dll lk2 a h l
  | [], _, _, _, hd => hd
  | p :: l, _, _, hl, ⟨hh, nx, hp, hr⟩ =>
    ⟨hh, nx, by rw [hl p (List.mem_cons_self _ _)]; exact hp,
      Dll_congr l _ _ (fun q hq => hl q (List.mem_cons_of_mem _ hq)) hr⟩

theorem Dll_live {lk : Link} : ∀ (l : List Nat) (a h : Option Nat),
    Dll lk a h l → ∀ p ∈ l, ∃ x, lk p = some x
  | [], _, _, _, p, hp => by simp at hp
  | q :: l, _, _, ⟨_, nx, hq, hr⟩, p, hp => by
    rcases List.mem_cons.mp hp with h | h
    · subst h; exact ⟨_, hq⟩
    · exact Dll_live l _ _ hr p h

theorem Dll_head_none {lk : Link} {a : Option Nat} {l : List Nat}
    (h : Dll lk a none l) : l = [] := by
  cases l with
  | nil => rfl
  | cons p l => exact absurd h.1 (by simp)

theorem Dll_head_some {lk : Link} {a : Option Nat} {p : Nat} {l : List Nat}
    (h : Dll lk a (some p) l) : ∃ l2 nx, l = p :: l2 ∧ lk p = some (a, nx) ∧ Dll lk (some p) nx l2 := by
  cases l with
  | nil => exact absurd h (by simp [Dll])
  | cons q l =>
    obtain ⟨hh, nx, hq, hr⟩ := h
    have : p = q := by simpa using hh
    subst this
    exact ⟨l, nx, rfl, hq, hr⟩

theorem Dll_unique {lk : Link} : ∀ (l l2 : List Nat) (a a2 h : Option Nat),
    Dll lk a h l → Dll lk a2 h l2 → l = l2
  | [], l2, _, _, _, h1, h2 => by
    have : _ = none := h1
    subst this
    exact (Dll_head_none h2).symm
  | p :: l, l2, _, _, _, ⟨hh, nx, hp, hr⟩, h2 => by
    subst hh
    obtain ⟨l3, nx3, hl3, hp3, hr3⟩ := Dll_head_some h2
    subst hl3
    rw [hp] at hp3
    have hnx : nx = nx3 := by simpa using (Prod.mk.inj (Option.some.inj hp3)).2
    subst hnx
    rw [Dll_unique l l3 _ _ _ hr hr3]

theorem last_or_append (a : Option Nat) (l1 l2 : List Nat) :
    last_or a (l1 ++ l2) = last_or (last_or a l1) l2 := by
  induction l1 generalizing a with
  | nil => rfl
  | cons x l ih => exact ih (some x)

theorem last_or_ne_nil (a b : Option Nat) (l : List Nat) (h : l ≠ []) :
    last_or a l = last_or b l := by
  cases l with
  | nil => exact absurd rfl h
  | cons x l => rfl

theorem last_or_mem (a : Option Nat) (l : List Nat) (h : l ≠ []) :
    ∃ q ∈ l, last_or a l = some q := by
  induction l generalizing a with
  | nil => exact absurd rfl h
  | cons x l ih =>
    cases l with
    | nil => exact ⟨x, List.mem_cons_self _ _, rfl⟩
    | cons y l =>
      obtain ⟨q, hq, he⟩ := ih (some x) (by simp)
      exact ⟨q, List.mem_cons_of_mem _ hq, he⟩

theorem Dll_mid {lk : Link} : ∀ (l1 : List Nat) (a h : Option Nat) (r : Nat) (l2 : List Nat)
    (pv nx : Option Nat), Dll lk a h (l1 ++ r :: l2) → lk r = some (pv, nx) →
    pv = last_or a l1 ∧ Dll lk (some r) nx l2
  | [], _, _, r, l2, pv, nx, ⟨_, nx2, hp, hr⟩, hlk => by
    rw [hp] at hlk
    have h1 := Prod.mk.inj (Option.some.inj hlk)
    refine ⟨h1.1.symm, ?_⟩
    rw [← h1.2]; exact hr
  | x :: l1, _, _, r, l2, pv, nx, ⟨_, nx2, hp, hr⟩, hlk =>
    Dll_mid l1 (some x) nx2 r l2 pv nx hr hlk

theorem Dll_unlink {u w : Link} (r : Nat) (pv nx : Option Nat) (l2 : List Nat)
    (hr : u r = some (pv, nx))
    (hpred : ∀ q, pv = some q → ∀ x, u q = some x → w q = some (x.1, nx))
    (hsucc : ∀ n, nx = some n → ∀ x, u n = some x → w n = some (pv, x.2))
    (hother : ∀ p, some p ≠ pv → some p ≠ nx → p ≠ r → w p = u p) :
    ∀ (l1 : List Nat) (a h : Option Nat), Dll u a h (l1 ++ r :: l2) →
      (l1 ++ r :: l2).Nodup → (∀ q, a = some q → q ∉ l1 ++ r :: l2) →
      Dll w a (if l1 = [] then nx else h) (l1 ++ l2) := by
  intro l1
  induction l1 with
  | nil =>
    intro a h hd hnd ha
    obtain ⟨hpv, hd2⟩ := Dll_mid [] a h r l2 pv nx hd hr
    simp only [last_or] at hpv
    simp only [List.nil_append, if_true] at hnd ⊢
    have hrl2 : r ∉ l2 := (List.nodup_cons.mp hnd).1
    have hnd2 : l2.Nodup := (List.nodup_cons.mp hnd).2
    cases l2 with
    | nil => exact hd2
    | cons n l3 =>
      obtain ⟨hh, nx2, hn, hd3⟩ := hd2
      refine ⟨hh, nx2, ?_, ?_⟩
      · have := hsucc n hh _ hn
        rw [this, hpv]
      · apply Dll_congr l3 _ _ _ hd3
        intro p hp
        have hpn : p ≠ n := fun e => (List.nodup_cons.mp hnd2).1 (e ▸ hp)
        apply hother
        · intro e
          rw [hpv] at e
          exact ha p e.symm (by simp [hp])
        · rw [hh]; intro e; exact hpn (Option.some.inj e)
        · intro e; exact hrl2 (e ▸ List.mem_cons_of_mem _ hp)
  | cons x l1 ih =>
    intro a h hd hnd ha
    obtain ⟨hh, nxx, hx, hd2⟩ := hd
    have hnd1 : (l1 ++ r :: l2).Nodup := (List.nodup_cons.mp hnd).2
    have hx1 : x ∉ l1 ++ r :: l2 := (List.nodup_cons.mp hnd).1
    have ih2 := ih (some x) nxx hd2 hnd1 (fun q hq => by
      have : x = q := Option.some.inj hq
      subst this; exact hx1)
    obtain ⟨hpv, hd3⟩ := Dll_mid l1 (some x) nxx r l2 pv nx hd2 hr
    have hxr : x ≠ r := fun e => hx1 (by simp [e])
    have hxnx : some x ≠ nx := by
      intro e
      rw [← e] at hd3
      obtain ⟨l4, _, hl4, _, _⟩ := Dll_head_some hd3
      exact hx1 (by simp [hl4])
    simp only [List.cons_append, reduceCtorEq, if_false]
    refine ⟨hh, (if l1 = [] then nx else nxx), ?_, ih2⟩
    by_cases hl1 : l1 = []
    · subst hl1
      simp only [last_or] at hpv
      simp only [if_true]
      exact hpred x hpv _ hx
    · obtain ⟨q, hq, hlast⟩ := last_or_mem (some x) l1 hl1
      rw [hlast] at hpv
      have hxq : some x ≠ pv := by
        rw [hpv]; intro e
        have : x = q := Option.some.inj e
        exact hx1 (by simp [this, hq])
      rw [if_neg hl1, hother x hxq hxnx hxr]
      exact hx

theorem Dll_prepend {u w : Link} (p : Nat) (h : Option Nat) (l : List Nat)
    (hd : Dll u none h l) (hnd : l.Nodup) (hp : p ∉ l)
    (hp2 : w p = some (none, h))
    (hhead : ∀ q, h = some q → ∀ x, u q = some x → w q = some (some p, x.2))
    (hother : ∀ q, q ≠ p → some q ≠ h → w q = u q) :
    Dll w none (some p) (p :: l) := by
  refine ⟨rfl, h, hp2, ?_⟩
  cases l with
  | nil => exact hd
  | cons q l =>
    obtain ⟨hh, nx, hq, hd2⟩ := hd
    refine ⟨hh, nx, hhead q hh _ hq, ?_⟩
    apply Dll_congr l _ _ _ hd2
    intro z hz
    apply hother
    · intro e; exact hp (by simp [← e, hz])
    · rw [hh]; intro e
      have : z = q := Option.some.inj e
      exact (List.nodup_cons.mp hnd).1 (this ▸ hz)

theorem Dll_append {u w : Link} (p q : Nat)
    (hp2 : w p = some (some q, none))
    (hq : ∀ x, u q = some x → w q = some (x.1, some p))
    (hother : ∀ z, z ≠ p → z ≠ q → w z = u z) :
    ∀ (l : List Nat) (a h : Option Nat), Dll u a h l → l.Nodup → p ∉ l →
      last_or a l = some q → l ≠ [] → Dll w a h (l ++ [p]) := by
  intro l
  induction l with
  | nil => intro a h _ _ _ _ hne; exact absurd rfl hne
  | cons y l ih =>
    intro a h hd hnd hp hlast _
    obtain ⟨hh, nx, hy, hd2⟩ := hd
    cases l with
    | nil =>
      have hqy : y = q := by simpa [last_or] using hlast
      subst hqy
      have hnx : nx = none := hd2
      subst hnx
      exact ⟨hh, some p, hq _ hy, rfl, none, hp2, rfl⟩
    | cons z l =>
      have hnd2 : (z :: l).Nodup := (List.nodup_cons.mp hnd).2
      have hyl : y ∉ z :: l := (List.nodup_cons.mp hnd).1
      obtain ⟨q2, hq2, hl2⟩ := last_or_mem (some y) (z :: l) (by simp)
      have hlast2 : last_or (some y) (z :: l) = some q := hlast
      rw [hl2] at hlast2
      have hqq : q2 = q := Option.some.inj hlast2
      subst hqq
      have hyq : y ≠ q2 := fun e => hyl (e ▸ hq2)
      have hyp : y ≠ p := fun e => hp (by simp [e])
      refine ⟨hh, nx, ?_, ?_⟩
      · rw [hother y hyp hyq]; exact hy
      · exact ih (some y) nx hd2 hnd2 (fun hm => hp (List.mem_cons_of_mem _ hm)) hlast (by simp)

/-! ### Heaps -/

theorem heap_agree_refl {α : Type} (f : flow_record → α) (h : Heap) : heap_agree f h h :=
  fun _ => rfl

theorem heap_agree_trans {α : Type} {f : flow_record → α} {h1 h2 h3 : Heap}
    (a : heap_agree f h1 h2) (b : heap_agree f h2 h3) : heap_agree f h1 h3 :=
  fun p => (a p).trans (b p)

theorem heap_agree_symm {α : Type} {f : flow_record → α} {h1 h2 : Heap}
    (a : heap_agree f h1 h2) : heap_agree f h2 h1 :=
  fun p => (a p).symm

theorem heap_agree_update {α : Type} (f : flow_record → α) (h : Heap) (p : Nat)
    (r r2 : flow_record) (hp : h p = some r) (hf : f r2 = f r) :
    heap_agree f (Function.update h p (some r2)) h := by
  intro q
  by_cases hq : q = p
  · subst hq; simp [hp, hf]
  · simp [Function.update_apply, hq]

theorem heap_agree_of_factor {α β : Type} {f : flow_record → α} (g : flow_record → β)
    (k : α → β) (hk : ∀ r, g r = k (f r)) {h1 h2 : Heap} (a : heap_agree f h1 h2) :
    heap_agree g h1 h2 := by
  intro p
  have h := congrArg (Option.map k) (a p)
  simp only [Option.map_map] at h
  have e : k ∘ f = g := funext (fun r => (hk r).symm)
  rw [e] at h
  exact h

theorem heap_agree_live {α : Type} {f : flow_record → α} {h1 h2 : Heap}
    (a : heap_agree f h1 h2) (p : Nat) (r : flow_record) (hp : h2 p = some r) :
    ∃ r2, h1 p = some r2 ∧ f r2 = f r := by
  have h := a p
  rw [hp] at h
  cases h1p : h1 p with
  | none => rw [h1p] at h; simp at h
  | some r2 => rw [h1p] at h; exact ⟨r2, rfl, by simpa using h⟩

theorem heap_agree_dead {α : Type} {f : flow_record → α} {h1 h2 : Heap}
    (a : heap_agree f h1 h2) (p : Nat) (hp : h2 p = none) : h1 p = none := by
  have h := a p
  rw [hp] at h
  cases h1p : h1 p with
  | none => rfl
  | some r2 => rw [h1p] at h; simp at h

theorem agree_links_key {h1 h2 : Heap} (a : heap_agree strip_links h1 h2) :
    heap_agree (fun r => r.key) h1 h2 :=
  heap_agree_of_factor _ (fun r => r.key) (fun _ => rfl) a

theorem agree_links_twin {h1 h2 : Heap} (a : heap_agree strip_links h1 h2) :
    heap_agree (fun r => r.twin) h1 h2 :=
  heap_agree_of_factor _ (fun r => r.twin) (fun _ => rfl) a

theorem agree_links_chrono {h1 h2 : Heap} (a : heap_agree strip_links h1 h2) :
    heap_agree (fun r => (r.time_prev, r.time_next)) h1 h2 :=
  heap_agree_of_factor _ (fun r => (r.time_prev, r.time_next)) (fun _ => rfl) a

theorem agree_time_key {h1 h2 : Heap} (a : heap_agree strip_time h1 h2) :
    heap_agree (fun r => r.key) h1 h2 :=
  heap_agree_of_factor _ (fun r => r.key) (fun _ => rfl) a

theorem agree_time_twin {h1 h2 : Heap} (a : heap_agree strip_time h1 h2) :
    heap_agree (fun r => r.twin) h1 h2 :=
  heap_agree_of_factor _ (fun r => r.twin) (fun _ => rfl) a

theorem agree_time_bucket {h1 h2 : Heap} (a : heap_agree strip_time h1 h2) :
    heap_agree (fun r => (r.prev, r.next)) h1 h2 :=
  heap_agree_of_factor _ (fun r => (r.prev, r.next)) (fun _ => rfl) a

theorem bucket_link_of_agree {h1 h2 : Heap}
    (a : heap_agree (fun r => (r.prev, r.next)) h1 h2) : bucket_link h1 = bucket_link h2 :=
  funext a

theorem chrono_link_of_agree {h1 h2 : Heap}
    (a : heap_agree (fun r => (r.time_prev, r.time_next)) h1 h2) :
    chrono_link h1 = chrono_link h2 :=
  funext a

theorem bucket_link_some {heap : Heap} {p : Nat} {x : Option Nat × Option Nat}
    (h : bucket_link heap p = some x) : ∃ r, heap p = some r ∧ r.prev = x.1 ∧ r.next = x.2 := by
  unfold bucket_link at h
  cases hp : heap p with
  | none => rw [hp] at h; simp at h
  | some r =>
    rw [hp] at h
    have : (r.prev, r.next) = x := by simpa using h
    exact ⟨r, rfl, by rw [← this], by rw [← this]⟩

theorem chrono_link_some {heap : Heap} {p : Nat} {x : Option Nat × Option Nat}
    (h : chrono_link heap p = some x) :
    ∃ r, heap p = some r ∧ r.time_prev = x.1 ∧ r.time_next = x.2 := by
  unfold chrono_link at h
  cases hp : heap p with
  | none => rw [hp] at h; simp at h
  | some r =>
    rw [hp] at h
    have : (r.time_prev, r.time_next) = x := by simpa using h
    exact ⟨r, rfl, by rw [← this], by rw [← this]⟩

theorem flow_record_list_remove_spec (heap : Heap) (head : Option Nat) (l1 : List Nat)
    (r : Nat) (l2 : List Nat) (hl : is_bucket_list heap head (l1 ++ r :: l2)) :
    ∃ heap2 head2, flow_record_list_remove heap head (some r) = .ok (heap2, head2, 0)
      ∧ is_bucket_list heap2 head2 (l1 ++ l2)
      ∧ heap_agree strip_links heap2 heap
      ∧ (∀ p, p ∉ l1 ++ r :: l2 → heap2 p = heap p) := by
  obtain ⟨hd, hnd⟩ := hl
  obtain ⟨x, hx⟩ := Dll_live _ _ _ hd r (by simp)
  obtain ⟨rr, hrr, hpv, hnx⟩ := bucket_link_some hx
  have hlk : bucket_link heap r = some (rr.prev, rr.next) := by
    rw [hx, hpv, hnx]
  obtain ⟨hprev, hd2⟩ := Dll_mid l1 none head r l2 _ _ hd hlk
  have hnd2 : (l1 ++ l2).Nodup := by
    have := hnd
    rw [List.nodup_append] at this ⊢
    refine ⟨this.1, (List.nodup_cons.mp this.2.1).2, ?_⟩
    intro a ha hb
    exact this.2.2 ha (List.mem_cons_of_mem _ hb)
  have hr1 : r ∉ l1 := by
    intro hm
    rw [List.nodup_append] at hnd
    exact hnd.2.2 hm (List.mem_cons_self _ _)
  have hr2 : r ∉ l2 := by
    rw [List.nodup_append] at hnd
    exact (List.nodup_cons.mp hnd.2.1).1
  -- the successor
  have hsucc : (rr.next = none ∧ l2 = []) ∨
      ∃ n l3 rn, rr.next = some n ∧ l2 = n :: l3 ∧ heap n = some rn ∧ rn.prev = some r := by
    cases l2 with
    | nil => exact Or.inl ⟨hd2, rfl⟩
    | cons n l3 =>
      obtain ⟨hh, nx, hn, _⟩ := hd2
      obtain ⟨rn, hrn, hp, _⟩ := bucket_link_some hn
      exact Or.inr ⟨n, l3, rn, hh, rfl, hrn, hp⟩
  -- the predecessor
  have hpred : (rr.prev = none ∧ l1 = [] ∧ head = some r) ∨
      ∃ q rq, rr.prev = some q ∧ q ∈ l1 ∧ heap q = some rq := by
    cases l1 with
    | nil => exact Or.inl ⟨hprev, rfl, hd.1⟩
    | cons y l =>
      obtain ⟨q, hq, hlast⟩ := last_or_mem none (y :: l) (by simp)
      obtain ⟨z, hz⟩ := Dll_live _ _ _ hd q (List.mem_append_left _ hq)
      obtain ⟨rq, hrq, _, _⟩ := bucket_link_some hz
      exact Or.inr ⟨q, rq, by rw [hprev, hlast], hq, hrq⟩
  unfold flow_record_list_remove
  simp only [hrr]
  rcases hpred with ⟨hp0, hl1, hhead⟩ | ⟨q, rq, hp0, hq1, hrq⟩
  · subst hhead
    rcases hsucc with ⟨hn0, hl2⟩ | ⟨n, l3, rn, hn0, hl2, hrn, hrnp⟩
    · subst hl1; subst hl2
      simp only [hp0, hn0, ne_eq, not_true_eq_false, if_false]
      exact ⟨heap, none, rfl, ⟨rfl, List.nodup_nil⟩, heap_agree_refl _ _, fun _ _ => rfl⟩
    · subst hl1; subst hl2
      simp only [hp0, hn0, ne_eq, not_true_eq_false, if_false, hrn]
      refine ⟨_, _, rfl, ⟨?_, hnd2⟩, heap_agree_update _ _ _ _ _ hrn rfl, ?_⟩
      swap
      · intro p hp
        have : p ≠ n := fun e => hp (by simp [e])
        simp [Function.update_apply, this]
      have := Dll_unlink (w := bucket_link (Function.update heap n (some { rn with prev := none })))
        r rr.prev rr.next (n :: l3) hlk ?_ ?_ ?_ [] none (some r) hd hnd (by simp)
      · simpa [hn0] using this
      · intro q hq; rw [hp0] at hq; simp at hq
      · intro m hm y hy
        rw [hn0] at hm
        have : n = m := Option.some.inj hm
        subst this
        obtain ⟨rn2, hrn2, _, h2⟩ := bucket_link_some hy
        rw [hrn] at hrn2
        have : rn = rn2 := Option.some.inj hrn2
        subst this
        simp [bucket_link, hp0, h2]
      · intro p _ hp2 _
        have : p ≠ n := by rw [hn0] at hp2; intro e; exact hp2 (by rw [e])
        simp [bucket_link, Function.update_apply, this]
  · have hqr : q ≠ r := fun e => hr1 (e ▸ hq1)
    have hl1ne : l1 ≠ [] := by intro e; rw [e] at hq1; simp at hq1
    rcases hsucc with ⟨hn0, hl2⟩ | ⟨n, l3, rn, hn0, hl2, hrn, hrnp⟩
    · subst hl2
      simp only [hp0, hn0, hrq]
      refine ⟨_, _, rfl, ⟨?_, hnd2⟩, heap_agree_update _ _ _ _ _ hrq rfl, ?_⟩
      swap
      · intro p hp
        have : p ≠ q := fun e => hp (by simp [e, hq1])
        simp [Function.update_apply, this]
      have := Dll_unlink (w := bucket_link (Function.update heap q (some { rq with next := none })))
        r rr.prev rr.next [] hlk ?_ ?_ ?_ l1 none head hd hnd (by simp)
      · simpa [hl1ne] using this
      · intro m hm y hy
        rw [hp0] at hm
        have : q = m := Option.some.inj hm
        subst this
        obtain ⟨rq2, hrq2, h1, _⟩ := bucket_link_some hy
        rw [hrq] at hrq2
        have : rq = rq2 := Option.some.inj hrq2
        subst this
        simp [bucket_link, hn0, h1]
      · intro m hm; rw [hn0] at hm; simp at hm
      · intro p hp1 _ _
        have : p ≠ q := by rw [hp0] at hp1; intro e; exact hp1 (by rw [e])
        simp [bucket_link, Function.update_apply, this]
    · subst hl2
      have hnq : n ≠ q := by
        intro e
        rw [List.nodup_append] at hnd
        exact hnd.2.2 hq1 (by simp [e])
      simp only [hp0, hn0, hrq, Function.update_apply, hnq, if_false, hrn]
      refine ⟨_, _, rfl, ⟨?_, hnd2⟩, ?_, ?_⟩
      rotate_left 2
      · intro p hp
        have h1 : p ≠ q := fun e => hp (by simp [e, hq1])
        have h2 : p ≠ n := fun e => hp (by simp [e])
        simp [Function.update_apply, h1, h2]
      · have := Dll_unlink (w := bucket_link (Function.update
            (Function.update heap q (some { rq with next := some n })) n
            (some { rn with prev := some q })))
          r rr.prev rr.next (n :: l3) hlk ?_ ?_ ?_ l1 none head hd hnd (by simp)
        · simpa [hl1ne] using this
        · intro m hm y hy
          rw [hp0] at hm
          have : q = m := Option.some.inj hm
          subst this
          obtain ⟨rq2, hrq2, h1, _⟩ := bucket_link_some hy
          rw [hrq] at hrq2
          have : rq = rq2 := Option.some.inj hrq2
          subst this
          simp [bucket_link, hn0, h1, Function.update_apply, hnq.symm]
        · intro m hm y hy
          rw [hn0] at hm
          have : n = m := Option.some.inj hm
          subst this
          obtain ⟨rn2, hrn2, _, h2⟩ := bucket_link_some hy
          rw [hrn] at hrn2
          have : rn = rn2 := Option.some.inj hrn2
          subst this
          simp [bucket_link, hp0, h2]
        · intro p hp1 hp2 _
          have h1 : p ≠ q := by rw [hp0] at hp1; intro e; exact hp1 (by rw [e])
          have h2 : p ≠ n := by rw [hn0] at hp2; intro e; exact hp2 (by rw [e])
          simp [bucket_link, Function.update_apply, h1, h2]
      · exact heap_agree_trans
          (heap_agree_update strip_links _ n rn _ (by simp [Function.update_apply, hnq, hrn]) rfl)
          (heap_agree_update strip_links _ q rq _ hrq rfl)

theorem flow_record_list_prepend_spec (heap : Heap) (head : Option Nat) (l : List Nat)
    (p : Nat) (rp : flow_record) (hl : is_bucket_list heap head l) (hp : heap p = some rp)
    (hnext : rp.next = none) (hprev : rp.prev = none) (hpl : p ∉ l) :
    ∃ heap2, flow_record_list_prepend heap head p = .ok (heap2, some p)
      ∧ is_bucket_list heap2 (some p) (p :: l)
      ∧ heap_agree strip_links heap2 heap
      ∧ (∀ q, q ∉ p :: l → heap2 q = heap q) := by
  obtain ⟨hd, hnd⟩ := hl
  have hnd2 : (p :: l).Nodup := List.nodup_cons.mpr ⟨hpl, hnd⟩
  unfold flow_record_list_prepend
  cases l with
  | nil =>
    have hh : head = none := hd
    subst hh
    refine ⟨heap, rfl, ⟨?_, hnd2⟩, heap_agree_refl _ _, fun _ _ => rfl⟩
    exact ⟨rfl, none, by simp [bucket_link, hp, hnext, hprev], rfl⟩
  | cons q l =>
    obtain ⟨hh, nx, hq, hd2⟩ := hd
    subst hh
    obtain ⟨rq, hrq, hqp, hqn⟩ := bucket_link_some hq
    have hpq : p ≠ q := fun e => hpl (by simp [e])
    simp only [hrq, Function.update_apply, hpq, if_false, hp]
    refine ⟨_, rfl, ⟨?_, hnd2⟩, ?_, ?_⟩
    rotate_left 2
    · intro m hm
      have h1 : m ≠ p := fun e => hm (by simp [e])
      have h2 : m ≠ q := fun e => hm (by simp [e])
      simp [Function.update_apply, h1, h2]
    · apply Dll_prepend (u := bucket_link heap) p (some q) (q :: l) ⟨rfl, nx, hq, hd2⟩ hnd hpl
      · simp [bucket_link, hprev]
      · intro m hm y hy
        have : q = m := Option.some.inj hm
        subst this
        obtain ⟨rq2, hrq2, _, h2⟩ := bucket_link_some hy
        rw [hrq] at hrq2
        have : rq = rq2 := Option.some.inj hrq2
        subst this
        simp [bucket_link, Function.update_apply, hpq.symm, h2]
      · intro m hm1 hm2
        have : m ≠ q := fun e => hm2 (by rw [e])
        simp [bucket_link, Function.update_apply, hm1, this]
    · exact heap_agree_trans
        (heap_agree_update strip_links _ p rp _ (by simp [Function.update_apply, hpq, hp]) rfl)
        (heap_agree_update strip_links _ q rq _ hrq rfl)

theorem flow_record_chrono_list_append_spec (s : flow_cache) (cl : List Nat) (p : Nat)
    (rp : flow_record) (hl : is_chrono_list s cl) (hp : s.heap p = some rp)
    (hnext : rp.time_next = none) (hprev : rp.time_prev = none) (hpl : p ∉ cl) :
    ∃ s2, flow_record_chrono_list_append s p = .ok s2
      ∧ is_chrono_list s2 (cl ++ [p])
      ∧ heap_agree strip_time s2.heap s.heap
      ∧ s2.flow_record_list_array = s.flow_record_list_array
      ∧ (∀ q, q ∉ cl ++ [p] → s2.heap q = s.heap q) := by
  obtain ⟨hd, hnd, hlast⟩ := hl
  have hnd2 : (cl ++ [p]).Nodup := by
    rw [List.nodup_append]
    refine ⟨hnd, List.nodup_singleton _, ?_⟩
    intro a ha hb
    have : a = p := by simpa using hb
    exact hpl (this ▸ ha)
  unfold flow_record_chrono_list_append
  cases cl with
  | nil =>
    have hh : s.flow_record_chrono_first = none := hd
    simp only [hh]
    refine ⟨_, rfl, ⟨?_, hnd2, rfl⟩, heap_agree_refl _ _, rfl, fun _ _ => rfl⟩
    exact ⟨rfl, none, by simp [chrono_link, hp, hnext, hprev], rfl⟩
  | cons y l =>
    have hh : s.flow_record_chrono_first = some y := hd.1
    obtain ⟨q, hq, hlq⟩ := last_or_mem none (y :: l) (by simp)
    rw [hlq] at hlast
    obtain ⟨z, hz⟩ := Dll_live _ _ _ hd q hq
    obtain ⟨rq, hrq, _, _⟩ := chrono_link_some hz
    have hpq : p ≠ q := fun e => hpl (e ▸ hq)
    simp only [hh, hlast, hrq, Function.update_apply, hpq, if_false, hp]
    refine ⟨_, rfl, ⟨?_, hnd2, ?_⟩, ?_, rfl, ?_⟩
    rotate_left 3
    · intro m hm
      have h1 : m ≠ p := fun e => hm (by simp [e])
      have h2 : m ≠ q := fun e => hm (e ▸ List.mem_append_left _ hq)
      simp [Function.update_apply, h1, h2]
    · rw [show s.flow_record_chrono_first = some y from hh] at hd
      apply Dll_append (u := chrono_link s.heap) p q _ _ _ (y :: l) none (some y) hd hnd hpl hlq
        (by simp)
      · simp [chrono_link, hnext]
      · intro x hx
        obtain ⟨rq2, hrq2, h1, _⟩ := chrono_link_some hx
        rw [hrq] at hrq2
        have : rq = rq2 := Option.some.inj hrq2
        subst this
        simp [chrono_link, Function.update_apply, hpq.symm, h1]
      · intro m hm1 hm2
        simp [chrono_link, Function.update_apply, hm1, hm2]
    · rw [last_or_append]; rfl
    · exact heap_agree_trans
        (heap_agree_update strip_time _ p rp _ (by simp [Function.update_apply, hpq, hp]) rfl)
        (heap_agree_update strip_time _ q rq _ hrq rfl)

theorem flow_record_chrono_list_remove_spec (s : flow_cache) (l1 : List Nat) (r : Nat)
    (l2 : List Nat) (hl : is_chrono_list s (l1 ++ r :: l2)) :
    ∃ s2, flow_record_chrono_list_remove s (some r) = .ok s2
      ∧ is_chrono_list s2 (l1 ++ l2)
      ∧ heap_agree strip_time s2.heap s.heap
      ∧ s2.flow_record_list_array = s.flow_record_list_array
      ∧ s2.stats = s.stats ∧ s2.records_in_file = s.records_in_file ∧ s2.output = s.output
      ∧ (∀ p, p ∉ l1 ++ r :: l2 → s2.heap p = s.heap p) := by
  obtain ⟨hd, hnd, hlast⟩ := hl
  obtain ⟨x, hx⟩ := Dll_live _ _ _ hd r (by simp)
  obtain ⟨rr, hrr, hpv, hnx⟩ := chrono_link_some hx
  have hlk : chrono_link s.heap r = some (rr.time_prev, rr.time_next) := by
    rw [hx, hpv, hnx]
  obtain ⟨hprev, hd2⟩ := Dll_mid l1 none _ r l2 _ _ hd hlk
  have hnd2 : (l1 ++ l2).Nodup := by
    have := hnd
    rw [List.nodup_append] at this ⊢
    refine ⟨this.1, (List.nodup_cons.mp this.2.1).2, ?_⟩
    intro a ha hb
    exact this.2.2 ha (List.mem_cons_of_mem _ hb)
  have hr1 : r ∉ l1 := by
    intro hm
    rw [List.nodup_append] at hnd
    exact hnd.2.2 hm (List.mem_cons_self _ _)
  have hr2 : r ∉ l2 := by
    rw [List.nodup_append] at hnd
    exact (List.nodup_cons.mp hnd.2.1).1
  have hsucc : (rr.time_next = none ∧ l2 = []) ∨
      ∃ n l3 rn, rr.time_next = some n ∧ l2 = n :: l3 ∧ s.heap n = some rn := by
    cases l2 with
    | nil => exact Or.inl ⟨hd2, rfl⟩
    | cons n l3 =>
      obtain ⟨hh, nx, hn, _⟩ := hd2
      obtain ⟨rn, hrn, _, _⟩ := chrono_link_some hn
      exact Or.inr ⟨n, l3, rn, hh, rfl, hrn⟩
  have hpred : (rr.time_prev = none ∧ l1 = []) ∨
      ∃ q rq, rr.time_prev = some q ∧ q ∈ l1 ∧ s.heap q = some rq := by
    cases l1 with
    | nil => exact Or.inl ⟨hprev, rfl⟩
    | cons y l =>
      obtain ⟨q, hq, hlast⟩ := last_or_mem none (y :: l) (by simp)
      obtain ⟨z, hz⟩ := Dll_live _ _ _ hd q (List.mem_append_left _ hq)
      obtain ⟨rq, hrq, _, _⟩ := chrono_link_some hz
      exact Or.inr ⟨q, rq, by rw [hprev, hlast], hq, hrq⟩
  -- the new first and last pointers
  have hfirst : (if some r = s.flow_record_chrono_first then rr.time_next
      else s.flow_record_chrono_first)
      = (if l1 = [] then rr.time_next else s.flow_record_chrono_first) := by
    cases l1 with
    | nil => rw [hd.1]; simp
    | cons y l =>
      rw [hd.1]
      have : r ≠ y := fun e => hr1 (by simp [e])
      simp [this]
  have hlast2 : (if some r = s.flow_record_chrono_last then rr.time_prev
      else s.flow_record_chrono_last) = last_or none (l1 ++ l2) := by
    rw [hlast, last_or_append, last_or_append]
    cases l2 with
    | nil => simp [last_or, hprev]
    | cons n l3 =>
      obtain ⟨q, hq, hlq⟩ := last_or_mem (some r) (n :: l3) (by simp)
      have hne : last_or (last_or none l1) (r :: n :: l3) = some q := hlq
      have hne2 : last_or (last_or none l1) (n :: l3) = some q := hlq
      rw [hne, hne2]
      have : r ≠ q := fun e => hr2 (e ▸ hq)
      simp [this]
  unfold flow_record_chrono_list_remove
  simp only [hrr, hfirst, hlast2]
  rcases hpred with ⟨hp0, hl1⟩ | ⟨q, rq, hp0, hq1, hrq⟩
  · subst hl1
    rcases hsucc with ⟨hn0, hl2⟩ | ⟨n, l3, rn, hn0, hl2, hrn⟩
    · subst hl2
      simp only [hp0, hn0]
      exact ⟨_, rfl, ⟨rfl, List.nodup_nil, rfl⟩, heap_agree_refl _ _, rfl, rfl, rfl, rfl,
        fun _ _ => rfl⟩
    · subst hl2
      simp only [hp0, hn0, hrn]
      refine ⟨_, rfl, ⟨?_, hnd2, rfl⟩, heap_agree_update _ _ _ _ _ hrn rfl, rfl, rfl, rfl, rfl, ?_⟩
      swap
      · intro p hp
        have : p ≠ n := fun e => hp (by simp [e])
        simp [Function.update_apply, this]
      have := Dll_unlink
        (w := chrono_link (Function.update s.heap n (some { rn with time_prev := none })))
        r rr.time_prev rr.time_next (n :: l3) hlk ?_ ?_ ?_ [] none _ hd hnd (by simp)
      · simpa [hn0] using this
      · intro q hq; rw [hp0] at hq; simp at hq
      · intro m hm y hy
        rw [hn0] at hm
        have : n = m := Option.some.inj hm
        subst this
        obtain ⟨rn2, hrn2, _, h2⟩ := chrono_link_some hy
        rw [hrn] at hrn2
        have : rn = rn2 := Option.some.inj hrn2
        subst this
        simp [chrono_link, hp0, h2]
      · intro p _ hp2 _
        have : p ≠ n := by rw [hn0] at hp2; intro e; exact hp2 (by rw [e])
        simp [chrono_link, Function.update_apply, this]
  · have hqr : q ≠ r := fun e => hr1 (e ▸ hq1)
    have hl1ne : l1 ≠ [] := by intro e; rw [e] at hq1; simp at hq1
    rcases hsucc with ⟨hn0, hl2⟩ | ⟨n, l3, rn, hn0, hl2, hrn⟩
    · subst hl2
      simp only [hp0, hn0, hrq]
      refine ⟨_, rfl, ⟨?_, hnd2, rfl⟩, heap_agree_update _ _ _ _ _ hrq rfl, rfl, rfl, rfl, rfl, ?_⟩
      swap
      · intro p hp
        have : p ≠ q := fun e => hp (by simp [e, hq1])
        simp [Function.update_apply, this]
      have := Dll_unlink
        (w := chrono_link (Function.update s.heap q (some { rq with time_next := none })))
        r rr.time_prev rr.time_next [] hlk ?_ ?_ ?_ l1 none _ hd hnd (by simp)
      · simpa [hl1ne] using this
      · intro m hm y hy
        rw [hp0] at hm
        have : q = m := Option.some.inj hm
        subst this
        obtain ⟨rq2, hrq2, h1, _⟩ := chrono_link_some hy
        rw [hrq] at hrq2
        have : rq = rq2 := Option.some.inj hrq2
        subst this
        simp [chrono_link, hn0, h1]
      · intro m hm; rw [hn0] at hm; simp at hm
      · intro p hp1 _ _
        have : p ≠ q := by rw [hp0] at hp1; intro e; exact hp1 (by rw [e])
        simp [chrono_link, Function.update_apply, this]
    · subst hl2
      have hnq : n ≠ q := by
        intro e
        rw [List.nodup_append] at hnd
        exact hnd.2.2 hq1 (by simp [e])
      simp only [hp0, hn0, hrq, Function.update_apply, hnq, if_false, hrn]
      refine ⟨_, rfl, ⟨?_, hnd2, rfl⟩, ?_, rfl, rfl, rfl, rfl, ?_⟩
      rotate_left 2
      · intro p hp
        have h1 : p ≠ q := fun e => hp (by simp [e, hq1])
        have h2 : p ≠ n := fun e => hp (by simp [e])
        simp [Function.update_apply, h1, h2]
      · have := Dll_unlink (w := chrono_link (Function.update
            (Function.update s.heap q (some { rq with time_next := some n })) n
            (some { rn with time_prev := some q })))
          r rr.time_prev rr.time_next (n :: l3) hlk ?_ ?_ ?_ l1 none _ hd hnd (by simp)
        · simpa [hl1ne] using this
        · intro m hm y hy
          rw [hp0] at hm
          have : q = m := Option.some.inj hm
          subst this
          obtain ⟨rq2, hrq2, h1, _⟩ := chrono_link_some hy
          rw [hrq] at hrq2
          have : rq = rq2 := Option.some.inj hrq2
          subst this
          simp [chrono_link, hn0, h1, Function.update_apply, hnq.symm]
        · intro m hm y hy
          rw [hn0] at hm
          have : n = m := Option.some.inj hm
          subst this
          obtain ⟨rn2, hrn2, _, h2⟩ := chrono_link_some hy
          rw [hrn] at hrn2
          have : rn = rn2 := Option.some.inj hrn2
          subst this
          simp [chrono_link, hp0, h2]
        · intro p hp1 hp2 _
          have h1 : p ≠ q := by rw [hp0] at hp1; intro e; exact hp1 (by rw [e])
          have h2 : p ≠ n := by rw [hn0] at hp2; intro e; exact hp2 (by rw [e])
          simp [chrono_link, Function.update_apply, h1, h2]
      · exact heap_agree_trans
          (heap_agree_update strip_time _ n rn _ (by simp [Function.update_apply, hnq, hrn]) rfl)
          (heap_agree_update strip_time _ q rq _ hrq rfl)

/-! ### Searching a bucket -/

theorem find_record_by_key_spec (heap : Heap) (key : flow_key) :
    ∀ (l : List Nat) (a head : Option Nat) (fuel : Nat),
      Dll (bucket_link heap) a head l → l.length ≤ fuel →
      flow_record_list_find_record_by_key fuel heap head key
        = .ok (list_find heap (flow_key_is_eq key) l) := by
  intro l
  induction l with
  | nil =>
    intro a head fuel hd _
    have : head = none := hd
    subst this
    unfold flow_record_list_find_record_by_key
    rfl
  | cons p l ih =>
    intro a head fuel hd hf
    obtain ⟨hh, nx, hp, hd2⟩ := hd
    subst hh
    obtain ⟨rp, hrp, _, hn⟩ := bucket_link_some hp
    cases fuel with
    | zero => simp at hf
    | succ fuel =>
      unfold flow_record_list_find_record_by_key
      simp only [hrp, list_find]
      split
      · rfl
      · rw [hn]
        exact ih _ _ fuel hd2 (by simpa using hf)

theorem find_twin_by_key_spec (config : configuration) (heap : Heap) (key : flow_key) :
    ∀ (l : List Nat) (a head : Option Nat) (fuel : Nat),
      Dll (bucket_link heap) a head l → l.length ≤ fuel →
      flow_record_list_find_twin_by_key config fuel heap head key
        = .ok (list_find heap (flow_key_is_twin config key) l) := by
  intro l
  induction l with
  | nil =>
    intro a head fuel hd _
    have : head = none := hd
    subst this
    unfold flow_record_list_find_twin_by_key
    rfl
  | cons p l ih =>
    intro a head fuel hd hf
    obtain ⟨hh, nx, hp, hd2⟩ := hd
    subst hh
    obtain ⟨rp, hrp, _, hn⟩ := bucket_link_some hp
    cases fuel with
    | zero => simp at hf
    | succ fuel =>
      unfold flow_record_list_find_twin_by_key
      simp only [hrp, list_find]
      split
      · rfl
      · rw [hn]
        exact ih _ _ fuel hd2 (by simpa using hf)

theorem find_record_by_key_mono (heap : Heap) (key : flow_key) :
    ∀ (fuel fuel2 : Nat) (head : Option Nat) (res : Option Nat), fuel ≤ fuel2 →
      flow_record_list_find_record_by_key fuel heap head key = .ok res →
      flow_record_list_find_record_by_key fuel2 heap head key = .ok res := by
  intro fuel
  induction fuel with
  | zero =>
    intro fuel2 head res _ h
    cases head with
    | none =>
      unfold flow_record_list_find_record_by_key at h ⊢
      exact h
    | some p =>
      unfold flow_record_list_find_record_by_key at h
      simp at h
  | succ fuel ih =>
    intro fuel2 head res hle h
    cases head with
    | none =>
      unfold flow_record_list_find_record_by_key at h ⊢
      exact h
    | some p =>
      cases fuel2 with
      | zero => simp at hle
      | succ fuel2 =>
        unfold flow_record_list_find_record_by_key at h ⊢
        cases hp : heap p with
        | none => rw [hp] at h; simp at h
        | some r =>
          rw [hp] at h
          simp only at h ⊢
          split
          · rename_i hc; rw [if_pos hc] at h; exact h
          · rename_i hc; rw [if_neg hc] at h
            exact ih fuel2 _ _ (by omega) h

theorem find_twin_by_key_mono (config : configuration) (heap : Heap) (key : flow_key) :
    ∀ (fuel fuel2 : Nat) (head : Option Nat) (res : Option Nat), fuel ≤ fuel2 →
      flow_record_list_find_twin_by_key config fuel heap head key = .ok res →
      flow_record_list_find_twin_by_key config fuel2 heap head key = .ok res := by
  intro fuel
  induction fuel with
  | zero =>
    intro fuel2 head res _ h
    cases head with
    | none =>
      unfold flow_record_list_find_twin_by_key at h ⊢
      exact h
    | some p =>
      unfold flow_record_list_find_twin_by_key at h
      simp at h
  | succ fuel ih =>
    intro fuel2 head res hle h
    cases head with
    | none =>
      unfold flow_record_list_find_twin_by_key at h ⊢
      exact h
    | some p =>
      cases fuel2 with
      | zero => simp at hle
      | succ fuel2 =>
        unfold flow_record_list_find_twin_by_key at h ⊢
        cases hp : heap p with
        | none => rw [hp] at h; simp at h
        | some r =>
          rw [hp] at h
          simp only at h ⊢
          split
          · rename_i hc; rw [if_pos hc] at h; exact h
          · rename_i hc; rw [if_neg hc] at h
            exact ih fuel2 _ _ (by omega) h

theorem list_find_some (heap : Heap) (test : flow_key → Nat) :
    ∀ (l : List Nat) (p : Nat), list_find heap test l = some p →
      p ∈ l ∧ ∃ r, heap p = some r ∧ test r.key = 0 := by
  intro l
  induction l with
  | nil => intro p h; simp [list_find] at h
  | cons q l ih =>
    intro p h
    unfold list_find at h
    cases hq : heap q with
    | none => rw [hq] at h; simp at h
    | some r =>
      rw [hq] at h
      simp only at h
      split at h
      · rename_i hc
        have : q = p := Option.some.inj h
        subst this
        exact ⟨List.mem_cons_self _ _, r, hq, hc⟩
      · obtain ⟨h1, h2⟩ := ih p h
        exact ⟨List.mem_cons_of_mem _ h1, h2⟩

theorem list_find_none (heap : Heap) (test : flow_key → Nat) :
    ∀ (l : List Nat), (∀ p ∈ l, ∃ r, heap p = some r) → list_find heap test l = none →
      ∀ p ∈ l, ∀ r, heap p = some r → test r.key ≠ 0 := by
  intro l
  induction l with
  | nil => intro _ _ p hp; simp at hp
  | cons q l ih =>
    intro hlive h p hp r hr
    unfold list_find at h
    obtain ⟨rq, hrq⟩ := hlive q (List.mem_cons_self _ _)
    rw [hrq] at h
    simp only at h
    split at h
    · simp at h
    · rename_i hc
      rcases List.mem_cons.mp hp with e | hm
      · subst e
        rw [hrq] at hr
        have : rq = r := Option.some.inj hr
        subst this
        exact hc
      · exact ih (fun z hz => hlive z (List.mem_cons_of_mem _ hz)) h p hm r hr

theorem list_find_exists (heap : Heap) (test : flow_key → Nat) :
    ∀ (l : List Nat), (∀ p ∈ l, ∃ r, heap p = some r) →
      ∀ p ∈ l, ∀ r, heap p = some r → test r.key = 0 →
      ∃ q, list_find heap test l = some q := by
  intro l hlive p hp r hr ht
  cases h : list_find heap test l with
  | some q => exact ⟨q, rfl⟩
  | none => exact absurd ht (list_find_none heap test l hlive h p hp r hr)


/-! ### The invariant under the operations -/

theorem erase_mid (r : Nat) : ∀ (l1 l2 : List Nat), r ∉ l1 → (l1 ++ r :: l2).erase r = l1 ++ l2 := by
  intro l1
  induction l1 with
  | nil => intro l2 _; simp
  | cons x l ih =>
    intro l2 h
    have hx : x ≠ r := fun e => h (by simp [e])
    have hl : r ∉ l := fun hm => h (List.mem_cons_of_mem _ hm)
    simp only [List.cons_append]
    rw [List.erase_cons_tail (by simpa using hx), ih l2 hl]

theorem buckets_disjoint {config : configuration} {s : flow_cache} {bl : Nat → List Nat}
    (hb : buckets_inv config s bl) {i j p : Nat} (hi : p ∈ bl i) (hj : p ∈ bl j) : i = j := by
  obtain ⟨r1, h1, e1⟩ := hb.2.1 i p hi
  obtain ⟨r2, h2, e2⟩ := hb.2.1 j p hj
  rw [h1] at h2
  have : r1 = r2 := Option.some.inj h2
  subst this
  rw [← e1, ← e2]

theorem twin_inv_congr {h1 h2 : Heap} {cl : List Nat}
    (a : heap_agree (fun r => r.twin) h1 h2) (ht : twin_inv h2 cl) : twin_inv h1 cl := by
  intro p hp r hr t htw
  obtain ⟨r2, hr2, e2⟩ := heap_agree_live (heap_agree_symm a) p r hr
  have e2 : r2.twin = r.twin := e2
  obtain ⟨h3, h4, rt, hrt, hrtt⟩ := ht p hp r2 hr2 t (by rw [e2]; exact htw)
  obtain ⟨rt1, hrt1, e3⟩ := heap_agree_live a t rt hrt
  have e3 : rt1.twin = rt.twin := e3
  exact ⟨h3, h4, rt1, hrt1, by rw [e3]; exact hrtt⟩

theorem off_chrono_inv_congr {h1 h2 : Heap} {cl : List Nat}
    (a : heap_agree (fun r => (r.time_prev, r.time_next)) h1 h2) (ht : off_chrono_inv h2 cl) :
    off_chrono_inv h1 cl := by
  intro p r hr hp
  obtain ⟨r2, hr2, e2⟩ := heap_agree_live (heap_agree_symm a) p r hr
  have e3 := Prod.mk.inj e2
  obtain ⟨h3, h4⟩ := ht p r2 hr2 hp
  exact ⟨by rw [← e3.1]; exact h3, by rw [← e3.2]; exact h4⟩

theorem flow_record_delete_spec (config : configuration) (s : flow_cache) (bl : Nat → List Nat)
    (r : Nat) (rr : flow_record) (hb : buckets_inv config s bl) (hr : s.heap r = some rr) :
    ∃ s2, flow_record_delete config s r = .ok s2
      ∧ buckets_inv config s2 (Function.update bl (flow_key_hash config rr.key)
          ((bl (flow_key_hash config rr.key)).erase r))
      ∧ heap_agree strip_links s2.heap (Function.update s.heap r none)
      ∧ s2.flow_record_chrono_first = s.flow_record_chrono_first
      ∧ s2.flow_record_chrono_last = s.flow_record_chrono_last
      ∧ s2.records_in_file = s.records_in_file ∧ s2.output = s.output
      ∧ s2.stats = flocap_stats_decr_records_in_table s.stats := by
  have hmem := hb.2.2 r rr hr
  obtain ⟨l1, l2, hl⟩ := List.append_of_mem hmem
  have hlist := hb.1 (flow_key_hash config rr.key)
  rw [hl] at hlist
  have hr1 : r ∉ l1 := by
    intro hm
    have := hlist.2
    rw [List.nodup_append] at this
    exact this.2.2 hm (List.mem_cons_self _ _)
  have hr2 : r ∉ l1 ++ l2 := by
    have := hlist.2
    rw [List.nodup_append] at this
    intro hm
    rcases List.mem_append.mp hm with h | h
    · exact hr1 h
    · exact (List.nodup_cons.mp this.2.1).1 h
  obtain ⟨heap2, head2, hrem, hlist2, hagree, hframe⟩ :=
    flow_record_list_remove_spec s.heap _ l1 r l2 hlist
  have herase : (bl (flow_key_hash config rr.key)).erase r = l1 ++ l2 := by
    rw [hl]; exact erase_mid r l1 l2 hr1
  rw [herase]
  unfold flow_record_delete
  simp only [hr, hrem, ne_eq, not_true_eq_false, if_false]
  have hag2 : heap_agree strip_links (Function.update heap2 r none)
      (Function.update s.heap r none) := by
    intro p
    by_cases hp : p = r
    · subst hp; simp
    · simp only [Function.update_apply, hp, if_false]
      exact hagree p
  refine ⟨_, rfl, ⟨?_, ?_, ?_⟩, hag2, rfl, rfl, rfl, rfl, rfl⟩
  · intro j
    by_cases hj : j = flow_key_hash config rr.key
    · subst hj
      simp only [Function.update_same]
      refine ⟨Dll_congr _ _ _ ?_ hlist2.1, hlist2.2⟩
      intro p hp
      have : p ≠ r := fun e => hr2 (e ▸ hp)
      simp [bucket_link, Function.update_apply, this]
    · simp only [Function.update_apply, hj, if_false]
      refine ⟨Dll_congr _ _ _ ?_ (hb.1 j).1, (hb.1 j).2⟩
      intro p hp
      have hpi : p ∉ bl (flow_key_hash config rr.key) :=
        fun hm => hj (buckets_disjoint hb hp hm)
      have hpr : p ≠ r := fun e => hpi (e ▸ hmem)
      rw [hl] at hpi
      simp [bucket_link, Function.update_apply, hpr, hframe p hpi]
  · intro j p hp
    have hpj : p ∈ bl j ∧ p ≠ r := by
      by_cases hj : j = flow_key_hash config rr.key
      · subst hj
        simp only [Function.update_same] at hp
        refine ⟨?_, fun e => hr2 (e ▸ hp)⟩
        rw [hl]
        rcases List.mem_append.mp hp with h | h
        · exact List.mem_append_left _ h
        · exact List.mem_append_right _ (List.mem_cons_of_mem _ h)
      · simp only [Function.update_apply, hj, if_false] at hp
        exact ⟨hp, fun e => hj (buckets_disjoint hb hp (e ▸ hmem))⟩
    obtain ⟨r0, hr0, e0⟩ := hb.2.1 j p hpj.1
    obtain ⟨r2, hr2, e2⟩ := heap_agree_live (agree_links_key hagree) p r0 hr0
    have e2 : r2.key = r0.key := e2
    refine ⟨r2, ?_, by rw [e2]; exact e0⟩
    simp [Function.update_apply, hpj.2, hr2]
  · intro p r1 hp
    have hpr : p ≠ r := by
      intro e; subst e; simp at hp
    simp only [Function.update_apply, hpr, if_false] at hp
    obtain ⟨r0, hr0, e0⟩ := heap_agree_live (heap_agree_symm (agree_links_key hagree)) p r1 hp
    have e0 : r0.key = r1.key := e0
    have hm := hb.2.2 p r0 hr0
    rw [e0] at hm
    by_cases hj : flow_key_hash config r1.key = flow_key_hash config rr.key
    · rw [hj] at hm ⊢
      simp only [Function.update_same]
      rw [hl] at hm
      rcases List.mem_append.mp hm with h | h
      · exact List.mem_append_left _ h
      · rcases List.mem_cons.mp h with h | h
        · exact absurd h hpr
        · exact List.mem_append_right _ h
    · simp only [Function.update_apply, hj, if_false]
      exact hm

theorem map_eq_live {α : Type} {f : flow_record → α} {h1 h2 : Heap} {p : Nat}
    (a : (h1 p).map f = (h2 p).map f) {r : flow_record} (hp : h2 p = some r) :
    ∃ r2, h1 p = some r2 ∧ f r2 = f r := by
  rw [hp] at a
  cases h1p : h1 p with
  | none => rw [h1p] at a; simp at a
  | some r2 => rw [h1p] at a; exact ⟨r2, rfl, by simpa using a⟩

theorem map_eq_live_rev {α : Type} {f : flow_record → α} {h1 h2 : Heap} {p : Nat}
    (a : (h1 p).map f = (h2 p).map f) {r : flow_record} (hp : h1 p = some r) :
    ∃ r2, h2 p = some r2 ∧ f r2 = f r :=
  map_eq_live a.symm hp

theorem strip_links_twin {r1 r2 : flow_record} (h : strip_links r1 = strip_links r2) :
    r1.twin = r2.twin := congrArg (fun r => r.twin) h

theorem strip_links_key {r1 r2 : flow_record} (h : strip_links r1 = strip_links r2) :
    r1.key = r2.key := congrArg (fun r => r.key) h

theorem strip_links_time_prev {r1 r2 : flow_record} (h : strip_links r1 = strip_links r2) :
    r1.time_prev = r2.time_prev := congrArg (fun r => r.time_prev) h

theorem strip_links_time_next {r1 r2 : flow_record} (h : strip_links r1 = strip_links r2) :
    r1.time_next = r2.time_next := congrArg (fun r => r.time_next) h

theorem strip_time_twin {r1 r2 : flow_record} (h : strip_time r1 = strip_time r2) :
    r1.twin = r2.twin := congrArg (fun r => r.twin) h

theorem strip_time_key {r1 r2 : flow_record} (h : strip_time r1 = strip_time r2) :
    r1.key = r2.key := congrArg (fun r => r.key) h

theorem buckets_inv_congr {config : configuration} {s s2 : flow_cache} {bl : Nat → List Nat}
    (hl : heap_agree (fun r => (r.prev, r.next)) s2.heap s.heap)
    (hk : heap_agree (fun r => r.key) s2.heap s.heap)
    (ha : s2.flow_record_list_array = s.flow_record_list_array)
    (hb : buckets_inv config s bl) : buckets_inv config s2 bl := by
  have hlk : bucket_link s2.heap = bucket_link s.heap := bucket_link_of_agree hl
  refine ⟨?_, ?_, ?_⟩
  · intro i
    rw [ha]
    exact ⟨by rw [hlk]; exact (hb.1 i).1, (hb.1 i).2⟩
  · intro i p hp
    obtain ⟨r, hr, e⟩ := hb.2.1 i p hp
    obtain ⟨r2, hr2, e2⟩ := heap_agree_live hk p r hr
    have e2 : r2.key = r.key := e2
    exact ⟨r2, hr2, by rw [e2]; exact e⟩
  · intro p r2 hr2
    obtain ⟨r, hr, e⟩ := heap_agree_live (heap_agree_symm hk) p r2 hr2
    have e : r.key = r2.key := e
    rw [← e]
    exact hb.2.2 p r hr

theorem flow_record_print_json_spec (s : flow_cache) (r : Nat) (rr : flow_record)
    (hr : s.heap r = some rr)
    (htw : ∀ t, rr.twin = some t → ∃ rt, s.heap t = some rt ∧ rt.twin = some r) :
    ∃ e, flow_record_print_json s r
      = .ok { s with stats := flocap_stats_incr_records_output s.stats
                     records_in_file := s.records_in_file + 1
                     output := s.output ++ [e] } := by
  unfold flow_record_print_json
  simp only [hr]
  cases htwin : rr.twin with
  | none => exact ⟨_, rfl⟩
  | some t =>
    obtain ⟨rt, hrt, hrtt⟩ := htw t htwin
    simp only [hrt]
    split
    · exact ⟨_, rfl⟩
    · simp only [hrtt, hr]
      exact ⟨_, rfl⟩

theorem print_and_delete_rest (config : configuration) (s s2 : flow_cache)
    (bl bl2 : Nat → List Nat) (l1 : List Nat) (r : Nat) (l2 : List Nat) (rr : flow_record)
    (hinv : cache_inv config s bl (l1 ++ r :: l2)) (hr : s.heap r = some rr)
    (hb2 : buckets_inv config s2 bl2)
    (hfirst : s2.flow_record_chrono_first = s.flow_record_chrono_first)
    (hlast : s2.flow_record_chrono_last = s.flow_record_chrono_last)
    (hdead : ∀ p, rr.twin = some p → s2.heap p = none)
    (hsame : ∀ p, rr.twin ≠ some p →
      (s2.heap p).map strip_links = (s.heap p).map strip_links) :
    ∃ s3 s4 bl4, flow_record_chrono_list_remove s2 (some r) = .ok s3
      ∧ flow_record_delete config s3 r = .ok s4
      ∧ cache_inv config s4 bl4 (l1 ++ l2)
      ∧ (∀ i, (bl4 i).length ≤ (bl2 i).length)
      ∧ s3.stats = s2.stats ∧ s3.records_in_file = s2.records_in_file ∧ s3.output = s2.output
      ∧ s4.stats = flocap_stats_decr_records_in_table s3.stats
      ∧ s4.records_in_file = s3.records_in_file ∧ s4.output = s3.output
      ∧ (∀ p, s2.heap p = none → s4.heap p = none)
      ∧ (∀ i, bl4 i = (bl2 i).erase r) ∧ s4.heap r = none
      ∧ (∀ p, p ≠ r → (s4.heap p).map strip_ptrs = (s2.heap p).map strip_ptrs) := by
  obtain ⟨hb, hc, hoff, htwin⟩ := hinv
  have hrcl : r ∈ l1 ++ r :: l2 := by simp
  have hrt := htwin r hrcl rr hr
  have hnotw : ∀ p ∈ l1 ++ r :: l2, rr.twin ≠ some p := by
    intro p hp e
    exact (hrt p e).2.1 hp
  -- the chronological list in s2
  have hc2 : is_chrono_list s2 (l1 ++ r :: l2) := by
    refine ⟨?_, hc.2.1, by rw [hlast]; exact hc.2.2⟩
    rw [hfirst]
    apply Dll_congr _ _ _ _ hc.1
    intro p hp
    have h := hsame p (hnotw p hp)
    unfold chrono_link
    have h2 := congrArg (Option.map (fun r : flow_record => (r.time_prev, r.time_next))) h
    simpa [Option.map_map, Function.comp_def, strip_links] using h2
  obtain ⟨s3, h3, hc3, hag3, harr3, hst3, hrif3, hout3, hframe3⟩ :=
    flow_record_chrono_list_remove_spec s2 l1 r l2 hc2
  have hb3 : buckets_inv config s3 bl2 :=
    buckets_inv_congr (agree_time_bucket hag3) (agree_time_key hag3) harr3 hb2
  obtain ⟨rr2, hrr2, e2⟩ := map_eq_live (hsame r (hnotw r hrcl)) hr
  obtain ⟨rr3, hrr3, e3⟩ := heap_agree_live hag3 r rr2 hrr2
  obtain ⟨s4, h4, hb4, hag4, hf4, hl4, hrif4, hout4, hst4⟩ :=
    flow_record_delete_spec config s3 bl2 r rr3 hb3 hrr3
  have hr12 : r ∉ l1 ++ l2 := by
    have := hc.2.1
    rw [List.nodup_append] at this
    intro hm
    rcases List.mem_append.mp hm with h | h
    · exact this.2.2 h (List.mem_cons_self _ _)
    · exact (List.nodup_cons.mp this.2.1).1 h
  have hsub : ∀ p, p ∈ l1 ++ l2 → p ∈ l1 ++ r :: l2 := by
    intro p hp
    rcases List.mem_append.mp hp with h | h
    · exact List.mem_append_left _ h
    · exact List.mem_append_right _ (List.mem_cons_of_mem _ h)
  have h43 : ∀ p, p ≠ r → (s4.heap p).map strip_links = (s3.heap p).map strip_links := by
    intro p hp
    have := hag4 p
    simpa [Function.update_apply, hp] using this
  have h4r : s4.heap r = none := by
    have := hag4 r
    simp only [Function.update_same, Option.map_none'] at this
    cases h : s4.heap r with
    | none => rfl
    | some x => rw [h] at this; simp at this
  refine ⟨s3, s4, _, h3, h4, ⟨hb4, ?_, ?_, ?_⟩, ?_, hst3, hrif3, hout3, hst4, hrif4, hout4, ?_,
    ?_, h4r, ?_⟩
  rotate_left 4
  · intro p hp
    by_cases hpr : p = r
    · rw [hpr]; exact h4r
    · have h3p : s3.heap p = none := heap_agree_dead hag3 p hp
      have h := h43 p hpr
      rw [h3p] at h
      cases hs : s4.heap p with
      | none => rfl
      | some y => rw [hs] at h; simp at h
  · intro i
    by_cases hi : i = flow_key_hash config rr3.key
    · subst hi
      rw [Function.update_same]
    · rw [Function.update_noteq hi]
      have hri : r ∉ bl2 i := fun hm => hi (buckets_disjoint hb3 hm (hb3.2.2 r rr3 hrr3))
      exact (List.erase_of_not_mem hri).symm
  · intro p hp
    have a := congrArg (Option.map strip_time) (h43 p hp)
    have b := congrArg (Option.map strip_links) (hag3 p)
    simp only [Option.map_map] at a b
    have e1 : strip_time ∘ strip_links = strip_ptrs := rfl
    have e2 : strip_links ∘ strip_time = strip_ptrs := rfl
    rw [e1] at a
    rw [e2] at b
    rw [a, b]
  · -- the chronological list
    refine ⟨?_, hc3.2.1, by rw [hl4]; exact hc3.2.2⟩
    rw [hf4]
    apply Dll_congr _ _ _ _ hc3.1
    intro p hp
    have hpr : p ≠ r := fun e => hr12 (e ▸ hp)
    have h := h43 p hpr
    unfold chrono_link
    have h2 := congrArg (Option.map (fun r : flow_record => (r.time_prev, r.time_next))) h
    simpa [Option.map_map, Function.comp_def, strip_links] using h2
  · -- records off the chronological list
    intro p r4 hp4 hpl
    have hpr : p ≠ r := by intro e; rw [e, h4r] at hp4; simp at hp4
    obtain ⟨r3, hp3, e43⟩ := map_eq_live_rev (h43 p hpr) hp4
    have hpcl : p ∉ l1 ++ r :: l2 := by
      intro hm
      rcases List.mem_append.mp hm with h | h
      · exact hpl (List.mem_append_left _ h)
      · rcases List.mem_cons.mp h with h | h
        · exact hpr h
        · exact hpl (List.mem_append_right _ h)
    have hp2 : s2.heap p = some r3 := by rw [← hframe3 p hpcl]; exact hp3
    have hnt : rr.twin ≠ some p := by
      intro e; rw [hdead p e] at hp2; simp at hp2
    obtain ⟨r0, hp0, e20⟩ := map_eq_live_rev (hsame p hnt) hp2
    obtain ⟨h1, h2⟩ := hoff p r0 hp0 hpcl
    refine ⟨?_, ?_⟩
    · rw [← strip_links_time_prev e43, ← strip_links_time_prev e20]; exact h1
    · rw [← strip_links_time_next e43, ← strip_links_time_next e20]; exact h2
  · -- twins
    intro p hp r4 hp4 t ht
    have hpr : p ≠ r := fun e => hr12 (e ▸ hp)
    have hpcl := hsub p hp
    obtain ⟨r3, hp3, e43⟩ := map_eq_live_rev (h43 p hpr) hp4
    obtain ⟨r2, hp2, e32⟩ := heap_agree_live (heap_agree_symm hag3) p r3 hp3
    obtain ⟨r0, hp0, e20⟩ := map_eq_live_rev (hsame p (hnotw p hpcl)) hp2
    have ht0 : r0.twin = some t := by
      rw [strip_links_twin e20, strip_time_twin e32, strip_links_twin e43]; exact ht
    obtain ⟨htp, htcl, rt0, hrt0, hrtt0⟩ := htwin p hpcl r0 hp0 t ht0
    have htr : t ≠ r := fun e => htcl (e ▸ hrcl)
    have hnt : rr.twin ≠ some t := by
      intro e
      obtain ⟨_, _, rt, hrt1, hrt2⟩ := hrt t e
      rw [hrt0] at hrt1
      have : rt0 = rt := Option.some.inj hrt1
      subst this
      rw [hrtt0] at hrt2
      exact hpr (Option.some.inj hrt2)
    obtain ⟨rt2, hrt2, et2⟩ := map_eq_live (hsame t hnt) hrt0
    obtain ⟨rt3, hrt3, et3⟩ := heap_agree_live hag3 t rt2 hrt2
    obtain ⟨rt4, hrt4, et4⟩ := map_eq_live (h43 t htr) hrt3
    refine ⟨htp, fun hm => htcl (hsub t hm), rt4, hrt4, ?_⟩
    rw [strip_links_twin et4, strip_time_twin et3, strip_links_twin et2]; exact hrtt0
  · intro i
    by_cases hi : i = flow_key_hash config rr3.key
    · subst hi
      simp only [Function.update_same]
      exact List.length_erase_le _ _
    · simp [Function.update_apply, hi]

theorem flow_record_print_and_delete_spec (config : configuration) (s : flow_cache)
    (bl : Nat → List Nat) (cl : List Nat) (r : Nat) (hinv : cache_inv config s bl cl)
    (hr : r ∈ cl) :
    ∃ s4 bl4, flow_record_print_and_delete config s r = .ok s4
      ∧ cache_inv config s4 bl4 (cl.erase r)
      ∧ (∀ i, (bl4 i).length ≤ (bl i).length)
      ∧ (∀ p, s.heap p = none → s4.heap p = none)
      ∧ (∀ rr, s.heap r = some rr →
          (∀ i, bl4 i = (erase_twin (bl i) rr.twin).erase r)
          ∧ s4.heap r = none ∧ (∀ t, rr.twin = some t → s4.heap t = none)
          ∧ (∀ p, p ≠ r → rr.twin ≠ some p →
              (s4.heap p).map strip_ptrs = (s.heap p).map strip_ptrs)
          ∧ (∃ e, flow_record_print_json s r
                = .ok { s with stats := flocap_stats_incr_records_output s.stats
                               records_in_file := s.records_in_file + 1
                               output := s.output ++ [e] }
              ∧ s4.output = s.output ++ [e] ∧ s4.records_in_file = s.records_in_file + 1
              ∧ s4.stats = flocap_stats_decr_records_in_table
                  (decr_twin rr.twin (flocap_stats_incr_records_output s.stats)))) := by
  obtain ⟨l1, l2, hl⟩ := List.append_of_mem hr
  subst hl
  have hr1 : r ∉ l1 := by
    intro hm
    have := hinv.2.1.2.1
    rw [List.nodup_append] at this
    exact this.2.2 hm (List.mem_cons_self _ _)
  rw [erase_mid r l1 l2 hr1]
  obtain ⟨x, hx⟩ := Dll_live _ _ _ hinv.2.1.1 r hr
  obtain ⟨rr, hrr, _, _⟩ := chrono_link_some hx
  have hrt := hinv.2.2.2 r hr rr hrr
  obtain ⟨e, hpj⟩ := flow_record_print_json_spec s r rr hrr (fun t ht => (hrt t ht).2.2)
  unfold flow_record_print_and_delete
  simp only [hpj, hrr]
  have hinv1 : cache_inv config
      { s with stats := flocap_stats_incr_records_output s.stats
               records_in_file := s.records_in_file + 1
               output := s.output ++ [e] } bl (l1 ++ r :: l2) := hinv
  cases htwin : rr.twin with
  | none =>
    obtain ⟨s3, s4, bl4, h3, h4, hinv4, hlen, hst3, hrif3, hout3, hst4, hrif4, hout4, hdd,
        her, h4r, hfr⟩ :=
      print_and_delete_rest config _ _ bl bl l1 r l2 rr hinv1 hrr hinv1.1 rfl rfl
        (fun p hp => by rw [htwin] at hp; simp at hp) (fun p _ => rfl)
    simp only [h3, h4]
    refine ⟨s4, bl4, rfl, hinv4, hlen, hdd, ?_⟩
    intro rr2 hrr2
    have e2 : rr2 = rr := (Option.some.inj hrr2).symm
    subst e2
    refine ⟨?_, h4r, fun t ht => by rw [htwin] at ht; simp at ht, fun p hp _ => hfr p hp,
      e, rfl, ?_, ?_, ?_⟩
    · intro i
      rw [htwin]
      exact her i
    · rw [hout4, hout3]
    · rw [hrif4, hrif3]
    · rw [hst4, hst3, htwin]
      rfl
  | some t =>
    obtain ⟨htr, htcl, rt, hrt1, hrt2⟩ := hrt t htwin
    obtain ⟨s2, hdel, hb2, hag2, hf2, hl2, hrif2, hout2, hst2⟩ :=
      flow_record_delete_spec config _ bl t rt hinv1.1 hrt1
    have h2t : s2.heap t = none := by
      have h := hag2 t
      simp only [Function.update_same, Option.map_none'] at h
      cases hs : s2.heap t with
      | none => rfl
      | some y => rw [hs] at h; simp at h
    have h2p : ∀ p, p ≠ t → (s2.heap p).map strip_links = (s.heap p).map strip_links := by
      intro p hpt
      have h := hag2 p
      simpa [Function.update_apply, hpt] using h
    obtain ⟨s3, s4, bl4, h3, h4, hinv4, hlen, hst3, hrif3, hout3, hst4, hrif4, hout4, hdd,
        her, h4r, hfr⟩ :=
      print_and_delete_rest config _ s2 bl _ l1 r l2 rr hinv1 hrr hb2 hf2 hl2
        (fun p hp => by
          rw [htwin] at hp
          have : t = p := Option.some.inj hp
          subst this
          exact h2t)
        (fun p hp => by
          rw [htwin] at hp
          have hpt : p ≠ t := fun e => hp (by rw [e])
          exact h2p p hpt)
    simp only [hdel, h3, h4]
    refine ⟨s4, bl4, rfl, hinv4, ?_, ?_, ?_⟩
    · intro i
      refine le_trans (hlen i) ?_
      by_cases hi : i = flow_key_hash config rt.key
      · subst hi
        simp only [Function.update_same]
        exact List.length_erase_le _ _
      · simp [Function.update_apply, hi]
    · intro p hp
      apply hdd
      apply heap_agree_dead hag2
      by_cases hpt : p = t
      · rw [hpt]; simp
      · simpa [Function.update_apply, hpt] using hp
    · intro rr2 hrr2
      have e2 : rr2 = rr := (Option.some.inj hrr2).symm
      subst e2
      refine ⟨?_, h4r, ?_, ?_, e, rfl, ?_, ?_, ?_⟩
      · intro i
        rw [her i, htwin]
        congr 1
        by_cases hi : i = flow_key_hash config rt.key
        · subst hi
          rw [Function.update_same]
          rfl
        · rw [Function.update_noteq hi]
          have hti : t ∉ bl i :=
            fun hm => hi (buckets_disjoint hinv.1 hm (hinv.1.2.2 t rt hrt1))
          exact (List.erase_of_not_mem hti).symm
      · intro t2 ht2
        rw [htwin] at ht2
        have : t = t2 := Option.some.inj ht2
        subst this
        exact hdd t h2t
      · intro p hp hpt
        rw [htwin] at hpt
        have hpt2 : p ≠ t := fun e => hpt (by rw [e])
        rw [hfr p hp]
        have a := congrArg (Option.map strip_time) (h2p p hpt2)
        simp only [Option.map_map] at a
        have e1 : strip_time ∘ strip_links = strip_ptrs := rfl
        rw [e1] at a
        exact a
      · rw [hout4, hout3, hout2]
      · rw [hrif4, hrif3, hrif2]
      · rw [hst4, hst3, hst2, htwin]
        rfl

theorem is_chrono_list_congr {s s2 : flow_cache} {cl : List Nat}
    (ha : heap_agree (fun r => (r.time_prev, r.time_next)) s2.heap s.heap)
    (hf : s2.flow_record_chrono_first = s.flow_record_chrono_first)
    (hl : s2.flow_record_chrono_last = s.flow_record_chrono_last)
    (hc : is_chrono_list s cl) : is_chrono_list s2 cl := by
  refine ⟨?_, hc.2.1, by rw [hl]; exact hc.2.2⟩
  rw [hf, chrono_link_of_agree ha]
  exact hc.1

theorem cache_inv_congr {config : configuration} {s s2 : flow_cache} {bl : Nat → List Nat}
    {cl : List Nat} (ha : heap_agree strip_exp s2.heap s.heap)
    (harr : s2.flow_record_list_array = s.flow_record_list_array)
    (hf : s2.flow_record_chrono_first = s.flow_record_chrono_first)
    (hl : s2.flow_record_chrono_last = s.flow_record_chrono_last)
    (hinv : cache_inv config s bl cl) : cache_inv config s2 bl cl := by
  have h1 : heap_agree (fun r => (r.prev, r.next)) s2.heap s.heap :=
    heap_agree_of_factor _ (fun r => (r.prev, r.next)) (fun _ => rfl) ha
  have h2 : heap_agree (fun r => r.key) s2.heap s.heap :=
    heap_agree_of_factor _ (fun r => r.key) (fun _ => rfl) ha
  have h3 : heap_agree (fun r => (r.time_prev, r.time_next)) s2.heap s.heap :=
    heap_agree_of_factor _ (fun r => (r.time_prev, r.time_next)) (fun _ => rfl) ha
  have h4 : heap_agree (fun r => r.twin) s2.heap s.heap :=
    heap_agree_of_factor _ (fun r => r.twin) (fun _ => rfl) ha
  exact ⟨buckets_inv_congr h1 h2 harr hinv.1, is_chrono_list_congr h3 hf hl hinv.2.1,
    off_chrono_inv_congr h3 hinv.2.2.1, twin_inv_congr h4 hinv.2.2.2⟩

theorem flow_record_is_inactive_spec (heap : Heap) (r : Nat) (rr : flow_record)
    (c : timeval) (hr : heap r = some rr)
    (htw : ∀ t, rr.twin = some t → ∃ rt, heap t = some rt) :
    ∃ heap2 e, flow_record_is_inactive heap r c = .ok (heap2, e)
      ∧ heap_agree strip_exp heap2 heap := by
  unfold flow_record_is_inactive
  simp only [hr]
  split
  · cases htwin : rr.twin with
    | none => exact ⟨_, _, rfl, heap_agree_update _ _ _ _ _ hr (by simp [strip_exp, htwin])⟩
    | some t =>
      obtain ⟨rt, hrt⟩ := htw t htwin
      simp only [hrt]
      split
      · exact ⟨_, _, rfl, heap_agree_update _ _ _ _ _ hr (by simp [strip_exp, htwin])⟩
      · exact ⟨_, _, rfl, heap_agree_refl _ _⟩
  · exact ⟨_, _, rfl, heap_agree_refl _ _⟩

theorem flow_record_is_expired_spec (heap : Heap) (r : Nat) (rr : flow_record)
    (c : timeval) (hr : heap r = some rr)
    (htw : ∀ t, rr.twin = some t → ∃ rt, heap t = some rt) :
    ∃ heap2 e, flow_record_is_expired heap r c = .ok (heap2, e)
      ∧ heap_agree strip_exp heap2 heap := by
  unfold flow_record_is_expired
  simp only [hr]
  split
  · cases htwin : rr.twin with
    | none => exact ⟨_, _, rfl, heap_agree_update _ _ _ _ _ hr (by simp [strip_exp, htwin])⟩
    | some t =>
      obtain ⟨rt, hrt⟩ := htw t htwin
      simp only [hrt]
      split
      · exact ⟨_, _, rfl, heap_agree_update _ _ _ _ _ hr (by simp [strip_exp, htwin])⟩
      · exact flow_record_is_inactive_spec heap r rr c hr htw
  · exact flow_record_is_inactive_spec heap r rr c hr htw

theorem flow_record_list_print_json_spec (config : configuration)
    (inactive_cutoff : Option timeval) :
    ∀ (fuel : Nat) (s : flow_cache) (bl : Nat → List Nat) (cl : List Nat),
      cache_inv config s bl cl → cl.length ≤ fuel →
      ∃ s2 bl2 cl2, flow_record_list_print_json config fuel s inactive_cutoff = .ok s2
        ∧ cache_inv config s2 bl2 cl2 ∧ (∀ i, (bl2 i).length ≤ (bl i).length)
        ∧ cl2.Sublist cl ∧ (∀ p, s.heap p = none → s2.heap p = none) := by
  intro fuel
  induction fuel with
  | zero =>
    intro s bl cl hinv hlen
    have hcl : cl = [] := List.eq_nil_of_length_eq_zero (Nat.le_zero.mp hlen)
    subst hcl
    have hf : s.flow_record_chrono_first = none := hinv.2.1.1
    unfold flow_record_list_print_json
    simp only [hf]
    exact ⟨s, bl, [], rfl, hinv, fun _ => le_refl _, List.Sublist.refl _, fun _ h => h⟩
  | succ fuel ih =>
    intro s bl cl hinv hlen
    cases cl with
    | nil =>
      have hf : s.flow_record_chrono_first = none := hinv.2.1.1
      unfold flow_record_list_print_json
      simp only [hf]
      exact ⟨s, bl, [], rfl, hinv, fun _ => le_refl _, List.Sublist.refl _, fun _ h => h⟩
    | cons r l =>
      have hf : s.flow_record_chrono_first = some r := hinv.2.1.1.1
      have hrcl : r ∈ r :: l := List.mem_cons_self _ _
      obtain ⟨x, hx⟩ := Dll_live _ _ _ hinv.2.1.1 r hrcl
      obtain ⟨rr, hrr, _, _⟩ := chrono_link_some hx
      have hrt := hinv.2.2.2 r hrcl rr hrr
      have hlen2 : l.length ≤ fuel := by simpa using hlen
      have herase : (r :: l).erase r = l := by simp
      unfold flow_record_list_print_json
      simp only [hf]
      cases inactive_cutoff with
      | none =>
        obtain ⟨s4, bl4, hpd, hinv4, hlen4, hdd4, _⟩ :=
          flow_record_print_and_delete_spec config s bl (r :: l) r hinv hrcl
        rw [herase] at hinv4
        simp only [hpd]
        obtain ⟨s5, bl5, cl5, h5, hinv5, hlen5, hsub5, hdd5⟩ := ih s4 bl4 l hinv4 hlen2
        exact ⟨s5, bl5, cl5, h5, hinv5, fun i => le_trans (hlen5 i) (hlen4 i),
          List.Sublist.trans hsub5 (List.sublist_cons_self _ _), fun p hp => hdd5 p (hdd4 p hp)⟩
      | some c =>
        obtain ⟨heap2, e, hexp, hag⟩ := flow_record_is_expired_spec s.heap r rr c hrr
          (fun t ht => by obtain ⟨_, _, rt, hrt1, _⟩ := hrt t ht; exact ⟨rt, hrt1⟩)
        have hinv2 : cache_inv config
            { s with heap := heap2, flow_record_chrono_first := some r } bl (r :: l) :=
          cache_inv_congr (s := s) hag rfl hf.symm rfl hinv
        simp only [hexp]
        by_cases he : e = 0
        · simp only [he, if_true]
          exact ⟨_, bl, r :: l, rfl, hinv2, fun _ => le_refl _, List.Sublist.refl _,
            fun p hp => heap_agree_dead hag p hp⟩
        · simp only [he, if_false]
          obtain ⟨s4, bl4, hpd, hinv4, hlen4, hdd4, _⟩ :=
            flow_record_print_and_delete_spec config _ bl (r :: l) r hinv2 hrcl
          rw [herase] at hinv4
          simp only [hpd]
          obtain ⟨s5, bl5, cl5, h5, hinv5, hlen5, hsub5, hdd5⟩ := ih s4 bl4 l hinv4 hlen2
          exact ⟨s5, bl5, cl5, h5, hinv5, fun i => le_trans (hlen5 i) (hlen4 i),
            List.Sublist.trans hsub5 (List.sublist_cons_self _ _),
            fun p hp => hdd5 p (hdd4 p (heap_agree_dead hag p hp))⟩

theorem flow_key_get_twin_spec (config : configuration) (s : flow_cache)
    (bl : Nat → List Nat) (key : flow_key) (fuel : Nat) (hb : buckets_inv config s bl)
    (h1 : (bl (flow_key_hash config key)).length ≤ fuel)
    (h2 : (bl (flow_key_hash config (flow_key_swap key))).length ≤ fuel) :
    flow_key_get_twin config fuel s key
      = .ok (if config.flow_key_match_method = twins_match.exact then
               list_find s.heap (flow_key_is_eq (flow_key_swap key))
                 (bl (flow_key_hash config (flow_key_swap key)))
             else
               list_find s.heap (flow_key_is_twin config key)
                 (bl (flow_key_hash config key))) := by
  unfold flow_key_get_twin
  split
  · exact find_record_by_key_spec s.heap (flow_key_swap key) _ none _ fuel
      (hb.1 (flow_key_hash config (flow_key_swap key))).1 h2
  · exact find_twin_by_key_spec config s.heap key _ none _ fuel
      (hb.1 (flow_key_hash config key)).1 h1

theorem flow_key_get_twin_live (config : configuration) (s : flow_cache)
    (bl : Nat → List Nat) (key : flow_key) (fuel : Nat) (hb : buckets_inv config s bl)
    (h1 : (bl (flow_key_hash config key)).length ≤ fuel)
    (h2 : (bl (flow_key_hash config (flow_key_swap key))).length ≤ fuel) :
    ∃ tw, flow_key_get_twin config fuel s key = .ok tw
      ∧ ∀ t, tw = some t → ∃ rt, s.heap t = some rt := by
  refine ⟨_, flow_key_get_twin_spec config s bl key fuel hb h1 h2, ?_⟩
  intro t ht
  split at ht
  · obtain ⟨_, rt, hrt, _⟩ := list_find_some _ _ _ t ht
    exact ⟨rt, hrt⟩
  · obtain ⟨_, rt, hrt, _⟩ := list_find_some _ _ _ t ht
    exact ⟨rt, hrt⟩

theorem mem_chrono_live {s : flow_cache} {cl : List Nat} (hc : is_chrono_list s cl)
    {p : Nat} (hp : p ∈ cl) : ∃ r, s.heap p = some r := by
  obtain ⟨x, hx⟩ := Dll_live _ _ _ hc.1 p hp
  obtain ⟨r, hr, _, _⟩ := chrono_link_some hx
  exact ⟨r, hr⟩

theorem create_prepend_buckets (config : configuration) (s : flow_cache)
    (bl : Nat → List Nat) (key : flow_key) (a : Nat) (hb : buckets_inv config s bl)
    (ha : s.heap a = none) :
    ∃ heap2, flow_record_list_prepend (flow_record_init s a key).heap
        ((flow_record_init s a key).flow_record_list_array (flow_key_hash config key)) a
        = .ok (heap2, some a)
      ∧ buckets_inv config
          { flow_record_init s a key with
            heap := heap2
            flow_record_list_array :=
              Function.update (flow_record_init s a key).flow_record_list_array
                (flow_key_hash config key) (some a) }
          (Function.update bl (flow_key_hash config key) (a :: bl (flow_key_hash config key)))
      ∧ heap_agree strip_links heap2
          (Function.update s.heap a (some (flow_record_initial key))) := by
  have habl : ∀ j, a ∉ bl j := by
    intro j hm
    obtain ⟨r, hr, _⟩ := hb.2.1 j a hm
    rw [ha] at hr; simp at hr
  have hlist1 : is_bucket_list (Function.update s.heap a (some (flow_record_initial key)))
      (s.flow_record_list_array (flow_key_hash config key)) (bl (flow_key_hash config key)) := by
    refine ⟨Dll_congr _ _ _ ?_ (hb.1 _).1, (hb.1 _).2⟩
    intro p hp
    have : p ≠ a := fun e => habl _ (e ▸ hp)
    simp [bucket_link, Function.update_apply, this]
  obtain ⟨heap2, hpre, hlist2, hag, hframe⟩ :=
    flow_record_list_prepend_spec _ _ _ a (flow_record_initial key) hlist1
      (by simp) rfl rfl (habl _)
  have h21 : ∀ p, p ≠ a → (heap2 p).map strip_links = (s.heap p).map strip_links := by
    intro p hp
    have := hag p
    simpa [Function.update_apply, hp] using this
  obtain ⟨ra, hra, era⟩ := heap_agree_live hag a (flow_record_initial key) (by simp)
  refine ⟨heap2, hpre, ⟨?_, ?_, ?_⟩, hag⟩
  · intro j
    by_cases hj : j = flow_key_hash config key
    · subst hj
      simp only [flow_record_init, Function.update_same]
      exact hlist2
    · simp only [flow_record_init, Function.update_apply, hj, if_false]
      refine ⟨Dll_congr _ _ _ ?_ (hb.1 j).1, (hb.1 j).2⟩
      intro p hp
      have hpa : p ≠ a := fun e => habl _ (e ▸ hp)
      have hpi : p ∉ a :: bl (flow_key_hash config key) := by
        intro hm
        rcases List.mem_cons.mp hm with h | h
        · exact hpa h
        · exact hj (buckets_disjoint hb hp h)
      simp [bucket_link, hframe p hpi, Function.update_apply, hpa]
  · intro j p hp
    by_cases hpa : p = a
    · subst hpa
      have hj : j = flow_key_hash config key := by
        by_contra hne
        simp only [Function.update_apply, hne, if_false] at hp
        exact habl _ hp
      refine ⟨ra, hra, ?_⟩
      rw [strip_links_key era, hj]; rfl
    · have hpj : p ∈ bl j := by
        by_cases hj : j = flow_key_hash config key
        · subst hj
          simp only [Function.update_same] at hp
          rcases List.mem_cons.mp hp with h | h
          · exact absurd h hpa
          · exact h
        · simpa [Function.update_apply, hj] using hp
      obtain ⟨r0, hr0, e0⟩ := hb.2.1 j p hpj
      obtain ⟨r2, hr2, e2⟩ := map_eq_live (h21 p hpa) hr0
      exact ⟨r2, hr2, by rw [strip_links_key e2]; exact e0⟩
  · intro p r2 hr2
    have hq2 : heap2 p = some r2 := hr2
    clear hr2
    by_cases hpa : p = a
    · subst hpa
      rw [hra] at hq2
      have : ra = r2 := Option.some.inj hq2
      subst this
      rw [strip_links_key era]
      simp [flow_record_initial]
    · obtain ⟨r0, hr0, e0⟩ := map_eq_live_rev (h21 p hpa) hq2
      have hm := hb.2.2 p r0 hr0
      rw [strip_links_key e0] at hm
      by_cases hj : flow_key_hash config r2.key = flow_key_hash config key
      · rw [hj] at hm ⊢
        simp only [Function.update_same]
        exact List.mem_cons_of_mem _ hm
      · simpa [Function.update_apply, hj] using hm

theorem create_prepend_spec (config : configuration) (s : flow_cache) (bl : Nat → List Nat)
    (cl : List Nat) (key : flow_key) (a : Nat) (hinv : cache_inv config s bl cl)
    (ha : s.heap a = none) :
    ∃ heap2, flow_record_list_prepend (flow_record_init s a key).heap
        ((flow_record_init s a key).flow_record_list_array (flow_key_hash config key)) a
        = .ok (heap2, some a)
      ∧ cache_inv config
          { flow_record_init s a key with
            heap := heap2
            flow_record_list_array :=
              Function.update (flow_record_init s a key).flow_record_list_array
                (flow_key_hash config key) (some a) }
          (Function.update bl (flow_key_hash config key) (a :: bl (flow_key_hash config key))) cl
      ∧ (∃ ra, heap2 a = some ra ∧ strip_links ra = strip_links (flow_record_initial key))
      ∧ a ∉ cl := by
  obtain ⟨hb, hc, hoff, htwin⟩ := hinv
  have hacl : a ∉ cl := by
    intro hm
    obtain ⟨r, hr⟩ := mem_chrono_live hc hm
    rw [ha] at hr; simp at hr
  obtain ⟨heap2, hpre, hb2, hag⟩ := create_prepend_buckets config s bl key a hb ha
  have h21 : ∀ p, p ≠ a → (heap2 p).map strip_links = (s.heap p).map strip_links := by
    intro p hp
    have := hag p
    simpa [Function.update_apply, hp] using this
  obtain ⟨ra, hra, era⟩ := heap_agree_live hag a (flow_record_initial key) (by simp)
  refine ⟨heap2, hpre, ⟨hb2, ?_, ?_, ?_⟩, ⟨ra, hra, era⟩, hacl⟩
  · refine ⟨Dll_congr _ _ _ ?_ hc.1, hc.2.1, hc.2.2⟩
    intro p hp
    have hpa : p ≠ a := fun e => hacl (e ▸ hp)
    have h := h21 p hpa
    unfold chrono_link
    have h2 := congrArg (Option.map (fun r : flow_record => (r.time_prev, r.time_next))) h
    simpa [Option.map_map, Function.comp_def, strip_links] using h2
  · intro p r2 hr2 hpl
    have hq2 : heap2 p = some r2 := hr2
    clear hr2
    by_cases hpa : p = a
    · subst hpa
      rw [hra] at hq2
      have : ra = r2 := Option.some.inj hq2
      subst this
      rw [strip_links_time_prev era, strip_links_time_next era]
      simp [flow_record_initial]
    · obtain ⟨r0, hr0, e0⟩ := map_eq_live_rev (h21 p hpa) hq2
      obtain ⟨h1, h2⟩ := hoff p r0 hr0 hpl
      rw [← strip_links_time_prev e0, ← strip_links_time_next e0]
      exact ⟨h1, h2⟩
  · intro p hp r2 hr2 t ht
    have hq2 : heap2 p = some r2 := hr2
    clear hr2
    have hpa : p ≠ a := fun e => hacl (e ▸ hp)
    obtain ⟨r0, hr0, e0⟩ := map_eq_live_rev (h21 p hpa) hq2
    obtain ⟨h1, h2, rt, hrt, hrtt⟩ := htwin p hp r0 hr0 t (by rw [strip_links_twin e0]; exact ht)
    have hta : t ≠ a := by intro e; rw [e, ha] at hrt; simp at hrt
    obtain ⟨rt2, hrt2, et2⟩ := map_eq_live (h21 t hta) hrt
    exact ⟨h1, h2, rt2, hrt2, by rw [strip_links_twin et2]; exact hrtt⟩

theorem set_twin_spec (config : configuration) (s : flow_cache) (bl : Nat → List Nat)
    (cl : List Nat) (a : Nat) (ra : flow_record) (tw : Option Nat)
    (hinv : cache_inv config s bl cl) (ha : s.heap a = some ra) (hat : ra.twin = none)
    (hacl : a ∉ cl) :
    cache_inv config
      { s with heap := Function.update s.heap a (some { ra with twin := tw }) } bl cl := by
  obtain ⟨hb, hc, hoff, htwin⟩ := hinv
  refine ⟨buckets_inv_congr (s := s) (heap_agree_update _ _ _ _ _ ha rfl)
      (heap_agree_update _ _ _ _ _ ha rfl) rfl hb,
    is_chrono_list_congr (s := s) (heap_agree_update _ _ _ _ _ ha rfl) rfl rfl hc,
    off_chrono_inv_congr (heap_agree_update _ _ _ _ _ ha rfl) hoff, ?_⟩
  intro p hp r2 hr2 t ht
  have hpa : p ≠ a := fun e => hacl (e ▸ hp)
  have hr0 : s.heap p = some r2 := by simpa [Function.update_apply, hpa] using hr2
  obtain ⟨h1, h2, rt, hrt, hrtt⟩ := htwin p hp r2 hr0 t ht
  have hta : t ≠ a := by
    intro e
    rw [e, ha] at hrt
    have : ra = rt := Option.some.inj hrt
    rw [← this, hat] at hrtt
    simp at hrtt
  exact ⟨h1, h2, rt, by simpa [Function.update_apply, hta] using hrt, hrtt⟩

theorem pair_twin_spec (config : configuration) (s : flow_cache) (bl : Nat → List Nat)
    (cl : List Nat) (a t : Nat) (ra rt : flow_record)
    (hinv : cache_inv config s bl cl) (ha : s.heap a = some ra) (hat : ra.twin = some t)
    (hacl : a ∉ cl) (ht : s.heap t = some rt) (htt : rt.twin = none) :
    cache_inv config
      { s with heap := Function.update s.heap t (some { rt with twin := some a }) } bl cl := by
  obtain ⟨hb, hc, hoff, htwin⟩ := hinv
  have hne : a ≠ t := by
    intro e
    rw [e, ht] at ha
    have : rt = ra := Option.some.inj ha
    rw [this, hat] at htt
    simp at htt
  refine ⟨buckets_inv_congr (s := s) (heap_agree_update _ _ _ _ _ ht rfl)
      (heap_agree_update _ _ _ _ _ ht rfl) rfl hb,
    is_chrono_list_congr (s := s) (heap_agree_update _ _ _ _ _ ht rfl) rfl rfl hc,
    off_chrono_inv_congr (heap_agree_update _ _ _ _ _ ht rfl) hoff, ?_⟩
  intro p hp r2 hr2 t2 ht2
  by_cases hpt : p = t
  · subst hpt
    have hr2b : some ({ rt with twin := some a } : flow_record) = some r2 := by
      simpa using hr2
    have e : ({ rt with twin := some a } : flow_record) = r2 := Option.some.inj hr2b
    rw [← e] at ht2
    have e2 : a = t2 := by simpa using ht2
    subst e2
    exact ⟨hne, hacl, ra, by simpa [Function.update_apply, hne] using ha, hat⟩
  · have hr0 : s.heap p = some r2 := by simpa [Function.update_apply, hpt] using hr2
    obtain ⟨h1, h2, rt2, hrt2, hrtt2⟩ := htwin p hp r2 hr0 t2 ht2
    have ht2t : t2 ≠ t := by
      intro e
      rw [e, ht] at hrt2
      have : rt = rt2 := Option.some.inj hrt2
      rw [← this, htt] at hrtt2
      simp at hrtt2
    exact ⟨h1, h2, rt2, by simpa [Function.update_apply, ht2t] using hrt2, hrtt2⟩

theorem chrono_append_inv (config : configuration) (s : flow_cache) (bl : Nat → List Nat)
    (cl : List Nat) (a : Nat) (ra : flow_record)
    (hinv : cache_inv config s bl cl) (ha : s.heap a = some ra) (hat : ra.twin = none)
    (hacl : a ∉ cl) :
    ∃ s4, flow_record_chrono_list_append s a = .ok s4
      ∧ cache_inv config s4 bl (cl ++ [a]) := by
  obtain ⟨hb, hc, hoff, htwin⟩ := hinv
  obtain ⟨hp0, hn0⟩ := hoff a ra ha hacl
  obtain ⟨s4, happ, hc4, hag, harr, hframe⟩ :=
    flow_record_chrono_list_append_spec s cl a ra hc ha hn0 hp0 hacl
  refine ⟨s4, happ, buckets_inv_congr (agree_time_bucket hag) (agree_time_key hag) harr hb,
    hc4, ?_, ?_⟩
  · intro p r4 hr4 hpl
    rw [hframe p hpl] at hr4
    exact hoff p r4 hr4 (fun hm => hpl (List.mem_append_left _ hm))
  · intro p hp r4 hr4 t ht
    obtain ⟨r0, hr0, e0⟩ := heap_agree_live (heap_agree_symm hag) p r4 hr4
    have ht0 : r0.twin = some t := by rw [strip_time_twin e0]; exact ht
    rcases List.mem_append.mp hp with hm | hm
    · obtain ⟨h1, h2, rt, hrt, hrtt⟩ := htwin p hm r0 hr0 t ht0
      have hta : t ≠ a := by
        intro e
        rw [e, ha] at hrt
        have : ra = rt := Option.some.inj hrt
        rw [← this, hat] at hrtt
        simp at hrtt
      obtain ⟨rt4, hrt4, et4⟩ := heap_agree_live hag t rt hrt
      refine ⟨h1, ?_, rt4, hrt4, by rw [strip_time_twin et4]; exact hrtt⟩
      intro hm2
      rcases List.mem_append.mp hm2 with h | h
      · exact h2 h
      · exact hta (by simpa using h)
    · have hpa : p = a := by simpa using hm
      subst hpa
      rw [ha] at hr0
      have : ra = r0 := Option.some.inj hr0
      rw [← this, hat] at ht0
      simp at ht0

theorem flow_key_get_record_link_spec (config : configuration) (s3 : flow_cache)
    (bl : Nat → List Nat) (cl : List Nat) (a : Nat) (r3 : flow_record)
    (hinv3 : cache_inv config s3 bl cl) (ha3 : s3.heap a = some r3) (hacl : a ∉ cl)
    (hlive : ∀ t, r3.twin = some t → ∃ rt, s3.heap t = some rt) :
    ∃ res cl2, flow_key_get_record_link s3 a = .ok res
      ∧ cache_inv config res.1 bl cl2 ∧ res.2 = some a
      ∧ (cl2 = cl ∨ cl2 = cl ++ [a]) := by
  unfold flow_key_get_record_link
  simp only [ha3]
  cases htw : r3.twin with
  | none =>
    obtain ⟨s4, happ, hinv4⟩ := chrono_append_inv config s3 bl cl a r3 hinv3 ha3 htw hacl
    simp only [happ]
    exact ⟨_, _, rfl, hinv4, rfl, Or.inr rfl⟩
  | some t =>
    obtain ⟨rt, hrt⟩ := hlive t htw
    simp only [hrt]
    by_cases htt : rt.twin = none
    · simp only [htt, ne_eq, not_true_eq_false, if_false]
      exact ⟨_, cl, rfl, pair_twin_spec config s3 bl cl a t r3 rt hinv3 ha3 htw hacl hrt htt, rfl,
        Or.inl rfl⟩
    · simp only [ne_eq, htt, not_false_eq_true, if_true]
      exact ⟨_, cl, rfl, hinv3, rfl, Or.inl rfl⟩

theorem flow_key_get_record_pair_spec (config : configuration) (s2 : flow_cache)
    (bl : Nat → List Nat) (cl : List Nat) (key : flow_key) (fuel : Nat) (a : Nat)
    (ra : flow_record) (hinv : cache_inv config s2 bl cl) (ha : s2.heap a = some ra)
    (hat : ra.twin = none) (hacl : a ∉ cl)
    (h1 : (bl (flow_key_hash config key)).length ≤ fuel)
    (h2 : (bl (flow_key_hash config (flow_key_swap key))).length ≤ fuel) :
    ∃ res cl2, flow_key_get_record_pair config fuel s2 key a = .ok res
      ∧ cache_inv config res.1 bl cl2 ∧ res.2 = some a
      ∧ (cl2 = cl ∨ cl2 = cl ++ [a]) := by
  unfold flow_key_get_record_pair
  cases hbd : config.bidir with
  | false =>
    simp only [Bool.false_eq_true, if_false]
    exact flow_key_get_record_link_spec config s2 bl cl a ra hinv ha hacl
      (fun t ht => by rw [hat] at ht; simp at ht)
  | true =>
    obtain ⟨tw, htw, hlive⟩ := flow_key_get_twin_live config s2 bl key fuel hinv.1 h1 h2
    simp only [if_true, htw, ha]
    refine flow_key_get_record_link_spec config _ bl cl a { ra with twin := tw }
      (set_twin_spec config s2 bl cl a ra tw hinv ha hat hacl) (by simp) hacl ?_
    intro t ht
    have ht : tw = some t := ht
    obtain ⟨rt, hrt⟩ := hlive t ht
    by_cases hta : t = a
    · subst hta; simp
    · exact ⟨rt, by simpa [Function.update_apply, hta] using hrt⟩

theorem flow_key_get_record_create_spec (config : configuration) (s : flow_cache)
    (bl : Nat → List Nat) (cl : List Nat) (key : flow_key) (fuel : Nat)
    (create_new_records : Bool) (malloc : Option Nat)
    (hinv : cache_inv config s bl cl)
    (hm : ∀ a, malloc = some a → s.heap a = none)
    (h1 : (bl (flow_key_hash config key)).length + 1 ≤ fuel)
    (h2 : (bl (flow_key_hash config (flow_key_swap key))).length + 1 ≤ fuel) :
    ∃ res bl2 cl2, flow_key_get_record_create config fuel s key (flow_key_hash config key)
        create_new_records malloc = .ok res
      ∧ cache_inv config res.1 bl2 cl2 := by
  unfold flow_key_get_record_create
  cases create_new_records with
  | false => exact ⟨_, bl, cl, rfl, hinv⟩
  | true =>
    simp only [if_true]
    cases malloc with
    | none => exact ⟨_, bl, cl, rfl, hinv⟩
    | some a =>
      have ha := hm a rfl
      obtain ⟨heap2, hpre, hinv2, ⟨ra, hra, era⟩, hacl⟩ :=
        create_prepend_spec config s bl cl key a hinv ha
      simp only [ha, Option.isSome_none, Bool.false_eq_true, if_false, hpre]
      have hlen : ∀ j, (Function.update bl (flow_key_hash config key)
          (a :: bl (flow_key_hash config key)) j).length ≤ (bl j).length + 1 := by
        intro j
        by_cases hj : j = flow_key_hash config key
        · subst hj; simp
        · simp [Function.update_apply, hj]
      obtain ⟨res, cl2, hres, hinv3, _⟩ :=
        flow_key_get_record_pair_spec config _ _ cl key fuel a ra hinv2 hra
          (by rw [strip_links_twin era]; rfl) hacl
          (le_trans (hlen _) h1) (le_trans (hlen _) h2)
      exact ⟨res, _, cl2, hres, hinv3⟩

theorem flow_record_is_past_active_expiration_spec (heap : Heap) (r : Nat)
    (rr : flow_record) (hr : heap r = some rr)
    (htw : ∀ t, rr.twin = some t → ∃ rt, heap t = some rt) :
    ∃ v, flow_record_is_past_active_expiration heap r = .ok v := by
  unfold flow_record_is_past_active_expiration
  simp only [hr]
  split
  · cases htwin : rr.twin with
    | none => exact ⟨_, rfl⟩
    | some t =>
      obtain ⟨rt, hrt⟩ := htw t htwin
      simp only [hrt]
      split
      · exact ⟨_, rfl⟩
      · exact ⟨_, rfl⟩
  · exact ⟨_, rfl⟩

theorem flow_key_get_record_cases (config : configuration) (s : flow_cache)
    (bl : Nat → List Nat) (cl : List Nat) (key : flow_key) (fuel : Nat)
    (create_new_records : Bool) (malloc : Option Nat)
    (hinv : cache_inv config s bl cl)
    (h1 : (bl (flow_key_hash config key)).length ≤ fuel) :
    (∃ s1 bl1 cl1, cache_inv config s1 bl1 cl1 ∧ (∀ i, (bl1 i).length ≤ (bl i).length)
        ∧ (∀ p, s.heap p = none → s1.heap p = none)
        ∧ flow_key_get_record config fuel s key create_new_records malloc
          = flow_key_get_record_create config fuel s1 key (flow_key_hash config key)
              create_new_records malloc)
    ∨ (∃ r, flow_key_get_record config fuel s key create_new_records malloc
          = .ok (s, some r)) := by
  unfold flow_key_get_record
  have hfind := find_record_by_key_spec s.heap key _ none _ fuel
    (hinv.1.1 (flow_key_hash config key)).1 h1
  simp only [hfind]
  cases hlf : list_find s.heap (flow_key_is_eq key) (bl (flow_key_hash config key)) with
  | none =>
    exact Or.inl ⟨s, bl, cl, hinv, fun _ => le_refl _, fun _ h => h, rfl⟩
  | some r =>
    obtain ⟨hrb, rr, hrr, _⟩ := list_find_some _ _ _ r hlf
    cases create_new_records with
    | false => exact Or.inr ⟨r, rfl⟩
    | true =>
      simp only [if_true]
      unfold flow_record_is_in_chrono_list
      simp only [hrr]
      by_cases hin : rr.time_next ≠ none ∨ rr.time_prev ≠ none
      · simp only [hin, if_true, ne_eq, one_ne_zero, not_false_eq_true]
        have hrcl : r ∈ cl := by
          by_contra hn
          obtain ⟨h3, h4⟩ := hinv.2.2.1 r rr hrr hn
          rcases hin with h | h
          · exact h h4
          · exact h h3
        have hrt := hinv.2.2.2 r hrcl rr hrr
        obtain ⟨v, hv⟩ := flow_record_is_past_active_expiration_spec s.heap r rr hrr
          (fun t ht => by obtain ⟨_, _, rt, hrt1, _⟩ := hrt t ht; exact ⟨rt, hrt1⟩)
        simp only [hv]
        by_cases hv0 : v = 0
        · simp only [hv0, ne_eq, not_true_eq_false, if_false]
          exact Or.inr ⟨r, rfl⟩
        · simp only [ne_eq, hv0, not_false_eq_true, if_true]
          obtain ⟨s4, bl4, hpd, hinv4, hlen4, hdd, _⟩ :=
            flow_record_print_and_delete_spec config s bl cl r hinv hrcl
          simp only [hpd]
          exact Or.inl ⟨s4, bl4, _, hinv4, hlen4, hdd, rfl⟩
      · simp only [hin, if_false, ne_eq, not_true_eq_false]
        exact Or.inr ⟨r, rfl⟩

theorem flow_key_get_record_spec (config : configuration) (s : flow_cache)
    (bl : Nat → List Nat) (cl : List Nat) (key : flow_key) (fuel : Nat)
    (create_new_records : Bool) (malloc : Option Nat)
    (hinv : cache_inv config s bl cl)
    (hm : ∀ a, malloc = some a → s.heap a = none)
    (h1 : (bl (flow_key_hash config key)).length + 1 ≤ fuel)
    (h2 : (bl (flow_key_hash config (flow_key_swap key))).length + 1 ≤ fuel) :
    ∃ res bl2 cl2, flow_key_get_record config fuel s key create_new_records malloc = .ok res
      ∧ cache_inv config res.1 bl2 cl2 := by
  rcases flow_key_get_record_cases config s bl cl key fuel create_new_records malloc hinv
      (by omega) with ⟨s1, bl1, cl1, hinv1, hlen, hdd, he⟩ | ⟨r, he⟩
  · rw [he]
    exact flow_key_get_record_create_spec config s1 bl1 cl1 key fuel create_new_records
      malloc hinv1 (fun a ha => hdd a (hm a ha))
      (le_trans (Nat.succ_le_succ (hlen _)) h1) (le_trans (Nat.succ_le_succ (hlen _)) h2)
  · exact ⟨_, bl, cl, he, hinv⟩

theorem flow_key_get_record_create_preserve (config : configuration) (s : flow_cache)
    (bl : Nat → List Nat) (cl : List Nat) (key : flow_key) (fuel : Nat)
    (create_new_records : Bool) (malloc : Option Nat) (res : flow_cache × Option Nat)
    (hinv : cache_inv config s bl cl)
    (h1 : (bl (flow_key_hash config key)).length + 1 ≤ fuel)
    (h2 : (bl (flow_key_hash config (flow_key_swap key))).length + 1 ≤ fuel)
    (h : flow_key_get_record_create config fuel s key (flow_key_hash config key)
        create_new_records malloc = .ok res) :
    ∃ bl2 cl2, cache_inv config res.1 bl2 cl2 := by
  by_cases hm : ∀ a, malloc = some a → s.heap a = none
  · obtain ⟨res2, bl2, cl2, h3, hinv2⟩ :=
      flow_key_get_record_create_spec config s bl cl key fuel create_new_records malloc
        hinv hm h1 h2
    rw [h] at h3
    have : res = res2 := Except.ok.inj h3
    subst this
    exact ⟨bl2, cl2, hinv2⟩
  · push_neg at hm
    obtain ⟨a, hma, hlive⟩ := hm
    subst hma
    unfold flow_key_get_record_create at h
    cases create_new_records with
    | false =>
      have : (s, (none : Option Nat)) = res := by simpa using h
      subst this
      exact ⟨bl, cl, hinv⟩
    | true =>
      have hs : (s.heap a).isSome = true := by
        cases hh : s.heap a with
        | none => exact absurd hh hlive
        | some x => rfl
      simp [hs] at h

/-! ### More fuel gives the same result -/

theorem flow_key_get_twin_mono (config : configuration) (s : flow_cache) (key : flow_key)
    (fuel fuel2 : Nat) (res : Option Nat) (hle : fuel ≤ fuel2)
    (h : flow_key_get_twin config fuel s key = .ok res) :
    flow_key_get_twin config fuel2 s key = .ok res := by
  unfold flow_key_get_twin at h ⊢
  split
  · rename_i hc
    rw [if_pos hc] at h
    exact find_record_by_key_mono _ _ fuel fuel2 _ _ hle h
  · rename_i hc
    rw [if_neg hc] at h
    exact find_twin_by_key_mono _ _ _ fuel fuel2 _ _ hle h

theorem flow_key_get_record_pair_mono (config : configuration) (s : flow_cache)
    (key : flow_key) (record : Nat) (fuel fuel2 : Nat) (res : flow_cache × Option Nat)
    (hle : fuel ≤ fuel2) (h : flow_key_get_record_pair config fuel s key record = .ok res) :
    flow_key_get_record_pair config fuel2 s key record = .ok res := by
  unfold flow_key_get_record_pair at h ⊢
  cases hbd : config.bidir with
  | false =>
    rw [hbd] at h
    exact h
  | true =>
    rw [hbd] at h
    simp only [if_true] at h ⊢
    cases hgt : flow_key_get_twin config fuel s key with
    | error e => rw [hgt] at h; simp at h
    | ok tw =>
      rw [hgt] at h
      rw [flow_key_get_twin_mono config s key fuel fuel2 tw hle hgt]
      exact h

theorem flow_key_get_record_create_mono (config : configuration) (s : flow_cache)
    (key : flow_key) (hash_key : Nat) (create_new_records : Bool) (malloc : Option Nat)
    (fuel fuel2 : Nat) (res : flow_cache × Option Nat) (hle : fuel ≤ fuel2)
    (h : flow_key_get_record_create config fuel s key hash_key create_new_records malloc
      = .ok res) :
    flow_key_get_record_create config fuel2 s key hash_key create_new_records malloc
      = .ok res := by
  unfold flow_key_get_record_create at h ⊢
  cases create_new_records with
  | false => exact h
  | true =>
    simp only [if_true] at h ⊢
    cases malloc with
    | none => exact h
    | some a =>
      simp only at h ⊢
      split
      · rename_i hc; rw [if_pos hc] at h; exact h
      · rename_i hc
        rw [if_neg hc] at h
        cases hp : flow_record_list_prepend (flow_record_init s a key).heap
            ((flow_record_init s a key).flow_record_list_array hash_key) a with
        | error e => rw [hp] at h; simp at h
        | ok x =>
          rw [hp] at h
          exact flow_key_get_record_pair_mono config _ key a fuel fuel2 res hle h

theorem flow_key_get_record_mono (config : configuration) (s : flow_cache)
    (key : flow_key) (create_new_records : Bool) (malloc : Option Nat)
    (fuel fuel2 : Nat) (res : flow_cache × Option Nat) (hle : fuel ≤ fuel2)
    (h : flow_key_get_record config fuel s key create_new_records malloc = .ok res) :
    flow_key_get_record config fuel2 s key create_new_records malloc = .ok res := by
  unfold flow_key_get_record at h ⊢
  dsimp only at h ⊢
  cases hf : flow_record_list_find_record_by_key fuel s.heap
      (s.flow_record_list_array (flow_key_hash config key)) key with
  | error e => rw [hf] at h; simp at h
  | ok found =>
    rw [hf] at h
    rw [find_record_by_key_mono _ _ fuel fuel2 _ _ hle hf]
    cases found with
    | none =>
      exact flow_key_get_record_create_mono config s key _ _ _ fuel fuel2 res hle h
    | some r =>
      simp only at h ⊢
      cases create_new_records with
      | false => exact h
      | true =>
        simp only [if_true] at h ⊢
        cases hc : flow_record_is_in_chrono_list s.heap r with
        | error e => rw [hc] at h; simp at h
        | ok v =>
          rw [hc] at h
          simp only at h ⊢
          split
          · rename_i hv
            rw [if_pos hv] at h
            cases hpa : flow_record_is_past_active_expiration s.heap r with
            | error e => rw [hpa] at h; simp at h
            | ok w =>
              rw [hpa] at h
              simp only at h ⊢
              split
              · rename_i hw
                rw [if_pos hw] at h
                cases hpd : flow_record_print_and_delete config s r with
                | error e => rw [hpd] at h; simp at h
                | ok s1 =>
                  rw [hpd] at h
                  exact flow_key_get_record_create_mono config s1 key _ _ _ fuel fuel2 res hle h
              · rename_i hw
                rw [if_neg hw] at h
                exact h
          · rename_i hv
            rw [if_neg hv] at h
            exact h

theorem flow_record_list_print_json_mono (config : configuration)
    (inactive_cutoff : Option timeval) :
    ∀ (fuel fuel2 : Nat) (s res : flow_cache), fuel ≤ fuel2 →
      flow_record_list_print_json config fuel s inactive_cutoff = .ok res →
      flow_record_list_print_json config fuel2 s inactive_cutoff = .ok res := by
  intro fuel
  induction fuel with
  | zero =>
    intro fuel2 s res _ h
    unfold flow_record_list_print_json at h ⊢
    cases hf : s.flow_record_chrono_first with
    | none => rw [hf] at h; exact h
    | some r => rw [hf] at h; simp at h
  | succ fuel ih =>
    intro fuel2 s res hle h
    cases fuel2 with
    | zero => simp at hle
    | succ fuel2 =>
      have hle2 : fuel ≤ fuel2 := by omega
      unfold flow_record_list_print_json at h ⊢
      cases hf : s.flow_record_chrono_first with
      | none => rw [hf] at h; exact h
      | some r =>
        rw [hf] at h
        simp only at h ⊢
        cases inactive_cutoff with
        | none =>
          simp only at h ⊢
          cases hpd : flow_record_print_and_delete config s r with
          | error e => rw [hpd] at h; simp at h
          | ok s1 =>
            rw [hpd] at h
            exact ih fuel2 s1 res hle2 h
        | some c =>
          simp only at h ⊢
          cases he : flow_record_is_expired s.heap r c with
          | error e => rw [he] at h; simp at h
          | ok x =>
            rw [he] at h
            simp only at h ⊢
            split
            · rename_i hx; rw [if_pos hx] at h; exact h
            · rename_i hx
              rw [if_neg hx] at h
              cases hpd : flow_record_print_and_delete config
                  { s with heap := x.1, flow_record_chrono_first := some r } r with
              | error e => rw [hpd] at h; simp at h
              | ok s1 =>
                rw [hpd] at h
                exact ih fuel2 s1 res hle2 h

/-! ### The invariant holds in every reachable state -/

theorem cache_inv_init (config : configuration) :
    cache_inv config (flow_record_list_init flow_cache_start) (fun _ => []) [] := by
  refine ⟨⟨?_, ?_, ?_⟩, ⟨rfl, List.nodup_nil, rfl⟩, ?_, ?_⟩
  · intro i
    refine ⟨?_, List.nodup_nil⟩
    show (flow_record_list_init flow_cache_start).flow_record_list_array i = none
    simp [flow_record_list_init, flow_cache_start]
  · intro i p hp
    simp at hp
  · intro p r hr
    simp [flow_record_list_init, flow_cache_start] at hr
  · intro p r hr
    simp [flow_record_list_init, flow_cache_start] at hr
  · intro p hp
    simp at hp

theorem is_chrono_list_unique {s : flow_cache} {l l2 : List Nat}
    (h1 : is_chrono_list s l) (h2 : is_chrono_list s l2) : l = l2 :=
  Dll_unique l l2 _ _ _ h1.1 h2.1

theorem is_bucket_list_unique {heap : Heap} {head : Option Nat} {l l2 : List Nat}
    (h1 : is_bucket_list heap head l) (h2 : is_bucket_list heap head l2) : l = l2 :=
  Dll_unique l l2 _ _ _ h1.1 h2.1

theorem reachable_cache_inv (config : configuration) (s : flow_cache)
    (h : Reachable config s) : ∃ bl cl, cache_inv config s bl cl := by
  induction h with
  | init => exact ⟨_, _, cache_inv_init config⟩
  | get_record s fuel key create_new_records malloc res _ hres ih =>
    obtain ⟨bl, cl, hinv⟩ := ih
    have hres2 := flow_key_get_record_mono config s key create_new_records malloc fuel
      (fuel + (bl (flow_key_hash config key)).length
        + (bl (flow_key_hash config (flow_key_swap key))).length + 1) res (by omega) hres
    rcases flow_key_get_record_cases config s bl cl key
        (fuel + (bl (flow_key_hash config key)).length
          + (bl (flow_key_hash config (flow_key_swap key))).length + 1)
        create_new_records malloc hinv
        (by omega) with ⟨s1, bl1, cl1, hinv1, hlen, _, he⟩ | ⟨r, he⟩
    · rw [he] at hres2
      have ha := hlen (flow_key_hash config key)
      have hb := hlen (flow_key_hash config (flow_key_swap key))
      exact flow_key_get_record_create_preserve config s1 bl1 cl1 key _ create_new_records
        malloc res hinv1 (by omega) (by omega) hres2
    · rw [he] at hres2
      have : (s, some r) = res := Except.ok.inj hres2
      subst this
      exact ⟨bl, cl, hinv⟩
  | print_and_delete s record cl2 s1 _ hcl hmem hres ih =>
    obtain ⟨bl, cl, hinv⟩ := ih
    have : cl2 = cl := is_chrono_list_unique hcl hinv.2.1
    subst this
    obtain ⟨s4, bl4, hpd, hinv4, _⟩ :=
      flow_record_print_and_delete_spec config s bl cl2 record hinv hmem
    rw [hres] at hpd
    have : s1 = s4 := Except.ok.inj hpd
    subst this
    exact ⟨bl4, _, hinv4⟩
  | print_json s fuel inactive_cutoff s1 _ hres ih =>
    obtain ⟨bl, cl, hinv⟩ := ih
    have hres2 := flow_record_list_print_json_mono config inactive_cutoff fuel
      (fuel + cl.length) s s1 (by omega) hres
    obtain ⟨s2, bl2, cl2, h2, hinv2, _⟩ :=
      flow_record_list_print_json_spec config inactive_cutoff (fuel + cl.length) s bl cl hinv
        (by omega)
    rw [hres2] at h2
    have : s1 = s2 := Except.ok.inj h2
    subst this
    exact ⟨bl2, cl2, hinv2⟩

/-- In every reachable state each of the three operations returns: flow_key_get_record
for every key, flag and allocator answer (NULL or an address that is not allocated),
flow_record_print_and_delete for every record of the chronological list, and
flow_record_list_print_json for every cutoff, given enough fuel for their loops. -/
theorem reachable_returns (config : configuration) (s : flow_cache)
    (h : Reachable config s) :
    (∀ key create_new_records malloc, (∀ a, malloc = some a → s.heap a = none) →
      ∃ n, ∀ fuel, n ≤ fuel →
        ∃ res, flow_key_get_record config fuel s key create_new_records malloc = .ok res)
    ∧ (∀ cl record, is_chrono_list s cl → record ∈ cl →
        ∃ s1, flow_record_print_and_delete config s record = .ok s1)
    ∧ (∀ inactive_cutoff, ∃ n, ∀ fuel, n ≤ fuel →
        ∃ s1, flow_record_list_print_json config fuel s inactive_cutoff = .ok s1) := by
  obtain ⟨bl, cl, hinv⟩ := reachable_cache_inv config s h
  refine ⟨?_, ?_, ?_⟩
  · intro key create_new_records malloc hm
    refine ⟨(bl (flow_key_hash config key)).length
      + (bl (flow_key_hash config (flow_key_swap key))).length + 1, ?_⟩
    intro fuel hf
    obtain ⟨res, _, _, hres, _⟩ := flow_key_get_record_spec config s bl cl key fuel
      create_new_records malloc hinv hm (by omega) (by omega)
    exact ⟨res, hres⟩
  · intro cl2 record hcl hmem
    have : cl2 = cl := is_chrono_list_unique hcl hinv.2.1
    subst this
    obtain ⟨s4, _, hpd, _⟩ := flow_record_print_and_delete_spec config s bl cl2 record hinv hmem
    exact ⟨s4, hpd⟩
  · intro inactive_cutoff
    refine ⟨cl.length, ?_⟩
    intro fuel hf
    obtain ⟨s2, _, _, h2, _⟩ :=
      flow_record_list_print_json_spec config inactive_cutoff fuel s bl cl hinv hf
    exact ⟨s2, h2⟩

theorem cache_one_eq (config : configuration) :
    flow_key_get_record config 4 (flow_record_list_init flow_cache_start)
      key_forward true (some 1) = .ok (cache_one config, some 1) := by
  cases config with
  | mk m b => cases m <;> cases b <;> rfl

theorem cache_two_eq (config : configuration) :
    flow_key_get_record config 4 (cache_one config) (flow_key_swap key_forward)
      true (some 2) = .ok (cache_two config, some 2) := by
  cases config with
  | mk m b => cases m <;> cases b <;> rfl

theorem cache_one_reachable (config : configuration) : Reachable config (cache_one config) :=
  Reachable.get_record _ 4 key_forward true (some 1) (cache_one config, some 1)
    Reachable.init (cache_one_eq config)

theorem cache_two_reachable (config : configuration) : Reachable config (cache_two config) :=
  Reachable.get_record _ 4 (flow_key_swap key_forward) true (some 2) (cache_two config, some 2)
    (cache_one_reachable config) (cache_two_eq config)

/-! ### Twin lookup and plain lookup -/

/-- C5, as stated, fails: the two keys of scenario 6 have the same sorted port pair and
the same protocol, yet in near mode flow_key_is_twin returns 1 for them, and creating
lookups of the two keys leave both twin pointers NULL and both records on the
chronological list. -/
theorem near_twin_counterexample :
    (max key_nat_flow.sp key_nat_flow.dp = max key_nat_reverse.sp key_nat_reverse.dp
      ∧ min key_nat_flow.sp key_nat_flow.dp = min key_nat_reverse.sp key_nat_reverse.dp
      ∧ key_nat_flow.prot = key_nat_reverse.prot)
    ∧ flow_key_is_twin config_near_bidir key_nat_flow key_nat_reverse = 1
    ∧ pair_summary (cache_pair config_near_bidir key_nat_flow key_nat_reverse)
        = (some none, some none, some 1, some 2) := by
  refine ⟨by decide, by decide, by decide⟩

/-- C5, amended: in near mode flow_key_is_twin returns 0 exactly when the ports are
swapped, the protocols are equal and at least one address matches crosswise. The keys
1.1.1.1:5000 to 2.2.2.2:80 and 9.9.9.9:80 to 3.3.3.3:5000 share no address: they are
twins in neither mode and near mode does not pair them. With one address kept
(9.9.9.9:80 to 1.1.1.1:5000) the keys are twins in near mode, flow_key_get_record pairs
their records, and they are not twins in exact mode. -/
theorem flow_key_is_twin_near_iff (bidir : Bool) (a b : flow_key) :
    (flow_key_is_twin { flow_key_match_method := twins_match.near, bidir := bidir } a b = 0
      ↔ ((a.sa = b.da ∨ a.da = b.sa) ∧ a.sp = b.dp ∧ a.dp = b.sp ∧ a.prot = b.prot))
    ∧ flow_key_is_twin config_near_bidir key_nat_flow key_nat_reverse = 1
    ∧ flow_key_is_twin config_exact_bidir key_nat_flow key_nat_reverse = 1
    ∧ pair_summary (cache_pair config_near_bidir key_nat_flow key_nat_reverse)
        = (some none, some none, some 1, some 2)
    ∧ flow_key_is_twin config_near_bidir key_nat_flow key_nat_reverse_one = 0
    ∧ flow_key_is_twin config_exact_bidir key_nat_flow key_nat_reverse_one = 1
    ∧ pair_summary (cache_pair config_near_bidir key_nat_flow key_nat_reverse_one)
        = (some (some 2), some (some 1), some 1, some 1) := by
  refine ⟨?_, by decide, by decide, by decide, by decide, by decide, by decide⟩
  rw [flow_key_is_twin_near _ a b rfl]
  split <;> simp_all

theorem reachable_bucket_placement (config : configuration) (s : flow_cache)
    (h : Reachable config s) : bucket_placement config s := by
  obtain ⟨bl, cl, hinv⟩ := reachable_cache_inv config s h
  intro i _
  exact ⟨bl i, hinv.1.1 i, hinv.1.2.1 i⟩

theorem twin_key_eq_swap {config : configuration} {a b : flow_key}
    (hm : config.flow_key_match_method = twins_match.exact)
    (h : flow_key_is_twin config a b = 0) : b = flow_key_swap a := by
  rw [flow_key_is_twin_exact _ a b hm] at h
  split at h
  · rename_i hc
    obtain ⟨h1, h2, h3, h4, h5⟩ := hc
    cases b
    simp only [flow_key_swap] at *
    simp [h1, h2, h3, h4, h5]
  · simp at h

theorem twin_swap_self (config : configuration) (a : flow_key)
    (hm : config.flow_key_match_method = twins_match.exact) :
    flow_key_is_twin config a (flow_key_swap a) = 0 := by
  rw [flow_key_is_twin_exact _ _ _ hm]
  simp [flow_key_swap]

theorem twin_near_hash {config : configuration} {a b : flow_key}
    (hm : config.flow_key_match_method = twins_match.near)
    (h : flow_key_is_twin config a b = 0) : flow_key_hash config b = flow_key_hash config a := by
  rw [flow_key_is_twin_near _ a b hm] at h
  split at h
  · rename_i hc
    obtain ⟨_, h3, h4, h5⟩ := hc
    rw [flow_key_hash_near_eq _ a hm, flow_key_hash_near_eq _ b hm, h3, h4, h5,
      max_comm, min_comm]
  · simp at h

/-- C8: in a cache state with bucket placement (I1), flow_key_get_twin returns, given
enough fuel; what it returns is a record of the table whose key is a twin of the key
whenever the table holds such a record, and NULL otherwise. In exact mode it is the
search for the swapped key in the bucket of the swapped key, in near mode the search
with the twin predicate in the bucket of the key itself. -/
theorem flow_key_get_twin_sound_complete (config : configuration) (s : flow_cache)
    (key : flow_key) (hplace : bucket_placement config s) :
    (∃ n, ∀ fuel, n ≤ fuel → ∃ res, flow_key_get_twin config fuel s key = .ok res
      ∧ (∀ t, res = some t →
          in_table s t ∧ ∃ rt, s.heap t = some rt ∧ flow_key_is_twin config key rt.key = 0)
      ∧ ((∃ p r, in_table s p ∧ s.heap p = some r ∧ flow_key_is_twin config key r.key = 0)
          → ∃ t, res = some t))
    ∧ (config.flow_key_match_method = twins_match.exact → ∀ fuel,
        flow_key_get_twin config fuel s key
          = flow_record_list_find_record_by_key fuel s.heap
              (s.flow_record_list_array (flow_key_hash config (flow_key_swap key)))
              (flow_key_swap key))
    ∧ (config.flow_key_match_method = twins_match.near → ∀ fuel,
        flow_key_get_twin config fuel s key
          = flow_record_list_find_twin_by_key config fuel s.heap
              (s.flow_record_list_array (flow_key_hash config key)) key) := by
  refine ⟨?_, ?_, ?_⟩
  · obtain ⟨l1, hl1, hp1⟩ := hplace _ (flow_key_hash_lt config key)
    obtain ⟨l2, hl2, hp2⟩ := hplace _ (flow_key_hash_lt config (flow_key_swap key))
    refine ⟨l1.length + l2.length, ?_⟩
    intro fuel hf
    unfold flow_key_get_twin
    cases hm : config.flow_key_match_method with
    | exact =>
      simp only [if_true]
      have hfind := find_record_by_key_spec s.heap (flow_key_swap key) l2 none _ fuel hl2.1
        (by omega)
      refine ⟨_, hfind, ?_, ?_⟩
      · intro t ht
        obtain ⟨hmem, rt, hrt, heq⟩ := list_find_some _ _ _ t ht
        refine ⟨⟨_, flow_key_hash_lt config (flow_key_swap key), l2, hl2, hmem⟩, rt, hrt, ?_⟩
        rw [← (flow_key_is_eq_zero _ _).mp heq]
        exact twin_swap_self config key hm
      · rintro ⟨p, r, ⟨i, hi, l, hl, hmem⟩, hr, htw⟩
        obtain ⟨l3, hl3, hp3⟩ := hplace i hi
        have : l = l3 := is_bucket_list_unique hl hl3
        subst this
        obtain ⟨r2, hr2, hh⟩ := hp3 p hmem
        rw [hr] at hr2
        have : r = r2 := Option.some.inj hr2
        subst this
        have hk := twin_key_eq_swap hm htw
        rw [hk] at hh
        subst hh
        have : l = l2 := is_bucket_list_unique hl hl2
        subst this
        exact list_find_exists s.heap _ l (fun q hq => by
          obtain ⟨x, hx, _⟩ := hp2 q hq; exact ⟨x, hx⟩) p hmem r hr
          ((flow_key_is_eq_zero _ _).mpr hk.symm)
    | near =>
      simp only [reduceCtorEq, if_false]
      have hfind := find_twin_by_key_spec config s.heap key l1 none _ fuel hl1.1 (by omega)
      refine ⟨_, hfind, ?_, ?_⟩
      · intro t ht
        obtain ⟨hmem, rt, hrt, heq⟩ := list_find_some _ _ _ t ht
        exact ⟨⟨_, flow_key_hash_lt config key, l1, hl1, hmem⟩, rt, hrt, heq⟩
      · rintro ⟨p, r, ⟨i, hi, l, hl, hmem⟩, hr, htw⟩
        obtain ⟨l3, hl3, hp3⟩ := hplace i hi
        have : l = l3 := is_bucket_list_unique hl hl3
        subst this
        obtain ⟨r2, hr2, hh⟩ := hp3 p hmem
        rw [hr] at hr2
        have : r = r2 := Option.some.inj hr2
        subst this
        rw [twin_near_hash hm htw] at hh
        subst hh
        have : l = l1 := is_bucket_list_unique hl hl1
        subst this
        exact list_find_exists s.heap _ l (fun q hq => by
          obtain ⟨x, hx, _⟩ := hp1 q hq; exact ⟨x, hx⟩) p hmem r hr htw
  · intro hm fuel
    unfold flow_key_get_twin
    rw [if_pos hm]
    rfl
  · intro hm fuel
    unfold flow_key_get_twin
    have : ¬ config.flow_key_match_method = twins_match.exact := by rw [hm]; decide
    rw [if_neg this]

theorem flow_key_get_twin_sound_complete_witness :
    bucket_placement config_exact_bidir (cache_one config_exact_bidir)
    ∧ ((∃ n, ∀ fuel, n ≤ fuel → ∃ res,
        flow_key_get_twin config_exact_bidir fuel (cache_one config_exact_bidir)
          (flow_key_swap key_forward) = .ok res
        ∧ (∀ t, res = some t →
            in_table (cache_one config_exact_bidir) t
            ∧ ∃ rt, (cache_one config_exact_bidir).heap t = some rt
              ∧ flow_key_is_twin config_exact_bidir (flow_key_swap key_forward) rt.key = 0)
        ∧ ((∃ p r, in_table (cache_one config_exact_bidir) p
              ∧ (cache_one config_exact_bidir).heap p = some r
              ∧ flow_key_is_twin config_exact_bidir (flow_key_swap key_forward) r.key = 0)
            → ∃ t, res = some t))
      ∧ (config_exact_bidir.flow_key_match_method = twins_match.exact → ∀ fuel,
          flow_key_get_twin config_exact_bidir fuel (cache_one config_exact_bidir)
              (flow_key_swap key_forward)
            = flow_record_list_find_record_by_key fuel (cache_one config_exact_bidir).heap
                ((cache_one config_exact_bidir).flow_record_list_array
                  (flow_key_hash config_exact_bidir (flow_key_swap (flow_key_swap key_forward))))
                (flow_key_swap (flow_key_swap key_forward)))
      ∧ (config_exact_bidir.flow_key_match_method = twins_match.near → ∀ fuel,
          flow_key_get_twin config_exact_bidir fuel (cache_one config_exact_bidir)
              (flow_key_swap key_forward)
            = flow_record_list_find_twin_by_key config_exact_bidir fuel
                (cache_one config_exact_bidir).heap
                ((cache_one config_exact_bidir).flow_record_list_array
                  (flow_key_hash config_exact_bidir (flow_key_swap key_forward)))
                (flow_key_swap key_forward))) :=
  ⟨reachable_bucket_placement _ _ (cache_one_reachable config_exact_bidir),
    flow_key_get_twin_sound_complete config_exact_bidir (cache_one config_exact_bidir)
      (flow_key_swap key_forward)
      (reachable_bucket_placement _ _ (cache_one_reachable config_exact_bidir))⟩

/-- C9: when the bucket of the key is a well-formed list and no record of the table has
the key (field-wise), flow_key_get_record without creation returns NULL, given enough
fuel, and the state it leaves is the state it was called in: buckets, chronological
list, records and counters are unchanged. -/
theorem flow_key_get_record_absent (config : configuration) (s : flow_cache)
    (key : flow_key) (malloc : Option Nat)
    (hwf : ∃ l, is_bucket_list s.heap
      (s.flow_record_list_array (flow_key_hash config key)) l)
    (hno : ∀ p r, in_table s p → s.heap p = some r →
      ¬ (r.key.sa = key.sa ∧ r.key.da = key.da ∧ r.key.sp = key.sp ∧ r.key.dp = key.dp
          ∧ r.key.prot = key.prot)) :
    ∃ n, ∀ fuel, n ≤ fuel →
      flow_key_get_record config fuel s key false malloc = .ok (s, none) := by
  obtain ⟨l, hl⟩ := hwf
  refine ⟨l.length, ?_⟩
  intro fuel hf
  have hfind := find_record_by_key_spec s.heap key l none _ fuel hl.1 hf
  have hnone : list_find s.heap (flow_key_is_eq key) l = none := by
    cases h : list_find s.heap (flow_key_is_eq key) l with
    | none => rfl
    | some p =>
      obtain ⟨hmem, r, hr, heq⟩ := list_find_some _ _ _ p h
      have hk : key = r.key := (flow_key_is_eq_zero _ _).mp heq
      exact absurd (by rw [← hk]; exact ⟨rfl, rfl, rfl, rfl, rfl⟩)
        (hno p r ⟨_, flow_key_hash_lt config key, l, hl, hmem⟩ hr)
  unfold flow_key_get_record
  simp only [hfind, hnone]
  unfold flow_key_get_record_create
  simp

theorem init_array_none (i : Nat) :
    (flow_record_list_init flow_cache_start).flow_record_list_array i = none := by
  simp [flow_record_list_init, flow_cache_start]

theorem flow_key_get_record_absent_witness :
    (∃ l, is_bucket_list (flow_record_list_init flow_cache_start).heap
      ((flow_record_list_init flow_cache_start).flow_record_list_array
        (flow_key_hash config_exact_bidir key_forward)) l)
    ∧ (∀ p r, in_table (flow_record_list_init flow_cache_start) p →
        (flow_record_list_init flow_cache_start).heap p = some r →
        ¬ (r.key.sa = key_forward.sa ∧ r.key.da = key_forward.da ∧ r.key.sp = key_forward.sp
            ∧ r.key.dp = key_forward.dp ∧ r.key.prot = key_forward.prot))
    ∧ ∃ n, ∀ fuel, n ≤ fuel →
      flow_key_get_record config_exact_bidir fuel (flow_record_list_init flow_cache_start)
        key_forward false none = .ok (flow_record_list_init flow_cache_start, none) :=
  have h1 : ∃ l, is_bucket_list (flow_record_list_init flow_cache_start).heap
      ((flow_record_list_init flow_cache_start).flow_record_list_array
        (flow_key_hash config_exact_bidir key_forward)) l :=
    ⟨[], init_array_none _, List.nodup_nil⟩
  have h2 : ∀ p r, in_table (flow_record_list_init flow_cache_start) p →
      (flow_record_list_init flow_cache_start).heap p = some r →
      ¬ (r.key.sa = key_forward.sa ∧ r.key.da = key_forward.da ∧ r.key.sp = key_forward.sp
          ∧ r.key.dp = key_forward.dp ∧ r.key.prot = key_forward.prot) :=
    fun p r _ hr => by simp [flow_record_list_init, flow_cache_start] at hr
  ⟨h1, h2, flow_key_get_record_absent config_exact_bidir _ key_forward none h1 h2⟩

theorem list_find_congr (heap heap2 : Heap) (test : flow_key → Nat) :
    ∀ (l : List Nat), (∀ p ∈ l, (heap2 p).map (fun r => r.key) = (heap p).map (fun r => r.key)) →
      list_find heap2 test l = list_find heap test l := by
  intro l
  induction l with
  | nil => intro _; rfl
  | cons q l ih =>
    intro h
    have hq := h q (List.mem_cons_self _ _)
    have ih2 := ih (fun p hp => h p (List.mem_cons_of_mem _ hp))
    unfold list_find
    cases h1 : heap q with
    | none =>
      rw [h1] at hq
      cases h2 : heap2 q with
      | none => rfl
      | some r2 => rw [h2] at hq; simp at hq
    | some r =>
      rw [h1] at hq
      cases h2 : heap2 q with
      | none => rw [h2] at hq; simp at hq
      | some r2 =>
        rw [h2] at hq
        have hk : r2.key = r.key := by simpa using hq
        simp only [hk, ih2]

/-- C10: after flow_record_list_prepend of a freshly initialised record with key k to a
well-formed list that does not hold it, the head of the list is that record, the list
is the record followed by the old list, flow_record_list_find_record_by_key returns the
record for k (also when an older record with key k is in the list), and for every other
key it returns what it returned before, so every key found before is still found. -/
theorem flow_record_list_prepend_find (heap : Heap) (head : Option Nat) (l : List Nat)
    (record : Nat) (k : flow_key) (hl : is_bucket_list heap head l)
    (hrecord : heap record = some (flow_record_initial k)) (hfresh : record ∉ l) :
    ∃ heap2, flow_record_list_prepend heap head record = .ok (heap2, some record)
      ∧ is_bucket_list heap2 (some record) (record :: l)
      ∧ (∀ fuel, l.length + 1 ≤ fuel →
          flow_record_list_find_record_by_key fuel heap2 (some record) k = .ok (some record))
      ∧ (∀ k2 fuel found, k2 ≠ k → l.length ≤ fuel →
          flow_record_list_find_record_by_key fuel heap head k2 = .ok found →
          flow_record_list_find_record_by_key (fuel + 1) heap2 (some record) k2 = .ok found)
      ∧ (∀ k2 fuel q, l.length ≤ fuel →
          flow_record_list_find_record_by_key fuel heap head k2 = .ok (some q) →
          ∃ q2, flow_record_list_find_record_by_key (fuel + 1) heap2 (some record) k2
            = .ok (some q2)) := by
  obtain ⟨heap2, hpre, hlist2, hag, _⟩ :=
    flow_record_list_prepend_spec heap head l record (flow_record_initial k) hl hrecord
      rfl rfl hfresh
  obtain ⟨ra, hra, era⟩ := heap_agree_live hag record _ hrecord
  have hka : ra.key = k := by rw [strip_links_key era]; rfl
  have hcongr : ∀ k2, list_find heap2 (flow_key_is_eq k2) l
      = list_find heap (flow_key_is_eq k2) l :=
    fun k2 => list_find_congr heap heap2 _ l (fun p _ => agree_links_key hag p)
  have hnew : ∀ k2 fuel, l.length + 1 ≤ fuel →
      flow_record_list_find_record_by_key fuel heap2 (some record) k2
        = .ok (if flow_key_is_eq k2 k = 0 then some record
               else list_find heap (flow_key_is_eq k2) l) := by
    intro k2 fuel hf
    rw [find_record_by_key_spec heap2 k2 (record :: l) none _ fuel hlist2.1 (by simpa using hf)]
    simp only [list_find, hra, hka, hcongr]
  refine ⟨heap2, hpre, hlist2, ?_, ?_, ?_⟩
  · intro fuel hf
    rw [hnew k fuel hf, if_pos ((flow_key_is_eq_zero _ _).mpr rfl)]
  · intro k2 fuel found hne hf hfound
    rw [find_record_by_key_spec heap k2 l none _ fuel hl.1 hf] at hfound
    have hne2 : ¬ flow_key_is_eq k2 k = 0 := fun h => hne ((flow_key_is_eq_zero _ _).mp h)
    rw [hnew k2 (fuel + 1) (by omega), if_neg hne2]
    exact hfound
  · intro k2 fuel q hf hfound
    rw [find_record_by_key_spec heap k2 l none _ fuel hl.1 hf] at hfound
    rw [hnew k2 (fuel + 1) (by omega)]
    split
    · exact ⟨record, rfl⟩
    · exact ⟨q, hfound⟩

theorem flow_record_list_prepend_find_witness :
    is_bucket_list (unit_test_heap key_forward) (some 1) [1]
    ∧ unit_test_heap key_forward 2 = some (flow_record_initial key_forward)
    ∧ 2 ∉ [1]
    ∧ ∃ heap2, flow_record_list_prepend (unit_test_heap key_forward) (some 1) 2
        = .ok (heap2, some 2)
      ∧ is_bucket_list heap2 (some 2) (2 :: [1])
      ∧ (∀ fuel, [1].length + 1 ≤ fuel →
          flow_record_list_find_record_by_key fuel heap2 (some 2) key_forward = .ok (some 2))
      ∧ (∀ k2 fuel found, k2 ≠ key_forward → [1].length ≤ fuel →
          flow_record_list_find_record_by_key fuel (unit_test_heap key_forward) (some 1) k2
            = .ok found →
          flow_record_list_find_record_by_key (fuel + 1) heap2 (some 2) k2 = .ok found)
      ∧ (∀ k2 fuel q, [1].length ≤ fuel →
          flow_record_list_find_record_by_key fuel (unit_test_heap key_forward) (some 1) k2
            = .ok (some q) →
          ∃ q2, flow_record_list_find_record_by_key (fuel + 1) heap2 (some 2) k2
            = .ok (some q2)) :=
  have h1 : is_bucket_list (unit_test_heap key_forward) (some 1) [1] :=
    ⟨⟨rfl, none, rfl, rfl⟩, by decide⟩
  ⟨h1, rfl, by decide,
    flow_record_list_prepend_find (unit_test_heap key_forward) (some 1) [1] 2 key_forward
      h1 rfl (by decide)⟩

/-! ### Bucket placement after calls with arbitrary arguments -/

theorem flow_record_chrono_list_remove_frame (s s2 : flow_cache) (x : Option Nat)
    (h : flow_record_chrono_list_remove s x = .ok s2) :
    heap_agree strip_time s2.heap s.heap
      ∧ s2.flow_record_list_array = s.flow_record_list_array := by
  unfold flow_record_chrono_list_remove at h
  cases x with
  | none =>
    have : s = s2 := by simpa using h
    subst this
    exact ⟨heap_agree_refl _ _, rfl⟩
  | some rp =>
    simp only at h
    cases hr : s.heap rp with
    | none => rw [hr] at h; simp at h
    | some rr =>
      rw [hr] at h
      simp only at h
      have key : ∀ heap1 : Heap, heap_agree strip_time heap1 s.heap →
          (match rr.time_next with
            | none =>
              (Except.ok { s with heap := heap1
                                  flow_record_chrono_first :=
                                    if some rp = s.flow_record_chrono_first then rr.time_next
                                    else s.flow_record_chrono_first
                                  flow_record_chrono_last :=
                                    if some rp = s.flow_record_chrono_last then rr.time_prev
                                    else s.flow_record_chrono_last } : Except Err flow_cache)
            | some n =>
              match heap1 n with
              | none => Except.error Err.invalid_pointer
              | some rn =>
                Except.ok { s with
                  heap := Function.update heap1 n (some { rn with time_prev := rr.time_prev })
                  flow_record_chrono_first :=
                    if some rp = s.flow_record_chrono_first then rr.time_next
                    else s.flow_record_chrono_first
                  flow_record_chrono_last :=
                    if some rp = s.flow_record_chrono_last then rr.time_prev
                    else s.flow_record_chrono_last }) = .ok s2 →
          heap_agree strip_time s2.heap s.heap
            ∧ s2.flow_record_list_array = s.flow_record_list_array := by
        intro heap1 hag hh
        cases hn : rr.time_next with
        | none =>
          rw [hn] at hh
          have := Except.ok.inj hh
          subst this
          exact ⟨hag, rfl⟩
        | some n =>
          rw [hn] at hh
          simp only at hh
          cases hh1 : heap1 n with
          | none => rw [hh1] at hh; simp at hh
          | some rn =>
            rw [hh1] at hh
            have := Except.ok.inj hh
            subst this
            exact ⟨heap_agree_trans (heap_agree_update strip_time heap1 n rn _ hh1 rfl) hag, rfl⟩
      cases hp : rr.time_prev with
      | none =>
        rw [hp] at h
        have h2 := key s.heap (heap_agree_refl _ _)
        rw [hp] at h2
        exact h2 h
      | some q =>
        rw [hp] at h
        simp only at h
        cases hq : s.heap q with
        | none => rw [hq] at h; simp at h
        | some rq =>
          rw [hq] at h
          have h2 := key _ (heap_agree_update strip_time s.heap q rq
            { rq with time_next := rr.time_next } hq rfl)
          rw [hp] at h2
          exact h2 h

theorem flow_record_chrono_list_append_frame (s s2 : flow_cache) (x : Nat)
    (h : flow_record_chrono_list_append s x = .ok s2) :
    heap_agree strip_time s2.heap s.heap
      ∧ s2.flow_record_list_array = s.flow_record_list_array := by
  unfold flow_record_chrono_list_append at h
  cases hf : s.flow_record_chrono_first with
  | none =>
    rw [hf] at h
    have := Except.ok.inj h
    subst this
    exact ⟨heap_agree_refl _ _, rfl⟩
  | some f =>
    rw [hf] at h
    simp only at h
    cases hl : s.flow_record_chrono_last with
    | none => rw [hl] at h; simp at h
    | some last =>
      rw [hl] at h
      simp only at h
      cases hr : s.heap last with
      | none => rw [hr] at h; simp at h
      | some rl =>
        rw [hr] at h
        simp only at h
        cases hx : Function.update s.heap last (some { rl with time_next := some x }) x with
        | none => rw [hx] at h; simp at h
        | some rx =>
          rw [hx] at h
          have := Except.ok.inj h
          subst this
          exact ⟨heap_agree_trans (heap_agree_update strip_time _ x rx _ hx rfl)
            (heap_agree_update strip_time _ last rl _ hr rfl), rfl⟩

theorem flow_record_print_json_frame (s s2 : flow_cache) (r : Nat)
    (h : flow_record_print_json s r = .ok s2) :
    s2.heap = s.heap ∧ s2.flow_record_list_array = s.flow_record_list_array := by
  unfold flow_record_print_json at h
  cases hr : s.heap r with
  | none => rw [hr] at h; simp at h
  | some rr =>
    rw [hr] at h
    simp only at h
    cases ht : rr.twin with
    | none =>
      rw [ht] at h
      have := Except.ok.inj h
      subst this
      exact ⟨rfl, rfl⟩
    | some t =>
      rw [ht] at h
      simp only at h
      cases hrt : s.heap t with
      | none => rw [hrt] at h; simp at h
      | some rt =>
        rw [hrt] at h
        simp only at h
        split at h
        · have := Except.ok.inj h
          subst this
          exact ⟨rfl, rfl⟩
        · cases htt : rt.twin with
          | none =>
            rw [htt] at h
            have := Except.ok.inj h
            subst this
            exact ⟨rfl, rfl⟩
          | some tt =>
            rw [htt] at h
            simp only at h
            cases hrtt : s.heap tt with
            | none => rw [hrtt] at h; simp at h
            | some rtt =>
              rw [hrtt] at h
              have := Except.ok.inj h
              subst this
              exact ⟨rfl, rfl⟩

theorem buckets_inv_of_eq {config : configuration} {s s2 : flow_cache} {bl : Nat → List Nat}
    (hh : s2.heap = s.heap) (ha : s2.flow_record_list_array = s.flow_record_list_array)
    (hb : buckets_inv config s bl) : buckets_inv config s2 bl := by
  refine buckets_inv_congr ?_ ?_ ha hb
  · rw [hh]; exact heap_agree_refl _ _
  · rw [hh]; exact heap_agree_refl _ _

theorem flow_record_delete_preserve (config : configuration) (s s2 : flow_cache)
    (bl : Nat → List Nat) (r : Nat) (hb : buckets_inv config s bl)
    (h : flow_record_delete config s r = .ok s2) :
    ∃ bl2, buckets_inv config s2 bl2 ∧ (∀ p, s.heap p = none → s2.heap p = none) := by
  cases hr : s.heap r with
  | none =>
    unfold flow_record_delete at h
    rw [hr] at h
    simp at h
  | some rr =>
    obtain ⟨s3, h3, hb3, hag, _⟩ := flow_record_delete_spec config s bl r rr hb hr
    rw [h] at h3
    have := Except.ok.inj h3
    subst this
    refine ⟨_, hb3, ?_⟩
    intro p hp
    apply heap_agree_dead hag
    by_cases hpr : p = r
    · rw [hpr]; simp
    · simpa [Function.update_apply, hpr] using hp

theorem flow_record_print_and_delete_preserve (config : configuration) (s s2 : flow_cache)
    (bl : Nat → List Nat) (r : Nat) (hb : buckets_inv config s bl)
    (h : flow_record_print_and_delete config s r = .ok s2) :
    ∃ bl2, buckets_inv config s2 bl2 ∧ (∀ p, s.heap p = none → s2.heap p = none) := by
  unfold flow_record_print_and_delete at h
  cases hpj : flow_record_print_json s r with
  | error e => rw [hpj] at h; simp at h
  | ok s1 =>
    rw [hpj] at h
    simp only at h
    obtain ⟨hh1, ha1⟩ := flow_record_print_json_frame s s1 r hpj
    have hb1 : buckets_inv config s1 bl := buckets_inv_of_eq hh1 ha1 hb
    cases hr : s1.heap r with
    | none => rw [hr] at h; simp at h
    | some rr =>
      rw [hr] at h
      simp only at h
      have hrest : ∀ s3 bl3, buckets_inv config s3 bl3 →
          (∀ p, s.heap p = none → s3.heap p = none) →
          (match flow_record_chrono_list_remove s3 (some r) with
            | .error e => Except.error e
            | .ok s4 => flow_record_delete config s4 r) = .ok s2 →
          ∃ bl2, buckets_inv config s2 bl2 ∧ (∀ p, s.heap p = none → s2.heap p = none) := by
        intro s3 bl3 hb3 hd3 hh
        cases hcr : flow_record_chrono_list_remove s3 (some r) with
        | error e => rw [hcr] at hh; simp at hh
        | ok s4 =>
          rw [hcr] at hh
          obtain ⟨hag4, ha4⟩ := flow_record_chrono_list_remove_frame s3 s4 _ hcr
          have hb4 : buckets_inv config s4 bl3 :=
            buckets_inv_congr (agree_time_bucket hag4) (agree_time_key hag4) ha4 hb3
          obtain ⟨bl5, hb5, hd5⟩ := flow_record_delete_preserve config s4 s2 bl3 r hb4 hh
          exact ⟨bl5, hb5, fun p hp => hd5 p (heap_agree_dead hag4 p (hd3 p hp))⟩
      cases ht : rr.twin with
      | none =>
        rw [ht] at h
        exact hrest s1 bl hb1 (fun p hp => by rw [hh1]; exact hp) h
      | some t =>
        rw [ht] at h
        simp only at h
        cases hdt : flow_record_delete config s1 t with
        | error e => rw [hdt] at h; simp at h
        | ok s3 =>
          rw [hdt] at h
          obtain ⟨bl3, hb3, hd3⟩ := flow_record_delete_preserve config s1 s3 bl t hb1 hdt
          exact hrest s3 bl3 hb3 (fun p hp => hd3 p (by rw [hh1]; exact hp)) h

theorem flow_record_is_inactive_frame (heap heap2 : Heap) (r : Nat) (c : timeval) (e : Nat)
    (h : flow_record_is_inactive heap r c = .ok (heap2, e)) :
    heap_agree strip_exp heap2 heap := by
  unfold flow_record_is_inactive at h
  cases hr : heap r with
  | none => rw [hr] at h; simp at h
  | some rr =>
    have hupd : ∀ x, heap_agree strip_exp
        (Function.update heap r (some { rr with exp_type := x })) heap :=
      fun x => heap_agree_update strip_exp heap r rr _ hr rfl
    rw [hr] at h
    simp only at h
    split at h
    · split at h
      · split at h
        · simp at h
        · split at h
          · have := (Prod.mk.inj (Except.ok.inj h)).1
            rw [← this]; exact hupd _
          · have := (Prod.mk.inj (Except.ok.inj h)).1
            rw [← this]; exact heap_agree_refl _ _
      · have := (Prod.mk.inj (Except.ok.inj h)).1
        rw [← this]; exact hupd _
    · have := (Prod.mk.inj (Except.ok.inj h)).1
      rw [← this]; exact heap_agree_refl _ _

theorem flow_record_is_expired_frame (heap heap2 : Heap) (r : Nat) (c : timeval) (e : Nat)
    (h : flow_record_is_expired heap r c = .ok (heap2, e)) :
    heap_agree strip_exp heap2 heap := by
  unfold flow_record_is_expired at h
  cases hr : heap r with
  | none => rw [hr] at h; simp at h
  | some rr =>
    have hupd : ∀ x, heap_agree strip_exp
        (Function.update heap r (some { rr with exp_type := x })) heap :=
      fun x => heap_agree_update strip_exp heap r rr _ hr rfl
    rw [hr] at h
    simp only at h
    split at h
    · split at h
      · split at h
        · simp at h
        · split at h
          · have := (Prod.mk.inj (Except.ok.inj h)).1
            rw [← this]; exact hupd _
          · exact flow_record_is_inactive_frame heap heap2 r c e h
      · have := (Prod.mk.inj (Except.ok.inj h)).1
        rw [← this]; exact hupd _
    · exact flow_record_is_inactive_frame heap heap2 r c e h

theorem flow_record_list_print_json_preserve (config : configuration)
    (inactive_cutoff : Option timeval) :
    ∀ (fuel : Nat) (s s2 : flow_cache) (bl : Nat → List Nat), buckets_inv config s bl →
      flow_record_list_print_json config fuel s inactive_cutoff = .ok s2 →
      ∃ bl2, buckets_inv config s2 bl2 := by
  intro fuel
  induction fuel with
  | zero =>
    intro s s2 bl hb h
    unfold flow_record_list_print_json at h
    cases hf : s.flow_record_chrono_first with
    | none =>
      rw [hf] at h
      have := Except.ok.inj h
      subst this
      exact ⟨bl, hb⟩
    | some r => rw [hf] at h; simp at h
  | succ fuel ih =>
    intro s s2 bl hb h
    unfold flow_record_list_print_json at h
    cases hf : s.flow_record_chrono_first with
    | none =>
      rw [hf] at h
      have := Except.ok.inj h
      subst this
      exact ⟨bl, hb⟩
    | some r =>
      rw [hf] at h
      simp only at h
      cases inactive_cutoff with
      | none =>
        simp only at h
        cases hpd : flow_record_print_and_delete config s r with
        | error e => rw [hpd] at h; simp at h
        | ok s1 =>
          rw [hpd] at h
          obtain ⟨bl1, hb1, _⟩ := flow_record_print_and_delete_preserve config s s1 bl r hb hpd
          exact ih s1 s2 bl1 hb1 h
      | some c =>
        simp only at h
        cases he : flow_record_is_expired s.heap r c with
        | error e => rw [he] at h; simp at h
        | ok x =>
          rw [he] at h
          simp only at h
          have hag := flow_record_is_expired_frame s.heap x.1 r c x.2 he
          have hbx : buckets_inv config
              { s with heap := x.1, flow_record_chrono_first := some r } bl :=
            buckets_inv_congr (s := s)
              (heap_agree_of_factor _ (fun r => (r.prev, r.next)) (fun _ => rfl) hag)
              (heap_agree_of_factor _ (fun r => r.key) (fun _ => rfl) hag) rfl hb
          split at h
          · have := Except.ok.inj h
            subst this
            exact ⟨bl, hbx⟩
          · cases hpd : flow_record_print_and_delete config
                { s with heap := x.1, flow_record_chrono_first := some r } r with
            | error e => rw [hpd] at h; simp at h
            | ok s1 =>
              rw [hpd] at h
              obtain ⟨bl1, hb1, _⟩ :=
                flow_record_print_and_delete_preserve config _ s1 bl r hbx hpd
              exact ih s1 s2 bl1 hb1 h

theorem flow_key_get_record_link_preserve (config : configuration) (s : flow_cache)
    (bl : Nat → List Nat) (a : Nat) (res : flow_cache × Option Nat)
    (hb : buckets_inv config s bl) (h : flow_key_get_record_link s a = .ok res) :
    buckets_inv config res.1 bl := by
  unfold flow_key_get_record_link at h
  cases ha : s.heap a with
  | none => rw [ha] at h; simp at h
  | some rr =>
    rw [ha] at h
    simp only at h
    cases ht : rr.twin with
    | none =>
      rw [ht] at h
      simp only at h
      cases happ : flow_record_chrono_list_append s a with
      | error e => rw [happ] at h; simp at h
      | ok s4 =>
        rw [happ] at h
        have := Except.ok.inj h
        subst this
        obtain ⟨hag, harr⟩ := flow_record_chrono_list_append_frame s s4 a happ
        exact buckets_inv_congr (agree_time_bucket hag) (agree_time_key hag) harr hb
    | some t =>
      rw [ht] at h
      simp only at h
      cases hrt : s.heap t with
      | none => rw [hrt] at h; simp at h
      | some rt =>
        rw [hrt] at h
        simp only at h
        split at h
        · have := Except.ok.inj h
          subst this
          exact hb
        · have := Except.ok.inj h
          subst this
          exact buckets_inv_congr (s := s) (heap_agree_update _ _ _ _ _ hrt rfl)
            (heap_agree_update _ _ _ _ _ hrt rfl) rfl hb

theorem flow_key_get_record_pair_preserve (config : configuration) (s : flow_cache)
    (bl : Nat → List Nat) (key : flow_key) (fuel : Nat) (a : Nat)
    (res : flow_cache × Option Nat) (hb : buckets_inv config s bl)
    (h : flow_key_get_record_pair config fuel s key a = .ok res) :
    buckets_inv config res.1 bl := by
  unfold flow_key_get_record_pair at h
  cases hbd : config.bidir with
  | false =>
    rw [hbd] at h
    exact flow_key_get_record_link_preserve config s bl a res hb h
  | true =>
    rw [hbd] at h
    simp only [if_true] at h
    cases hgt : flow_key_get_twin config fuel s key with
    | error e => rw [hgt] at h; simp at h
    | ok tw =>
      rw [hgt] at h
      simp only at h
      cases ha : s.heap a with
      | none => rw [ha] at h; simp at h
      | some rr =>
        rw [ha] at h
        simp only at h
        refine flow_key_get_record_link_preserve config _ bl a res ?_ h
        exact buckets_inv_congr (s := s) (heap_agree_update _ _ _ _ _ ha rfl)
          (heap_agree_update _ _ _ _ _ ha rfl) rfl hb

theorem flow_key_get_record_create_preserve_buckets (config : configuration)
    (s : flow_cache) (bl : Nat → List Nat) (key : flow_key) (fuel : Nat)
    (create_new_records : Bool) (malloc : Option Nat) (res : flow_cache × Option Nat)
    (hb : buckets_inv config s bl)
    (h : flow_key_get_record_create config fuel s key (flow_key_hash config key)
        create_new_records malloc = .ok res) :
    ∃ bl2, buckets_inv config res.1 bl2 := by
  unfold flow_key_get_record_create at h
  cases create_new_records with
  | false =>
    have : (s, (none : Option Nat)) = res := by simpa using h
    subst this
    exact ⟨bl, hb⟩
  | true =>
    simp only [if_true] at h
    cases malloc with
    | none =>
      have := Except.ok.inj h
      subst this
      exact ⟨bl, hb⟩
    | some a =>
      simp only at h
      cases ha : s.heap a with
      | some x => rw [ha] at h; simp at h
      | none =>
        rw [ha] at h
        simp only [Option.isSome_none, Bool.false_eq_true, if_false] at h
        obtain ⟨heap2, hpre, hb2, _⟩ := create_prepend_buckets config s bl key a hb ha
        rw [hpre] at h
        exact ⟨_, flow_key_get_record_pair_preserve config _ _ key fuel a res hb2 h⟩

theorem flow_key_get_record_preserve (config : configuration) (s : flow_cache)
    (bl : Nat → List Nat) (key : flow_key) (fuel : Nat) (create_new_records : Bool)
    (malloc : Option Nat) (res : flow_cache × Option Nat) (hb : buckets_inv config s bl)
    (h : flow_key_get_record config fuel s key create_new_records malloc = .ok res) :
    ∃ bl2, buckets_inv config res.1 bl2 := by
  unfold flow_key_get_record at h
  dsimp only at h
  cases hf : flow_record_list_find_record_by_key fuel s.heap
      (s.flow_record_list_array (flow_key_hash config key)) key with
  | error e => rw [hf] at h; simp at h
  | ok found =>
    rw [hf] at h
    cases found with
    | none =>
      exact flow_key_get_record_create_preserve_buckets config s bl key fuel _ _ res hb h
    | some r =>
      simp only at h
      cases create_new_records with
      | false =>
        have : (s, some r) = res := by simpa using h
        subst this
        exact ⟨bl, hb⟩
      | true =>
        simp only [if_true] at h
        cases hc : flow_record_is_in_chrono_list s.heap r with
        | error e => rw [hc] at h; simp at h
        | ok v =>
          rw [hc] at h
          simp only at h
          split at h
          · cases hpa : flow_record_is_past_active_expiration s.heap r with
            | error e => rw [hpa] at h; simp at h
            | ok w =>
              rw [hpa] at h
              simp only at h
              split at h
              · cases hpd : flow_record_print_and_delete config s r with
                | error e => rw [hpd] at h; simp at h
                | ok s1 =>
                  rw [hpd] at h
                  obtain ⟨bl1, hb1, _⟩ :=
                    flow_record_print_and_delete_preserve config s s1 bl r hb hpd
                  exact flow_key_get_record_create_preserve_buckets config s1 bl1 key fuel
                    _ _ res hb1 h
              · have := Except.ok.inj h
                subst this
                exact ⟨bl, hb⟩
          · have := Except.ok.inj h
            subst this
            exact ⟨bl, hb⟩

theorem reachable_any_buckets_inv (config : configuration) (s : flow_cache)
    (h : ReachableAny config s) : ∃ bl, buckets_inv config s bl := by
  induction h with
  | init => exact ⟨_, (cache_inv_init config).1⟩
  | get_record s fuel key create_new_records malloc res _ hres ih =>
    obtain ⟨bl, hb⟩ := ih
    exact flow_key_get_record_preserve config s bl key fuel create_new_records malloc res
      hb hres
  | print_and_delete s record s1 _ hres ih =>
    obtain ⟨bl, hb⟩ := ih
    obtain ⟨bl2, hb2, _⟩ := flow_record_print_and_delete_preserve config s s1 bl record hb hres
    exact ⟨bl2, hb2⟩
  | print_json s fuel inactive_cutoff s1 _ hres ih =>
    obtain ⟨bl, hb⟩ := ih
    exact flow_record_list_print_json_preserve config inactive_cutoff fuel s s1 bl hb hres

theorem reachable_any_of_reachable (config : configuration) (s : flow_cache)
    (h : Reachable config s) : ReachableAny config s := by
  induction h with
  | init => exact ReachableAny.init
  | get_record s fuel key create_new_records malloc res _ hres ih =>
    exact ReachableAny.get_record s fuel key create_new_records malloc res ih hres
  | print_and_delete s record cl s1 _ _ _ hres ih =>
    exact ReachableAny.print_and_delete s record s1 ih hres
  | print_json s fuel inactive_cutoff s1 _ hres ih =>
    exact ReachableAny.print_json s fuel inactive_cutoff s1 ih hres

/-- C1, bucket placement (I1): in every state reached from flow_record_list_init by
returning calls of flow_key_get_record, flow_record_print_and_delete and
flow_record_list_print_json, whatever their arguments, with the configuration fixed,
every bucket is a well-formed list of allocated records, and an allocated record is in
the list of bucket i exactly when i is flow_key_hash of its key; so every record is in
exactly one bucket, the one of its hash. -/
theorem bucket_placement_reachable (config : configuration) (s : flow_cache)
    (h : ReachableAny config s) :
    ∃ bl : Nat → List Nat,
      (∀ i, i < FLOW_RECORD_LIST_LEN →
        is_bucket_list s.heap (s.flow_record_list_array i) (bl i)
        ∧ ∀ p ∈ bl i, ∃ r, s.heap p = some r)
      ∧ (∀ p r, s.heap p = some r → ∀ i, i < FLOW_RECORD_LIST_LEN →
          (p ∈ bl i ↔ i = flow_key_hash config r.key)) := by
  obtain ⟨bl, hb⟩ := reachable_any_buckets_inv config s h
  refine ⟨bl, ?_, ?_⟩
  · intro i _
    refine ⟨hb.1 i, ?_⟩
    intro p hp
    obtain ⟨r, hr, _⟩ := hb.2.1 i p hp
    exact ⟨r, hr⟩
  · intro p r hr i _
    constructor
    · intro hp
      obtain ⟨r2, hr2, e⟩ := hb.2.1 i p hp
      rw [hr] at hr2
      have : r = r2 := Option.some.inj hr2
      rw [this, e]
    · intro e
      rw [e]
      exact hb.2.2 p r hr

theorem bucket_placement_reachable_witness :
    ReachableAny config_exact_bidir (cache_two config_exact_bidir)
    ∧ ∃ bl : Nat → List Nat,
      (∀ i, i < FLOW_RECORD_LIST_LEN →
        is_bucket_list (cache_two config_exact_bidir).heap
          ((cache_two config_exact_bidir).flow_record_list_array i) (bl i)
        ∧ ∀ p ∈ bl i, ∃ r, (cache_two config_exact_bidir).heap p = some r)
      ∧ (∀ p r, (cache_two config_exact_bidir).heap p = some r →
          ∀ i, i < FLOW_RECORD_LIST_LEN →
          (p ∈ bl i ↔ i = flow_key_hash config_exact_bidir r.key)) :=
  ⟨reachable_any_of_reachable _ _ (cache_two_reachable config_exact_bidir),
    bucket_placement_reachable config_exact_bidir (cache_two config_exact_bidir)
      (reachable_any_of_reachable _ _ (cache_two_reachable config_exact_bidir))⟩

/-! ### Removal from a bucket list -/

theorem find_record_by_key_mem (heap : Heap) (head : Option Nat) (l : List Nat)
    (hl : is_bucket_list heap head l) (key : flow_key) (fuel : Nat) (q : Nat)
    (h : flow_record_list_find_record_by_key fuel heap head key = .ok (some q)) : q ∈ l := by
  have h2 := find_record_by_key_mono heap key fuel (fuel + l.length) head _ (by omega) h
  rw [find_record_by_key_spec heap key l none head _ hl.1 (by omega)] at h2
  exact (list_find_some _ _ _ q (Except.ok.inj h2)).1

/-- C11: for a well-formed bucket list that holds r, flow_record_list_remove returns 0
and leaves the well-formed list of the other records in their order, with no field of
a record changed but next and prev; when r was the head, the head becomes the successor
of r, whose prev pointer is then NULL, and otherwise the head stays; afterwards
flow_record_list_find_record_by_key returns, and never returns r. -/
theorem flow_record_list_remove_present (heap : Heap) (head : Option Nat)
    (l1 : List Nat) (r : Nat) (l2 : List Nat)
    (hl : is_bucket_list heap head (l1 ++ r :: l2)) :
    ∃ heap2 head2 rr, heap r = some rr
      ∧ flow_record_list_remove heap head (some r) = .ok (heap2, head2, 0)
      ∧ is_bucket_list heap2 head2 (l1 ++ l2)
      ∧ heap_agree strip_links heap2 heap
      ∧ (head = some r → head2 = rr.next
          ∧ ∀ n, rr.next = some n → ∃ rn, heap2 n = some rn ∧ rn.prev = none)
      ∧ (head ≠ some r → head2 = head)
      ∧ (∀ key fuel, (l1 ++ l2).length ≤ fuel →
          ∃ res, flow_record_list_find_record_by_key fuel heap2 head2 key = .ok res)
      ∧ (∀ key fuel res, flow_record_list_find_record_by_key fuel heap2 head2 key = .ok res →
          res ≠ some r) := by
  obtain ⟨heap2, head2, hrem, hlist2, hag, _⟩ := flow_record_list_remove_spec heap head l1 r l2 hl
  obtain ⟨x, hx⟩ := Dll_live _ _ _ hl.1 r (by simp)
  obtain ⟨rr, hrr, hpv, hnx⟩ := bucket_link_some hx
  have hlk : bucket_link heap r = some (rr.prev, rr.next) := by rw [hx, hpv, hnx]
  obtain ⟨_, hd2⟩ := Dll_mid l1 none head r l2 _ _ hl.1 hlk
  have hr12 : r ∉ l1 ++ l2 := by
    have := hl.2
    rw [List.nodup_append] at this
    intro hm
    rcases List.mem_append.mp hm with h | h
    · exact this.2.2 h (List.mem_cons_self _ _)
    · exact (List.nodup_cons.mp this.2.1).1 h
  refine ⟨heap2, head2, rr, hrr, hrem, hlist2, hag, ?_, ?_, ?_, ?_⟩
  · intro hh
    cases l1 with
    | cons y l =>
      have h1 : head = some y := hl.1.1
      rw [h1] at hh
      have : y = r := Option.some.inj hh
      exact absurd (by simp [this]) hr12
    | nil =>
      cases l2 with
      | nil =>
        have h2 : head2 = none := hlist2.1
        have h3 : rr.next = none := hd2
        rw [h2, h3]
        exact ⟨rfl, fun n hn => by simp at hn⟩
      | cons n l3 =>
        obtain ⟨h2, nx, hn, _⟩ := hlist2.1
        have h3 : rr.next = some n := hd2.1
        obtain ⟨rn, hrn, hp, _⟩ := bucket_link_some hn
        rw [h2, h3]
        refine ⟨rfl, fun m hm => ?_⟩
        have : n = m := Option.some.inj hm
        subst this
        exact ⟨rn, hrn, hp⟩
  · intro hh
    cases l1 with
    | nil => exact absurd hl.1.1 hh
    | cons y l =>
      have h1 : head = some y := hl.1.1
      have h2 : head2 = some y := hlist2.1.1
      rw [h1, h2]
  · intro key fuel hf
    exact ⟨_, find_record_by_key_spec heap2 key (l1 ++ l2) none head2 fuel hlist2.1 hf⟩
  · intro key fuel res h e
    rw [e] at h
    exact hr12 (find_record_by_key_mem heap2 head2 _ hlist2 key fuel r h)

theorem three_list_heap_list : is_bucket_list three_list_heap (some 1) ([1] ++ 2 :: [3]) :=
  ⟨⟨rfl, some 2, rfl, rfl, some 3, rfl, rfl, none, rfl, rfl⟩, by decide⟩

theorem flow_record_list_remove_present_witness :
    is_bucket_list three_list_heap (some 1) ([1] ++ 2 :: [3])
    ∧ ∃ heap2 head2 rr, three_list_heap 2 = some rr
      ∧ flow_record_list_remove three_list_heap (some 1) (some 2) = .ok (heap2, head2, 0)
      ∧ is_bucket_list heap2 head2 ([1] ++ [3])
      ∧ heap_agree strip_links heap2 three_list_heap
      ∧ (some 1 = some 2 → head2 = rr.next
          ∧ ∀ n, rr.next = some n → ∃ rn, heap2 n = some rn ∧ rn.prev = none)
      ∧ (some 1 ≠ some 2 → head2 = some 1)
      ∧ (∀ key fuel, ([1] ++ [3]).length ≤ fuel →
          ∃ res, flow_record_list_find_record_by_key fuel heap2 head2 key = .ok res)
      ∧ (∀ key fuel res, flow_record_list_find_record_by_key fuel heap2 head2 key = .ok res →
          res ≠ some 2) :=
  ⟨three_list_heap_list,
    flow_record_list_remove_present three_list_heap (some 1) [1] 2 [3] three_list_heap_list⟩


theorem flow_record_list_remove_again (heap : Heap) (head : Option Nat) (r q : Nat)
    (rr : flow_record) (heap2 : Heap) (head2 : Option Nat) (ret : Nat)
    (hrr : heap r = some rr) (hpv : rr.prev = some q) (hq : q ≠ r)
    (hn : ∀ n, rr.next = some n → n ≠ r ∧ n ≠ q)
    (h : flow_record_list_remove heap head (some r) = .ok (heap2, head2, ret)) :
    flow_record_list_remove heap2 head2 (some r) = .ok (heap2, head2, 0) := by
  unfold flow_record_list_remove at h
  simp only [hrr, hpv] at h
  cases hq2 : heap q with
  | none => simp [hq2] at h
  | some rq =>
    simp only [hq2] at h
    cases hnx : rr.next with
    | none =>
      simp only [hnx] at h
      have e := Except.ok.inj h
      have e1 : heap2 = Function.update heap q (some { rq with next := none }) :=
        (congrArg Prod.fst e).symm
      have e2 : head2 = head := (congrArg (fun x => x.2.1) e).symm
      have h2r : heap2 r = some rr := by rw [e1, Function.update_noteq (Ne.symm hq), hrr]
      have h2q : heap2 q = some { rq with next := none } := by rw [e1, Function.update_same]
      unfold flow_record_list_remove
      simp only [h2r, hpv, h2q, hnx]
      rw [← h2q, Function.update_eq_self]
    | some n =>
      obtain ⟨hnr, hnq⟩ := hn n hnx
      simp only [hnx, Function.update_noteq hnq] at h
      cases hn2 : heap n with
      | none => simp [hn2] at h
      | some rn =>
        simp only [hn2] at h
        have e := Except.ok.inj h
        have e1 : heap2 = Function.update (Function.update heap q (some { rq with next := some n }))
            n (some { rn with prev := some q }) := (congrArg Prod.fst e).symm
        have e2 : head2 = head := (congrArg (fun x => x.2.1) e).symm
        have h2r : heap2 r = some rr := by
          rw [e1, Function.update_noteq (Ne.symm hnr), Function.update_noteq (Ne.symm hq), hrr]
        have h2q : heap2 q = some { rq with next := some n } := by
          rw [e1, Function.update_noteq (Ne.symm hnq), Function.update_same]
        have h2n : heap2 n = some { rn with prev := some q } := by
          rw [e1, Function.update_same]
        unfold flow_record_list_remove
        simp only [h2r, hpv, h2q, hnx]
        have e3 : Function.update heap2 q (some { rq with next := some n }) = heap2 := by
          rw [← h2q, Function.update_eq_self]
        simp only [e3, h2n]
        rw [← h2n, Function.update_eq_self]

/-- C12 (the claim as written fails): from the well-formed list 1, 2, 3 a first call
removes the record 2 and leaves the list 1, 3; a second call with the record 2, which
is then not in the list, returns 0 again, not an error. -/
theorem flow_record_list_remove_absent_counterexample :
    is_bucket_list (list_after_remove (flow_record_list_remove three_list_heap (some 1) (some 2))).1
        (list_after_remove (flow_record_list_remove three_list_heap (some 1) (some 2))).2 [1, 3]
      ∧ 2 ∉ [1, 3]
      ∧ remove_return (flow_record_list_remove
          (list_after_remove (flow_record_list_remove three_list_heap (some 1) (some 2))).1
          (list_after_remove (flow_record_list_remove three_list_heap (some 1) (some 2))).2
          (some 2)) = some 0 :=
  ⟨⟨⟨rfl, some 3, rfl, rfl, none, rfl, rfl⟩, by decide⟩, by decide, rfl⟩

/-- C12 (amended): for a well-formed bucket list, a NULL record makes
flow_record_list_remove return 1 with heap and head unchanged; a record that is not in
the list and has a NULL prev pointer makes it abort (exit), and so does a second removal
of a record that a first call removed from the head of the list; a second removal of a
record that a first call removed from behind the head returns 0 again and leaves the
heap and the head as the first call left them. -/
theorem flow_record_list_remove_absent (heap : Heap) (head : Option Nat) (l : List Nat)
    (hl : is_bucket_list heap head l) :
    flow_record_list_remove heap head none = .ok (heap, head, 1)
    ∧ (∀ r rr, r ∉ l → heap r = some rr → rr.prev = none →
        flow_record_list_remove heap head (some r) = .error Err.exit)
    ∧ (∀ r l2, l = r :: l2 → ∃ heap2 head2,
        flow_record_list_remove heap head (some r) = .ok (heap2, head2, 0)
        ∧ is_bucket_list heap2 head2 l2
        ∧ flow_record_list_remove heap2 head2 (some r) = .error Err.exit)
    ∧ (∀ q l1 r l2, l = q :: l1 ++ r :: l2 → ∃ heap2 head2,
        flow_record_list_remove heap head (some r) = .ok (heap2, head2, 0)
        ∧ is_bucket_list heap2 head2 (q :: l1 ++ l2)
        ∧ flow_record_list_remove heap2 head2 (some r) = .ok (heap2, head2, 0)) := by
  have absent : ∀ (heap : Heap) (head : Option Nat) (l : List Nat), is_bucket_list heap head l →
      ∀ r rr, r ∉ l → heap r = some rr → rr.prev = none →
        flow_record_list_remove heap head (some r) = .error Err.exit := by
    intro heap head l hl r rr hr hrr hpv
    have hh : head ≠ some r := by
      intro e
      cases l with
      | nil =>
        have : head = none := hl.1
        rw [this] at e
        simp at e
      | cons y l =>
        have : head = some y := hl.1.1
        rw [this] at e
        exact hr (by simp [Option.some.inj e])
    unfold flow_record_list_remove
    simp only [hrr, hpv]
    rw [if_pos hh]
  refine ⟨rfl, absent heap head l hl, ?_, ?_⟩
  · intro r l2 e
    subst e
    obtain ⟨heap2, head2, hrem, hlist2, hag, _⟩ :=
      flow_record_list_remove_spec heap head [] r l2 hl
    obtain ⟨x, hx⟩ := Dll_live _ _ _ hl.1 r (by simp)
    obtain ⟨rr, hrr, _, _⟩ := bucket_link_some hx
    have hp : rr.prev = none := by
      obtain ⟨_, nx, hlk, _⟩ := hl.1
      obtain ⟨rr2, hrr2, hp2, _⟩ := bucket_link_some hlk
      rw [hrr] at hrr2
      rw [Option.some.inj hrr2]
      exact hp2
    have hr2 : r ∉ l2 := (List.nodup_cons.mp hl.2).1
    refine ⟨heap2, head2, hrem, hlist2, ?_⟩
    unfold flow_record_list_remove at hrem
    simp only [hrr, hp] at hrem
    have hh : head = some r := hl.1.1
    rw [if_neg (by simpa using hh)] at hrem
    cases hnx : rr.next with
    | none =>
      simp only [hnx] at hrem
      have e := Except.ok.inj hrem
      have e1 : heap2 = heap := (congrArg Prod.fst e).symm
      exact absent heap2 head2 l2 hlist2 r rr hr2 (by rw [e1, hrr]) hp
    | some n =>
      simp only [hnx] at hrem
      cases hn2 : heap n with
      | none => simp [hn2] at hrem
      | some rn =>
        simp only [hn2] at hrem
        have e := Except.ok.inj hrem
        have e1 : heap2 = Function.update heap n (some { rn with prev := none }) :=
          (congrArg Prod.fst e).symm
        have e2 : head2 = some n := (congrArg (fun x => x.2.1) e).symm
        have hnr : n ≠ r := by
          intro en
          cases l2 with
          | nil =>
            have : head2 = none := hlist2.1
            rw [this] at e2
            simp at e2
          | cons y l3 =>
            have : head2 = some y := hlist2.1.1
            rw [this] at e2
            exact hr2 (by simp [Option.some.inj e2, en])
        exact absent heap2 head2 l2 hlist2 r rr hr2
          (by rw [e1, Function.update_noteq (Ne.symm hnr), hrr]) hp
  · intro q l1 r l2 e
    subst e
    have hl2 : is_bucket_list heap head ((q :: l1) ++ r :: l2) := hl
    obtain ⟨heap2, head2, hrem, hlist2, hag, _⟩ :=
      flow_record_list_remove_spec heap head (q :: l1) r l2 hl2
    obtain ⟨x, hx⟩ := Dll_live _ _ _ hl.1 r (by simp)
    obtain ⟨rr, hrr, hpv, hnx⟩ := bucket_link_some hx
    have hlk : bucket_link heap r = some (rr.prev, rr.next) := by rw [hx, hpv, hnx]
    obtain ⟨hpr, hd2⟩ := Dll_mid (q :: l1) none head r l2 _ _ hl2.1 hlk
    have hnd := hl2.2
    rw [List.nodup_append] at hnd
    obtain ⟨p, hpm, hpl⟩ := last_or_mem none (q :: l1) (by simp)
    have hpv : rr.prev = some p := by rw [hpr, hpl]
    have hpne : p ≠ r := fun e => hnd.2.2 (e ▸ hpm) (List.mem_cons_self _ _)
    have hnn : ∀ n, rr.next = some n → n ≠ r ∧ n ≠ p := by
      intro n hn
      cases l2 with
      | nil =>
        have h3 : rr.next = none := hd2
        rw [h3] at hn
        simp at hn
      | cons y l3 =>
        have h3 : rr.next = some y := hd2.1
        rw [h3] at hn
        have e : y = n := Option.some.inj hn
        subst e
        have hy := List.nodup_cons.mp hnd.2.1
        exact ⟨fun e => hy.1 (e ▸ List.mem_cons_self _ _),
          fun e => hnd.2.2 hpm (e ▸ List.mem_cons_of_mem _ (List.mem_cons_self _ _))⟩
    exact ⟨heap2, head2, hrem, hlist2,
      flow_record_list_remove_again heap head r p rr heap2 head2 0 hrr hpv hpne hnn hrem⟩

theorem flow_record_list_remove_absent_witness :
    is_bucket_list three_list_heap (some 1) [1, 2, 3]
    ∧ flow_record_list_remove three_list_heap (some 1) none = .ok (three_list_heap, some 1, 1)
    ∧ (∀ r rr, r ∉ [1, 2, 3] → three_list_heap r = some rr → rr.prev = none →
        flow_record_list_remove three_list_heap (some 1) (some r) = .error Err.exit)
    ∧ (∀ r l2, [1, 2, 3] = r :: l2 → ∃ heap2 head2,
        flow_record_list_remove three_list_heap (some 1) (some r) = .ok (heap2, head2, 0)
        ∧ is_bucket_list heap2 head2 l2
        ∧ flow_record_list_remove heap2 head2 (some r) = .error Err.exit)
    ∧ (∀ q l1 r l2, [1, 2, 3] = q :: l1 ++ r :: l2 → ∃ heap2 head2,
        flow_record_list_remove three_list_heap (some 1) (some r) = .ok (heap2, head2, 0)
        ∧ is_bucket_list heap2 head2 (q :: l1 ++ l2)
        ∧ flow_record_list_remove heap2 head2 (some r) = .ok (heap2, head2, 0)) :=
  ⟨three_list_heap_list,
    flow_record_list_remove_absent three_list_heap (some 1) [1, 2, 3] three_list_heap_list⟩

/-! ### Expiration -/

theorem timer_lt_iff (a b : timeval) (ha : timeval_normalised a) (hb : timeval_normalised b) :
    timer_lt a b = true ↔ usec a < usec b := by
  unfold timer_lt usec
  obtain ⟨ha1, ha2⟩ := ha
  obtain ⟨hb1, hb2⟩ := hb
  by_cases h : a.tv_sec = b.tv_sec
  · rw [if_pos h, decide_eq_true_iff]
    constructor <;> intro <;> omega
  · rw [if_neg h, decide_eq_true_iff]
    constructor <;> intro <;> omega

theorem timer_sub_usec (a b : timeval) (ha : timeval_normalised a) (hb : timeval_normalised b) :
    timeval_normalised (timer_sub a b) ∧ usec (timer_sub a b) = usec a - usec b := by
  unfold timer_sub usec timeval_normalised
  obtain ⟨ha1, ha2⟩ := ha
  obtain ⟨hb1, hb2⟩ := hb
  dsimp only
  by_cases h : a.tv_usec - b.tv_usec < 0
  · rw [if_pos h]
    dsimp only
    constructor <;> omega
  · rw [if_neg h]
    dsimp only
    constructor <;> omega

theorem flow_record_is_expired_cases (heap : Heap) (p : Nat) (r : flow_record) (c : timeval)
    (hr : heap p = some r) (hv : r.twin ≠ none → twin_record heap r ≠ none)
    (hc : timeval_normalised c)
    (hn : timeval_normalised r.start ∧ timeval_normalised r.end_)
    (hnt : ∀ rt ∈ twin_record heap r, timeval_normalised rt.start ∧ timeval_normalised rt.end_) :
    (usec r.start < usec c - usec active_timeout
        ∧ (∀ rt ∈ twin_record heap r, usec rt.start < usec c - usec active_timeout)
      ∧ flow_record_is_expired heap p c
          = .ok (Function.update heap p (some { r with exp_type := expiration_type_active }), 1))
    ∨ (¬ (usec r.start < usec c - usec active_timeout
          ∧ ∀ rt ∈ twin_record heap r, usec rt.start < usec c - usec active_timeout)
      ∧ usec r.end_ < usec c ∧ (∀ rt ∈ twin_record heap r, usec rt.end_ < usec c)
      ∧ flow_record_is_expired heap p c
          = .ok (Function.update heap p (some { r with exp_type := expiration_type_inactive }), 1))
    ∨ (¬ (usec r.start < usec c - usec active_timeout
          ∧ ∀ rt ∈ twin_record heap r, usec rt.start < usec c - usec active_timeout)
      ∧ ¬ (usec r.end_ < usec c ∧ ∀ rt ∈ twin_record heap r, usec rt.end_ < usec c)
      ∧ flow_record_is_expired heap p c = .ok (heap, 0)) := by
  have hat : timeval_normalised active_timeout := by decide
  obtain ⟨hsn, hsu⟩ := timer_sub_usec c active_timeout hc hat
  have inact : (usec r.end_ < usec c ∧ (∀ rt ∈ twin_record heap r, usec rt.end_ < usec c)
        ∧ flow_record_is_inactive heap p c
          = .ok (Function.update heap p (some { r with exp_type := expiration_type_inactive }), 1))
      ∨ (¬ (usec r.end_ < usec c ∧ ∀ rt ∈ twin_record heap r, usec rt.end_ < usec c)
        ∧ flow_record_is_inactive heap p c = .ok (heap, 0)) := by
    unfold flow_record_is_inactive
    simp only [hr]
    by_cases h1 : timer_lt r.end_ c = true
    · rw [if_pos h1]
      have h1u := (timer_lt_iff _ _ hn.2 hc).1 h1
      cases htw : r.twin with
      | none =>
        left
        refine ⟨h1u, ?_, rfl⟩
        intro rt hrt
        simp [twin_record, htw] at hrt
      | some t =>
        have hv2 := hv (by rw [htw]; simp)
        simp only [twin_record, htw, Option.some_bind] at hv2 hnt
        cases ht : heap t with
        | none => exact absurd ht hv2
        | some rt =>
          simp only [twin_record, htw, Option.some_bind, ht, Option.mem_def, Option.some.injEq,
            forall_eq'] at hnt ⊢
          by_cases h2 : timer_lt rt.end_ c = true
          · rw [if_pos h2]
            left
            exact ⟨h1u, (timer_lt_iff _ _ hnt.2 hc).1 h2, rfl⟩
          · rw [if_neg h2]
            right
            exact ⟨fun hh => h2 ((timer_lt_iff _ _ hnt.2 hc).2 hh.2), rfl⟩
    · rw [if_neg h1]
      right
      exact ⟨fun hh => h1 ((timer_lt_iff _ _ hn.2 hc).2 hh.1), rfl⟩
  unfold flow_record_is_expired
  simp only [hr]
  rw [← hsu]
  by_cases h1 : timer_lt r.start (timer_sub c active_timeout) = true
  · rw [if_pos h1]
    have h1u := (timer_lt_iff _ _ hn.1 hsn).1 h1
    cases htw : r.twin with
    | none =>
      left
      refine ⟨h1u, ?_, rfl⟩
      intro rt hrt
      simp [twin_record, htw] at hrt
    | some t =>
      have hv2 := hv (by rw [htw]; simp)
      simp only [twin_record, htw, Option.some_bind] at hv2 hnt inact
      cases ht : heap t with
      | none => exact absurd ht hv2
      | some rt =>
        simp only [twin_record, htw, Option.some_bind, ht, Option.mem_def, Option.some.injEq,
          forall_eq'] at hnt inact ⊢
        by_cases h2 : timer_lt rt.start (timer_sub c active_timeout) = true
        · rw [if_pos h2]
          left
          exact ⟨h1u, (timer_lt_iff _ _ hnt.1 hsn).1 h2, rfl⟩
        · rw [if_neg h2]
          right
          have hna : ¬ (usec r.start < usec (timer_sub c active_timeout)
              ∧ usec rt.start < usec (timer_sub c active_timeout)) :=
            fun hh => h2 ((timer_lt_iff _ _ hnt.1 hsn).2 hh.2)
          rcases inact with ⟨a, b, e⟩ | ⟨a, e⟩
          · left; exact ⟨hna, a, b, e⟩
          · right; exact ⟨hna, a, e⟩
  · rw [if_neg h1]
    right
    have hna : ¬ (usec r.start < usec (timer_sub c active_timeout)
        ∧ ∀ rt ∈ twin_record heap r, usec rt.start < usec (timer_sub c active_timeout)) :=
      fun hh => h1 ((timer_lt_iff _ _ hn.1 hsn).2 hh.1)
    rcases inact with ⟨a, b, e⟩ | ⟨a, e⟩
    · left; exact ⟨hna, a, b, e⟩
    · right; exact ⟨hna, a, e⟩

/-- C18: for a record r with an optional twin and a normalised inactive cutoff c,
flow_record_is_expired returns, and its value is non-zero exactly when r and its twin
(if any) both started before c minus the active timeout of 20 s, or r and its twin (if
any) both ended before c; the comparisons are strict comparisons of microseconds. -/
theorem flow_record_is_expired_iff (heap : Heap) (p : Nat) (r : flow_record) (c : timeval)
    (hr : heap p = some r) (hv : r.twin ≠ none → twin_record heap r ≠ none)
    (hc : timeval_normalised c)
    (hn : timeval_normalised r.start ∧ timeval_normalised r.end_)
    (hnt : ∀ rt ∈ twin_record heap r, timeval_normalised rt.start ∧ timeval_normalised rt.end_) :
    usec active_timeout = 20 * 1000000
    ∧ ∃ heap2 ret, flow_record_is_expired heap p c = .ok (heap2, ret)
      ∧ (ret ≠ 0 ↔
          (usec r.start < usec c - usec active_timeout
            ∧ ∀ rt ∈ twin_record heap r, usec rt.start < usec c - usec active_timeout)
          ∨ (usec r.end_ < usec c ∧ ∀ rt ∈ twin_record heap r, usec rt.end_ < usec c)) := by
  refine ⟨by decide, ?_⟩
  rcases flow_record_is_expired_cases heap p r c hr hv hc hn hnt with
    ⟨a, b, e⟩ | ⟨na, a, b, e⟩ | ⟨na, ni, e⟩
  · exact ⟨_, _, e, fun _ => Or.inl ⟨a, b⟩, fun _ => by decide⟩
  · exact ⟨_, _, e, fun _ => Or.inr ⟨a, b⟩, fun _ => by decide⟩
  · refine ⟨_, _, e, fun h => absurd rfl h, fun h => ?_⟩
    rcases h with h | h
    · exact absurd h na
    · exact absurd h ni

theorem flow_record_is_expired_iff_witness :
    single_packet_heap 1 = some single_packet_record
    ∧ usec active_timeout = 20 * 1000000
    ∧ ∃ heap2 ret, flow_record_is_expired single_packet_heap 1 { tv_sec := 2, tv_usec := 0 }
        = .ok (heap2, ret)
      ∧ (ret ≠ 0 ↔
          (usec single_packet_record.start
              < usec { tv_sec := 2, tv_usec := 0 } - usec active_timeout
            ∧ ∀ rt ∈ twin_record single_packet_heap single_packet_record,
                usec rt.start < usec { tv_sec := 2, tv_usec := 0 } - usec active_timeout)
          ∨ (usec single_packet_record.end_ < usec { tv_sec := 2, tv_usec := 0 }
            ∧ ∀ rt ∈ twin_record single_packet_heap single_packet_record,
                usec rt.end_ < usec { tv_sec := 2, tv_usec := 0 })) :=
  ⟨rfl, flow_record_is_expired_iff single_packet_heap 1 single_packet_record
    { tv_sec := 2, tv_usec := 0 } rfl (fun h => absurd rfl h) (by decide) (by decide)
    (fun rt h => by cases h)⟩

/-- C19: flow_record_is_expired returns 1 and sets exp_type to the letter a when the
active condition holds, returns 1 and sets exp_type to the letter i when the active
condition fails and the inactive condition holds, each time changing nothing else in the
heap, and leaves the whole heap unchanged when it returns 0; the unpaired record with
start and end 1.000000, checked at the cutoff 12 s minus the time window, which is
2.000000, is expired with exp_type i. -/
theorem flow_record_is_expired_exp_type (heap : Heap) (p : Nat) (r : flow_record) (c : timeval)
    (hr : heap p = some r) (hv : r.twin ≠ none → twin_record heap r ≠ none)
    (hc : timeval_normalised c)
    (hn : timeval_normalised r.start ∧ timeval_normalised r.end_)
    (hnt : ∀ rt ∈ twin_record heap r, timeval_normalised rt.start ∧ timeval_normalised rt.end_) :
    (∃ heap2 ret, flow_record_is_expired heap p c = .ok (heap2, ret)
      ∧ ((usec r.start < usec c - usec active_timeout
            ∧ ∀ rt ∈ twin_record heap r, usec rt.start < usec c - usec active_timeout) →
          ret = 1 ∧ heap2 = Function.update heap p (some { r with exp_type := 'a'.toNat }))
      ∧ (¬ (usec r.start < usec c - usec active_timeout
            ∧ ∀ rt ∈ twin_record heap r, usec rt.start < usec c - usec active_timeout) →
          (usec r.end_ < usec c ∧ ∀ rt ∈ twin_record heap r, usec rt.end_ < usec c) →
          ret = 1 ∧ heap2 = Function.update heap p (some { r with exp_type := 'i'.toNat }))
      ∧ (ret = 0 → heap2 = heap))
    ∧ timer_sub { tv_sec := 12, tv_usec := 0 } time_window = { tv_sec := 2, tv_usec := 0 }
    ∧ flow_record_is_expired single_packet_heap 1
          (timer_sub { tv_sec := 12, tv_usec := 0 } time_window)
        = .ok (Function.update single_packet_heap 1
            (some { single_packet_record with exp_type := 'i'.toNat }), 1) := by
  refine ⟨?_, by decide, rfl⟩
  rcases flow_record_is_expired_cases heap p r c hr hv hc hn hnt with
    ⟨a, b, e⟩ | ⟨na, a, b, e⟩ | ⟨na, ni, e⟩
  · exact ⟨_, _, e, fun _ => ⟨rfl, rfl⟩, fun h => absurd ⟨a, b⟩ h, fun h => by simp at h⟩
  · exact ⟨_, _, e, fun h => absurd h na, fun _ _ => ⟨rfl, rfl⟩, fun h => by simp at h⟩
  · exact ⟨_, _, e, fun h => absurd h na, fun _ h => absurd h ni, fun _ => rfl⟩

theorem flow_record_is_expired_exp_type_witness :
    single_packet_heap 1 = some single_packet_record
    ∧ timeval_normalised { tv_sec := 2, tv_usec := 0 }
    ∧ (∃ heap2 ret, flow_record_is_expired single_packet_heap 1 { tv_sec := 2, tv_usec := 0 }
          = .ok (heap2, ret)
      ∧ ((usec single_packet_record.start
              < usec { tv_sec := 2, tv_usec := 0 } - usec active_timeout
            ∧ ∀ rt ∈ twin_record single_packet_heap single_packet_record,
                usec rt.start < usec { tv_sec := 2, tv_usec := 0 } - usec active_timeout) →
          ret = 1 ∧ heap2 = Function.update single_packet_heap 1
            (some { single_packet_record with exp_type := 'a'.toNat }))
      ∧ (¬ (usec single_packet_record.start
              < usec { tv_sec := 2, tv_usec := 0 } - usec active_timeout
            ∧ ∀ rt ∈ twin_record single_packet_heap single_packet_record,
                usec rt.start < usec { tv_sec := 2, tv_usec := 0 } - usec active_timeout) →
          (usec single_packet_record.end_ < usec { tv_sec := 2, tv_usec := 0 }
            ∧ ∀ rt ∈ twin_record single_packet_heap single_packet_record,
                usec rt.end_ < usec { tv_sec := 2, tv_usec := 0 }) →
          ret = 1 ∧ heap2 = Function.update single_packet_heap 1
            (some { single_packet_record with exp_type := 'i'.toNat }))
      ∧ (ret = 0 → heap2 = single_packet_heap))
    ∧ timer_sub { tv_sec := 12, tv_usec := 0 } time_window = { tv_sec := 2, tv_usec := 0 }
    ∧ flow_record_is_expired single_packet_heap 1
          (timer_sub { tv_sec := 12, tv_usec := 0 } time_window)
        = .ok (Function.update single_packet_heap 1
            (some { single_packet_record with exp_type := 'i'.toNat }), 1) :=
  ⟨rfl, by decide,
    flow_record_is_expired_exp_type single_packet_heap 1 single_packet_record
      { tv_sec := 2, tv_usec := 0 } rfl (fun h => absurd rfl h) (by decide) (by decide)
      (fun rt h => by cases h)⟩

/-! ### Scenario 1 -/

theorem cache_single_packet_record (config : configuration) :
    (cache_single_packet config).heap 1 = some single_packet_record
    ∧ (cache_single_packet config).flow_record_chrono_first = some 1 := by
  obtain ⟨m, b⟩ := config
  cases m <;> cases b <;> exact ⟨rfl, rfl⟩

theorem sweep_single_packet (config : configuration) (c : timeval) (x : Nat)
    (hx : x = expiration_type_active ∨ x = expiration_type_inactive)
    (e : flow_record_is_expired (cache_single_packet config).heap 1 c
      = .ok (Function.update (cache_single_packet config).heap 1
          (some { single_packet_record with exp_type := x }), 1)) :
    ∃ s2, flow_record_list_print_json config 4 (cache_single_packet config) (some c) = .ok s2
      ∧ s2.output.map expiration_tag = [some (Char.ofNat x)]
      ∧ s2.heap 1 = none ∧ s2.flow_record_chrono_first = none := by
  unfold flow_record_list_print_json
  simp only [(cache_single_packet_record config).2, e]
  obtain ⟨m, b⟩ := config
  rcases hx with hx | hx <;> subst hx <;> cases m <;> cases b <;> exact ⟨_, rfl, rfl, rfl, rfl⟩

/-- C20 (the claim as written fails): in scenario 1 the sweep at the time 100, with the
inactive cutoff 100 - 10 = 90, emits the record with the expiration tag a, not with the
tag i. -/
theorem scenario_single_packet_counterexample :
    timer_sub { tv_sec := 100, tv_usec := 0 } time_window = { tv_sec := 90, tv_usec := 0 }
    ∧ (cache_of (flow_record_list_print_json
          { flow_key_match_method := twins_match.exact, bidir := false } 4
          (cache_single_packet { flow_key_match_method := twins_match.exact, bidir := false })
          (some (timer_sub { tv_sec := 100, tv_usec := 0 } time_window)))).output.map
        expiration_tag = [some 'a']
    ∧ some 'a' ≠ some 'i' := by
  refine ⟨by decide, rfl, by decide⟩

/-- C20 (amended): in scenario 1, an unpaired record holding a single packet with start
and end 1.000000, the sweep with a normalised inactive cutoff c returns; it emits the
record with the expiration tag a when c is later than 21.000000 (the active test comes
first, and 1.000000 is before c minus 20 s), with the tag i when c is later than
1.000000 and not later than 21.000000, and emits nothing when c is not later than
1.000000; an emitted record is deleted and leaves the chronological list empty. At the
time 100, with the cutoff 90, the tag is a. -/
theorem scenario_single_packet_tag (config : configuration) (c : timeval)
    (hc : timeval_normalised c) :
    (∃ s2, flow_record_list_print_json config 4 (cache_single_packet config) (some c) = .ok s2
      ∧ (21000000 < usec c → s2.output.map expiration_tag = [some 'a']
          ∧ s2.heap 1 = none ∧ s2.flow_record_chrono_first = none)
      ∧ (1000000 < usec c → usec c ≤ 21000000 → s2.output.map expiration_tag = [some 'i']
          ∧ s2.heap 1 = none ∧ s2.flow_record_chrono_first = none)
      ∧ (usec c ≤ 1000000 → s2.output = [] ∧ s2 = cache_single_packet config))
    ∧ (cache_of (flow_record_list_print_json config 4 (cache_single_packet config)
          (some (timer_sub { tv_sec := 100, tv_usec := 0 } time_window)))).output.map
        expiration_tag = [some 'a'] := by
  have key : ∀ c : timeval, timeval_normalised c →
      ∃ s2, flow_record_list_print_json config 4 (cache_single_packet config) (some c) = .ok s2
      ∧ (21000000 < usec c → s2.output.map expiration_tag = [some 'a']
          ∧ s2.heap 1 = none ∧ s2.flow_record_chrono_first = none)
      ∧ (1000000 < usec c → usec c ≤ 21000000 → s2.output.map expiration_tag = [some 'i']
          ∧ s2.heap 1 = none ∧ s2.flow_record_chrono_first = none)
      ∧ (usec c ≤ 1000000 → s2.output = [] ∧ s2 = cache_single_packet config) := by
    intro c hc
    have hs : usec single_packet_record.start = 1000000 := by decide
    have he : usec single_packet_record.end_ = 1000000 := by decide
    have ha : usec active_timeout = 20000000 := by decide
    rcases flow_record_is_expired_cases (cache_single_packet config).heap 1 single_packet_record c
        (cache_single_packet_record config).1 (fun h => absurd rfl h) hc (by decide)
        (fun rt h => by cases h) with ⟨a, _, e⟩ | ⟨na, a, _, e⟩ | ⟨na, ni, e⟩
    · obtain ⟨s2, h1, h2⟩ := sweep_single_packet config c _ (Or.inl rfl) e
      rw [hs, ha] at a
      exact ⟨s2, h1, fun _ => h2, fun _ h => by omega, fun h => by omega⟩
    · obtain ⟨s2, h1, h2⟩ := sweep_single_packet config c _ (Or.inr rfl) e
      rw [he] at a
      have hna : ¬ 21000000 < usec c := by
        intro h
        apply na
        rw [hs, ha]
        exact ⟨by omega, fun rt h => by cases h⟩
      exact ⟨s2, h1, fun h => absurd h hna, fun _ _ => h2, fun h => by omega⟩
    · have hni : ¬ 1000000 < usec c := by
        intro h
        apply ni
        rw [he]
        exact ⟨h, fun rt h => by cases h⟩
      refine ⟨{ cache_single_packet config with heap := (cache_single_packet config).heap }, ?_,
        fun h => by omega, fun h => absurd h hni, fun _ => ⟨?_, rfl⟩⟩
      · unfold flow_record_list_print_json
        simp only [(cache_single_packet_record config).2, e]
        rfl
      · obtain ⟨m, b⟩ := config
        cases m <;> cases b <;> rfl
  refine ⟨key c hc, ?_⟩
  obtain ⟨s2, h1, h2, _⟩ := key (timer_sub { tv_sec := 100, tv_usec := 0 } time_window)
    (by decide)
  rw [h1]
  exact (h2 (by decide)).1

theorem scenario_single_packet_tag_witness :
    timeval_normalised { tv_sec := 90, tv_usec := 0 }
    ∧ (∃ s2, flow_record_list_print_json config_exact_bidir 4
          (cache_single_packet config_exact_bidir) (some { tv_sec := 90, tv_usec := 0 }) = .ok s2
      ∧ (21000000 < usec { tv_sec := 90, tv_usec := 0 } →
          s2.output.map expiration_tag = [some 'a']
          ∧ s2.heap 1 = none ∧ s2.flow_record_chrono_first = none)
      ∧ (1000000 < usec { tv_sec := 90, tv_usec := 0 } →
          usec { tv_sec := 90, tv_usec := 0 } ≤ 21000000 →
          s2.output.map expiration_tag = [some 'i']
          ∧ s2.heap 1 = none ∧ s2.flow_record_chrono_first = none)
      ∧ (usec { tv_sec := 90, tv_usec := 0 } ≤ 1000000 →
          s2.output = [] ∧ s2 = cache_single_packet config_exact_bidir))
    ∧ (cache_of (flow_record_list_print_json config_exact_bidir 4
          (cache_single_packet config_exact_bidir)
          (some (timer_sub { tv_sec := 100, tv_usec := 0 } time_window)))).output.map
        expiration_tag = [some 'a'] :=
  ⟨by decide, scenario_single_packet_tag config_exact_bidir { tv_sec := 90, tv_usec := 0 }
    (by decide)⟩

/-! ### Refusal of a twin that is already paired -/

theorem cache_refusal_eq :
    flow_key_get_record config_near_bidir 8
      (cache_pair config_near_bidir key_nat_flow (flow_key_swap key_nat_flow))
      key_third true (some 3) = .ok (cache_refusal, some 3) := rfl

theorem cache_refusal_reachable : Reachable config_near_bidir cache_refusal :=
  Reachable.get_record _ 8 key_third true (some 3) (cache_refusal, some 3)
    (Reachable.get_record _ 4 (flow_key_swap key_nat_flow) true (some 2)
      (cache_pair config_near_bidir key_nat_flow (flow_key_swap key_nat_flow), some 2)
      (Reachable.get_record _ 4 key_nat_flow true (some 1) (_, some 1) Reachable.init rfl) rfl)
    cache_refusal_eq

theorem cache_refusal_bucket :
    is_bucket_list cache_refusal.heap (cache_refusal.flow_record_list_array 844964) [3, 2, 1] :=
  ⟨⟨rfl, some 2, rfl, rfl, some 1, rfl, rfl, none, rfl, rfl⟩, by decide⟩

theorem cache_refusal_chrono : is_chrono_list cache_refusal [1] :=
  ⟨⟨rfl, none, rfl, rfl⟩, by decide, rfl⟩

/-- C14 (evaluation at the failing input): in near mode the records A and B of the keys
1.1.1.1:5000 to 2.2.2.2:80 and 2.2.2.2:80 to 1.1.1.1:5000 are paired; the creating
lookup of 3.3.3.3:80 to 1.1.1.1:5000 creates the record C, finds A as its twin and
refuses the pairing: the twin pointers of A and B are unchanged, but the twin pointer of
C is left pointing to A and C is not appended to the chronological list, which still
holds A alone. -/
theorem twin_refusal_leaves_pointer :
    (twin_of (cache_pair config_near_bidir key_nat_flow (flow_key_swap key_nat_flow)) 1
        = some (some 2)
      ∧ twin_of (cache_pair config_near_bidir key_nat_flow (flow_key_swap key_nat_flow)) 2
        = some (some 1))
    ∧ flow_key_get_record config_near_bidir 8
        (cache_pair config_near_bidir key_nat_flow (flow_key_swap key_nat_flow))
        key_third true (some 3) = .ok (cache_refusal, some 3)
    ∧ (twin_of cache_refusal 1 = some (some 2) ∧ twin_of cache_refusal 2 = some (some 1))
    ∧ twin_of cache_refusal 3 = some (some 1)
    ∧ is_chrono_list cache_refusal [1] :=
  ⟨⟨rfl, rfl⟩, cache_refusal_eq, ⟨rfl, rfl⟩, rfl, cache_refusal_chrono⟩

/-- C15 (evaluation at the failing input): the cache after the creating lookups of
1.1.1.1:5000 to 2.2.2.2:80, 2.2.2.2:80 to 1.1.1.1:5000 and 3.3.3.3:80 to 1.1.1.1:5000 in
near mode is reachable, the records A (address 1) and C (address 3) are in the table,
and the twin pointer of C refers to A while the twin pointer of A refers to B. -/
theorem twin_symmetry_refusal :
    Reachable config_near_bidir cache_refusal
    ∧ in_table cache_refusal 1 ∧ in_table cache_refusal 3
    ∧ twin_of cache_refusal 3 = some (some 1)
    ∧ twin_of cache_refusal 1 = some (some 2)
    ∧ twin_of cache_refusal 1 ≠ some (some 3) :=
  ⟨cache_refusal_reachable,
    ⟨844964, by decide, [3, 2, 1], cache_refusal_bucket, by decide⟩,
    ⟨844964, by decide, [3, 2, 1], cache_refusal_bucket, by decide⟩,
    rfl, rfl, by decide⟩

theorem cache_refusal_flush_eq :
    flow_record_list_print_json config_near_bidir 8 cache_refusal none
      = .ok (cache_of (flow_record_list_print_json config_near_bidir 8 cache_refusal none)) :=
  rfl

/-- C16 (evaluation at the failing input): in the reachable cache after the creating
lookups of 1.1.1.1:5000 to 2.2.2.2:80, 2.2.2.2:80 to 1.1.1.1:5000 and 3.3.3.3:80 to
1.1.1.1:5000 in near mode, the record C (address 3) is in the table and is the twin of
no record, yet the chronological list holds A alone; after a sweep without a cutoff,
which emits one flow and deletes A and B, C is the only record of the table and the
chronological list is empty. -/
theorem chrono_membership_refusal :
    Reachable config_near_bidir cache_refusal
    ∧ in_table cache_refusal 3
    ∧ is_chrono_list cache_refusal [1]
    ∧ twin_of cache_refusal 1 ≠ some (some 3) ∧ twin_of cache_refusal 2 ≠ some (some 3)
    ∧ Reachable config_near_bidir
        (cache_of (flow_record_list_print_json config_near_bidir 8 cache_refusal none))
    ∧ in_table (cache_of (flow_record_list_print_json config_near_bidir 8 cache_refusal none)) 3
    ∧ is_chrono_list
        (cache_of (flow_record_list_print_json config_near_bidir 8 cache_refusal none)) []
    ∧ (cache_of (flow_record_list_print_json config_near_bidir 8 cache_refusal none)).heap 1
        = none
    ∧ (cache_of (flow_record_list_print_json config_near_bidir 8 cache_refusal none)).heap 2
        = none
    ∧ (cache_of (flow_record_list_print_json config_near_bidir 8 cache_refusal none)).output.length
        = 1 :=
  ⟨cache_refusal_reachable,
    ⟨844964, by decide, [3, 2, 1], cache_refusal_bucket, by decide⟩,
    cache_refusal_chrono, by decide, by decide,
    Reachable.print_json _ 8 none _ cache_refusal_reachable cache_refusal_flush_eq,
    ⟨844964, by decide, [3], ⟨⟨rfl, none, rfl, rfl⟩, by decide⟩, by decide⟩,
    ⟨rfl, by decide, rfl⟩, rfl, rfl, rfl⟩

/-! ### Pairing of a new record -/

theorem cache_first_twin_eq :
    flow_key_get_record config_near_bidir 8
      (cache_pair config_near_bidir key_client_one key_client_two)
      (flow_key_swap key_nat_flow) true (some 3) = .ok (cache_first_twin, some 3) := rfl

theorem cache_clients_reachable :
    Reachable config_near_bidir (cache_pair config_near_bidir key_client_one key_client_two) :=
  Reachable.get_record _ 4 key_client_two true (some 2)
    (cache_pair config_near_bidir key_client_one key_client_two, some 2)
    (Reachable.get_record _ 4 key_client_one true (some 1) (_, some 1) Reachable.init rfl) rfl

theorem cache_clients_bucket :
    is_bucket_list (cache_pair config_near_bidir key_client_one key_client_two).heap
      ((cache_pair config_near_bidir key_client_one key_client_two).flow_record_list_array
        844964) [2, 1] :=
  ⟨⟨rfl, some 1, rfl, rfl, none, rfl, rfl⟩, by decide⟩

theorem cache_clients_chrono :
    is_chrono_list (cache_pair config_near_bidir key_client_one key_client_two) [1, 2] :=
  ⟨⟨rfl, some 2, rfl, rfl, none, rfl, rfl⟩, by decide, rfl⟩

/-- C13 (the claim as written fails): in near mode, with bidir set, the table holds the
unpaired records of 3.3.3.3:5000 to 2.2.2.2:80 (address 1) and 1.1.1.1:5000 to
4.4.4.4:80 (address 2); both keys are twins of k = 2.2.2.2:80 to 1.1.1.1:5000. The
creating lookup of k creates the record at the address 3 and pairs it with the record at
the address 2, the first twin in the bucket: the record t at the address 1 is in the
table, differs from the new record, has a twin key of k and no twin, yet the twin
pointer of the new record is not t and the twin pointer of t is still NULL. -/
theorem flow_key_get_record_pairs_counterexample :
    config_near_bidir.bidir = true
    ∧ in_table (cache_pair config_near_bidir key_client_one key_client_two) 1
    ∧ ((cache_pair config_near_bidir key_client_one key_client_two).heap 1).map
        (fun r => flow_key_is_twin config_near_bidir (flow_key_swap key_nat_flow) r.key)
        = some 0
    ∧ twin_of (cache_pair config_near_bidir key_client_one key_client_two) 1 = some none
    ∧ (cache_pair config_near_bidir key_client_one key_client_two).heap 3 = none
    ∧ flow_key_get_record config_near_bidir 8
        (cache_pair config_near_bidir key_client_one key_client_two)
        (flow_key_swap key_nat_flow) true (some 3) = .ok (cache_first_twin, some 3)
    ∧ twin_of cache_first_twin 3 = some (some 2)
    ∧ twin_of cache_first_twin 3 ≠ some (some 1)
    ∧ twin_of cache_first_twin 1 = some none :=
  ⟨rfl, ⟨844964, by decide, [2, 1], cache_clients_bucket, by decide⟩, rfl, rfl, rfl,
    cache_first_twin_eq, rfl, by decide, rfl⟩

theorem list_find_skip (heap : Heap) (test : flow_key → Nat) (a : Nat) (ra : flow_record)
    (l : List Nat) (ha : heap a = some ra) (hne : test ra.key ≠ 0) :
    list_find heap test (a :: l) = list_find heap test l := by
  simp [list_find, ha, hne]

theorem twin_self_eq_swap (config : configuration) (key : flow_key)
    (hm : config.flow_key_match_method = twins_match.exact)
    (hself : flow_key_is_twin config key key ≠ 0) :
    flow_key_is_eq (flow_key_swap key) key ≠ 0 := by
  intro h
  have e := (flow_key_is_eq_zero _ _).1 h
  apply hself
  have := twin_swap_self config key hm
  rw [e] at this
  exact this

theorem get_twin_after_prepend (config : configuration) (s : flow_cache)
    (bl : Nat → List Nat) (key : flow_key) (a : Nat) (fuel : Nat) (heap2 : Heap)
    (hb : buckets_inv config s bl) (ha : s.heap a = none)
    (hself : flow_key_is_twin config key key ≠ 0)
    (hb2 : buckets_inv config
          { flow_record_init s a key with
            heap := heap2
            flow_record_list_array :=
              Function.update (flow_record_init s a key).flow_record_list_array
                (flow_key_hash config key) (some a) }
          (Function.update bl (flow_key_hash config key) (a :: bl (flow_key_hash config key))))
    (hag : heap_agree strip_links heap2 (Function.update s.heap a (some (flow_record_initial key))))
    (h1 : (bl (flow_key_hash config key)).length + 1 ≤ fuel)
    (h2 : (bl (flow_key_hash config (flow_key_swap key))).length + 1 ≤ fuel) :
    flow_key_get_twin config fuel
        { flow_record_init s a key with
            heap := heap2
            flow_record_list_array :=
              Function.update (flow_record_init s a key).flow_record_list_array
                (flow_key_hash config key) (some a) } key
      = flow_key_get_twin config fuel s key := by
  have hlen : ∀ j, (Function.update bl (flow_key_hash config key)
      (a :: bl (flow_key_hash config key)) j).length ≤ (bl j).length + 1 := by
    intro j
    by_cases hj : j = flow_key_hash config key
    · subst hj; simp
    · simp [Function.update_apply, hj]
  rw [flow_key_get_twin_spec config _ _ key fuel hb2 (le_trans (hlen _) h1)
      (le_trans (hlen _) h2),
    flow_key_get_twin_spec config s bl key fuel hb (by omega) (by omega)]
  obtain ⟨ra, hra, era⟩ := heap_agree_live hag a (flow_record_initial key) (by simp)
  have hkey : ra.key = key := strip_links_key era
  have habl : ∀ j, a ∉ bl j := by
    intro j hm
    obtain ⟨r, hr, _⟩ := hb.2.1 j a hm
    rw [ha] at hr; simp at hr
  have hcongr : ∀ (test : flow_key → Nat) (j : Nat),
      list_find heap2 test (bl j) = list_find s.heap test (bl j) := by
    intro test j
    apply list_find_congr
    intro p hp
    have hpa : p ≠ a := fun e => habl j (e ▸ hp)
    have := agree_links_key hag p
    simpa [Function.update_apply, hpa] using this
  have hupd : ∀ (test : flow_key → Nat) (j : Nat), test key ≠ 0 →
      list_find heap2 test (Function.update bl (flow_key_hash config key)
        (a :: bl (flow_key_hash config key)) j) = list_find s.heap test (bl j) := by
    intro test j hne
    by_cases hj : j = flow_key_hash config key
    · subst hj
      rw [Function.update_same, list_find_skip heap2 test a ra _ hra (by rw [hkey]; exact hne)]
      exact hcongr test _
    · rw [Function.update_noteq hj]
      exact hcongr test j
  congr 1
  by_cases hm : config.flow_key_match_method = twins_match.exact
  · rw [if_pos hm, if_pos hm]
    exact hupd _ _ (twin_self_eq_swap config key hm hself)
  · rw [if_neg hm, if_neg hm]
    exact hupd _ _ hself


/-- C13 (amended): in a reachable state with bidir set, let k be a key that is not its
own twin and that no record of the table has, let the allocator return a fresh address
for the new record n, and let t be the record that flow_key_get_twin finds for k (the
first twin in the bucket it searches), with a NULL twin pointer. Then the creating lookup
of k returns n, with n.twin = t and t.twin = n, n differs from t and is not on the
chronological list, and the chronological list is what it was before the call. -/
theorem flow_key_get_record_pairs (config : configuration) (s : flow_cache) (cl : List Nat)
    (key : flow_key) (a t : Nat) (rt : flow_record)
    (hreach : Reachable config s) (hcl : is_chrono_list s cl)
    (hbidir : config.bidir = true) (ha : s.heap a = none)
    (hmiss : ∃ fuel, flow_record_list_find_record_by_key fuel s.heap
        (s.flow_record_list_array (flow_key_hash config key)) key = .ok none)
    (hself : flow_key_is_twin config key key ≠ 0)
    (htwin : ∃ fuel, flow_key_get_twin config fuel s key = .ok (some t))
    (ht : s.heap t = some rt) (htt : rt.twin = none) :
    ∃ n, ∀ fuel, n ≤ fuel → ∃ s2,
      flow_key_get_record config fuel s key true (some a) = .ok (s2, some a)
      ∧ (s2.heap a).map (fun r => r.key) = some key
      ∧ twin_of s2 a = some (some t) ∧ twin_of s2 t = some (some a)
      ∧ a ≠ t ∧ a ∉ cl ∧ is_chrono_list s2 cl := by
  obtain ⟨bl, cl0, hinv⟩ := reachable_cache_inv config s hreach
  have hcl0 : cl = cl0 := is_chrono_list_unique hcl hinv.2.1
  subst hcl0
  obtain ⟨f1, hf1⟩ := hmiss
  obtain ⟨f2, hf2⟩ := htwin
  refine ⟨f1 + f2 + (bl (flow_key_hash config key)).length
    + (bl (flow_key_hash config (flow_key_swap key))).length + 1, ?_⟩
  intro fuel hfuel
  have hfind := find_record_by_key_mono s.heap key f1 fuel _ _ (by omega) hf1
  have hgt := flow_key_get_twin_mono config s key f2 fuel _ (by omega) hf2
  obtain ⟨heap2, hpre, hb2, hag⟩ := create_prepend_buckets config s bl key a hinv.1 ha
  have hgt2 := get_twin_after_prepend config s bl key a fuel heap2 hinv.1 ha hself hb2 hag
    (by omega) (by omega)
  rw [hgt] at hgt2
  obtain ⟨ra, hra, era⟩ := heap_agree_live hag a (flow_record_initial key) (by simp)
  have hat : a ≠ t := by
    intro e
    rw [e, ht] at ha
    simp at ha
  have h21 : ∀ p, p ≠ a → (heap2 p).map strip_links = (s.heap p).map strip_links := by
    intro p hp
    have := hag p
    simpa [Function.update_apply, hp] using this
  obtain ⟨rt2, hrt2, ert2⟩ := map_eq_live (h21 t (Ne.symm hat)) ht
  have hrt2t : rt2.twin = none := by rw [strip_links_twin ert2]; exact htt
  have hacl : a ∉ cl := by
    intro hm
    obtain ⟨r, hr⟩ := mem_chrono_live hinv.2.1 hm
    rw [ha] at hr; simp at hr
  unfold flow_key_get_record
  dsimp only
  rw [hfind]
  dsimp only
  unfold flow_key_get_record_create
  simp only [if_true, ha, Option.isSome_none, Bool.false_eq_true, if_false, hpre]
  unfold flow_key_get_record_pair
  simp only [hbidir, if_true, hgt2, hra]
  unfold flow_key_get_record_link
  simp only [Function.update_same, Function.update_noteq (Ne.symm hat), hrt2, hrt2t, ne_eq,
    not_true_eq_false, if_false]
  refine ⟨_, rfl, ?_, ?_, ?_, hat, hacl, ?_⟩
  · simp [Function.update_noteq hat, strip_links_key era, flow_record_initial]
  · simp [twin_of, Function.update_noteq hat]
  · simp [twin_of]
  · refine ⟨Dll_congr _ _ _ ?_ hinv.2.1.1, hinv.2.1.2.1, hinv.2.1.2.2⟩
    intro p hp
    have hpa : p ≠ a := fun e => hacl (e ▸ hp)
    by_cases hpt : p = t
    · subst hpt
      simp only [chrono_link, Function.update_same, ht, Option.map_some']
      rw [strip_links_time_prev ert2, strip_links_time_next ert2]
    · simp only [chrono_link, Function.update_noteq hpt, Function.update_noteq hpa]
      have h2 := congrArg (Option.map (fun r : flow_record => (r.time_prev, r.time_next)))
        (h21 p hpa)
      simpa [Option.map_map, Function.comp_def, strip_links] using h2

theorem flow_key_get_record_pairs_witness :
    Reachable config_near_bidir (cache_pair config_near_bidir key_client_one key_client_two)
    ∧ is_chrono_list (cache_pair config_near_bidir key_client_one key_client_two) [1, 2]
    ∧ ∃ n, ∀ fuel, n ≤ fuel → ∃ s2,
      flow_key_get_record config_near_bidir fuel
        (cache_pair config_near_bidir key_client_one key_client_two)
        (flow_key_swap key_nat_flow) true (some 3) = .ok (s2, some 3)
      ∧ (s2.heap 3).map (fun r => r.key) = some (flow_key_swap key_nat_flow)
      ∧ twin_of s2 3 = some (some 2) ∧ twin_of s2 2 = some (some 3)
      ∧ 3 ≠ 2 ∧ 3 ∉ [1, 2] ∧ is_chrono_list s2 [1, 2] :=
  ⟨cache_clients_reachable, cache_clients_chrono,
    flow_key_get_record_pairs config_near_bidir _ [1, 2] (flow_key_swap key_nat_flow) 3 2 _
      cache_clients_reachable cache_clients_chrono rfl rfl ⟨4, rfl⟩ (by decide) ⟨4, rfl⟩
      rfl rfl⟩

/-! ### Chronological order -/

theorem flow_key_get_record_create_chrono (config : configuration) (s : flow_cache)
    (bl : Nat → List Nat) (cl : List Nat) (key : flow_key) (fuel : Nat) (a : Nat)
    (hinv : cache_inv config s bl cl) (ha : s.heap a = none)
    (h1 : (bl (flow_key_hash config key)).length + 1 ≤ fuel)
    (h2 : (bl (flow_key_hash config (flow_key_swap key))).length + 1 ≤ fuel) :
    ∃ res cl2, flow_key_get_record_create config fuel s key (flow_key_hash config key)
        true (some a) = .ok res
      ∧ cache_inv config res.1
          (Function.update bl (flow_key_hash config key) (a :: bl (flow_key_hash config key))) cl2
      ∧ (cl2 = cl ∨ cl2 = cl ++ [a]) := by
  unfold flow_key_get_record_create
  simp only [if_true]
  obtain ⟨heap2, hpre, hinv2, ⟨ra, hra, era⟩, hacl⟩ :=
    create_prepend_spec config s bl cl key a hinv ha
  simp only [ha, Option.isSome_none, Bool.false_eq_true, if_false, hpre]
  have hlen : ∀ j, (Function.update bl (flow_key_hash config key)
      (a :: bl (flow_key_hash config key)) j).length ≤ (bl j).length + 1 := by
    intro j
    by_cases hj : j = flow_key_hash config key
    · subst hj; simp
    · simp [Function.update_apply, hj]
  obtain ⟨res, cl2, hres, hinv3, _, hcl2⟩ :=
    flow_key_get_record_pair_spec config _ _ cl key fuel a ra hinv2 hra
      (by rw [strip_links_twin era]; rfl) hacl
      (le_trans (hlen _) h1) (le_trans (hlen _) h2)
  exact ⟨res, cl2, hres, hinv3, hcl2⟩


theorem created_inv_shrink (config : configuration) (s s1 : flow_cache)
    (created : List Nat) (cl : List Nat) (bl1 : Nat → List Nat) (cl1 : List Nat)
    (hc : created_inv config s created) (hcl : is_chrono_list s cl)
    (hinv1 : cache_inv config s1 bl1 cl1) (hsub : cl1.Sublist cl)
    (hdead : ∀ p, s.heap p = none → s1.heap p = none) :
    created_inv config s1 (still_allocated s1.heap created) := by
  obtain ⟨hnd, hmem, bl, cl0, hinv, hsub0⟩ := hc
  have e : cl = cl0 := is_chrono_list_unique hcl hinv.2.1
  subst e
  refine ⟨hnd.filter _, ?_, bl1, cl1, hinv1, ?_⟩
  · intro p
    unfold still_allocated
    rw [List.mem_filter, hmem]
    constructor
    · exact fun h => h.2
    · intro h
      refine ⟨?_, h⟩
      cases hp : s.heap p with
      | none => rw [hdead p hp] at h; simp at h
      | some r => rfl
  · have h1 : cl1.filter (fun p => (s1.heap p).isSome) = cl1 := by
      rw [List.filter_eq_self]
      intro p hp
      obtain ⟨r, hr⟩ := mem_chrono_live hinv1.2.1 hp
      rw [hr]; rfl
    rw [← h1]
    exact (hsub.trans hsub0).filter _

theorem created_inv_print_and_delete (config : configuration) (s s1 : flow_cache)
    (created : List Nat) (cl : List Nat) (record : Nat)
    (hc : created_inv config s created) (hcl : is_chrono_list s cl) (hr : record ∈ cl)
    (h : flow_record_print_and_delete config s record = .ok s1) :
    created_inv config s1 (still_allocated s1.heap created) := by
  obtain ⟨bl, cl0, hinv, _⟩ := hc.2.2
  have e : cl = cl0 := is_chrono_list_unique hcl hinv.2.1
  subst e
  obtain ⟨s4, bl4, hpd, hinv4, _, hdd, _⟩ :=
    flow_record_print_and_delete_spec config s bl cl record hinv hr
  rw [h] at hpd
  have e2 : s1 = s4 := Except.ok.inj hpd
  subst e2
  exact created_inv_shrink config s s1 created cl bl4 _ hc hcl hinv4 (List.erase_sublist _ _) hdd

theorem created_inv_print_json (config : configuration) (s s1 : flow_cache)
    (created : List Nat) (fuel : Nat) (inactive_cutoff : Option timeval)
    (hc : created_inv config s created)
    (h : flow_record_list_print_json config fuel s inactive_cutoff = .ok s1) :
    created_inv config s1 (still_allocated s1.heap created) := by
  obtain ⟨bl, cl, hinv, _⟩ := hc.2.2
  have h2 := flow_record_list_print_json_mono config inactive_cutoff fuel (fuel + cl.length)
    s s1 (by omega) h
  obtain ⟨s2, bl2, cl2, hpj, hinv2, _, hsub, hdd⟩ :=
    flow_record_list_print_json_spec config inactive_cutoff (fuel + cl.length) s bl cl hinv
      (by omega)
  rw [h2] at hpj
  have e2 : s1 = s2 := Except.ok.inj hpj
  subst e2
  exact created_inv_shrink config s s1 created cl bl2 cl2 hc hinv.2.1 hinv2 hsub hdd

theorem buckets_live_iff {config : configuration} {s : flow_cache} {bl : Nat → List Nat}
    (hb : buckets_inv config s bl) (p : Nat) :
    (s.heap p).isSome = true ↔ ∃ i, p ∈ bl i := by
  constructor
  · intro h
    cases hp : s.heap p with
    | none => rw [hp] at h; simp at h
    | some r => exact ⟨_, hb.2.2 p r hp⟩
  · rintro ⟨i, hi⟩
    obtain ⟨r, hr, _⟩ := hb.2.1 i p hi
    rw [hr]; rfl

theorem created_inv_create (config : configuration) (s : flow_cache)
    (created : List Nat) (fuel : Nat) (key : flow_key) (create_new_records : Bool)
    (malloc : Option Nat) (res : flow_cache × Option Nat)
    (hc : created_inv config s created)
    (h : flow_key_get_record_create config fuel s key (flow_key_hash config key)
        create_new_records malloc = .ok res) :
    created_inv config res.1 (created_after_create create_new_records malloc created) := by
  obtain ⟨hnd, hmem, bl, cl, hinv, hsub⟩ := hc
  cases create_new_records with
  | false =>
    unfold flow_key_get_record_create at h
    have e : (s, (none : Option Nat)) = res := by simpa using h
    subst e
    exact ⟨hnd, hmem, bl, cl, hinv, hsub⟩
  | true =>
    cases malloc with
    | none =>
      unfold flow_key_get_record_create at h
      simp only [if_true] at h
      have e := Except.ok.inj h
      subst e
      exact ⟨hnd, hmem, bl, cl,
        cache_inv_congr (s := s) (heap_agree_refl _ _) rfl rfl rfl hinv, hsub⟩
    | some a =>
      have ha : s.heap a = none := by
        cases hsa : s.heap a with
        | none => rfl
        | some x =>
          unfold flow_key_get_record_create at h
          simp [hsa] at h
      have h2 := flow_key_get_record_create_mono config s key _ true (some a) fuel
        (fuel + (bl (flow_key_hash config key)).length
          + (bl (flow_key_hash config (flow_key_swap key))).length + 1) res (by omega) h
      obtain ⟨res2, cl2, hres, hinv2, hcl2⟩ :=
        flow_key_get_record_create_chrono config s bl cl key
          (fuel + (bl (flow_key_hash config key)).length
            + (bl (flow_key_hash config (flow_key_swap key))).length + 1) a hinv ha
          (by omega) (by omega)
      rw [h2] at hres
      have e : res = res2 := Except.ok.inj hres
      subst e
      have hac : a ∉ created := by
        intro hm
        have := (hmem a).1 hm
        rw [ha] at this
        simp at this
      refine ⟨?_, ?_, _, cl2, hinv2, ?_⟩
      · simp only [created_after_create, if_true]
        exact List.Nodup.append hnd (List.nodup_singleton a)
          (by simpa using hac)
      · intro p
        simp only [created_after_create, if_true]
        rw [buckets_live_iff hinv2.1 p, List.mem_append, hmem p, buckets_live_iff hinv.1 p]
        constructor
        · rintro (⟨i, hi⟩ | hp)
          · by_cases hj : i = flow_key_hash config key
            · subst hj
              exact ⟨_, by rw [Function.update_same]; exact List.mem_cons_of_mem _ hi⟩
            · exact ⟨i, by rw [Function.update_noteq hj]; exact hi⟩
          · have : p = a := by simpa using hp
            subst this
            exact ⟨_, by rw [Function.update_same]; exact List.mem_cons_self _ _⟩
        · rintro ⟨i, hi⟩
          by_cases hj : i = flow_key_hash config key
          · subst hj
            rw [Function.update_same] at hi
            rcases List.mem_cons.mp hi with e | e
            · right; simp [e]
            · left; exact ⟨_, e⟩
          · rw [Function.update_noteq hj] at hi
            left; exact ⟨i, hi⟩
      · simp only [created_after_create, if_true]
        rcases hcl2 with e | e
        · rw [e]
          exact List.sublist_append_of_sublist_left hsub
        · rw [e]
          exact List.Sublist.append hsub (List.Sublist.refl _)


theorem created_inv_get_record (config : configuration) (s : flow_cache)
    (created : List Nat) (fuel : Nat) (key : flow_key) (create_new_records : Bool)
    (malloc : Option Nat) (res : flow_cache × Option Nat)
    (hc : created_inv config s created)
    (h : flow_key_get_record config fuel s key create_new_records malloc = .ok res) :
    created_inv config res.1
      (flow_key_get_record_created config fuel s key create_new_records malloc created) := by
  obtain ⟨bl, cl, hinv, _⟩ := hc.2.2
  unfold flow_key_get_record at h
  unfold flow_key_get_record_created
  dsimp only at h ⊢
  cases hfind : flow_record_list_find_record_by_key fuel s.heap
      (s.flow_record_list_array (flow_key_hash config key)) key with
  | error e => rw [hfind] at h; simp at h
  | ok found =>
    rw [hfind] at h
    cases found with
    | none =>
      dsimp only at h ⊢
      exact created_inv_create config s created fuel key create_new_records malloc res hc h
    | some r =>
      dsimp only at h ⊢
      cases create_new_records with
      | false =>
        simp only [Bool.false_eq_true, if_false] at h ⊢
        have e := Except.ok.inj h
        subst e
        exact hc
      | true =>
        simp only [if_true] at h ⊢
        cases hin : flow_record_is_in_chrono_list s.heap r with
        | error e => rw [hin] at h; simp at h
        | ok in_chrono =>
          rw [hin] at h
          dsimp only at h ⊢
          by_cases hc0 : in_chrono = 0
          · simp only [hc0, ne_eq, not_true_eq_false, if_false] at h ⊢
            have e := Except.ok.inj h
            subst e
            exact hc
          · simp only [ne_eq, hc0, not_false_eq_true, if_true] at h ⊢
            cases hpa : flow_record_is_past_active_expiration s.heap r with
            | error e => rw [hpa] at h; simp at h
            | ok past =>
              rw [hpa] at h
              dsimp only at h ⊢
              by_cases hp0 : past = 0
              · simp only [hp0, ne_eq, not_true_eq_false, if_false] at h ⊢
                have e := Except.ok.inj h
                subst e
                exact hc
              · simp only [ne_eq, hp0, not_false_eq_true, if_true] at h ⊢
                cases hpd : flow_record_print_and_delete config s r with
                | error e => rw [hpd] at h; simp at h
                | ok s1 =>
                  rw [hpd] at h
                  dsimp only at h ⊢
                  have hrcl : r ∈ cl := by
                    by_contra hn
                    unfold flow_record_is_in_chrono_list at hin
                    cases hrr : s.heap r with
                    | none => rw [hrr] at hin; simp at hin
                    | some rr =>
                      rw [hrr] at hin
                      obtain ⟨h3, h4⟩ := hinv.2.2.1 r rr hrr hn
                      simp only [h3, h4, ne_eq, not_true_eq_false, or_self, if_false] at hin
                      exact hc0 (Except.ok.inj hin).symm
                  have hc1 := created_inv_print_and_delete config s s1 created cl r hc
                    hinv.2.1 hrcl hpd
                  exact created_inv_create config s1 _ fuel key true malloc res hc1 h

theorem created_inv_of_created (config : configuration) (s : flow_cache)
    (created : List Nat) (h : Created config s created) : created_inv config s created := by
  induction h with
  | init =>
    exact ⟨List.nodup_nil, fun p => by simp [flow_record_list_init, flow_cache_start],
      _, _, cache_inv_init config, List.Sublist.refl _⟩
  | get_record s created fuel key create_new_records malloc res _ hres ih =>
    exact created_inv_get_record config s created fuel key create_new_records malloc res ih hres
  | print_and_delete s created record cl s1 _ hcl hmem hres ih =>
    exact created_inv_print_and_delete config s s1 created cl record ih hcl hmem hres
  | print_json s created fuel inactive_cutoff s1 _ hres ih =>
    exact created_inv_print_json config s s1 created fuel inactive_cutoff ih hres

theorem created_of_reachable (config : configuration) (s : flow_cache)
    (h : Reachable config s) : ∃ created, Created config s created := by
  induction h with
  | init => exact ⟨[], Created.init⟩
  | get_record s fuel key create_new_records malloc res _ hres ih =>
    obtain ⟨created, hc⟩ := ih
    exact ⟨_, Created.get_record s created fuel key create_new_records malloc res hc hres⟩
  | print_and_delete s record cl s1 _ hcl hmem hres ih =>
    obtain ⟨created, hc⟩ := ih
    exact ⟨_, Created.print_and_delete s created record cl s1 hc hcl hmem hres⟩
  | print_json s fuel inactive_cutoff s1 _ hres ih =>
    obtain ⟨created, hc⟩ := ih
    exact ⟨_, Created.print_json s created fuel inactive_cutoff s1 hc hres⟩

theorem reachable_of_created (config : configuration) (s : flow_cache)
    (created : List Nat) (h : Created config s created) : Reachable config s := by
  induction h with
  | init => exact Reachable.init
  | get_record s created fuel key create_new_records malloc res _ hres ih =>
    exact Reachable.get_record s fuel key create_new_records malloc res ih hres
  | print_and_delete s created record cl s1 _ hcl hmem hres ih =>
    exact Reachable.print_and_delete s record cl s1 ih hcl hmem hres
  | print_json s created fuel inactive_cutoff s1 _ hres ih =>
    exact Reachable.print_json s fuel inactive_cutoff s1 ih hres

/-- C17: flow_record_chrono_list_append puts a record at the tail of the chronological
list and flow_record_chrono_list_remove keeps the order of the remaining records; every
state reached from the empty cache by calls of flow_key_get_record,
flow_record_print_and_delete and flow_record_list_print_json has a list of its allocated
records in the order of their creation, and for every such list the chronological list
is a sublist of it: iterating from flow_record_chrono_first visits records from the
oldest created to the newest. -/
theorem chrono_list_creation_order (config : configuration) (s : flow_cache)
    (h : Reachable config s) :
    (∃ created, Created config s created)
    ∧ (∀ created, Created config s created →
        created.Nodup ∧ (∀ p, p ∈ created ↔ (s.heap p).isSome = true)
        ∧ ∃ cl, is_chrono_list s cl ∧ cl.Sublist created)
    ∧ (∀ cl p rp, is_chrono_list s cl → s.heap p = some rp → rp.time_next = none →
        rp.time_prev = none → p ∉ cl →
        ∃ s2, flow_record_chrono_list_append s p = .ok s2 ∧ is_chrono_list s2 (cl ++ [p]))
    ∧ (∀ l1 r l2, is_chrono_list s (l1 ++ r :: l2) →
        ∃ s2, flow_record_chrono_list_remove s (some r) = .ok s2
          ∧ is_chrono_list s2 (l1 ++ l2)) := by
  refine ⟨created_of_reachable config s h, ?_, ?_, ?_⟩
  · intro created hc
    obtain ⟨hnd, hmem, bl, cl, hinv, hsub⟩ := created_inv_of_created config s created hc
    exact ⟨hnd, hmem, cl, hinv.2.1, hsub⟩
  · intro cl p rp hcl hp hn hpv hpl
    obtain ⟨s2, happ, hl2, _⟩ :=
      flow_record_chrono_list_append_spec s cl p rp hcl hp hn hpv hpl
    exact ⟨s2, happ, hl2⟩
  · intro l1 r l2 hcl
    obtain ⟨s2, hrem, hl2, _⟩ := flow_record_chrono_list_remove_spec s l1 r l2 hcl
    exact ⟨s2, hrem, hl2⟩

theorem cache_two_created :
    Created config_exact_bidir (cache_two config_exact_bidir) [1, 2] :=
  Created.get_record _ [1] 4 (flow_key_swap key_forward) true (some 2)
    (cache_two config_exact_bidir, some 2)
    (Created.get_record _ [] 4 key_forward true (some 1) (cache_one config_exact_bidir, some 1)
      Created.init (cache_one_eq config_exact_bidir))
    (cache_two_eq config_exact_bidir)

theorem chrono_list_creation_order_witness :
    Reachable config_exact_bidir (cache_two config_exact_bidir)
    ∧ Created config_exact_bidir (cache_two config_exact_bidir) [1, 2]
    ∧ is_chrono_list (cache_two config_exact_bidir) [1]
    ∧ (∃ created, Created config_exact_bidir (cache_two config_exact_bidir) created)
    ∧ (∀ created, Created config_exact_bidir (cache_two config_exact_bidir) created →
        created.Nodup
        ∧ (∀ p, p ∈ created ↔ ((cache_two config_exact_bidir).heap p).isSome = true)
        ∧ ∃ cl, is_chrono_list (cache_two config_exact_bidir) cl ∧ cl.Sublist created)
    ∧ (∀ cl p rp, is_chrono_list (cache_two config_exact_bidir) cl →
        (cache_two config_exact_bidir).heap p = some rp → rp.time_next = none →
        rp.time_prev = none → p ∉ cl →
        ∃ s2, flow_record_chrono_list_append (cache_two config_exact_bidir) p = .ok s2
          ∧ is_chrono_list s2 (cl ++ [p]))
    ∧ (∀ l1 r l2, is_chrono_list (cache_two config_exact_bidir) (l1 ++ r :: l2) →
        ∃ s2, flow_record_chrono_list_remove (cache_two config_exact_bidir) (some r) = .ok s2
          ∧ is_chrono_list s2 (l1 ++ l2)) :=
  ⟨cache_two_reachable config_exact_bidir, cache_two_created,
    ⟨⟨rfl, none, rfl, rfl⟩, by decide, rfl⟩,
    chrono_list_creation_order config_exact_bidir _ (cache_two_reachable config_exact_bidir)⟩

/-! ### The active check of the lookup -/

/-- C21 (the claim as written fails): for the record at the address 1 of
active_pair_heap, end - start is 31 s, more than active_max, but for its twin end - start
is 0 s; flow_record_is_past_active_expiration returns 1. For the unpaired record of
half_second_heap, end - start is 30.5 s, more than active_max, and the function
returns 0. -/
theorem flow_record_is_past_active_expiration_counterexample :
    ((active_pair_heap 1).map (fun r => usec r.end_ - usec r.start) = some 31000000
      ∧ (active_pair_heap 1).map (fun r => r.twin) = some (some 2)
      ∧ (active_pair_heap 2).map (fun r => usec r.end_ - usec r.start) = some 0
      ∧ value_of (flow_record_is_past_active_expiration active_pair_heap 1) = some 1)
    ∧ ((half_second_heap 1).map (fun r => usec r.end_ - usec r.start) = some 30500000
      ∧ (half_second_heap 1).map (fun r => r.twin) = some none
      ∧ (30500000 : Int) > active_max * 1000000
      ∧ value_of (flow_record_is_past_active_expiration half_second_heap 1) = some 0) := by
  refine ⟨⟨by decide, rfl, by decide, rfl⟩, by decide, rfl, by decide, rfl⟩

/-- C21 (amended): for a record r whose twin pointer, when set, refers to an allocated
record t, flow_record_is_past_active_expiration returns, and its value is non-zero
exactly when the seconds of r.end exceed the seconds of r.start by more than active_max
(30) and, when t exists, the seconds of r.end also exceed the seconds of t.start by more
than active_max; microseconds are not compared and t.end is not read. -/
theorem flow_record_is_past_active_expiration_iff (heap : Heap) (p : Nat) (r : flow_record)
    (hr : heap p = some r) (hv : r.twin ≠ none → twin_record heap r ≠ none) :
    active_max = 30
    ∧ ∃ v, flow_record_is_past_active_expiration heap p = .ok v
      ∧ (v ≠ 0 ↔ r.end_.tv_sec > r.start.tv_sec + active_max
          ∧ ∀ rt ∈ twin_record heap r, r.end_.tv_sec > rt.start.tv_sec + active_max) := by
  refine ⟨rfl, ?_⟩
  unfold flow_record_is_past_active_expiration
  simp only [hr]
  by_cases h1 : r.end_.tv_sec > r.start.tv_sec + active_max
  · rw [if_pos h1]
    cases htw : r.twin with
    | none =>
      refine ⟨1, rfl, fun _ => ⟨h1, ?_⟩, fun _ => by decide⟩
      intro rt hrt
      simp [twin_record, htw] at hrt
    | some t =>
      have hv2 := hv (by rw [htw]; simp)
      simp only [twin_record, htw, Option.some_bind] at hv2
      cases ht : heap t with
      | none => exact absurd ht hv2
      | some rt =>
        simp only [twin_record, htw, Option.some_bind, ht, Option.mem_def, Option.some.injEq,
          forall_eq']
        by_cases h2 : r.end_.tv_sec > rt.start.tv_sec + active_max
        · rw [if_pos h2]
          exact ⟨1, rfl, fun _ => ⟨h1, h2⟩, fun _ => by decide⟩
        · rw [if_neg h2]
          exact ⟨0, rfl, fun h => absurd rfl h, fun h => absurd h.2 h2⟩
  · rw [if_neg h1]
    exact ⟨0, rfl, fun h => absurd rfl h, fun h => absurd h.1 h1⟩

theorem flow_record_is_past_active_expiration_iff_witness :
    active_pair_heap 1 = some { flow_record_initial key_forward with
             start := { tv_sec := 0, tv_usec := 0 }, end_ := { tv_sec := 31, tv_usec := 0 },
             twin := some 2 }
    ∧ active_max = 30
    ∧ ∃ v, flow_record_is_past_active_expiration active_pair_heap 1 = .ok v
      ∧ (v ≠ 0 ↔ (31 : Int) > 0 + active_max
          ∧ ∀ rt ∈ twin_record active_pair_heap
              { flow_record_initial key_forward with
                start := { tv_sec := 0, tv_usec := 0 }, end_ := { tv_sec := 31, tv_usec := 0 },
                twin := some 2 },
            (31 : Int) > rt.start.tv_sec + active_max) :=
  ⟨rfl, flow_record_is_past_active_expiration_iff active_pair_heap 1 _ rfl
    (fun _ h => by cases h)⟩


/-- C22 (evaluation at the failing input): the cache holds one record, of key_forward, at
the address 1; it is the only element of the chronological list and it is past active
expiration, but flow_record_is_in_chrono_list returns 0 for it, and the creating lookup
of key_forward returns this record: nothing is emitted, nothing is created, and the
counters of the record are not those of a new record. -/
theorem lookup_single_chrono_record :
    is_chrono_list (aged (cache_one config_exact_bidir)) [1]
    ∧ (((aged (cache_one config_exact_bidir)).heap 1).map (fun r => r.key) = some key_forward)
    ∧ value_of (flow_record_is_past_active_expiration
        (aged (cache_one config_exact_bidir)).heap 1) = some 1
    ∧ value_of (flow_record_is_in_chrono_list (aged (cache_one config_exact_bidir)).heap 1)
        = some 0
    ∧ returned (flow_key_get_record config_exact_bidir 4 (aged (cache_one config_exact_bidir))
        key_forward true (some 2)) = some (some 1)
    ∧ (state_of (flow_key_get_record config_exact_bidir 4 (aged (cache_one config_exact_bidir))
        key_forward true (some 2))).output = []
    ∧ (state_of (flow_key_get_record config_exact_bidir 4 (aged (cache_one config_exact_bidir))
        key_forward true (some 2))).heap 2 = none
    ∧ counters_of (state_of (flow_key_get_record config_exact_bidir 4
        (aged (cache_one config_exact_bidir)) key_forward true (some 2))) 1
        = some (2, 2, 100) :=
  ⟨⟨⟨rfl, none, rfl, rfl⟩, by decide, rfl⟩, rfl, rfl, rfl, rfl, rfl, rfl, rfl⟩

/-- C23 (evaluation at the failing input): the cache holds the unpaired records of
key_forward (address 1, past active expiration) and key_nat_flow (address 2), both on
the chronological list. The creating lookup of key_forward emits the record at the
address 1 through the active-expiration path, deletes it and returns a new record at
the address 3; the emission has exp_type 0, so that no expiration tag is printed. -/
theorem lookup_expiration_tag :
    is_chrono_list (aged (cache_pair config_exact_bidir key_forward key_nat_flow)) [1, 2]
    ∧ value_of (flow_record_is_past_active_expiration
        (aged (cache_pair config_exact_bidir key_forward key_nat_flow)).heap 1) = some 1
    ∧ value_of (flow_record_is_in_chrono_list
        (aged (cache_pair config_exact_bidir key_forward key_nat_flow)).heap 1) = some 1
    ∧ returned (flow_key_get_record config_exact_bidir 4
        (aged (cache_pair config_exact_bidir key_forward key_nat_flow))
        key_forward true (some 3)) = some (some 3)
    ∧ (state_of (flow_key_get_record config_exact_bidir 4
        (aged (cache_pair config_exact_bidir key_forward key_nat_flow))
        key_forward true (some 3))).heap 1 = none
    ∧ (state_of (flow_key_get_record config_exact_bidir 4
        (aged (cache_pair config_exact_bidir key_forward key_nat_flow))
        key_forward true (some 3))).output.map (fun e => (e.record.key, e.rec_.exp_type))
        = [(key_forward, 0)]
    ∧ (state_of (flow_key_get_record config_exact_bidir 4
        (aged (cache_pair config_exact_bidir key_forward key_nat_flow))
        key_forward true (some 3))).output.map expiration_tag = [none]
    ∧ (none : Option Char) ≠ some 'a' :=
  ⟨⟨⟨rfl, some 2, rfl, rfl, none, rfl, rfl⟩, by decide, rfl⟩, rfl, rfl, rfl, rfl, rfl, rfl,
    by decide⟩

/-- C25 (evaluation at the failing input): the cache cache_refusal is reached from the
empty cache by three creating lookups in near mode; the full sweep
flow_record_list_print_json(NULL) returns and leaves the chronological list empty, but
the record at the address 3 is still in the table and num_records_in_table is 1. -/
theorem full_sweep_leaves_record :
    Reachable config_near_bidir cache_refusal
    ∧ flow_record_list_print_json config_near_bidir 8 cache_refusal none
      = .ok (cache_of (flow_record_list_print_json config_near_bidir 8 cache_refusal none))
    ∧ is_chrono_list
        (cache_of (flow_record_list_print_json config_near_bidir 8 cache_refusal none)) []
    ∧ in_table (cache_of (flow_record_list_print_json config_near_bidir 8 cache_refusal none)) 3
    ∧ (cache_of (flow_record_list_print_json config_near_bidir 8 cache_refusal none)).stats.num_records_in_table
        = 1 :=
  ⟨cache_refusal_reachable, cache_refusal_flush_eq, ⟨rfl, by decide, rfl⟩,
    ⟨844964, by decide, [3], ⟨⟨rfl, none, rfl, rfl⟩, by decide⟩, by decide⟩, rfl⟩


/-! ### Emission -/

/-- C29 (evaluation at the failing input): in scenario 2 the record at the address 1 has
the end 1.000000 and its twin the end 1.100000; flow_record_print_json prints te =
1.000000, the earlier of the two ends. -/
theorem emission_end_time_pair :
    (cache_scenario_two.heap 1).map (fun r => (r.end_, r.twin))
        = some ({ tv_sec := 1, tv_usec := 0 }, some 2)
    ∧ (cache_scenario_two.heap 2).map (fun r => r.end_)
        = some { tv_sec := 1, tv_usec := 100000 }
    ∧ (cache_of (flow_record_print_json cache_scenario_two 1)).output.map
        (fun e => (flow_record_print_json_flow e).te) = [{ tv_sec := 1, tv_usec := 0 }]
    ∧ usec { tv_sec := 1, tv_usec := 0 }
        < max (usec { tv_sec := 1, tv_usec := 0 }) (usec { tv_sec := 1, tv_usec := 100000 }) :=
  ⟨rfl, rfl, rfl, by decide⟩

/-- C28: flow_record_print_json, for a record r whose twin pointer and whose twin's twin
pointer are NULL or valid, returns and logs one emission. For an unpaired r it prints
ts = r.start with r as primary. For r with twin t it prints ts = min(r.start, t.start),
and the primary is r when r started strictly earlier and t otherwise, so that the
primary has the earlier start; the printed key, ob, op and ottl are those of the primary
(op is its counter np) and ib, ip and ittl those of the twin of the primary. -/
theorem flow_record_print_json_primary (s : flow_cache) (r : Nat) (rr : flow_record)
    (hr : s.heap r = some rr) (hv : rr.twin ≠ none → twin_record s.heap rr ≠ none)
    (hvt : ∀ rt ∈ twin_record s.heap rr, rt.twin ≠ none → twin_record s.heap rt ≠ none)
    (hn : timeval_normalised rr.start)
    (hnt : ∀ rt ∈ twin_record s.heap rr, timeval_normalised rt.start) :
    ∃ e, flow_record_print_json s r
        = .ok { s with stats := flocap_stats_incr_records_output s.stats
                       records_in_file := s.records_in_file + 1
                       output := s.output ++ [e] }
      ∧ e.record = rr
      ∧ (rr.twin = none → e.ts_start = rr.start ∧ e.rec_ = rr ∧ e.rec_twin = none)
      ∧ (∀ rt ∈ twin_record s.heap rr,
          usec e.ts_start = min (usec rr.start) (usec rt.start)
          ∧ usec e.rec_.start = min (usec rr.start) (usec rt.start)
          ∧ (usec rr.start < usec rt.start → e.rec_ = rr ∧ e.ts_start = rr.start)
          ∧ (usec rt.start ≤ usec rr.start → e.rec_ = rt ∧ e.ts_start = rt.start))
      ∧ e.rec_twin = twin_record s.heap e.rec_
      ∧ (flow_record_print_json_flow e).ts = e.ts_start
      ∧ ((flow_record_print_json_flow e).sa = e.rec_.key.sa
        ∧ (flow_record_print_json_flow e).da = e.rec_.key.da
        ∧ (flow_record_print_json_flow e).pr = e.rec_.key.prot
        ∧ (flow_record_print_json_flow e).sp = e.rec_.key.sp
        ∧ (flow_record_print_json_flow e).dp = e.rec_.key.dp)
      ∧ (flow_record_print_json_flow e).ob = e.rec_.ob
      ∧ (flow_record_print_json_flow e).op = e.rec_.np
      ∧ (flow_record_print_json_flow e).ottl = e.rec_.ttl
      ∧ (flow_record_print_json_flow e).ib = e.rec_twin.map (fun t => t.ob)
      ∧ (flow_record_print_json_flow e).ip = e.rec_twin.map (fun t => t.np)
      ∧ (flow_record_print_json_flow e).ittl = e.rec_twin.map (fun t => t.ttl) := by
  unfold flow_record_print_json
  simp only [hr]
  cases htw : rr.twin with
  | none =>
    refine ⟨_, rfl, rfl, fun _ => ⟨rfl, rfl, rfl⟩, ?_, ?_, rfl, ⟨rfl, rfl, rfl, rfl, rfl⟩,
      rfl, rfl, rfl, rfl, rfl, rfl⟩
    · intro rt hrt
      simp [twin_record, htw] at hrt
    · simp [twin_record, htw]
  | some t =>
    have hv2 := hv (by rw [htw]; simp)
    simp only [twin_record, htw, Option.some_bind] at hv2 hnt hvt
    cases ht : s.heap t with
    | none => exact absurd ht hv2
    | some rt =>
      simp only [ht, Option.mem_def, Option.some.injEq, forall_eq'] at hnt hvt
      have hlt := timer_lt_iff rr.start rt.start hn hnt
      simp only [twin_record, htw, Option.some_bind, ht, Option.mem_def, Option.some.injEq,
        forall_eq']
      by_cases h1 : timer_lt rr.start rt.start = true
      · have h1u := hlt.1 h1
        simp only [h1, if_true]
        refine ⟨_, rfl, rfl, fun h => by simp at h, ⟨?_, ?_, fun _ => ⟨rfl, rfl⟩,
          fun h => by omega⟩, ?_, rfl, ⟨rfl, rfl, rfl, rfl, rfl⟩, rfl, rfl, rfl, rfl, rfl, rfl⟩
        · exact (min_eq_left (le_of_lt h1u)).symm
        · exact (min_eq_left (le_of_lt h1u)).symm
        · simp [htw, ht]
      · have h1u : ¬ usec rr.start < usec rt.start := fun h => h1 (hlt.2 h)
        simp only [h1, if_false, Bool.false_eq_true]
        cases htt : rt.twin with
        | none =>
          refine ⟨_, rfl, rfl, fun h => by simp at h, ⟨?_, ?_, fun h => absurd h h1u,
            fun _ => ⟨rfl, rfl⟩⟩, ?_, rfl, ⟨rfl, rfl, rfl, rfl, rfl⟩, rfl, rfl, rfl, rfl, rfl,
            rfl⟩
          · exact (min_eq_right (not_lt.mp h1u)).symm
          · exact (min_eq_right (not_lt.mp h1u)).symm
          · simp [htt]
        | some tt =>
          have hv3 := hvt (by rw [htt]; simp)
          simp only [htt, Option.some_bind] at hv3
          cases h3 : s.heap tt with
          | none => exact absurd h3 hv3
          | some rtt =>
            simp only [h3]
            refine ⟨_, rfl, rfl, fun h => by simp at h, ⟨?_, ?_, fun h => absurd h h1u,
              fun _ => ⟨rfl, rfl⟩⟩, ?_, rfl, ⟨rfl, rfl, rfl, rfl, rfl⟩, rfl, rfl, rfl, rfl,
              rfl, rfl⟩
            · exact (min_eq_right (not_lt.mp h1u)).symm
            · exact (min_eq_right (not_lt.mp h1u)).symm
            · simp [htt, h3]

theorem flow_record_print_json_primary_witness :
    ∃ rr, cache_scenario_two.heap 1 = some rr
      ∧ timeval_normalised rr.start
      ∧ ∃ e, flow_record_print_json cache_scenario_two 1
        = .ok { cache_scenario_two with
                stats := flocap_stats_incr_records_output cache_scenario_two.stats
                records_in_file := cache_scenario_two.records_in_file + 1
                output := cache_scenario_two.output ++ [e] }
      ∧ e.record = rr
      ∧ (rr.twin = none → e.ts_start = rr.start ∧ e.rec_ = rr ∧ e.rec_twin = none)
      ∧ (∀ rt ∈ twin_record cache_scenario_two.heap rr,
          usec e.ts_start = min (usec rr.start) (usec rt.start)
          ∧ usec e.rec_.start = min (usec rr.start) (usec rt.start)
          ∧ (usec rr.start < usec rt.start → e.rec_ = rr ∧ e.ts_start = rr.start)
          ∧ (usec rt.start ≤ usec rr.start → e.rec_ = rt ∧ e.ts_start = rt.start))
      ∧ e.rec_twin = twin_record cache_scenario_two.heap e.rec_
      ∧ (flow_record_print_json_flow e).ts = e.ts_start
      ∧ ((flow_record_print_json_flow e).sa = e.rec_.key.sa
        ∧ (flow_record_print_json_flow e).da = e.rec_.key.da
        ∧ (flow_record_print_json_flow e).pr = e.rec_.key.prot
        ∧ (flow_record_print_json_flow e).sp = e.rec_.key.sp
        ∧ (flow_record_print_json_flow e).dp = e.rec_.key.dp)
      ∧ (flow_record_print_json_flow e).ob = e.rec_.ob
      ∧ (flow_record_print_json_flow e).op = e.rec_.np
      ∧ (flow_record_print_json_flow e).ottl = e.rec_.ttl
      ∧ (flow_record_print_json_flow e).ib = e.rec_twin.map (fun t => t.ob)
      ∧ (flow_record_print_json_flow e).ip = e.rec_twin.map (fun t => t.np)
      ∧ (flow_record_print_json_flow e).ittl = e.rec_twin.map (fun t => t.ttl) :=
  ⟨_, rfl, by decide,
    flow_record_print_json_primary cache_scenario_two 1 _ rfl (fun _ h => by cases h)
      (fun rt hrt _ h => by cases hrt; cases h) (by decide)
      (fun rt hrt => by cases hrt; decide)⟩

/-! ### The merge of non_norm_stats -/


theorem timeval_to_milliseconds_sub (a b : timeval) (ha : timeval_normalised a)
    (hb : timeval_normalised b) :
    timeval_to_milliseconds (timer_sub a b) = milliseconds_between a b := by
  obtain ⟨hn, hu⟩ := timer_sub_usec a b ha hb
  unfold timeval_to_milliseconds milliseconds_between
  rw [← hu, Int.tdiv_eq_ediv hn.1 (by decide)]
  congr 2
  unfold usec
  obtain ⟨h1, h2⟩ := hn
  omega

theorem merge_by_time_nil_left (ys : List (Nat × timeval)) :
    merge_by_time [] ys = ys.map (fun y => ("<", y.1, y.2)) := by
  rw [merge_by_time]

theorem merge_by_time_nil_right (xs : List (Nat × timeval)) :
    merge_by_time xs [] = xs.map (fun x => (">", x.1, x.2)) := by
  cases xs with
  | nil => rw [merge_by_time]; rfl
  | cons x xs => rw [merge_by_time]

theorem merge_by_time_cons (x y : Nat × timeval) (xs ys : List (Nat × timeval)) :
    merge_by_time (x :: xs) (y :: ys)
      = if usec x.2 < usec y.2 then (">", x.1, x.2) :: merge_by_time xs (y :: ys)
        else ("<", y.1, y.2) :: merge_by_time (x :: xs) ys := by
  rw [merge_by_time]

theorem packets_from_succ (r : flow_record_packets) (i n : Nat) (h : i < n) :
    packets_from r i (n - i)
      = (r.pkt_len i, r.pkt_time i) :: packets_from r (i + 1) (n - (i + 1)) := by
  unfold packets_from
  have e : n - i = (n - (i + 1)) + 1 := by omega
  rw [e, List.range'_succ]
  rfl

theorem print_bytes_dir_time_eq (len : Nat) (dir : String) (a b : timeval)
    (hl : len < 65536) (ha : timeval_normalised a) (hb : timeval_normalised b) :
    print_bytes_dir_time len dir (timer_sub a b)
      = { rep := decide (32768 ≤ len), value := if len < 32768 then len else 65536 - len,
          dir := dir, ipt := milliseconds_between a b } := by
  unfold print_bytes_dir_time
  rw [Nat.mod_eq_of_lt hl, timeval_to_milliseconds_sub a b ha hb]
  by_cases h : len < 32768
  · simp [h, Nat.not_le.mpr h]
  · simp [h, Nat.not_lt.mp h]

theorem flow_record_print_json_merge_eq (p t : flow_record_packets) (imax jmax : Nat)
    (hp : ∀ i, timeval_normalised (p.pkt_time i)) (ht : ∀ i, timeval_normalised (t.pkt_time i))
    (hlp : ∀ i, p.pkt_len i < 65536) (hlt : ∀ i, t.pkt_len i < 65536) :
    ∀ (fuel i j : Nat) (ts_last : timeval), i ≤ imax → j ≤ jmax →
      (imax - i) + (jmax - j) ≤ fuel → timeval_normalised ts_last →
      flow_record_print_json_merge p t imax jmax fuel i j ts_last
        = .ok (with_ipt ts_last
            (merge_by_time (packets_from p i (imax - i)) (packets_from t j (jmax - j)))) := by
  intro fuel
  induction fuel with
  | zero =>
    intro i j ts_last hi hj hf _
    have ei : imax - i = 0 := by omega
    have ej : jmax - j = 0 := by omega
    have hc : ¬ (i < imax ∨ j < jmax) := by omega
    rw [flow_record_print_json_merge, if_neg hc, ei, ej]
    simp [packets_from, merge_by_time_nil_left, with_ipt]
  | succ fuel ih =>
    intro i j ts_last hi hj hf hts
    rw [flow_record_print_json_merge]
    by_cases hc : i < imax ∨ j < jmax
    · rw [if_pos hc]
      by_cases h1 : i ≥ imax
      · have hj2 : j < jmax := by omega
        have ei : imax - i = 0 := by omega
        rw [if_pos h1, ih i (j + 1) (t.pkt_time j) hi hj2 (by omega) (ht j),
          packets_from_succ t j jmax hj2, ei]
        simp only [packets_from, List.range'_zero, List.map_nil, merge_by_time_nil_left,
          List.map_cons, with_ipt]
        rw [print_bytes_dir_time_eq _ _ _ _ (hlt j) (ht j) hts]
        rfl
      · rw [if_neg h1]
        have hi2 : i < imax := by omega
        by_cases h2 : j ≥ jmax
        · have ej : jmax - j = 0 := by omega
          rw [if_pos h2, ih (i + 1) j (p.pkt_time i) hi2 hj (by omega) (hp i),
            packets_from_succ p i imax hi2, ej]
          simp only [packets_from, List.range'_zero, List.map_nil, merge_by_time_nil_right,
            List.map_cons, with_ipt]
          rw [print_bytes_dir_time_eq _ _ _ _ (hlp i) (hp i) hts]
          rfl
        · rw [if_neg h2]
          have hj2 : j < jmax := by omega
          rw [packets_from_succ p i imax hi2, packets_from_succ t j jmax hj2,
            merge_by_time_cons]
          by_cases h3 : timer_lt (p.pkt_time i) (t.pkt_time j) = true
          · have h3u := (timer_lt_iff _ _ (hp i) (ht j)).1 h3
            rw [if_pos h3, if_pos hi2, ih (i + 1) j (p.pkt_time i) hi2 hj (by omega) (hp i)]
            simp only [h3u, if_true, with_ipt]
            rw [print_bytes_dir_time_eq _ _ _ _ (hlp i) (hp i) hts,
              packets_from_succ t j jmax hj2]
            rfl
          · have h3u : ¬ usec (p.pkt_time i) < usec (t.pkt_time j) :=
              fun h => h3 ((timer_lt_iff _ _ (hp i) (ht j)).2 h)
            rw [if_neg h3, if_pos hj2, ih i (j + 1) (t.pkt_time j) hi hj2 (by omega) (ht j)]
            simp only [h3u, if_false, with_ipt]
            rw [print_bytes_dir_time_eq _ _ _ _ (hlt j) (ht j) hts,
              packets_from_succ p i imax hi2]
            rfl
    · rw [if_neg hc]
      have ei : imax - i = 0 := by omega
      have ej : jmax - j = 0 := by omega
      rw [ei, ej]
      simp [packets_from, merge_by_time_nil_left, with_ipt]

theorem merge_by_time_sides : ∀ (xs ys : List (Nat × timeval)),
    (merge_by_time xs ys).length = xs.length + ys.length
    ∧ ((merge_by_time xs ys).filter (fun e => e.1 = ">")).map (fun e => e.2) = xs
    ∧ ((merge_by_time xs ys).filter (fun e => e.1 = "<")).map (fun e => e.2) = ys := by
  intro xs
  induction xs with
  | nil =>
    intro ys
    rw [merge_by_time_nil_left]
    refine ⟨by simp, ?_, ?_⟩
    · induction ys with
      | nil => rfl
      | cons y ys ih => simpa [List.filter_cons] using ih
    · induction ys with
      | nil => rfl
      | cons y ys ih => simpa [List.filter_cons] using ih
  | cons x xs ihx =>
    intro ys
    induction ys with
    | nil =>
      rw [merge_by_time_nil_right]
      refine ⟨by simp, ?_, ?_⟩
      · have : ∀ l : List (Nat × timeval),
            ((l.map (fun x => (">", x.1, x.2))).filter (fun e => e.1 = ">")).map (fun e => e.2)
              = l := by
          intro l
          induction l with
          | nil => rfl
          | cons z l ih => simpa [List.filter_cons] using ih
        exact this _
      · have : ∀ l : List (Nat × timeval),
            ((l.map (fun x => (">", x.1, x.2))).filter (fun e => e.1 = "<")).map (fun e => e.2)
              = [] := by
          intro l
          induction l with
          | nil => rfl
          | cons z l ih => simpa [List.filter_cons] using ih
        exact this _
    | cons y ys ihy =>
      rw [merge_by_time_cons]
      by_cases h : usec x.2 < usec y.2
      · rw [if_pos h]
        obtain ⟨h1, h2, h3⟩ := ihx (y :: ys)
        refine ⟨by simp [h1]; omega, ?_, ?_⟩
        · simp [List.filter_cons, h2]
        · simpa [List.filter_cons] using h3
      · rw [if_neg h]
        obtain ⟨h1, h2, h3⟩ := ihy
        refine ⟨by simp [h1]; omega, ?_, ?_⟩
        · simpa [List.filter_cons] using h2
        · simp [List.filter_cons, h3]

theorem with_ipt_length : ∀ (l : List (String × Nat × timeval)) (ts : timeval),
    (with_ipt ts l).length = l.length
  | [], _ => rfl
  | (_, _, ts2) :: l, _ => by simp [with_ipt, with_ipt_length l ts2]

theorem with_ipt_dir : ∀ (l : List (String × Nat × timeval)) (ts : timeval),
    (with_ipt ts l).map (fun e => e.dir) = l.map (fun e => e.1)
  | [], _ => rfl
  | (_, _, ts2) :: l, _ => by simp [with_ipt, with_ipt_dir l ts2]

/-- C30: for a primary p and a twin t whose packet times are normalised and whose packet
lengths are 16-bit values, the loop of flow_record_print_json returns, with enough
fuel, the two-way merge by time of the first min(p.op, L) entries of p and the first
min(t.op, L) entries of t, where L is num_pkt_len: the strictly smaller time goes first,
a tie takes the entry of the twin, entries of p carry > and entries of t carry <, in
their order, and ipt is the milliseconds between the time of an entry and the time of
the entry printed before it (ts for the first one). The sequence has min(p.op, L) +
min(t.op, L) entries. For scenario 2 it is b 50, dir >, ipt 0 and b 60, dir <, ipt 100. -/
theorem flow_record_print_json_non_norm_stats_merge (L : Nat) (p t : flow_record_packets)
    (ts : timeval)
    (hp : ∀ i, timeval_normalised (p.pkt_time i)) (ht : ∀ i, timeval_normalised (t.pkt_time i))
    (hlp : ∀ i, p.pkt_len i < 65536) (hlt : ∀ i, t.pkt_len i < 65536)
    (hts : timeval_normalised ts) :
    (∃ n, ∀ fuel, n ≤ fuel →
      flow_record_print_json_non_norm_stats L p t ts fuel = .ok (non_norm_stats_merge L p t ts))
    ∧ (non_norm_stats_merge L p t ts).length = min p.op L + min t.op L
    ∧ (non_norm_stats_merge L p t ts).map (fun e => e.dir)
        = (merge_by_time (packets_from p 0 (min p.op L)) (packets_from t 0 (min t.op L))).map
            (fun e => e.1)
    ∧ ((merge_by_time (packets_from p 0 (min p.op L)) (packets_from t 0 (min t.op L))).filter
          (fun e => e.1 = ">")).map (fun e => e.2) = packets_from p 0 (min p.op L)
    ∧ ((merge_by_time (packets_from p 0 (min p.op L)) (packets_from t 0 (min t.op L))).filter
          (fun e => e.1 = "<")).map (fun e => e.2) = packets_from t 0 (min t.op L)
    ∧ (1 ≤ L →
        flow_record_print_json_non_norm_stats L scenario_two_primary scenario_two_twin
            { tv_sec := 1, tv_usec := 0 } 2
          = .ok [{ rep := false, value := 50, dir := ">", ipt := 0 },
                 { rep := false, value := 60, dir := "<", ipt := 100 }]) := by
  have hi : (if p.op > L then L else p.op) = min p.op L := by
    by_cases h : p.op > L
    · rw [if_pos h, min_eq_right (le_of_lt h)]
    · rw [if_neg h, min_eq_left (not_lt.mp h)]
  have hj : (if t.op > L then L else t.op) = min t.op L := by
    by_cases h : t.op > L
    · rw [if_pos h, min_eq_right (le_of_lt h)]
    · rw [if_neg h, min_eq_left (not_lt.mp h)]
  obtain ⟨h1, h2, h3⟩ :=
    merge_by_time_sides (packets_from p 0 (min p.op L)) (packets_from t 0 (min t.op L))
  refine ⟨⟨min p.op L + min t.op L, ?_⟩, ?_, with_ipt_dir _ _, h2, h3, ?_⟩
  · intro fuel hf
    unfold flow_record_print_json_non_norm_stats non_norm_stats_merge
    dsimp only
    rw [hi, hj, flow_record_print_json_merge_eq p t _ _ hp ht hlp hlt fuel 0 0 ts
      (Nat.zero_le _) (Nat.zero_le _) (by omega) hts]
    rfl
  · unfold non_norm_stats_merge
    rw [with_ipt_length, h1]
    simp [packets_from]
  · intro hL
    unfold flow_record_print_json_non_norm_stats
    have e1 : (if scenario_two_primary.op > L then L else scenario_two_primary.op) = 1 :=
      if_neg (by simp only [scenario_two_primary]; omega)
    have e2 : (if scenario_two_twin.op > L then L else scenario_two_twin.op) = 1 :=
      if_neg (by simp only [scenario_two_twin]; omega)
    dsimp only
    rw [e1, e2]
    rfl

theorem flow_record_print_json_non_norm_stats_merge_witness :
    (∀ i, timeval_normalised (scenario_two_primary.pkt_time i))
    ∧ (∀ i, scenario_two_primary.pkt_len i < 65536)
    ∧ (∃ n, ∀ fuel, n ≤ fuel →
      flow_record_print_json_non_norm_stats 50 scenario_two_primary scenario_two_twin
          { tv_sec := 1, tv_usec := 0 } fuel
        = .ok (non_norm_stats_merge 50 scenario_two_primary scenario_two_twin
            { tv_sec := 1, tv_usec := 0 }))
    ∧ (non_norm_stats_merge 50 scenario_two_primary scenario_two_twin
        { tv_sec := 1, tv_usec := 0 }).length
        = min scenario_two_primary.op 50 + min scenario_two_twin.op 50 := by
  have hp : ∀ i, timeval_normalised (scenario_two_primary.pkt_time i) := by
    intro i
    by_cases h : i = 0
    · subst h; decide
    · simp only [scenario_two_primary, h, if_false]; decide
  have ht : ∀ i, timeval_normalised (scenario_two_twin.pkt_time i) := by
    intro i
    by_cases h : i = 0
    · subst h; decide
    · simp only [scenario_two_twin, h, if_false]; decide
  have hlp : ∀ i, scenario_two_primary.pkt_len i < 65536 := by
    intro i
    by_cases h : i = 0
    · subst h; decide
    · simp only [scenario_two_primary, h, if_false]; decide
  have hlt : ∀ i, scenario_two_twin.pkt_len i < 65536 := by
    intro i
    by_cases h : i = 0
    · subst h; decide
    · simp only [scenario_two_twin, h, if_false]; decide
  have h := flow_record_print_json_non_norm_stats_merge 50 scenario_two_primary
    scenario_two_twin { tv_sec := 1, tv_usec := 0 } hp ht hlp hlt (by decide)
  exact ⟨hp, hlp, h.1, h.2.1⟩

/-! ### Deletion of a record and its twin -/

theorem strip_ptrs_key {r1 r2 : flow_record} (h : strip_ptrs r1 = strip_ptrs r2) :
    r1.key = r2.key := congrArg (fun r => r.key) h

theorem lookup_absent_key (config : configuration) (s : flow_cache) (bl : Nat → List Nat)
    (key : flow_key) (hb : buckets_inv config s bl)
    (hno : ∀ p r, s.heap p = some r → r.key ≠ key) (fuel : Nat)
    (hf : (bl (flow_key_hash config key)).length ≤ fuel) (malloc : Option Nat) :
    flow_key_get_record config fuel s key false malloc = .ok (s, none) := by
  have hfind := find_record_by_key_spec s.heap key _ none _ fuel
    (hb.1 (flow_key_hash config key)).1 hf
  have hnone : list_find s.heap (flow_key_is_eq key) (bl (flow_key_hash config key)) = none := by
    cases h : list_find s.heap (flow_key_is_eq key) (bl (flow_key_hash config key)) with
    | none => rfl
    | some p =>
      obtain ⟨_, r, hr, he⟩ := list_find_some _ _ _ p h
      exact absurd ((flow_key_is_eq_zero _ _).1 he).symm (hno p r hr)
  unfold flow_key_get_record
  dsimp only
  rw [hfind, hnone]
  rfl

/-- C26: in a well-formed cache without two records of one key, for a record r of the
chronological list with twin t (or none), flow_record_print_and_delete returns; r and t
are freed; every bucket list is the old one without r and t and the chronological list
is the old one without r, each in the old order; every other record keeps all its
fields but the list pointers; and a later lookup without creation of the key of r or of
the key of t returns NULL and changes nothing. -/
theorem flow_record_print_and_delete_effect (config : configuration) (s : flow_cache)
    (bl : Nat → List Nat) (cl : List Nat) (r : Nat) (rr : flow_record)
    (hinv : cache_inv config s bl cl) (hk : keys_unique s.heap) (hr : r ∈ cl)
    (hrr : s.heap r = some rr) :
    ∃ s4, flow_record_print_and_delete config s r = .ok s4
      ∧ s4.heap r = none ∧ (∀ t, rr.twin = some t → s4.heap t = none)
      ∧ cache_inv config s4 (fun i => (erase_twin (bl i) rr.twin).erase r) (cl.erase r)
      ∧ (∀ p, p ≠ r → rr.twin ≠ some p →
          (s4.heap p).map strip_ptrs = (s.heap p).map strip_ptrs)
      ∧ (∃ n, ∀ fuel, n ≤ fuel → ∀ malloc,
          flow_key_get_record config fuel s4 rr.key false malloc = .ok (s4, none))
      ∧ (∀ t rt, rr.twin = some t → s.heap t = some rt →
          ∃ n, ∀ fuel, n ≤ fuel → ∀ malloc,
            flow_key_get_record config fuel s4 rt.key false malloc = .ok (s4, none)) := by
  obtain ⟨s4, bl4, hpd, hinv4, hlen, _, hex⟩ :=
    flow_record_print_and_delete_spec config s bl cl r hinv hr
  obtain ⟨hbl, h4r, h4t, hfr, _⟩ := hex rr hrr
  have ebl : bl4 = fun i => (erase_twin (bl i) rr.twin).erase r := funext hbl
  rw [ebl] at hinv4
  have hno : ∀ q rq, s.heap q = some rq → (q = r ∨ rr.twin = some q) →
      ∀ p r4, s4.heap p = some r4 → r4.key ≠ rq.key := by
    intro q rq hq hqd p r4 hp4 hkey
    have hpr : p ≠ r := by intro e; rw [e, h4r] at hp4; simp at hp4
    have hpt : rr.twin ≠ some p := by intro e; rw [h4t p e] at hp4; simp at hp4
    obtain ⟨r0, hr0, e0⟩ := map_eq_live_rev (hfr p hpr hpt) hp4
    have hpq : p = q := hk p q r0 rq hr0 hq ((strip_ptrs_key e0).trans hkey)
    rcases hqd with e | e
    · exact hpr (hpq.trans e)
    · exact hpt (by rw [hpq]; exact e)
  refine ⟨s4, hpd, h4r, h4t, hinv4, hfr, ⟨_, fun fuel hf malloc =>
    lookup_absent_key config s4 _ rr.key hinv4.1
      (fun p r4 hp4 => hno r rr hrr (Or.inl rfl) p r4 hp4) fuel hf malloc⟩, ?_⟩
  intro t rt htw ht
  exact ⟨_, fun fuel hf malloc =>
    lookup_absent_key config s4 _ rt.key hinv4.1
      (fun p r4 hp4 => hno t rt ht (Or.inr htw) p r4 hp4) fuel hf malloc⟩


/-! ### The sweep -/

theorem flow_record_print_json_record (s : flow_cache) (r : Nat) (rr : flow_record)
    (e : emission) (hr : s.heap r = some rr)
    (h : flow_record_print_json s r
      = .ok { s with stats := flocap_stats_incr_records_output s.stats
                     records_in_file := s.records_in_file + 1
                     output := s.output ++ [e] }) : e.record = rr := by
  unfold flow_record_print_json at h
  simp only [hr] at h
  have key : ∀ e2 : emission, e2.record = rr →
      (Except.ok { s with stats := flocap_stats_incr_records_output s.stats
                          records_in_file := s.records_in_file + 1
                          output := s.output ++ [e2] } : Except Err flow_cache)
        = .ok { s with stats := flocap_stats_incr_records_output s.stats
                       records_in_file := s.records_in_file + 1
                       output := s.output ++ [e] } → e.record = rr := by
    intro e2 he2 h2
    have h3 := congrArg (fun x => x.output) (Except.ok.inj h2)
    have h4 : [e2] = [e] := List.append_cancel_left h3
    have h5 : e2 = e := List.head_eq_of_cons_eq h4
    rw [← h5]; exact he2
  cases htw : rr.twin with
  | none =>
    rw [htw] at h
    exact key _ rfl h
  | some t =>
    rw [htw] at h
    simp only at h
    cases ht : s.heap t with
    | none => rw [ht] at h; simp at h
    | some rt =>
      rw [ht] at h
      simp only at h
      split at h
      · exact key _ rfl h
      · cases htt : rt.twin with
        | none =>
          rw [htt] at h
          exact key _ rfl h
        | some tt =>
          rw [htt] at h
          simp only at h
          cases h3 : s.heap tt with
          | none => rw [h3] at h; simp at h
          | some rtt =>
            rw [h3] at h
            exact key _ rfl h

theorem filter_length_remove (l : List Nat) (f g : Nat → Bool) (r : Nat) (hnd : l.Nodup)
    (hr : r ∈ l) (hfr : f r = true) (hg : ∀ p, g p = (f p && decide (p ≠ r))) :
    (l.filter g).length + 1 = (l.filter f).length := by
  induction l with
  | nil => simp at hr
  | cons x l ih =>
    obtain ⟨hx, hnd2⟩ := List.nodup_cons.mp hnd
    by_cases hxr : x = r
    · subst hxr
      have hgx : g x = false := by rw [hg]; simp
      have hsame : l.filter g = l.filter f := by
        apply List.filter_congr
        intro p hp
        have hpx : p ≠ x := fun e => hx (e ▸ hp)
        rw [hg]; simp [hpx]
      simp [List.filter_cons, hgx, hfr, hsame]
    · have hrl : r ∈ l := by
        rcases List.mem_cons.mp hr with e | e
        · exact absurd e.symm hxr
        · exact e
      have hgx : g x = f x := by rw [hg]; simp [hxr]
      have := ih hnd2 hrl
      by_cases hfx : f x = true
      · simp [List.filter_cons, hgx, hfx]; omega
      · simp [List.filter_cons, hgx, hfx]; omega

theorem filter_length_same (l : List Nat) (f g : Nat → Bool) (hg : ∀ p ∈ l, g p = f p) :
    (l.filter g).length = (l.filter f).length := by
  rw [List.filter_congr hg]

theorem takeWhile_dropWhile_congr (f g : Nat → Bool) :
    ∀ (l : List Nat), (∀ p ∈ l, f p = g p) →
      l.takeWhile f = l.takeWhile g ∧ l.dropWhile f = l.dropWhile g
  | [], _ => ⟨rfl, rfl⟩
  | x :: l, h => by
    have hx := h x (List.mem_cons_self _ _)
    obtain ⟨h1, h2⟩ := takeWhile_dropWhile_congr f g l
      (fun p hp => h p (List.mem_cons_of_mem _ hp))
    simp only [List.takeWhile_cons, List.dropWhile_cons, hx, h1, h2, and_self]


theorem flow_record_is_inactive_value (heap : Heap) (p : Nat) (c : timeval) (r : flow_record)
    (hr : heap p = some r) :
    flow_record_is_inactive heap p c
      = if timer_lt r.end_ c then
          match r.twin with
          | some t =>
            match heap t with
            | none => .error Err.invalid_pointer
            | some rt =>
              if timer_lt rt.end_ c then
                .ok (Function.update heap p (some { r with exp_type := expiration_type_inactive }), 1)
              else .ok (heap, 0)
          | none =>
            .ok (Function.update heap p (some { r with exp_type := expiration_type_inactive }), 1)
        else .ok (heap, 0) := by
  unfold flow_record_is_inactive
  simp only [hr]

theorem flow_record_is_expired_zero (heap heap2 : Heap) (p : Nat) (c : timeval)
    (h : flow_record_is_expired heap p c = .ok (heap2, 0)) : heap2 = heap := by
  unfold flow_record_is_expired at h
  cases hr : heap p with
  | none => rw [hr] at h; simp at h
  | some r =>
    have hin : ∀ heap3, flow_record_is_inactive heap p c = .ok (heap3, 0) → heap3 = heap := by
      intro heap3 h3
      rw [flow_record_is_inactive_value heap p c r hr] at h3
      split at h3
      · cases htw : r.twin with
        | none => rw [htw] at h3; simp at h3
        | some t =>
          rw [htw] at h3
          simp only at h3
          cases ht : heap t with
          | none => rw [ht] at h3; simp at h3
          | some rt =>
            rw [ht] at h3
            simp only at h3
            split at h3
            · simp at h3
            · exact (congrArg Prod.fst (Except.ok.inj h3)).symm
      · exact (congrArg Prod.fst (Except.ok.inj h3)).symm
    rw [hr] at h
    simp only at h
    split at h
    · cases htw : r.twin with
      | none => rw [htw] at h; simp at h
      | some t =>
        rw [htw] at h
        simp only at h
        cases ht : heap t with
        | none => rw [ht] at h; simp at h
        | some rt =>
          rw [ht] at h
          simp only at h
          split at h
          · simp at h
          · exact hin heap2 h
    · exact hin heap2 h

theorem expired_at_congr (h1 h2 : Heap) (cutoff : Option timeval) (p : Nat)
    (hp : (h1 p).map expiry_view = (h2 p).map expiry_view)
    (ht : ∀ r t, h2 p = some r → r.twin = some t →
      (h1 t).map expiry_view = (h2 t).map expiry_view) :
    expired_at h1 cutoff p = expired_at h2 cutoff p := by
  cases cutoff with
  | none => rfl
  | some c =>
    unfold expired_at
    dsimp only
    cases h2p : h2 p with
    | none =>
      have h1p : h1 p = none := by
        rw [h2p] at hp
        cases h : h1 p with
        | none => rfl
        | some x => rw [h] at hp; simp at hp
      unfold flow_record_is_expired
      simp only [h1p, h2p]
    | some r2 =>
      obtain ⟨r1, h1p, e⟩ := map_eq_live hp h2p
      have es : r1.start = r2.start := congrArg (fun v => v.1) e
      have ee : r1.end_ = r2.end_ := congrArg (fun v => v.2.1) e
      have et : r1.twin = r2.twin := congrArg (fun v => v.2.2) e
      unfold flow_record_is_expired
      rw [flow_record_is_inactive_value h1 p c r1 h1p,
        flow_record_is_inactive_value h2 p c r2 h2p]
      simp only [h1p, h2p, es, ee, et]
      cases htw : r2.twin with
      | none =>
        simp only
        by_cases ha : timer_lt r2.start (timer_sub c active_timeout) = true
        · simp only [ha, if_true]
        · by_cases hi : timer_lt r2.end_ c = true
          · simp only [ha, hi, if_true, if_false, Bool.false_eq_true]
          · simp only [ha, hi, if_false, Bool.false_eq_true]
      | some t =>
        have htt := ht r2 t h2p htw
        simp only
        cases h2t : h2 t with
        | none =>
          have h1t : h1 t = none := by
            rw [h2t] at htt
            cases h : h1 t with
            | none => rfl
            | some x => rw [h] at htt; simp at htt
          simp only [h1t]
          by_cases ha : timer_lt r2.start (timer_sub c active_timeout) = true
          · simp only [ha, if_true]
          · by_cases hi : timer_lt r2.end_ c = true
            · simp only [ha, hi, if_true, if_false, Bool.false_eq_true]
            · simp only [ha, hi, if_false, Bool.false_eq_true]
        | some rt2 =>
          obtain ⟨rt1, h1t, e2⟩ := map_eq_live htt h2t
          have es2 : rt1.start = rt2.start := congrArg (fun v => v.1) e2
          have ee2 : rt1.end_ = rt2.end_ := congrArg (fun v => v.2.1) e2
          simp only [h1t, es2, ee2]
          by_cases ha : timer_lt r2.start (timer_sub c active_timeout) = true
          · by_cases ha2 : timer_lt rt2.start (timer_sub c active_timeout) = true
            · simp only [ha, ha2, if_true]
            · by_cases hi : timer_lt r2.end_ c = true
              · by_cases hi2 : timer_lt rt2.end_ c = true
                · simp only [ha, ha2, hi, hi2, if_true, if_false, Bool.false_eq_true]
                · simp only [ha, ha2, hi, hi2, if_true, if_false, Bool.false_eq_true]
              · simp only [ha, ha2, hi, if_true, if_false, Bool.false_eq_true]
          · by_cases hi : timer_lt r2.end_ c = true
            · by_cases hi2 : timer_lt rt2.end_ c = true
              · simp only [ha, hi, hi2, if_true, if_false, Bool.false_eq_true]
              · simp only [ha, hi, hi2, if_true, if_false, Bool.false_eq_true]
            · simp only [ha, hi, if_false, Bool.false_eq_true]


theorem flow_record_is_expired_other (heap heap2 : Heap) (p : Nat) (c : timeval) (e : Nat)
    (h : flow_record_is_expired heap p c = .ok (heap2, e)) (q : Nat) (hq : q ≠ p) :
    heap2 q = heap q := by
  unfold flow_record_is_expired at h
  cases hr : heap p with
  | none => rw [hr] at h; simp at h
  | some r =>
    have hupd : ∀ x e2, (Except.ok (Function.update heap p x, e2) : Except Err (Heap × Nat))
        = .ok (heap2, e) → heap2 q = heap q := by
      intro x e2 h3
      have e3 : heap2 = Function.update heap p x := (congrArg Prod.fst (Except.ok.inj h3)).symm
      rw [e3, Function.update_noteq hq]
    have hsame : ∀ e2, (Except.ok (heap, e2) : Except Err (Heap × Nat)) = .ok (heap2, e) →
        heap2 q = heap q := by
      intro e2 h3
      have e3 : heap2 = heap := (congrArg Prod.fst (Except.ok.inj h3)).symm
      rw [e3]
    have hin : flow_record_is_inactive heap p c = .ok (heap2, e) → heap2 q = heap q := by
      intro h3
      rw [flow_record_is_inactive_value heap p c r hr] at h3
      split at h3
      · cases htw : r.twin with
        | none => rw [htw] at h3; exact hupd _ _ h3
        | some t =>
          rw [htw] at h3
          simp only at h3
          cases ht : heap t with
          | none => rw [ht] at h3; simp at h3
          | some rt =>
            rw [ht] at h3
            simp only at h3
            split at h3
            · exact hupd _ _ h3
            · exact hsame _ h3
      · exact hsame _ h3
    rw [hr] at h
    simp only at h
    split at h
    · cases htw : r.twin with
      | none => rw [htw] at h; exact hupd _ _ h
      | some t =>
        rw [htw] at h
        simp only at h
        cases ht : heap t with
        | none => rw [ht] at h; simp at h
        | some rt =>
          rw [ht] at h
          simp only at h
          split at h
          · exact hupd _ _ h
          · exact hin h
    · exact hin h

theorem live_count_remove (heap heap2 : Heap) (created : List Nat) (r : Nat)
    (hnd : created.Nodup) (hr : r ∈ created) (hlive : (heap r).isSome = true)
    (h2 : ∀ p, (heap2 p).isSome = ((heap p).isSome && decide (p ≠ r))) :
    live_count heap2 created + 1 = live_count heap created :=
  filter_length_remove created (fun p => (heap p).isSome) (fun p => (heap2 p).isSome) r hnd hr
    hlive h2

theorem print_and_delete_step (config : configuration) (s : flow_cache)
    (bl : Nat → List Nat) (cl : List Nat) (r : Nat) (rr : flow_record)
    (hinv : cache_inv config s bl cl) (hr : r ∈ cl) (hrr : s.heap r = some rr) :
    ∃ s4 bl4 e, flow_record_print_and_delete config s r = .ok s4
      ∧ cache_inv config s4 bl4 (cl.erase r)
      ∧ s4.heap r = none
      ∧ (∀ p r4, s4.heap p = some r4 →
          ∃ r0, s.heap p = some r0 ∧ strip_ptrs r0 = strip_ptrs r4)
      ∧ (∀ p, s.heap p = none → s4.heap p = none)
      ∧ (s4.output = s.output ++ [e] ∧ e.record = rr
        ∧ s4.records_in_file = s.records_in_file + 1
        ∧ s4.stats.num_records_output = s.stats.num_records_output + 1)
      ∧ (∀ created : List Nat, created.Nodup → (∀ p, (s.heap p).isSome = true → p ∈ created) →
          s.stats.num_records_in_table = live_count s.heap created →
          s4.stats.num_records_in_table = live_count s4.heap created)
      ∧ (∀ cutoff, ∀ p ∈ cl.erase r,
          expired_at s4.heap cutoff p = expired_at s.heap cutoff p) := by
  obtain ⟨s4, bl4, hpd, hinv4, _, hdd, hex⟩ :=
    flow_record_print_and_delete_spec config s bl cl r hinv hr
  obtain ⟨_, h4r, h4t, hfr, e, hpj, hout, hrif, hst⟩ := hex rr hrr
  have hrt := hinv.2.2.2 r hr rr hrr
  have hsurv : ∀ p r4, s4.heap p = some r4 →
      p ≠ r ∧ rr.twin ≠ some p ∧ ∃ r0, s.heap p = some r0 ∧ strip_ptrs r0 = strip_ptrs r4 := by
    intro p r4 hp4
    have hpr : p ≠ r := by intro e; rw [e, h4r] at hp4; simp at hp4
    have hpt : rr.twin ≠ some p := by intro e; rw [h4t p e] at hp4; simp at hp4
    exact ⟨hpr, hpt, map_eq_live_rev (hfr p hpr hpt) hp4⟩
  have hlive : ∀ p, p ≠ r → rr.twin ≠ some p → (s4.heap p).isSome = (s.heap p).isSome := by
    intro p hpr hpt
    have h := congrArg Option.isSome (hfr p hpr hpt)
    simpa using h
  refine ⟨s4, bl4, e, hpd, hinv4, h4r, fun p r4 h => (hsurv p r4 h).2.2, hdd,
    ⟨hout, flow_record_print_json_record s r rr e hrr hpj, hrif, ?_⟩, ?_, ?_⟩
  · rw [hst]
    cases rr.twin <;> rfl
  · intro created hnd hall hnum
    have hrc : r ∈ created := hall r (by rw [hrr]; rfl)
    cases htw : rr.twin with
    | none =>
      have h1 := live_count_remove s.heap s4.heap created r hnd hrc (by rw [hrr]; rfl)
        (by
          intro p
          by_cases hpr : p = r
          · subst hpr; rw [h4r]; simp
          · rw [hlive p hpr (by rw [htw]; simp)]; simp [hpr])
      have h2 : s4.stats.num_records_in_table = s.stats.num_records_in_table - 1 := by
        rw [hst, htw]; rfl
      omega
    | some t =>
      obtain ⟨htr, _, rt, hrt1, _⟩ := hrt t htw
      have htc : t ∈ created := hall t (by rw [hrt1]; rfl)
      have h1 := live_count_remove s.heap (Function.update s.heap t none) created t hnd htc
        (by rw [hrt1]; rfl)
        (by
          intro p
          by_cases hpt : p = t
          · subst hpt; simp
          · simp [Function.update_noteq hpt, hpt])
      have h2 := live_count_remove (Function.update s.heap t none) s4.heap created r hnd hrc
        (by rw [Function.update_noteq (Ne.symm htr), hrr]; rfl)
        (by
          intro p
          by_cases hpr : p = r
          · subst hpr; rw [h4r]; simp
          · by_cases hpt : p = t
            · subst hpt; rw [h4t p htw]; simp
            · rw [hlive p hpr (by rw [htw]; intro e; exact hpt (Option.some.inj e).symm),
                Function.update_noteq hpt]
              simp [hpr])
      have h3 : s4.stats.num_records_in_table = s.stats.num_records_in_table - 1 - 1 := by
        rw [hst, htw]; rfl
      omega
  · intro cutoff p hp
    have hpcl : p ∈ cl := List.mem_of_mem_erase hp
    have hpr : p ≠ r := by
      intro e
      have := (List.Nodup.mem_erase_iff hinv.2.1.2.1).1 hp
      exact this.1 e
    have hnotw : ∀ q ∈ cl, rr.twin ≠ some q := fun q hq e => (hrt q e).2.1 hq
    have hview : ∀ q, q ≠ r → rr.twin ≠ some q →
        (s4.heap q).map expiry_view = (s.heap q).map expiry_view := by
      intro q hqr hqt
      have a := congrArg (Option.map (fun x : flow_record => (x.start, x.end_, x.twin)))
        (hfr q hqr hqt)
      simpa [Option.map_map, Function.comp_def, strip_ptrs, expiry_view] using a
    apply expired_at_congr
    · exact hview p hpr (hnotw p hpcl)
    · intro r0 t hp0 ht0
      obtain ⟨htp, htcl, rt0, hrt0, hrtt0⟩ := hinv.2.2.2 p hpcl r0 hp0 t ht0
      have htr : t ≠ r := fun e => htcl (e ▸ hr)
      have hnt : rr.twin ≠ some t := by
        intro e
        obtain ⟨_, _, rt, hrt1, hrt2⟩ := hrt t e
        rw [hrt0] at hrt1
        have : rt0 = rt := Option.some.inj hrt1
        subst this
        rw [hrtt0] at hrt2
        exact hpr (Option.some.inj hrt2)
      exact hview t htr hnt


theorem live_count_congr (heap heap2 : Heap) (created : List Nat)
    (h : ∀ p, (heap2 p).isSome = (heap p).isSome) :
    live_count heap2 created = live_count heap created := by
  unfold live_count still_allocated
  rw [List.filter_congr (fun p _ => h p)]

theorem expired_at_head (heap heap1 : Heap) (c : timeval) (r e : Nat)
    (h : flow_record_is_expired heap r c = .ok (heap1, e)) :
    expired_at heap (some c) r = decide (e ≠ 0) := by
  unfold expired_at
  simp only [h]

theorem flow_record_list_print_json_exact (config : configuration)
    (cutoff : Option timeval) :
    ∀ (cl : List Nat) (s : flow_cache) (bl : Nat → List Nat), cache_inv config s bl cl →
      ∀ fuel, cl.length ≤ fuel →
      ∃ s2 bl2 es, flow_record_list_print_json config fuel s cutoff = .ok s2
        ∧ cache_inv config s2 bl2 (cl.dropWhile (expired_at s.heap cutoff))
        ∧ (∀ p ∈ cl.takeWhile (expired_at s.heap cutoff), s2.heap p = none)
        ∧ (∀ p r2, s2.heap p = some r2 →
            ∃ r0, s.heap p = some r0 ∧ strip_ptrs r0 = strip_ptrs r2)
        ∧ (∀ p, s.heap p = none → s2.heap p = none)
        ∧ (s2.output = s.output ++ es
          ∧ es.map (fun e => some e.record.key)
              = (cl.takeWhile (expired_at s.heap cutoff)).map
                  (fun p => (s.heap p).map (fun r => r.key))
          ∧ s2.records_in_file = s.records_in_file + es.length
          ∧ s2.stats.num_records_output = s.stats.num_records_output + es.length)
        ∧ (∀ created : List Nat, created.Nodup →
            (∀ p, (s.heap p).isSome = true → p ∈ created) →
            s.stats.num_records_in_table = live_count s.heap created →
            s2.stats.num_records_in_table = live_count s2.heap created)
        ∧ (∀ p ∈ cl.dropWhile (expired_at s.heap cutoff),
            expired_at s2.heap cutoff p = expired_at s.heap cutoff p) := by
  intro cl
  induction cl with
  | nil =>
    intro s bl hinv fuel _
    have hf : s.flow_record_chrono_first = none := hinv.2.1.1
    refine ⟨s, bl, [], ?_, hinv, fun p hp => by simp at hp, fun p r2 h => ⟨r2, h, rfl⟩,
      fun _ h => h, ⟨by simp, rfl, rfl, rfl⟩, fun _ _ _ h => h, fun p hp => by simp at hp⟩
    unfold flow_record_list_print_json
    simp only [hf]
  | cons r l ih =>
    intro s bl hinv fuel hlen
    obtain ⟨fuel, rfl⟩ : ∃ f, fuel = f + 1 := ⟨fuel - 1, by simp at hlen; omega⟩
    have hlen2 : l.length ≤ fuel := by simpa using hlen
    have hf : s.flow_record_chrono_first = some r := hinv.2.1.1.1
    have hrcl : r ∈ r :: l := List.mem_cons_self _ _
    obtain ⟨x, hx⟩ := Dll_live _ _ _ hinv.2.1.1 r hrcl
    obtain ⟨rr, hrr, _, _⟩ := chrono_link_some hx
    have hrt := hinv.2.2.2 r hrcl rr hrr
    have herase : (r :: l).erase r = l := by simp
    -- the step from a state s1 that agrees with s up to exp_type
    have step : ∀ (s1 : flow_cache), cache_inv config s1 bl (r :: l) →
        s1.output = s.output → s1.records_in_file = s.records_in_file → s1.stats = s.stats →
        heap_agree strip_exp s1.heap s.heap → (∀ q, q ≠ r → s1.heap q = s.heap q) →
        expired_at s.heap cutoff r = true →
        ∀ s4, flow_record_print_and_delete config s1 r = .ok s4 →
        ∃ s2 bl2 es, flow_record_list_print_json config fuel s4 cutoff = .ok s2
          ∧ cache_inv config s2 bl2 ((r :: l).dropWhile (expired_at s.heap cutoff))
          ∧ (∀ p ∈ (r :: l).takeWhile (expired_at s.heap cutoff), s2.heap p = none)
          ∧ (∀ p r2, s2.heap p = some r2 →
              ∃ r0, s.heap p = some r0 ∧ strip_ptrs r0 = strip_ptrs r2)
          ∧ (∀ p, s.heap p = none → s2.heap p = none)
          ∧ (s2.output = s.output ++ es
            ∧ es.map (fun e => some e.record.key)
                = ((r :: l).takeWhile (expired_at s.heap cutoff)).map
                    (fun p => (s.heap p).map (fun r => r.key))
            ∧ s2.records_in_file = s.records_in_file + es.length
            ∧ s2.stats.num_records_output = s.stats.num_records_output + es.length)
          ∧ (∀ created : List Nat, created.Nodup →
              (∀ p, (s.heap p).isSome = true → p ∈ created) →
              s.stats.num_records_in_table = live_count s.heap created →
              s2.stats.num_records_in_table = live_count s2.heap created)
          ∧ (∀ p ∈ (r :: l).dropWhile (expired_at s.heap cutoff),
              expired_at s2.heap cutoff p = expired_at s.heap cutoff p) := by
      intro s1 hinv1 hout1 hrif1 hst1 hag1 hoth1 hexp s4 hpd
      obtain ⟨rr1, hrr1, err1⟩ := heap_agree_live hag1 r rr hrr
      obtain ⟨s4b, bl4, e, hpd2, hinv4, h4r, hsurv, hdd, ⟨ho, her, hrif, hno⟩, hcnt, hview⟩ :=
        print_and_delete_step config s1 bl (r :: l) r rr1 hinv1 hrcl hrr1
      rw [hpd] at hpd2
      have e4 : s4 = s4b := Except.ok.inj hpd2
      subst e4
      rw [herase] at hinv4 hview
      obtain ⟨s2, bl2, es, hsw, hinv2, hdel2, hsurv2, hdd2, ⟨ho2, hk2, hrif2, hno2⟩, hcnt2,
        hview2⟩ := ih s4 bl4 hinv4 fuel hlen2
      have hlive1 : ∀ p, (s1.heap p).isSome = (s.heap p).isSome := by
        intro p
        have := congrArg Option.isSome (hag1 p)
        simpa using this
      have hview1 : ∀ p, (s1.heap p).map expiry_view = (s.heap p).map expiry_view := by
        intro p
        have a := congrArg (Option.map (fun x : flow_record => (x.start, x.end_, x.twin)))
          (hag1 p)
        simpa [Option.map_map, Function.comp_def, strip_exp, expiry_view] using a
      have hexp41 : ∀ p ∈ l, expired_at s4.heap cutoff p = expired_at s.heap cutoff p := by
        intro p hp
        rw [hview cutoff p hp]
        exact expired_at_congr _ _ cutoff p (hview1 p) (fun _ t _ _ => hview1 t)
      obtain ⟨htk, hdk⟩ := takeWhile_dropWhile_congr _ _ l hexp41
      have hrl : r ∉ l := (List.nodup_cons.mp hinv.2.1.2.1).1
      have h4s : ∀ p r4, s4.heap p = some r4 →
          ∃ r0, s.heap p = some r0 ∧ strip_ptrs r0 = strip_ptrs r4 := by
        intro p r4 hp4
        obtain ⟨r1, hp1, e1⟩ := hsurv p r4 hp4
        have hpr : p ≠ r := by intro e; rw [e, h4r] at hp4; simp at hp4
        rw [hoth1 p hpr] at hp1
        exact ⟨r1, hp1, e1⟩
      have hkey4 : ∀ p ∈ l, (s4.heap p).map (fun r => r.key) = (s.heap p).map (fun r => r.key) := by
        intro p hp
        obtain ⟨r4, hp4⟩ := mem_chrono_live hinv4.2.1 hp
        obtain ⟨r0, hp0, e0⟩ := h4s p r4 hp4
        rw [hp4, hp0]
        simp only [Option.map_some']
        rw [strip_ptrs_key e0]
      simp only [List.dropWhile_cons, List.takeWhile_cons, hexp, if_true]
      rw [← htk, ← hdk]
      refine ⟨s2, bl2, e :: es, hsw, hinv2, ?_, ?_, fun p hp => hdd2 p (hdd p (by
          have := hlive1 p
          rw [hp] at this
          cases h : s1.heap p with
          | none => rfl
          | some y => rw [h] at this; simp at this)),
        ⟨?_, ?_, ?_, ?_⟩, ?_, ?_⟩
      · intro p hp
        rcases List.mem_cons.mp hp with e | hp
        · rw [e]; exact hdd2 r h4r
        · exact hdel2 p hp
      · intro p r2 hp2
        obtain ⟨r4, hp4, e4⟩ := hsurv2 p r2 hp2
        obtain ⟨r0, hp0, e0⟩ := h4s p r4 hp4
        exact ⟨r0, hp0, e0.trans e4⟩
      · rw [ho2, ho, hout1]
        simp
      · simp only [List.map_cons]
        congr 1
        · rw [her, hrr]
          simp only [Option.map_some']
          have : rr1.key = rr.key := congrArg (fun x => x.key) err1
          rw [this]
        · rw [hk2]
          apply List.map_congr_left
          intro p hp
          exact hkey4 p ((List.takeWhile_sublist _).subset hp)
      · rw [hrif2, hrif, hrif1]
        simp only [List.length_cons]
        omega
      · rw [hno2, hno, hst1]
        simp only [List.length_cons]
        omega
      · intro created hnd hall hnum
        apply hcnt2 created hnd
        · intro p hp
          apply hall
          cases h : s.heap p with
          | none => rw [hdd p (by
              have := hlive1 p
              rw [h] at this
              cases h1 : s1.heap p with
              | none => rfl
              | some y => rw [h1] at this; simp at this)] at hp; simp at hp
          | some y => rfl
        · apply hcnt created hnd
          · intro p hp
            apply hall
            rw [← hlive1 p]; exact hp
          · rw [hst1, hnum]
            exact (live_count_congr _ _ created hlive1).symm
      · intro p hp
        rw [hview2 p hp]
        exact hexp41 p ((List.dropWhile_sublist _).subset hp)
    unfold flow_record_list_print_json
    simp only [hf]
    cases cutoff with
    | none =>
      obtain ⟨s4, _, _, hpd, _⟩ := print_and_delete_step config s bl (r :: l) r rr hinv hrcl hrr
      simp only [hpd]
      exact step s hinv rfl rfl rfl (heap_agree_refl _ _) (fun _ _ => rfl) rfl s4 hpd
    | some c =>
      obtain ⟨heap1, e, hexp, hag⟩ := flow_record_is_expired_spec s.heap r rr c hrr
        (fun t ht => by obtain ⟨_, _, rt, hrt1, _⟩ := hrt t ht; exact ⟨rt, hrt1⟩)
      have hhead := expired_at_head s.heap heap1 c r e hexp
      simp only [hexp]
      by_cases he : e = 0
      · subst he
        have e1 : heap1 = s.heap := flow_record_is_expired_zero s.heap heap1 r c hexp
        subst e1
        have hnot : expired_at s.heap (some c) r = false := by rw [hhead]; simp
        simp only [if_true, List.dropWhile_cons, List.takeWhile_cons, hnot, Bool.false_eq_true,
          if_false]
        exact ⟨_, bl, [], rfl,
          cache_inv_congr (s := s) (heap_agree_refl _ _) rfl hf.symm rfl hinv,
          fun p hp => by simp at hp, fun p r2 h => ⟨r2, h, rfl⟩,
          fun _ h => h, ⟨by simp, rfl, rfl, rfl⟩, fun _ _ _ h => h, fun _ _ => rfl⟩
      · have hyes : expired_at s.heap (some c) r = true := by rw [hhead]; simp [he]
        simp only [he, if_false]
        have hinv1 : cache_inv config
            { s with heap := heap1, flow_record_chrono_first := some r } bl (r :: l) :=
          cache_inv_congr (s := s) hag rfl hf.symm rfl hinv
        obtain ⟨rr1, hrr1, _⟩ := heap_agree_live hag r rr hrr
        obtain ⟨s4, _, _, hpd, _⟩ := print_and_delete_step config _ bl (r :: l) r rr1 hinv1
          hrcl hrr1
        simp only [hpd]
        exact step _ hinv1 rfl rfl rfl hag
          (fun q hq => flow_record_is_expired_other s.heap heap1 r c e hexp q hq) hyes s4 hpd


/-- C24: in a well-formed cache with chronological list cl, the sweep
flow_record_list_print_json with a cutoff c returns (with enough fuel). It emits, in the
order of the list, and deletes the records of the longest prefix of cl whose records are
all expired at c: the prefix and the rest make up cl, every record of the prefix is
expired, and the rest is empty or starts with a record that is not expired. Afterwards
the cache is well formed again and its chronological list is the rest, in the same
order: each of its records is kept with all its fields but the list pointers, whether it
is expired or not. -/
theorem flow_record_list_print_json_prefix (config : configuration) (s : flow_cache)
    (bl : Nat → List Nat) (cl : List Nat) (c : timeval) (hinv : cache_inv config s bl cl) :
    ∃ n, ∀ fuel, n ≤ fuel → ∃ s2 bl2 es,
      flow_record_list_print_json config fuel s (some c) = .ok s2
      ∧ cl.takeWhile (expired_at s.heap (some c)) ++ cl.dropWhile (expired_at s.heap (some c))
          = cl
      ∧ (∀ p ∈ cl.takeWhile (expired_at s.heap (some c)), expired_at s.heap (some c) p = true)
      ∧ (∀ p, (cl.dropWhile (expired_at s.heap (some c))).head? = some p →
          expired_at s.heap (some c) p = false ∧ expired_at s2.heap (some c) p = false)
      ∧ cache_inv config s2 bl2 (cl.dropWhile (expired_at s.heap (some c)))
      ∧ (∀ p ∈ cl.takeWhile (expired_at s.heap (some c)), s2.heap p = none)
      ∧ (∀ p ∈ cl.dropWhile (expired_at s.heap (some c)),
          ∃ r0 r2, s.heap p = some r0 ∧ s2.heap p = some r2 ∧ strip_ptrs r0 = strip_ptrs r2)
      ∧ s2.output = s.output ++ es
      ∧ es.length = (cl.takeWhile (expired_at s.heap (some c))).length
      ∧ es.map (fun e => some e.record.key)
          = (cl.takeWhile (expired_at s.heap (some c))).map
              (fun p => (s.heap p).map (fun r => r.key)) := by
  refine ⟨cl.length, fun fuel hf => ?_⟩
  obtain ⟨s2, bl2, es, hsw, hinv2, hdel, hsurv, _, ⟨hout, hkeys, _, _⟩, _, hview⟩ :=
    flow_record_list_print_json_exact config (some c) cl s bl hinv fuel hf
  have hhead : ∀ p, (cl.dropWhile (expired_at s.heap (some c))).head? = some p →
      expired_at s.heap (some c) p = false := by
    intro p hp
    have h := List.head?_dropWhile_not (expired_at s.heap (some c)) cl
    rw [hp] at h
    simpa using h
  refine ⟨s2, bl2, es, hsw, List.takeWhile_append_dropWhile _ _,
    fun p hp => List.mem_takeWhile_imp hp, ?_, hinv2, hdel, ?_, hout, ?_, hkeys⟩
  · intro p hp
    refine ⟨hhead p hp, ?_⟩
    rw [hview p (List.mem_of_mem_head? hp)]
    exact hhead p hp
  · intro p hp
    obtain ⟨r2, hr2⟩ := mem_chrono_live hinv2.2.1 hp
    obtain ⟨r0, hr0, e0⟩ := hsurv p r2 hr2
    exact ⟨r0, r2, hr0, hr2, e0⟩
  · have := congrArg List.length hkeys
    simpa using this

theorem flow_record_list_print_json_prefix_witness :
    ∃ bl cl, cache_inv config_exact_bidir (cache_two config_exact_bidir) bl cl
      ∧ ∃ n, ∀ fuel, n ≤ fuel → ∃ s2 bl2 es,
        flow_record_list_print_json config_exact_bidir fuel (cache_two config_exact_bidir)
            (some { tv_sec := 100, tv_usec := 0 }) = .ok s2
        ∧ cl.takeWhile (expired_at (cache_two config_exact_bidir).heap
              (some { tv_sec := 100, tv_usec := 0 }))
            ++ cl.dropWhile (expired_at (cache_two config_exact_bidir).heap
              (some { tv_sec := 100, tv_usec := 0 })) = cl
        ∧ (∀ p ∈ cl.takeWhile (expired_at (cache_two config_exact_bidir).heap
              (some { tv_sec := 100, tv_usec := 0 })),
            expired_at (cache_two config_exact_bidir).heap
              (some { tv_sec := 100, tv_usec := 0 }) p = true)
        ∧ (∀ p, (cl.dropWhile (expired_at (cache_two config_exact_bidir).heap
              (some { tv_sec := 100, tv_usec := 0 }))).head? = some p →
            expired_at (cache_two config_exact_bidir).heap
                (some { tv_sec := 100, tv_usec := 0 }) p = false
              ∧ expired_at s2.heap (some { tv_sec := 100, tv_usec := 0 }) p = false)
        ∧ cache_inv config_exact_bidir s2 bl2
            (cl.dropWhile (expired_at (cache_two config_exact_bidir).heap
              (some { tv_sec := 100, tv_usec := 0 })))
        ∧ (∀ p ∈ cl.takeWhile (expired_at (cache_two config_exact_bidir).heap
              (some { tv_sec := 100, tv_usec := 0 })), s2.heap p = none)
        ∧ (∀ p ∈ cl.dropWhile (expired_at (cache_two config_exact_bidir).heap
              (some { tv_sec := 100, tv_usec := 0 })),
            ∃ r0 r2, (cache_two config_exact_bidir).heap p = some r0 ∧ s2.heap p = some r2
              ∧ strip_ptrs r0 = strip_ptrs r2)
        ∧ s2.output = (cache_two config_exact_bidir).output ++ es
        ∧ es.length = (cl.takeWhile (expired_at (cache_two config_exact_bidir).heap
              (some { tv_sec := 100, tv_usec := 0 }))).length
        ∧ es.map (fun e => some e.record.key)
            = (cl.takeWhile (expired_at (cache_two config_exact_bidir).heap
                (some { tv_sec := 100, tv_usec := 0 }))).map
                (fun p => ((cache_two config_exact_bidir).heap p).map (fun r => r.key)) :=
  match reachable_cache_inv config_exact_bidir _ (cache_two_reachable config_exact_bidir) with
  | ⟨bl, cl, h⟩ =>
    ⟨bl, cl, h, flow_record_list_print_json_prefix config_exact_bidir _ bl cl
      { tv_sec := 100, tv_usec := 0 } h⟩

/-! ### The paths of a lookup -/

theorem flow_key_get_record_paths (config : configuration) (s : flow_cache)
    (bl : Nat → List Nat) (cl : List Nat) (fuel : Nat) (key : flow_key)
    (create_new_records : Bool) (malloc : Option Nat) (res : flow_cache × Option Nat)
    (hinv : cache_inv config s bl cl)
    (h : flow_key_get_record config fuel s key create_new_records malloc = .ok res) :
    ((∃ r, res = (s, some r))
      ∧ ∀ created, flow_key_get_record_created config fuel s key create_new_records malloc
          created = created)
    ∨ ((∀ p r, s.heap p = some r → r.key ≠ key)
      ∧ flow_key_get_record_create config fuel s key (flow_key_hash config key)
          create_new_records malloc = .ok res
      ∧ ∀ created, flow_key_get_record_created config fuel s key create_new_records malloc
          created = created_after_create create_new_records malloc created)
    ∨ (∃ r rr s1, r ∈ cl ∧ s.heap r = some rr ∧ rr.key = key
      ∧ flow_record_print_and_delete config s r = .ok s1
      ∧ flow_key_get_record_create config fuel s1 key (flow_key_hash config key)
          create_new_records malloc = .ok res
      ∧ ∀ created, flow_key_get_record_created config fuel s key create_new_records malloc
          created = created_after_create create_new_records malloc
            (still_allocated s1.heap created)) := by
  unfold flow_key_get_record at h
  unfold flow_key_get_record_created
  dsimp only at h ⊢
  cases hfind : flow_record_list_find_record_by_key fuel s.heap
      (s.flow_record_list_array (flow_key_hash config key)) key with
  | error e => rw [hfind] at h; simp at h
  | ok found =>
    rw [hfind] at h
    have hfind2 := find_record_by_key_mono s.heap key fuel
      (fuel + (bl (flow_key_hash config key)).length) _ found (by omega) hfind
    rw [find_record_by_key_spec s.heap key _ none _ _ (hinv.1.1 _).1 (by omega)] at hfind2
    have hlf := Except.ok.inj hfind2
    cases found with
    | none =>
      dsimp only at h ⊢
      right; left
      refine ⟨?_, h, fun _ => rfl⟩
      intro p r hp hk
      have hm := hinv.1.2.2 p r hp
      rw [hk] at hm
      have := list_find_none s.heap (flow_key_is_eq key) _
        (fun q hq => by obtain ⟨x, hx, _⟩ := hinv.1.2.1 _ q hq; exact ⟨x, hx⟩) hlf p hm r hp
      exact this ((flow_key_is_eq_zero _ _).2 hk.symm)
    | some r =>
      dsimp only at h ⊢
      obtain ⟨_, rr, hrr, hkr⟩ := list_find_some _ _ _ r hlf
      have hkey : rr.key = key := ((flow_key_is_eq_zero _ _).1 hkr).symm
      cases create_new_records with
      | false =>
        simp only [Bool.false_eq_true, if_false] at h ⊢
        exact Or.inl ⟨⟨r, (Except.ok.inj h).symm⟩, fun _ => trivial⟩
      | true =>
        simp only [if_true] at h ⊢
        cases hin : flow_record_is_in_chrono_list s.heap r with
        | error e => rw [hin] at h; simp at h
        | ok in_chrono =>
          rw [hin] at h
          dsimp only at h ⊢
          by_cases hc0 : in_chrono = 0
          · simp only [hc0, ne_eq, not_true_eq_false, if_false] at h ⊢
            exact Or.inl ⟨⟨r, (Except.ok.inj h).symm⟩, fun _ => trivial⟩
          · simp only [ne_eq, hc0, not_false_eq_true, if_true] at h ⊢
            cases hpa : flow_record_is_past_active_expiration s.heap r with
            | error e => rw [hpa] at h; simp at h
            | ok past =>
              rw [hpa] at h
              dsimp only at h ⊢
              by_cases hp0 : past = 0
              · simp only [hp0, ne_eq, not_true_eq_false, if_false] at h ⊢
                exact Or.inl ⟨⟨r, (Except.ok.inj h).symm⟩, fun _ => trivial⟩
              · simp only [ne_eq, hp0, not_false_eq_true, if_true] at h ⊢
                cases hpd : flow_record_print_and_delete config s r with
                | error e => rw [hpd] at h; simp at h
                | ok s1 =>
                  rw [hpd] at h
                  dsimp only at h ⊢
                  have hrcl : r ∈ cl := by
                    by_contra hn
                    unfold flow_record_is_in_chrono_list at hin
                    rw [hrr] at hin
                    obtain ⟨h3, h4⟩ := hinv.2.2.1 r rr hrr hn
                    simp only [h3, h4, ne_eq, not_true_eq_false, or_self, if_false] at hin
                    exact hc0 (Except.ok.inj hin).symm
                  exact Or.inr (Or.inr ⟨r, rr, s1, hrcl, hrr, hkey, hpd, h, fun _ => rfl⟩)


theorem flow_record_chrono_list_append_stats (s s2 : flow_cache) (x : Nat)
    (h : flow_record_chrono_list_append s x = .ok s2) :
    s2.stats = s.stats ∧ s2.output = s.output ∧ s2.records_in_file = s.records_in_file := by
  unfold flow_record_chrono_list_append at h
  cases hf : s.flow_record_chrono_first with
  | none =>
    rw [hf] at h
    have := Except.ok.inj h
    subst this
    exact ⟨rfl, rfl, rfl⟩
  | some f =>
    rw [hf] at h
    simp only at h
    cases hl : s.flow_record_chrono_last with
    | none => rw [hl] at h; simp at h
    | some last =>
      rw [hl] at h
      simp only at h
      cases hr : s.heap last with
      | none => rw [hr] at h; simp at h
      | some rl =>
        rw [hr] at h
        simp only at h
        cases hx : Function.update s.heap last (some { rl with time_next := some x }) x with
        | none => rw [hx] at h; simp at h
        | some rx =>
          rw [hx] at h
          have := Except.ok.inj h
          subst this
          exact ⟨rfl, rfl, rfl⟩

theorem flow_key_get_record_link_frame (s : flow_cache) (a : Nat)
    (res : flow_cache × Option Nat) (h : flow_key_get_record_link s a = .ok res) :
    heap_agree (fun r => r.key) res.1.heap s.heap
      ∧ res.1.stats = s.stats ∧ res.1.output = s.output
      ∧ res.1.records_in_file = s.records_in_file ∧ res.2 = some a := by
  unfold flow_key_get_record_link at h
  cases ha : s.heap a with
  | none => rw [ha] at h; simp at h
  | some rr =>
    rw [ha] at h
    simp only at h
    cases ht : rr.twin with
    | none =>
      rw [ht] at h
      simp only at h
      cases happ : flow_record_chrono_list_append s a with
      | error e => rw [happ] at h; simp at h
      | ok s4 =>
        rw [happ] at h
        have := Except.ok.inj h
        subst this
        obtain ⟨hag, _⟩ := flow_record_chrono_list_append_frame s s4 a happ
        obtain ⟨q1, q2, q3⟩ := flow_record_chrono_list_append_stats s s4 a happ
        exact ⟨agree_time_key hag, q1, q2, q3, rfl⟩
    | some t =>
      rw [ht] at h
      simp only at h
      cases hrt : s.heap t with
      | none => rw [hrt] at h; simp at h
      | some rt =>
        rw [hrt] at h
        simp only at h
        split at h
        · have := Except.ok.inj h
          subst this
          exact ⟨heap_agree_refl _ _, rfl, rfl, rfl, rfl⟩
        · have := Except.ok.inj h
          subst this
          exact ⟨heap_agree_update _ _ _ _ _ hrt rfl, rfl, rfl, rfl, rfl⟩

theorem flow_key_get_record_pair_frame (config : configuration) (s : flow_cache)
    (key : flow_key) (fuel : Nat) (a : Nat) (res : flow_cache × Option Nat)
    (h : flow_key_get_record_pair config fuel s key a = .ok res) :
    heap_agree (fun r => r.key) res.1.heap s.heap
      ∧ res.1.stats = s.stats ∧ res.1.output = s.output
      ∧ res.1.records_in_file = s.records_in_file ∧ res.2 = some a := by
  unfold flow_key_get_record_pair at h
  cases hbd : config.bidir with
  | false =>
    rw [hbd] at h
    exact flow_key_get_record_link_frame s a res h
  | true =>
    rw [hbd] at h
    simp only [if_true] at h
    cases hgt : flow_key_get_twin config fuel s key with
    | error e => rw [hgt] at h; simp at h
    | ok tw =>
      rw [hgt] at h
      simp only at h
      cases ha : s.heap a with
      | none => rw [ha] at h; simp at h
      | some rr =>
        rw [ha] at h
        simp only at h
        obtain ⟨h1, h2, h3, h4, h5⟩ := flow_key_get_record_link_frame _ a res h
        exact ⟨heap_agree_trans h1 (heap_agree_update _ _ _ _ _ ha rfl), h2, h3, h4, h5⟩

theorem flow_key_get_record_create_frame (config : configuration) (s : flow_cache)
    (bl : Nat → List Nat) (key : flow_key) (fuel : Nat) (create_new_records : Bool)
    (malloc : Option Nat) (res : flow_cache × Option Nat) (hb : buckets_inv config s bl)
    (h : flow_key_get_record_create config fuel s key (flow_key_hash config key)
        create_new_records malloc = .ok res) :
    res.1.output = s.output ∧ res.1.records_in_file = s.records_in_file
      ∧ res.1.stats.num_records_output = s.stats.num_records_output
      ∧ (∀ a, create_new_records = true → malloc = some a →
          s.heap a = none ∧ res.2 = some a
          ∧ res.1.stats.num_records_in_table = s.stats.num_records_in_table + 1
          ∧ heap_agree (fun r => r.key) res.1.heap
              (Function.update s.heap a (some (flow_record_initial key))))
      ∧ ((create_new_records = false ∨ malloc = none) →
          res.1.heap = s.heap ∧ res.2 = none
          ∧ res.1.stats.num_records_in_table = s.stats.num_records_in_table) := by
  unfold flow_key_get_record_create at h
  cases create_new_records with
  | false =>
    have e : (s, (none : Option Nat)) = res := by simpa using h
    subst e
    exact ⟨rfl, rfl, rfl, fun a h => by simp at h, fun _ => ⟨rfl, rfl, rfl⟩⟩
  | true =>
    simp only [if_true] at h
    cases malloc with
    | none =>
      have e := Except.ok.inj h
      subst e
      exact ⟨rfl, rfl, rfl, fun a _ h => by simp at h, fun _ => ⟨rfl, rfl, rfl⟩⟩
    | some a =>
      simp only at h
      cases ha : s.heap a with
      | some x => rw [ha] at h; simp at h
      | none =>
        rw [ha] at h
        simp only [Option.isSome_none, Bool.false_eq_true, if_false] at h
        obtain ⟨heap2, hpre, hb2, hag⟩ := create_prepend_buckets config s bl key a hb ha
        rw [hpre] at h
        obtain ⟨h1, h2, h3, h4, hret⟩ := flow_key_get_record_pair_frame config _ key fuel a res h
        refine ⟨h3, h4, by rw [h2]; rfl, ?_, fun hh => by simp at hh⟩
        intro a2 _ ha2
        have e : a = a2 := Option.some.inj ha2
        subst e
        exact ⟨ha, hret, by rw [h2]; rfl, heap_agree_trans h1 (agree_links_key hag)⟩


/-! ### Uniqueness of keys -/

theorem keys_unique_survivors (heap heap2 : Heap) (hk : keys_unique heap)
    (hs : ∀ p r2, heap2 p = some r2 → ∃ r0, heap p = some r0 ∧ strip_ptrs r0 = strip_ptrs r2) :
    keys_unique heap2 := by
  intro p q rp rq hp hq hkey
  obtain ⟨rp0, hp0, ep⟩ := hs p rp hp
  obtain ⟨rq0, hq0, eq⟩ := hs q rq hq
  exact hk p q rp0 rq0 hp0 hq0
    (by rw [strip_ptrs_key ep, strip_ptrs_key eq]; exact hkey)

theorem keys_unique_create (config : configuration) (s : flow_cache)
    (bl : Nat → List Nat) (key : flow_key) (fuel : Nat) (create_new_records : Bool)
    (malloc : Option Nat) (res : flow_cache × Option Nat) (hb : buckets_inv config s bl)
    (hk : keys_unique s.heap) (hno : ∀ p r, s.heap p = some r → r.key ≠ key)
    (h : flow_key_get_record_create config fuel s key (flow_key_hash config key)
        create_new_records malloc = .ok res) :
    keys_unique res.1.heap := by
  obtain ⟨_, _, _, hnew, hold⟩ :=
    flow_key_get_record_create_frame config s bl key fuel create_new_records malloc res hb h
  cases hc : create_new_records with
  | false =>
    rw [(hold (Or.inl hc)).1]
    exact hk
  | true =>
    cases hm : malloc with
    | none =>
      rw [(hold (Or.inr hm)).1]
      exact hk
    | some a =>
      obtain ⟨ha, _, _, hag⟩ := hnew a hc hm
      have hof : ∀ p r2, res.1.heap p = some r2 →
          (p = a ∧ r2.key = key) ∨ (p ≠ a ∧ ∃ r0, s.heap p = some r0 ∧ r0.key = r2.key) := by
        intro p r2 hp2
        obtain ⟨r0, hp0, e0⟩ := map_eq_live_rev (hag p) hp2
        have e0 : r0.key = r2.key := e0
        by_cases hpa : p = a
        · left
          subst hpa
          rw [Function.update_same] at hp0
          have : flow_record_initial key = r0 := Option.some.inj hp0
          rw [← e0, ← this]
          exact ⟨rfl, rfl⟩
        · right
          rw [Function.update_noteq hpa] at hp0
          exact ⟨hpa, r0, hp0, e0⟩
      intro p q rp rq hp hq hkey
      rcases hof p rp hp with ⟨e1, k1⟩ | ⟨n1, r1, h1, k1⟩
      · rcases hof q rq hq with ⟨e2, k2⟩ | ⟨n2, r2, h2, k2⟩
        · rw [e1, e2]
        · exact absurd (by rw [k2, ← hkey, k1]) (hno q r2 h2)
      · rcases hof q rq hq with ⟨e2, k2⟩ | ⟨n2, r2, h2, k2⟩
        · exact absurd (by rw [k1, hkey, k2]) (hno p r1 h1)
        · exact hk p q r1 r2 h1 h2 (by rw [k1, k2]; exact hkey)

theorem reachable_keys_unique (config : configuration) (s : flow_cache)
    (h : Reachable config s) : keys_unique s.heap := by
  induction h with
  | init =>
    intro p q rp rq hp
    simp [flow_record_list_init, flow_cache_start] at hp
  | get_record s fuel key create_new_records malloc res hs hres ih =>
    obtain ⟨bl, cl, hinv⟩ := reachable_cache_inv config s hs
    rcases flow_key_get_record_paths config s bl cl fuel key create_new_records malloc res hinv
        hres with ⟨⟨r, e⟩, _⟩ | ⟨hno, hc, _⟩ | ⟨r, rr, s1, hrcl, hrr, hkey, hpd, hc, _⟩
    · rw [e]; exact ih
    · exact keys_unique_create config s bl key fuel create_new_records malloc res hinv.1 ih hno hc
    · obtain ⟨s4, bl4, _, hpd2, hinv4, h4r, hsurv, _⟩ :=
        print_and_delete_step config s bl cl r rr hinv hrcl hrr
      rw [hpd] at hpd2
      have e4 : s1 = s4 := Except.ok.inj hpd2
      subst e4
      have hk1 := keys_unique_survivors s.heap s1.heap ih hsurv
      refine keys_unique_create config s1 bl4 key fuel create_new_records malloc res hinv4.1 hk1
        ?_ hc
      intro p r4 hp4 hk4
      obtain ⟨r0, hp0, e0⟩ := hsurv p r4 hp4
      have hpr : p = r := ih p r r0 rr hp0 hrr (by rw [strip_ptrs_key e0, hk4, hkey])
      rw [hpr, h4r] at hp4
      simp at hp4
  | print_and_delete s record cl2 s1 hs hcl hmem hres ih =>
    obtain ⟨bl, cl, hinv⟩ := reachable_cache_inv config s hs
    have : cl2 = cl := is_chrono_list_unique hcl hinv.2.1
    subst this
    obtain ⟨rr, hrr⟩ := mem_chrono_live hinv.2.1 hmem
    obtain ⟨s4, bl4, _, hpd2, _, _, hsurv, _⟩ :=
      print_and_delete_step config s bl cl2 record rr hinv hmem hrr
    rw [hres] at hpd2
    have e4 : s1 = s4 := Except.ok.inj hpd2
    subst e4
    exact keys_unique_survivors s.heap s1.heap ih hsurv
  | print_json s fuel inactive_cutoff s1 hs hres ih =>
    obtain ⟨bl, cl, hinv⟩ := reachable_cache_inv config s hs
    have h2 := flow_record_list_print_json_mono config inactive_cutoff fuel (fuel + cl.length)
      s s1 (by omega) hres
    obtain ⟨s2, _, _, hsw, _, _, hsurv, _⟩ :=
      flow_record_list_print_json_exact config inactive_cutoff cl s bl hinv (fuel + cl.length)
        (by omega)
    rw [h2] at hsw
    have e2 : s1 = s2 := Except.ok.inj hsw
    subst e2
    exact keys_unique_survivors s.heap s1.heap ih hsurv

theorem flow_record_print_and_delete_effect_witness :
    ∃ bl cl rr, cache_inv config_exact_bidir (cache_two config_exact_bidir) bl cl
      ∧ keys_unique (cache_two config_exact_bidir).heap
      ∧ 1 ∈ cl ∧ (cache_two config_exact_bidir).heap 1 = some rr
      ∧ ∃ s4, flow_record_print_and_delete config_exact_bidir (cache_two config_exact_bidir) 1
          = .ok s4
        ∧ s4.heap 1 = none ∧ (∀ t, rr.twin = some t → s4.heap t = none)
        ∧ cache_inv config_exact_bidir s4 (fun i => (erase_twin (bl i) rr.twin).erase 1)
            (cl.erase 1)
        ∧ (∀ p, p ≠ 1 → rr.twin ≠ some p →
            (s4.heap p).map strip_ptrs = ((cache_two config_exact_bidir).heap p).map strip_ptrs)
        ∧ (∃ n, ∀ fuel, n ≤ fuel → ∀ malloc,
            flow_key_get_record config_exact_bidir fuel s4 rr.key false malloc = .ok (s4, none))
        ∧ (∀ t rt, rr.twin = some t → (cache_two config_exact_bidir).heap t = some rt →
            ∃ n, ∀ fuel, n ≤ fuel → ∀ malloc,
              flow_key_get_record config_exact_bidir fuel s4 rt.key false malloc
                = .ok (s4, none)) :=
  match reachable_cache_inv config_exact_bidir _ (cache_two_reachable config_exact_bidir) with
  | ⟨bl, cl, h⟩ =>
    have hcl : cl = [1] := is_chrono_list_unique h.2.1 ⟨⟨rfl, none, rfl, rfl⟩, by decide, rfl⟩
    have hk := reachable_keys_unique config_exact_bidir _ (cache_two_reachable config_exact_bidir)
    have hm : 1 ∈ cl := by rw [hcl]; simp
    ⟨bl, cl, _, h, hk, hm, rfl,
      flow_record_print_and_delete_effect config_exact_bidir _ bl cl 1 _ h hk hm rfl⟩

/-! ### flow_record_list_free and the counters -/

theorem Dll_head {lk : Link} : ∀ {l : List Nat} {a h : Option Nat}, Dll lk a h l → h = l.head?
  | [], _, _, hd => hd
  | _ :: _, _, _, ⟨hh, _⟩ => hh

theorem flow_record_list_free_records_spec (config : configuration) (i : Nat) :
    ∀ (l : List Nat) (s : flow_cache) (bl : Nat → List Nat), buckets_inv config s bl →
      bl i = l → ∀ fuel, l.length ≤ fuel →
      ∃ s2, flow_record_list_free_records config fuel s (s.flow_record_list_array i) = .ok s2
        ∧ buckets_inv config s2 (Function.update bl i [])
        ∧ (∀ p, (s2.heap p).isSome = ((s.heap p).isSome && decide (p ∉ l)))
        ∧ s2.output = s.output ∧ s2.records_in_file = s.records_in_file
        ∧ s2.stats.num_records_output = s.stats.num_records_output
        ∧ s2.flow_record_chrono_first = s.flow_record_chrono_first
        ∧ s2.flow_record_chrono_last = s.flow_record_chrono_last
        ∧ (∀ created : List Nat, created.Nodup →
            (∀ p, (s.heap p).isSome = true → p ∈ created) →
            s.stats.num_records_in_table = live_count s.heap created →
            s2.stats.num_records_in_table = live_count s2.heap created) := by
  intro l
  induction l with
  | nil =>
    intro s bl hb hl fuel _
    have hh : s.flow_record_list_array i = none := by
      have := (hb.1 i).1
      rw [hl] at this
      exact this
    have hbl : Function.update bl i [] = bl := by
      rw [← hl, Function.update_eq_self]
    rw [hh, hbl]
    refine ⟨s, ?_, hb, fun p => by simp, rfl, rfl, rfl, rfl, rfl, fun _ _ _ h => h⟩
    unfold flow_record_list_free_records
    rfl
  | cons r l ih =>
    intro s bl hb hl fuel hlen
    obtain ⟨fuel, rfl⟩ : ∃ f, fuel = f + 1 := ⟨fuel - 1, by simp at hlen; omega⟩
    have hlen2 : l.length ≤ fuel := by simpa using hlen
    have hlist := hb.1 i
    rw [hl] at hlist
    obtain ⟨hhead, nx, hlk, hrest⟩ := hlist.1
    obtain ⟨rr, hrr, _, hnx⟩ := bucket_link_some hlk
    have hri : r ∈ bl i := by rw [hl]; exact List.mem_cons_self _ _
    obtain ⟨rr0, hrr0, hhash⟩ := hb.2.1 i r hri
    have e0 : rr0 = rr := Option.some.inj (hrr0.symm.trans hrr)
    subst e0
    obtain ⟨s1, hdel, hb1, hag1, hf1, hl1, hrif1, hout1, hst1⟩ :=
      flow_record_delete_spec config s bl r rr0 hb hrr
    rw [hhash, hl] at hb1
    have herase : (r :: l).erase r = l := by simp
    rw [herase] at hb1
    have hnext : rr0.next = s1.flow_record_list_array i := by
      have h1 := Dll_head hrest
      have h2 := Dll_head (hb1.1 i).1
      rw [Function.update_same] at h2
      rw [hnx, h1, h2]
    obtain ⟨s2, hfree, hb2, hlive2, hout2, hrif2, hno2, hf2, hl2, hcnt2⟩ :=
      ih s1 (Function.update bl i l) hb1 (Function.update_same _ _ _) fuel hlen2
    have hlive1 : ∀ p, (s1.heap p).isSome = ((s.heap p).isSome && decide (p ≠ r)) := by
      intro p
      have h := congrArg Option.isSome (hag1 p)
      simp only [Option.isSome_map'] at h
      rw [h]
      by_cases hp : p = r
      · subst hp; simp
      · simp [Function.update_noteq hp, hp]
    refine ⟨s2, ?_, ?_, ?_, by rw [hout2, hout1], by rw [hrif2, hrif1], ?_, by rw [hf2, hf1],
      by rw [hl2, hl1], ?_⟩
    · rw [hhead]
      unfold flow_record_list_free_records
      simp only [hrr, hdel]
      rw [hnext]
      exact hfree
    · rw [Function.update_idem] at hb2
      exact hb2
    · intro p
      rw [hlive2 p, hlive1 p]
      by_cases hp : p = r
      · subst hp; simp
      · simp [hp]
    · rw [hno2, hst1]
      rfl
    · intro created hnd hall hnum
      apply hcnt2 created hnd
      · intro p hp
        apply hall
        rw [hlive1 p] at hp
        simp only [Bool.and_eq_true] at hp
        exact hp.1
      · have hrc : r ∈ created := hall r (by rw [hrr]; rfl)
        have h1 := live_count_remove s.heap s1.heap created r hnd hrc (by rw [hrr]; rfl) hlive1
        have h2 : s1.stats.num_records_in_table = s.stats.num_records_in_table - 1 := by
          rw [hst1]; rfl
        omega

theorem flow_record_list_free_buckets_spec (config : configuration) (fuel : Nat) :
    ∀ (n i : Nat) (s : flow_cache) (bl : Nat → List Nat), buckets_inv config s bl →
      (∀ j, (bl j).length ≤ fuel) →
      ∃ s2 bl2, flow_record_list_free_buckets config fuel n i s = .ok s2
        ∧ buckets_inv config s2 bl2
        ∧ (∀ j, i ≤ j → j < i + n → bl2 j = [])
        ∧ (∀ j, ¬ (i ≤ j ∧ j < i + n) → bl2 j = bl j)
        ∧ (∀ p, (s2.heap p).isSome = true → (s.heap p).isSome = true)
        ∧ s2.output = s.output ∧ s2.records_in_file = s.records_in_file
        ∧ s2.stats.num_records_output = s.stats.num_records_output
        ∧ (∀ created : List Nat, created.Nodup →
            (∀ p, (s.heap p).isSome = true → p ∈ created) →
            s.stats.num_records_in_table = live_count s.heap created →
            s2.stats.num_records_in_table = live_count s2.heap created) := by
  intro n
  induction n with
  | zero =>
    intro i s bl hb _
    exact ⟨s, bl, rfl, hb, fun j h1 h2 => by omega, fun _ _ => rfl, fun _ h => h, rfl, rfl, rfl,
      fun _ _ _ h => h⟩
  | succ n ih =>
    intro i s bl hb hlen
    obtain ⟨s1, hfree, hb1, hlive1, hout1, hrif1, hno1, _, _, hcnt1⟩ :=
      flow_record_list_free_records_spec config i (bl i) s bl hb rfl fuel (hlen i)
    have hnone : s1.flow_record_list_array i = none := by
      have h := (hb1.1 i).1
      rw [Function.update_same] at h
      exact h
    have hb1' : buckets_inv config
        { s1 with flow_record_list_array := Function.update s1.flow_record_list_array i none }
        (Function.update bl i []) := by
      refine buckets_inv_of_eq (s := s1) rfl ?_ hb1
      show Function.update s1.flow_record_list_array i none = s1.flow_record_list_array
      rw [← hnone, Function.update_eq_self]
    have hlen1 : ∀ j, ((Function.update bl i []) j).length ≤ fuel := by
      intro j
      by_cases hj : j = i
      · subst hj; simp
      · rw [Function.update_noteq hj]; exact hlen j
    obtain ⟨s2, bl2, hrec, hb2, hempty, hsame, hlive2, hout2, hrif2, hno2, hcnt2⟩ :=
      ih (i + 1) _ _ hb1' hlen1
    have hlive : ∀ p, (s1.heap p).isSome = true → (s.heap p).isSome = true := by
      intro p hp
      rw [hlive1 p] at hp
      simp only [Bool.and_eq_true] at hp
      exact hp.1
    refine ⟨s2, bl2, ?_, hb2, ?_, ?_, fun p hp => hlive p (hlive2 p hp), by rw [hout2]; exact hout1,
      by rw [hrif2]; exact hrif1, by rw [hno2]; exact hno1, ?_⟩
    · unfold flow_record_list_free_buckets
      simp only [hfree]
      exact hrec
    · intro j h1 h2
      by_cases hj : j = i
      · subst hj
        rw [hsame j (by omega), Function.update_same]
      · exact hempty j (by omega) (by omega)
    · intro j hj
      have hji : j ≠ i := by intro e; subst e; omega
      rw [hsame j (by omega), Function.update_noteq hji]
    · intro created hnd hall hnum
      exact hcnt2 created hnd (fun p hp => hall p (hlive p hp)) (hcnt1 created hnd hall hnum)

theorem flow_record_list_free_spec (config : configuration) (s : flow_cache)
    (bl : Nat → List Nat) (fuel : Nat) (hb : buckets_inv config s bl)
    (hlen : ∀ j, (bl j).length ≤ fuel) :
    ∃ s2, flow_record_list_free config fuel s = .ok s2
      ∧ cache_inv config s2 (fun _ => []) []
      ∧ (∀ p, s2.heap p = none)
      ∧ s2.output = s.output ∧ s2.records_in_file = s.records_in_file
      ∧ s2.stats.num_records_output = s.stats.num_records_output
      ∧ (∀ created : List Nat, created.Nodup →
          (∀ p, (s.heap p).isSome = true → p ∈ created) →
          s.stats.num_records_in_table = live_count s.heap created →
          s2.stats.num_records_in_table = 0) := by
  obtain ⟨s2, bl2, hfree, hb2, hempty, hsame, _, hout, hrif, hno, hcnt⟩ :=
    flow_record_list_free_buckets_spec config fuel FLOW_RECORD_LIST_LEN 0 s bl hb hlen
  have hbl2 : bl2 = fun _ => [] := by
    funext j
    by_cases hj : j < FLOW_RECORD_LIST_LEN
    · exact hempty j (Nat.zero_le _) (by omega)
    · rw [hsame j (by omega)]
      cases hl : bl j with
      | nil => rfl
      | cons p l =>
        obtain ⟨r, _, hh⟩ := hb.2.1 j p (by rw [hl]; exact List.mem_cons_self _ _)
        have := flow_key_hash_lt config r.key
        omega
  subst hbl2
  have hdead : ∀ p, s2.heap p = none := by
    intro p
    cases hp : s2.heap p with
    | none => rfl
    | some r => exact absurd (hb2.2.2 p r hp) (List.not_mem_nil _)
  refine ⟨{ s2 with flow_record_chrono_first := none, flow_record_chrono_last := none }, ?_,
    ⟨buckets_inv_of_eq (s := s2) rfl rfl hb2, ⟨rfl, List.nodup_nil, rfl⟩, ?_, ?_⟩, hdead, hout, hrif, hno, ?_⟩
  · unfold flow_record_list_free
    simp only [hfree]
  · intro p r hp
    rw [show s2.heap p = none from hdead p] at hp
    exact absurd hp (by simp)
  · intro p hp
    exact absurd hp (List.not_mem_nil _)
  · intro created hnd hall hnum
    show s2.stats.num_records_in_table = 0
    rw [hcnt created hnd hall hnum]
    unfold live_count still_allocated
    rw [List.length_eq_zero, List.filter_eq_nil_iff]
    intro p _
    rw [hdead p]
    simp

theorem bucket_length_le_created {config : configuration} {s : flow_cache}
    {bl : Nat → List Nat} {created : List Nat} (hb : buckets_inv config s bl)
    (hmem : ∀ p, p ∈ created ↔ (s.heap p).isSome = true) (j : Nat) :
    (bl j).length ≤ created.length := by
  apply List.Subperm.length_le
  apply List.Nodup.subperm (hb.1 j).2
  intro p hp
  rw [hmem]
  exact (buckets_live_iff hb p).2 ⟨j, hp⟩

theorem still_allocated_self {heap : Heap} {created : List Nat}
    (hmem : ∀ p, p ∈ created → (heap p).isSome = true) :
    still_allocated heap created = created := by
  unfold still_allocated
  rw [List.filter_eq_self]
  exact fun p hp => hmem p hp

theorem counted_inv_create (config : configuration) (s : flow_cache)
    (created : List Nat) (fuel : Nat) (key : flow_key) (create_new_records : Bool)
    (malloc : Option Nat) (res : flow_cache × Option Nat) (bl : Nat → List Nat)
    (hb : buckets_inv config s bl)
    (hnum : s.stats.num_records_in_table = created.length)
    (hout : s.stats.num_records_output = s.output.length)
    (h : flow_key_get_record_create config fuel s key (flow_key_hash config key)
        create_new_records malloc = .ok res) :
    res.1.stats.num_records_in_table
        = (created_after_create create_new_records malloc created).length
      ∧ res.1.stats.num_records_output = res.1.output.length := by
  obtain ⟨h1, _, h3, h4, h5⟩ :=
    flow_key_get_record_create_frame config s bl key fuel create_new_records malloc res hb h
  refine ⟨?_, by rw [h3, h1]; exact hout⟩
  unfold created_after_create
  cases create_new_records with
  | false =>
    rw [(h5 (Or.inl rfl)).2.2]
    simpa using hnum
  | true =>
    cases malloc with
    | none =>
      rw [(h5 (Or.inr rfl)).2.2]
      simpa using hnum
    | some a =>
      rw [(h4 a rfl rfl).2.2.1]
      simp [hnum]

theorem counted_inv_step_delete (config : configuration) (s s1 : flow_cache)
    (created : List Nat) (cl : List Nat) (record : Nat)
    (hc : counted_inv config s created) (hcl : is_chrono_list s cl) (hr : record ∈ cl)
    (h : flow_record_print_and_delete config s record = .ok s1) :
    counted_inv config s1 (still_allocated s1.heap created) := by
  obtain ⟨hci, hnum, hout⟩ := hc
  refine ⟨created_inv_print_and_delete config s s1 created cl record hci hcl hr h, ?_⟩
  obtain ⟨hnd, hmem, bl, cl0, hinv, _⟩ := hci
  have e : cl = cl0 := is_chrono_list_unique hcl hinv.2.1
  subst e
  obtain ⟨rr, hrr⟩ := mem_chrono_live hinv.2.1 hr
  obtain ⟨s4, bl4, e, hpd, _, _, _, _, ⟨ho, _, _, hno⟩, hcnt, _⟩ :=
    print_and_delete_step config s bl cl record rr hinv hr hrr
  rw [h] at hpd
  have e2 : s1 = s4 := Except.ok.inj hpd
  subst e2
  constructor
  · apply hcnt created hnd (fun p hp => (hmem p).2 hp)
    rw [hnum]
    unfold live_count
    rw [still_allocated_self (fun p hp => (hmem p).1 hp)]
  · rw [hno, ho, hout]
    simp

theorem counted_inv_step_sweep (config : configuration) (s s1 : flow_cache)
    (created : List Nat) (fuel : Nat) (inactive_cutoff : Option timeval)
    (hc : counted_inv config s created)
    (h : flow_record_list_print_json config fuel s inactive_cutoff = .ok s1) :
    counted_inv config s1 (still_allocated s1.heap created) := by
  obtain ⟨hci, hnum, hout⟩ := hc
  refine ⟨created_inv_print_json config s s1 created fuel inactive_cutoff hci h, ?_⟩
  obtain ⟨hnd, hmem, bl, cl, hinv, _⟩ := hci
  have h2 := flow_record_list_print_json_mono config inactive_cutoff fuel (fuel + cl.length)
    s s1 (by omega) h
  obtain ⟨s2, bl2, es, hpj, _, _, _, _, ⟨ho, _, _, hno⟩, hcnt, _⟩ :=
    flow_record_list_print_json_exact config inactive_cutoff cl s bl hinv (fuel + cl.length)
      (by omega)
  rw [h2] at hpj
  have e2 : s1 = s2 := Except.ok.inj hpj
  subst e2
  constructor
  · apply hcnt created hnd (fun p hp => (hmem p).2 hp)
    rw [hnum]
    unfold live_count
    rw [still_allocated_self (fun p hp => (hmem p).1 hp)]
  · rw [hno, ho, hout]
    simp

theorem flow_record_list_free_records_mono (config : configuration) :
    ∀ (fuel fuel2 : Nat) (s : flow_cache) (record : Option Nat) (res : flow_cache),
      fuel ≤ fuel2 → flow_record_list_free_records config fuel s record = .ok res →
      flow_record_list_free_records config fuel2 s record = .ok res := by
  intro fuel
  induction fuel with
  | zero =>
    intro fuel2 s record res _ h
    cases record with
    | none =>
      unfold flow_record_list_free_records at h ⊢
      exact h
    | some r =>
      unfold flow_record_list_free_records at h
      simp at h
  | succ fuel ih =>
    intro fuel2 s record res hle h
    obtain ⟨fuel2, rfl⟩ : ∃ f, fuel2 = f + 1 := ⟨fuel2 - 1, by omega⟩
    cases record with
    | none =>
      unfold flow_record_list_free_records at h ⊢
      exact h
    | some r =>
      unfold flow_record_list_free_records at h ⊢
      cases hr : s.heap r with
      | none => rw [hr] at h; simp at h
      | some rr =>
        simp only [hr] at h ⊢
        cases hd : flow_record_delete config s r with
        | error e => rw [hd] at h; simp at h
        | ok s1 =>
          simp only [hd] at h ⊢
          exact ih fuel2 s1 _ res (by omega) h

theorem flow_record_list_free_buckets_mono (config : configuration) (fuel fuel2 : Nat)
    (hle : fuel ≤ fuel2) :
    ∀ (n i : Nat) (s res : flow_cache),
      flow_record_list_free_buckets config fuel n i s = .ok res →
      flow_record_list_free_buckets config fuel2 n i s = .ok res := by
  intro n
  induction n with
  | zero =>
    intro i s res h
    exact h
  | succ n ih =>
    intro i s res h
    unfold flow_record_list_free_buckets at h ⊢
    cases hf : flow_record_list_free_records config fuel s (s.flow_record_list_array i) with
    | error e => rw [hf] at h; simp at h
    | ok s1 =>
      rw [flow_record_list_free_records_mono config fuel fuel2 s _ s1 hle hf]
      simp only [hf] at h
      exact ih (i + 1) _ res h

theorem flow_record_list_free_mono (config : configuration) (fuel fuel2 : Nat)
    (hle : fuel ≤ fuel2) (s s1 : flow_cache)
    (h : flow_record_list_free config fuel s = .ok s1) :
    flow_record_list_free config fuel2 s = .ok s1 := by
  unfold flow_record_list_free at h ⊢
  cases hf : flow_record_list_free_buckets config fuel FLOW_RECORD_LIST_LEN 0 s with
  | error e => rw [hf] at h; simp at h
  | ok s2 =>
    rw [flow_record_list_free_buckets_mono config fuel fuel2 hle _ _ s s2 hf]
    simp only [hf] at h
    exact h

theorem counted_inv_step_free (config : configuration) (s s1 : flow_cache)
    (created : List Nat) (fuel : Nat)
    (hc : counted_inv config s created)
    (h : flow_record_list_free config fuel s = .ok s1) :
    counted_inv config s1 (still_allocated s1.heap created) := by
  obtain ⟨hci, hnum, hout⟩ := hc
  obtain ⟨hnd, hmem, bl, cl, hinv, _⟩ := hci
  have hlen : ∀ j, (bl j).length ≤ fuel + created.length := fun j =>
    Nat.le_trans (bucket_length_le_created hinv.1 hmem j) (Nat.le_add_left _ _)
  obtain ⟨s2, hfree, hinv2, hdead, ho, _, hno, hcnt⟩ :=
    flow_record_list_free_spec config s bl (fuel + created.length) hinv.1 hlen
  rw [flow_record_list_free_mono config fuel (fuel + created.length) (by omega) s s1 h] at hfree
  have e2 : s1 = s2 := Except.ok.inj hfree
  subst e2
  refine ⟨created_inv_shrink config s s1 created cl _ [] ⟨hnd, hmem, bl, cl, hinv, ‹_›⟩ hinv.2.1
    hinv2 (List.nil_sublist _) (fun p _ => hdead p), ?_, ?_⟩
  · rw [hcnt created hnd (fun p hp => (hmem p).2 hp)
      (by rw [hnum]; unfold live_count; rw [still_allocated_self (fun p hp => (hmem p).1 hp)])]
    unfold still_allocated
    symm
    rw [List.length_eq_zero, List.filter_eq_nil_iff]
    intro p _
    rw [hdead p]
    simp
  · rw [hno, ho, hout]

theorem in_table_iff_live {config : configuration} {s : flow_cache} {bl : Nat → List Nat}
    (hb : buckets_inv config s bl) (p : Nat) :
    in_table s p ↔ (s.heap p).isSome = true := by
  constructor
  · rintro ⟨i, _, l, hl, hp⟩
    have e : l = bl i := is_bucket_list_unique hl (hb.1 i)
    subst e
    exact (buckets_live_iff hb p).2 ⟨i, hp⟩
  · intro h
    cases hp : s.heap p with
    | none => rw [hp] at h; simp at h
    | some r =>
      exact ⟨flow_key_hash config r.key, flow_key_hash_lt config r.key, _, hb.1 _,
        hb.2.2 p r hp⟩

theorem counted_inv_get_record (config : configuration) (s : flow_cache)
    (created : List Nat) (fuel : Nat) (key : flow_key) (create_new_records : Bool)
    (malloc : Option Nat) (res : flow_cache × Option Nat)
    (hc : counted_inv config s created)
    (h : flow_key_get_record config fuel s key create_new_records malloc = .ok res) :
    counted_inv config res.1
      (flow_key_get_record_created config fuel s key create_new_records malloc created) := by
  refine ⟨created_inv_get_record config s created fuel key create_new_records malloc res hc.1 h,
    ?_⟩
  obtain ⟨hci, hnum, hout⟩ := hc
  obtain ⟨bl, cl, hinv, _⟩ := hci.2.2
  rcases flow_key_get_record_paths config s bl cl fuel key create_new_records malloc res hinv h
    with ⟨⟨r, hres⟩, hg⟩ | ⟨_, hcr, hg⟩ | ⟨r, rr, s1, hr, _, _, hpd, hcr, hg⟩
  · rw [hg created, hres]
    exact ⟨hnum, hout⟩
  · rw [hg created]
    exact counted_inv_create config s created fuel key create_new_records malloc res bl hinv.1
      hnum hout hcr
  · rw [hg created]
    obtain ⟨hci1, hnum1, hout1⟩ :=
      counted_inv_step_delete config s s1 created cl r ⟨hci, hnum, hout⟩ hinv.2.1 hr hpd
    obtain ⟨bl1, cl1, hinv1, _⟩ := hci1.2.2
    exact counted_inv_create config s1 _ fuel key create_new_records malloc res bl1 hinv1.1
      hnum1 hout1 hcr

theorem counted_inv_of_counted (config : configuration) (s : flow_cache)
    (created : List Nat) (h : Counted config s created) : counted_inv config s created := by
  induction h with
  | init =>
    exact ⟨⟨List.nodup_nil, fun p => by simp [flow_record_list_init, flow_cache_start],
      _, _, cache_inv_init config, List.Sublist.refl _⟩, rfl, rfl⟩
  | get_record s created fuel key create_new_records malloc res _ hres ih =>
    exact counted_inv_get_record config s created fuel key create_new_records malloc res ih hres
  | print_and_delete s created record cl s1 _ hcl hmem hres ih =>
    exact counted_inv_step_delete config s s1 created cl record ih hcl hmem hres
  | print_json s created fuel inactive_cutoff s1 _ hres ih =>
    exact counted_inv_step_sweep config s s1 created fuel inactive_cutoff ih hres
  | list_free s created fuel s1 _ hres ih =>
    exact counted_inv_step_free config s s1 created fuel ih hres

/-- C27, counter parity (I6): in every state that a sequence of returning calls of
flow_key_get_record, flow_record_print_and_delete, flow_record_list_print_json and
flow_record_list_free produces from the empty cache with zeroed counters,
num_records_in_table is the number of the records created and not deleted, which are
each once in the list created, are the allocated records and are the records of the
buckets, and num_records_output is the number of the emissions of
flow_record_print_json; flow_record_list_free returns from such a state and leaves no
record and the counter zero. -/
theorem counter_parity (config : configuration) (s : flow_cache) (created : List Nat)
    (h : Counted config s created) :
    s.stats.num_records_in_table = created.length
      ∧ created.Nodup
      ∧ (∀ p, p ∈ created ↔ (s.heap p).isSome = true)
      ∧ (∀ p, in_table s p ↔ p ∈ created)
      ∧ s.stats.num_records_output = s.output.length
      ∧ ∃ s1, flow_record_list_free config created.length s = .ok s1
          ∧ Counted config s1 []
          ∧ (∀ p, s1.heap p = none)
          ∧ s1.stats.num_records_in_table = 0
          ∧ s1.stats.num_records_output = s1.output.length := by
  obtain ⟨hci, hnum, hout⟩ := counted_inv_of_counted config s created h
  obtain ⟨hnd, hmem, bl, cl, hinv, _⟩ := hci
  refine ⟨hnum, hnd, hmem, fun p => (in_table_iff_live hinv.1 p).trans (hmem p).symm, hout, ?_⟩
  obtain ⟨s1, hfree, _, hdead, ho, _, hno, hcnt⟩ :=
    flow_record_list_free_spec config s bl created.length hinv.1
      (fun j => bucket_length_le_created hinv.1 hmem j)
  have hc1 := Counted.list_free s created created.length s1 h hfree
  have e : still_allocated s1.heap created = [] := by
    unfold still_allocated
    rw [List.filter_eq_nil_iff]
    intro p _
    rw [hdead p]
    simp
  rw [e] at hc1
  refine ⟨s1, hfree, hc1, hdead, ?_, by rw [hno, ho, hout]⟩
  apply hcnt created hnd (fun p hp => (hmem p).2 hp)
  rw [hnum]
  unfold live_count
  rw [still_allocated_self (fun p hp => (hmem p).1 hp)]

theorem counter_parity_witness :
    Counted config_exact_bidir (cache_two config_exact_bidir) [1, 2]
    ∧ (cache_two config_exact_bidir).stats.num_records_in_table = 2
    ∧ (cache_two config_exact_bidir).stats.num_records_output = 0
    ∧ ((cache_two config_exact_bidir).stats.num_records_in_table = [1, 2].length
      ∧ [1, 2].Nodup
      ∧ (∀ p, p ∈ [1, 2] ↔ ((cache_two config_exact_bidir).heap p).isSome = true)
      ∧ (∀ p, in_table (cache_two config_exact_bidir) p ↔ p ∈ [1, 2])
      ∧ (cache_two config_exact_bidir).stats.num_records_output
          = (cache_two config_exact_bidir).output.length
      ∧ ∃ s1, flow_record_list_free config_exact_bidir [1, 2].length
            (cache_two config_exact_bidir) = .ok s1
          ∧ Counted config_exact_bidir s1 []
          ∧ (∀ p, s1.heap p = none)
          ∧ s1.stats.num_records_in_table = 0
          ∧ s1.stats.num_records_output = s1.output.length) :=
  have hc : Counted config_exact_bidir (cache_two config_exact_bidir) [1, 2] :=
    Counted.get_record _ [1] 4 (flow_key_swap key_forward) true (some 2)
      (cache_two config_exact_bidir, some 2)
      (Counted.get_record _ [] 4 key_forward true (some 1)
        (cache_one config_exact_bidir, some 1) Counted.init (cache_one_eq config_exact_bidir))
      (cache_two_eq config_exact_bidir)
  ⟨hc, rfl, rfl, counter_parity config_exact_bidir (cache_two config_exact_bidir) [1, 2] hc⟩

/-! ### The sequence non_norm_stats of a record without a twin -/

theorem print_bytes_dir_time_clear (len : Nat) (dir : String) (hl : len < 65536) :
    print_bytes_dir_time len dir timer_clear
      = { rep := decide (32768 ≤ len), value := if len < 32768 then len else 65536 - len,
          dir := dir, ipt := 0 } := by
  unfold print_bytes_dir_time
  rw [Nat.mod_eq_of_lt hl]
  have e : timeval_to_milliseconds timer_clear = 0 := by decide
  rw [e]
  by_cases h : len < 32768
  · simp [h, Nat.not_le.mpr h]
  · simp [h, Nat.not_lt.mp h]

theorem flow_record_print_json_unidirectional_eq (L : Nat) (r : flow_record_packets)
    (ht : ∀ i, timeval_normalised (r.pkt_time i)) (hl : ∀ i, r.pkt_len i < 65536) :
    flow_record_print_json_unidirectional L r = non_norm_stats_unidirectional L r := by
  have hi : (if r.op > L then L else r.op) = min r.op L := by
    by_cases h : r.op > L
    · rw [if_pos h, min_eq_right (le_of_lt h)]
    · rw [if_neg h, min_eq_left (Nat.not_lt.mp h)]
  unfold flow_record_print_json_unidirectional non_norm_stats_unidirectional
  dsimp only
  rw [hi]
  by_cases h0 : min r.op L = 0
  · rw [if_pos h0, h0]
    rfl
  · rw [if_neg h0]
    obtain ⟨k, hk⟩ := Nat.exists_eq_succ_of_ne_zero h0
    rw [hk]
    have step : ∀ i, print_bytes_dir_time (r.pkt_len i) OUT
          (if i > 0 then timer_sub (r.pkt_time i) (r.pkt_time (i - 1)) else timer_clear)
        = { rep := decide (32768 ≤ r.pkt_len i),
            value := if r.pkt_len i < 32768 then r.pkt_len i else 65536 - r.pkt_len i,
            dir := "<",
            ipt := if i = 0 then 0
              else milliseconds_between (r.pkt_time i) (r.pkt_time (i - 1)) } := by
      intro i
      by_cases hz : i = 0
      · subst hz
        rw [if_neg (by decide), if_pos rfl]
        exact print_bytes_dir_time_clear _ _ (hl 0)
      · rw [if_pos (Nat.pos_of_ne_zero hz), if_neg hz]
        exact print_bytes_dir_time_eq _ _ _ _ (hl i) (ht i) (ht (i - 1))
    rw [List.range_succ, List.map_append, List.map_singleton]
    have ek : k.succ - 1 = k := rfl
    rw [ek]
    congr 1
    · apply List.map_congr_left
      intro i _
      exact step i
    · have hlast := step k
      by_cases hz : k = 0
      · rw [if_pos hz]
        rw [if_neg (by omega)] at hlast
        rw [hlast]
      · rw [if_neg hz]
        rw [if_pos (by omega)] at hlast
        rw [hlast]

/-- C31: for a record r without a twin whose packet times are normalised and whose packet
lengths are 16-bit values, the sequence non_norm_stats that flow_record_print_json
prints is the one of the specification, where L is num_pkt_len: it has min(r.op, L)
entries, none when r.op = 0; the entry i stands for the length pkt_len i and carries the
direction <; the first entry has ipt 0 and every later entry has the milliseconds
between pkt_time i and pkt_time (i - 1). -/
theorem flow_record_print_json_unidirectional_sequence (L : Nat) (r : flow_record_packets)
    (ht : ∀ i, timeval_normalised (r.pkt_time i)) (hl : ∀ i, r.pkt_len i < 65536) :
    flow_record_print_json_unidirectional L r = non_norm_stats_unidirectional L r
    ∧ (flow_record_print_json_unidirectional L r).length = min r.op L
    ∧ (r.op = 0 → flow_record_print_json_unidirectional L r = [])
    ∧ ∀ i, i < min r.op L → ∃ e, (flow_record_print_json_unidirectional L r)[i]? = some e
        ∧ json_stats_entry_length e = r.pkt_len i
        ∧ (e.rep = true ↔ 32768 ≤ r.pkt_len i)
        ∧ e.dir = "<"
        ∧ (i = 0 → e.ipt = 0)
        ∧ (0 < i → e.ipt = timeval_to_milliseconds
            (timer_sub (r.pkt_time i) (r.pkt_time (i - 1))))
        ∧ (0 < i → e.ipt
            = (((usec (r.pkt_time i) - usec (r.pkt_time (i - 1))) / 1000) % 4294967296).toNat) := by
  have heq := flow_record_print_json_unidirectional_eq L r ht hl
  rw [heq]
  refine ⟨rfl, by simp [non_norm_stats_unidirectional], ?_, ?_⟩
  · intro h0
    simp [non_norm_stats_unidirectional, h0]
  · intro i hi
    refine ⟨json_stats_entry.mk (decide (32768 ≤ r.pkt_len i))
        (if r.pkt_len i < 32768 then r.pkt_len i else 65536 - r.pkt_len i) "<"
        (if i = 0 then 0 else milliseconds_between (r.pkt_time i) (r.pkt_time (i - 1))),
      by simp only [non_norm_stats_unidirectional, List.getElem?_map,
        List.getElem?_range hi, Option.map_some'], ?_, ?_, rfl, ?_, ?_, ?_⟩
    · unfold json_stats_entry_length
      have := hl i
      by_cases h : r.pkt_len i < 32768
      · simp [h, Nat.not_le.mpr h]
      · simp only [h, if_false, decide_eq_true (Nat.not_lt.mp h), if_true]
        omega
    · simp
    · intro hz
      simp [hz]
    · intro hz
      have hne : i ≠ 0 := by omega
      dsimp only
      rw [if_neg hne, timeval_to_milliseconds_sub _ _ (ht i) (ht (i - 1))]
    · intro hz
      have hne : i ≠ 0 := by omega
      dsimp only
      rw [if_neg hne]
      rfl

theorem flow_record_print_json_unidirectional_sequence_witness :
    flow_record_print_json_unidirectional 50 three_packets
      = [{ rep := false, value := 100, dir := "<", ipt := 0 },
         { rep := true, value := 25536, dir := "<", ipt := 250 },
         { rep := false, value := 7, dir := "<", ipt := 1750 }]
    ∧ flow_record_print_json_unidirectional 2 three_packets
      = [{ rep := false, value := 100, dir := "<", ipt := 0 },
         { rep := true, value := 25536, dir := "<", ipt := 250 }]
    ∧ (flow_record_print_json_unidirectional 50 three_packets).length = min three_packets.op 50 := by
  have ht : ∀ i, timeval_normalised (three_packets.pkt_time i) := by
    intro i
    unfold three_packets
    dsimp only
    split_ifs <;> decide
  have hl : ∀ i, three_packets.pkt_len i < 65536 := by
    intro i
    unfold three_packets
    dsimp only
    split_ifs <;> decide
  exact ⟨by decide, by decide,
    (flow_record_print_json_unidirectional_sequence 50 three_packets ht hl).2.1⟩

/-! ### The repetition marker of print_bytes_dir_time -/

/-- C32: for every 16-bit packet length n, print_bytes_dir_time prints the key b with
the value n when n < 32768, and the key rep with the value 65536 - n, which is between 1
and 32768, when n is 32768 or more; one of the two cases holds, and n is the value of b
or 65536 less the value of rep, so two lengths that print the same key and value are
equal; dir is the argument and ipt the milliseconds of ts. -/
theorem print_bytes_dir_time_repetition (n : Nat) (dir : String) (ts : timeval)
    (hn : n < 65536) :
    (n < 32768 → (print_bytes_dir_time n dir ts).rep = false
        ∧ (print_bytes_dir_time n dir ts).value = n)
    ∧ (32768 ≤ n → (print_bytes_dir_time n dir ts).rep = true
        ∧ (print_bytes_dir_time n dir ts).value = 65536 - n
        ∧ 1 ≤ (print_bytes_dir_time n dir ts).value
        ∧ (print_bytes_dir_time n dir ts).value ≤ 32768)
    ∧ (n < 32768 ∨ 32768 ≤ n)
    ∧ json_stats_entry_length (print_bytes_dir_time n dir ts) = n
    ∧ (∀ m dir2 ts2, m < 65536 →
        (print_bytes_dir_time m dir2 ts2).rep = (print_bytes_dir_time n dir ts).rep →
        (print_bytes_dir_time m dir2 ts2).value = (print_bytes_dir_time n dir ts).value →
        m = n)
    ∧ (print_bytes_dir_time n dir ts).dir = dir
    ∧ (print_bytes_dir_time n dir ts).ipt = timeval_to_milliseconds ts := by
  have key : ∀ m d t, m < 65536 →
      json_stats_entry_length (print_bytes_dir_time m d t) = m := by
    intro m d t hm
    unfold json_stats_entry_length print_bytes_dir_time
    rw [Nat.mod_eq_of_lt hm]
    by_cases h : m < 32768
    · simp [h]
    · simp only [h, if_false, if_true]
      omega
  have hval : ∀ m d t, (print_bytes_dir_time m d t).rep = decide (32768 ≤ m % 65536)
      ∧ (print_bytes_dir_time m d t).value
          = (if m % 65536 < 32768 then m % 65536 else 65536 - m % 65536)
      ∧ (print_bytes_dir_time m d t).dir = d
      ∧ (print_bytes_dir_time m d t).ipt = timeval_to_milliseconds t := by
    intro m d t
    unfold print_bytes_dir_time
    by_cases h : m % 65536 < 32768
    · simp [h, Nat.not_le.mpr h]
    · simp [h, Nat.not_lt.mp h]
  obtain ⟨h1, h2, h3, h4⟩ := hval n dir ts
  rw [Nat.mod_eq_of_lt hn] at h1 h2
  refine ⟨?_, ?_, Nat.lt_or_ge _ _, key n dir ts hn, ?_, h3, h4⟩
  · intro h
    rw [h1, h2, if_pos h]
    exact ⟨decide_eq_false (Nat.not_le.mpr h), rfl⟩
  · intro h
    rw [h1, h2, if_neg (Nat.not_lt.mpr h)]
    exact ⟨decide_eq_true h, rfl, by omega, by omega⟩
  · intro m dir2 ts2 hm hr hv
    have e1 := key m dir2 ts2 hm
    have e2 := key n dir ts hn
    unfold json_stats_entry_length at e1 e2
    rw [hr, hv] at e1
    exact e1.symm.trans e2

theorem print_bytes_dir_time_repetition_witness :
    print_bytes_dir_time 40000 "<" timer_clear
      = { rep := true, value := 25536, dir := "<", ipt := 0 }
    ∧ print_bytes_dir_time 32767 "<" timer_clear
      = { rep := false, value := 32767, dir := "<", ipt := 0 }
    ∧ print_bytes_dir_time 32768 "<" timer_clear
      = { rep := true, value := 32768, dir := "<", ipt := 0 }
    ∧ print_bytes_dir_time 65535 "<" timer_clear
      = { rep := true, value := 1, dir := "<", ipt := 0 }
    ∧ json_stats_entry_length (print_bytes_dir_time 40000 "<" timer_clear) = 40000 :=
  ⟨by decide, by decide, by decide, by decide,
    (print_bytes_dir_time_repetition 40000 "<" timer_clear (by decide)).2.2.2.1⟩

/-! ### The running mean and variance of the bytes -/

theorem update_mean_var_step (n : Nat) (mean m2 s q x : ℚ)
    (h1 : mean * n = s) (h2 : m2 = q - n * mean ^ 2) :
    (mean + (x - mean) / ((n + 1 : Nat) : ℚ)) * ((n + 1 : Nat) : ℚ) = s + x
    ∧ m2 + (x - mean) * (x - (mean + (x - mean) / ((n + 1 : Nat) : ℚ)))
        = (q + x ^ 2) - ((n + 1 : Nat) : ℚ) * (mean + (x - mean) / ((n + 1 : Nat) : ℚ)) ^ 2 := by
  have hn : ((n + 1 : Nat) : ℚ) ≠ 0 := by exact_mod_cast Nat.succ_ne_zero n
  have hc : ((n + 1 : Nat) : ℚ) = (n : ℚ) + 1 := by push_cast; ring
  rw [hc] at hn ⊢
  subst h2
  constructor
  · field_simp
    rw [← h1]
    ring
  · field_simp
    ring

theorem update_mean_var_fold (data : List Nat) :
    ∀ (f : flow_record_bytes) (seen : List Nat),
      f.num_bytes = seen.length →
      f.bd_mean * (seen.length : ℚ) = ((seen.map (fun (b : Nat) => (b : ℚ))).sum) →
      f.bd_variance = ((seen.map (fun (b : Nat) => (b : ℚ) ^ 2)).sum) - seen.length * f.bd_mean ^ 2 →
      (flow_record_update_byte_dist_mean_var true true f data).num_bytes
          = (seen ++ data).length
      ∧ (flow_record_update_byte_dist_mean_var true true f data).bd_mean
            * ((seen ++ data).length : ℚ)
          = (((seen ++ data).map (fun (b : Nat) => (b : ℚ))).sum)
      ∧ (flow_record_update_byte_dist_mean_var true true f data).bd_variance
          = (((seen ++ data).map (fun (b : Nat) => (b : ℚ) ^ 2)).sum)
            - (seen ++ data).length
              * (flow_record_update_byte_dist_mean_var true true f data).bd_mean ^ 2 := by
  induction data with
  | nil =>
    intro f seen h0 h1 h2
    simp only [List.append_nil]
    exact ⟨h0, h1, h2⟩
  | cons b data ih =>
    intro f seen h0 h1 h2
    have hstep := update_mean_var_step seen.length f.bd_mean f.bd_variance _ _ (b : ℚ) h1 h2
    have e : seen ++ b :: data = (seen ++ [b]) ++ data := by simp
    rw [e]
    have hl : (seen ++ [b]).length = seen.length + 1 := by simp
    have := ih
      { f with num_bytes := f.num_bytes + 1,
               bd_mean := f.bd_mean + ((b : ℚ) - f.bd_mean) / ((f.num_bytes + 1 : Nat) : ℚ),
               bd_variance := f.bd_variance + ((b : ℚ) - f.bd_mean)
                 * ((b : ℚ) - (f.bd_mean + ((b : ℚ) - f.bd_mean) / ((f.num_bytes + 1 : Nat) : ℚ))) }
      (seen ++ [b])
      (by rw [hl, h0])
      (by
        dsimp only
        rw [hl, h0, hstep.1]
        simp)
      (by
        dsimp only
        rw [hl, h0, hstep.2]
        simp)
    exact this

theorem update_mean_var_flags (bd re : Bool) (h : (bd || re) = true) (f : flow_record_bytes)
    (data : List Nat) :
    flow_record_update_byte_dist_mean_var bd re f data
      = flow_record_update_byte_dist_mean_var true true f data := by
  unfold flow_record_update_byte_dist_mean_var
  rw [h]
  rfl

theorem update_mean_var_append (bd re : Bool) (f : flow_record_bytes) (xs ys : List Nat) :
    flow_record_update_byte_dist_mean_var bd re f (xs ++ ys)
      = flow_record_update_byte_dist_mean_var bd re
          (flow_record_update_byte_dist_mean_var bd re f xs) ys := by
  unfold flow_record_update_byte_dist_mean_var
  cases bd <;> cases re <;> simp [List.foldl_append]

theorem update_mean_var_calls (bd re : Bool) :
    ∀ (calls : List (List Nat)) (f : flow_record_bytes),
      calls.foldl (fun f data => flow_record_update_byte_dist_mean_var bd re f data) f
        = flow_record_update_byte_dist_mean_var bd re f calls.flatten
  | [], f => by
    unfold flow_record_update_byte_dist_mean_var
    cases bd <;> cases re <;> rfl
  | data :: calls, f => by
    rw [List.foldl_cons, update_mean_var_calls bd re calls, List.flatten_cons,
      update_mean_var_append]

theorem update_mean_var_frame (bd re : Bool) (data : List Nat) :
    ∀ f : flow_record_bytes,
      (flow_record_update_byte_dist_mean_var bd re f data).ob = f.ob
      ∧ (flow_record_update_byte_dist_mean_var bd re f data).byte_count = f.byte_count := by
  unfold flow_record_update_byte_dist_mean_var
  cases (bd || re)
  · intro f; exact ⟨rfl, rfl⟩
  · simp only [if_true]
    induction data with
    | nil => intro f; exact ⟨rfl, rfl⟩
    | cons b data ih =>
      intro f
      rw [List.foldl_cons]
      exact ih _

theorem sum_squared_deviations (m : ℚ) : ∀ xs : List Nat,
    (xs.map (fun (b : Nat) => ((b : ℚ) - m) ^ 2)).sum
      = (xs.map (fun (b : Nat) => (b : ℚ) ^ 2)).sum - 2 * m * (xs.map (fun (b : Nat) => (b : ℚ))).sum
        + xs.length * m ^ 2
  | [] => by simp
  | b :: xs => by
    simp only [List.map_cons, List.sum_cons, List.length_cons, sum_squared_deviations m xs]
    push_cast
    ring

/-- C33: with byte_distribution or report_entropy set, feeding the bytes of the calls
data_1, .., data_k (each shorter than 2 ^ 31) to a freshly initialised record through
flow_record_update_byte_dist_mean_var gives the result of one call on the whole
sequence xs: num_bytes is its length n, and for n at least 1 bd_mean is the mean of xs
and bd_variance the sum of the squared deviations from this mean, in exact rational
arithmetic, so that for n at least 2 bd_variance / (n - 1) is the sample variance; ob and
byte_count are not changed. -/
theorem flow_record_update_byte_dist_mean_var_welford (bd re : Bool)
    (calls : List (List Nat)) (hflag : (bd || re) = true)
    (_hlen : ∀ data ∈ calls, data.length < 2147483648) :
    calls.foldl (fun f data => flow_record_update_byte_dist_mean_var bd re f data)
        flow_record_bytes_initial
      = flow_record_update_byte_dist_mean_var bd re flow_record_bytes_initial calls.flatten
    ∧ (flow_record_update_byte_dist_mean_var bd re flow_record_bytes_initial
        calls.flatten).num_bytes = calls.flatten.length
    ∧ (1 ≤ calls.flatten.length →
        (flow_record_update_byte_dist_mean_var bd re flow_record_bytes_initial
          calls.flatten).bd_mean = batch_mean calls.flatten
        ∧ (flow_record_update_byte_dist_mean_var bd re flow_record_bytes_initial
          calls.flatten).bd_variance = batch_sum_squares calls.flatten)
    ∧ (2 ≤ calls.flatten.length →
        (flow_record_update_byte_dist_mean_var bd re flow_record_bytes_initial
          calls.flatten).bd_variance / ((calls.flatten.length : ℚ) - 1)
          = batch_sample_variance calls.flatten)
    ∧ (flow_record_update_byte_dist_mean_var bd re flow_record_bytes_initial calls.flatten).ob = 0
    ∧ (flow_record_update_byte_dist_mean_var bd re flow_record_bytes_initial
        calls.flatten).byte_count = fun _ => 0 := by
  have hfold := update_mean_var_fold calls.flatten flow_record_bytes_initial [] rfl
    (by simp [flow_record_bytes_initial]) (by simp [flow_record_bytes_initial])
  rw [← update_mean_var_flags bd re hflag] at hfold
  simp only [List.nil_append] at hfold
  obtain ⟨h0, h1, h2⟩ := hfold
  have hmv : 1 ≤ calls.flatten.length →
      (flow_record_update_byte_dist_mean_var bd re flow_record_bytes_initial
          calls.flatten).bd_mean = batch_mean calls.flatten
      ∧ (flow_record_update_byte_dist_mean_var bd re flow_record_bytes_initial
          calls.flatten).bd_variance = batch_sum_squares calls.flatten := by
    intro hn
    have hne : (calls.flatten.length : ℚ) ≠ 0 := by
      exact_mod_cast (Nat.pos_iff_ne_zero.mp hn)
    have hm : (flow_record_update_byte_dist_mean_var bd re flow_record_bytes_initial
          calls.flatten).bd_mean = batch_mean calls.flatten := by
      unfold batch_mean
      rw [← h1]
      exact (mul_div_cancel_right₀ _ hne).symm
    refine ⟨hm, ?_⟩
    unfold batch_sum_squares
    rw [sum_squared_deviations, h2, ← hm, ← h1]
    ring
  refine ⟨update_mean_var_calls bd re calls _, h0, hmv, ?_,
    (update_mean_var_frame bd re _ _).1, (update_mean_var_frame bd re _ _).2⟩
  intro hn
  unfold batch_sample_variance
  rw [(hmv (by omega)).2]

theorem flow_record_update_byte_dist_mean_var_welford_witness :
    mean_var_of (flow_record_update_byte_dist_mean_var true false
        (flow_record_update_byte_dist_mean_var true false flow_record_bytes_initial [2, 4])
        [4, 6])
      = (4, 4, 8)
    ∧ mean_var_of (flow_record_update_byte_dist_mean_var true false flow_record_bytes_initial
        [2, 4, 4, 6]) = (4, 4, 8)
    ∧ batch_sample_variance [2, 4, 4, 6] = 8 / 3
    ∧ (flow_record_update_byte_dist_mean_var true false flow_record_bytes_initial
          [[2, 4], [4, 6]].flatten).bd_variance / ((([[2, 4], [4, 6]] : List (List Nat)).flatten.length : ℚ) - 1)
        = batch_sample_variance [[2, 4], [4, 6]].flatten :=
  ⟨by norm_num [mean_var_of, flow_record_update_byte_dist_mean_var, flow_record_bytes_initial],
    by norm_num [mean_var_of, flow_record_update_byte_dist_mean_var, flow_record_bytes_initial],
    by norm_num [batch_sample_variance, batch_sum_squares, batch_mean],
    (flow_record_update_byte_dist_mean_var_welford true false [[2, 4], [4, 6]] rfl
      (by decide)).2.2.2.1 (by decide)⟩

/-! ### The byte histogram -/

theorem update_byte_count_fold (data : List Nat) :
    ∀ f : flow_record_bytes,
      (∀ b, (flow_record_update_byte_count true true f data).byte_count b % 4294967296
          = (f.byte_count b + data.count b) % 4294967296)
      ∧ (∀ b, data.count b = 0 →
          (flow_record_update_byte_count true true f data).byte_count b = f.byte_count b)
      ∧ (∀ b, 0 < data.count b →
          (flow_record_update_byte_count true true f data).byte_count b < 4294967296)
      ∧ (flow_record_update_byte_count true true f data).ob = f.ob
      ∧ (flow_record_update_byte_count true true f data).num_bytes = f.num_bytes
      ∧ (flow_record_update_byte_count true true f data).bd_mean = f.bd_mean
      ∧ (flow_record_update_byte_count true true f data).bd_variance = f.bd_variance := by
  induction data with
  | nil =>
    intro f
    exact ⟨fun b => rfl, fun b _ => rfl, fun b h => absurd h (by simp), rfl, rfl, rfl, rfl⟩
  | cons x data ih =>
    intro f
    obtain ⟨h1, h2, h3, h4⟩ := ih
      { f with byte_count :=
          Function.update f.byte_count x ((f.byte_count x + 1) % 4294967296) }
    have e : flow_record_update_byte_count true true f (x :: data)
        = flow_record_update_byte_count true true
            { f with byte_count :=
                Function.update f.byte_count x ((f.byte_count x + 1) % 4294967296) } data := rfl
    rw [e]
    refine ⟨?_, ?_, ?_, h4⟩
    · intro b
      rw [h1 b]
      dsimp only
      by_cases hb : b = x
      · subst hb
        rw [Function.update_same, List.count_cons_self]
        omega
      · rw [Function.update_noteq hb, List.count_cons_of_ne hb]
    · intro b hb
      have hbx : b ≠ x := by
        intro e2
        subst e2
        rw [List.count_cons_self] at hb
        omega
      rw [List.count_cons_of_ne hbx] at hb
      rw [h2 b hb]
      exact Function.update_noteq hbx _ _
    · intro b hb
      by_cases hc : 0 < data.count b
      · exact h3 b hc
      · have hz : data.count b = 0 := by omega
        rw [h2 b hz]
        dsimp only
        by_cases hbx : b = x
        · subst hbx
          rw [Function.update_same]
          exact Nat.mod_lt _ (by decide)
        · rw [List.count_cons_of_ne hbx] at hb
          omega

theorem indicator_sum_range (x : Nat) : ∀ n : Nat,
    ((List.range n).map (fun b => if b = x then 1 else 0)).sum = if x < n then 1 else 0
  | 0 => by simp
  | n + 1 => by
    rw [List.range_succ, List.map_append, List.sum_append, indicator_sum_range x n]
    by_cases h1 : x < n
    · have h2 : n ≠ x := by omega
      simp [h1, h2, Nat.lt_succ_of_lt h1]
    · by_cases h2 : n = x
      · subst h2; simp
      · have h3 : ¬ x < n + 1 := by omega
        simp [h1, h2, h3]

theorem count_sum_range (n : Nat) : ∀ data : List Nat, (∀ x ∈ data, x < n) →
    ((List.range n).map (fun b => data.count b)).sum = data.length
  | [], _ => by simp
  | x :: data, h => by
    have ih := count_sum_range n data (fun y hy => h y (List.mem_cons_of_mem _ hy))
    have hx : x < n := h x (List.mem_cons_self _ _)
    have e : (fun b => (x :: data).count b)
        = fun b => data.count b + (if b = x then 1 else 0) := by
      funext b
      by_cases hb : b = x
      · subst hb; simp
      · simp [List.count_cons_of_ne hb, hb]
    rw [e, List.sum_map_add, ih, List.length_cons]
    congr 1
    rw [indicator_sum_range x n, if_pos hx]

theorem update_byte_count_flags (bd re : Bool) (h : (bd || re) = true) (f : flow_record_bytes)
    (data : List Nat) :
    flow_record_update_byte_count bd re f data
      = flow_record_update_byte_count true true f data := by
  unfold flow_record_update_byte_count
  rw [h]
  rfl

theorem sum_map_mod_congr (m : Nat) (g h : Nat → Nat) (hgh : ∀ b, g b % m = h b % m) :
    ∀ l : List Nat, (l.map g).sum % m = (l.map h).sum % m
  | [] => rfl
  | b :: l => by
    simp only [List.map_cons, List.sum_cons]
    rw [Nat.add_mod, hgh b, sum_map_mod_congr m g h hgh l, ← Nat.add_mod]

/-- C34: with byte_distribution or report_entropy set, flow_record_update_byte_count on
len bytes (len below 2 ^ 31) adds to byte_count b, for every b, the number of the
occurrences of b among the bytes, modulo 2 ^ 32; these numbers sum to len over the 256
values, so the total of the histogram grows by len modulo 2 ^ 32, and by len exactly
when no entry wraps; ob, num_bytes, bd_mean and bd_variance are not changed. With both
flags clear the record is not changed. -/
theorem flow_record_update_byte_count_histogram (bd re : Bool) (f : flow_record_bytes)
    (data : List Nat) (hbytes : ∀ x ∈ data, x < 256) (_hlen : data.length < 2147483648)
    (hbc : ∀ b, f.byte_count b < 4294967296) :
    ((bd || re) = true →
      (∀ b, (flow_record_update_byte_count bd re f data).byte_count b
          = (f.byte_count b + data.count b) % 4294967296)
      ∧ ((List.range 256).map (fun b => data.count b)).sum = data.length
      ∧ histogram_total (flow_record_update_byte_count bd re f data).byte_count % 4294967296
          = (histogram_total f.byte_count + data.length) % 4294967296
      ∧ ((∀ b, f.byte_count b + data.count b < 4294967296) →
          histogram_total (flow_record_update_byte_count bd re f data).byte_count
            = histogram_total f.byte_count + data.length)
      ∧ (flow_record_update_byte_count bd re f data).ob = f.ob
      ∧ (flow_record_update_byte_count bd re f data).num_bytes = f.num_bytes
      ∧ (flow_record_update_byte_count bd re f data).bd_mean = f.bd_mean
      ∧ (flow_record_update_byte_count bd re f data).bd_variance = f.bd_variance)
    ∧ ((bd || re) = false → flow_record_update_byte_count bd re f data = f) := by
  constructor
  · intro hflag
    rw [update_byte_count_flags bd re hflag]
    obtain ⟨h1, h2, h3, h4⟩ := update_byte_count_fold data f
    have hval : ∀ b, (flow_record_update_byte_count true true f data).byte_count b
        = (f.byte_count b + data.count b) % 4294967296 := by
      intro b
      by_cases hc : data.count b = 0
      · rw [h2 b hc, hc, Nat.add_zero, Nat.mod_eq_of_lt (hbc b)]
      · rw [← h1 b, Nat.mod_eq_of_lt (h3 b (Nat.pos_of_ne_zero hc))]
    have hsum := count_sum_range 256 data hbytes
    have hadd : ((List.range 256).map (fun b => f.byte_count b + data.count b)).sum
        = histogram_total f.byte_count + data.length := by
      rw [List.sum_map_add, hsum]
      rfl
    refine ⟨hval, hsum, ?_, ?_, h4⟩
    · rw [← hadd]
      unfold histogram_total
      exact sum_map_mod_congr _ _ _ (fun b => by rw [hval b, Nat.mod_mod]) _
    · intro hno
      rw [← hadd]
      unfold histogram_total
      apply congrArg
      apply List.map_congr_left
      intro b _
      rw [hval b, Nat.mod_eq_of_lt (hno b)]
  · intro hflag
    unfold flow_record_update_byte_count
    rw [hflag]
    rfl

theorem flow_record_update_byte_count_histogram_witness :
    (flow_record_update_byte_count false true flow_record_bytes_initial [7, 0, 7]).byte_count 7 = 2
    ∧ (flow_record_update_byte_count false true flow_record_bytes_initial [7, 0, 7]).byte_count 0
        = 1
    ∧ histogram_total
        (flow_record_update_byte_count false true flow_record_bytes_initial [7, 0, 7]).byte_count
        = histogram_total flow_record_bytes_initial.byte_count + [7, 0, 7].length := by
  have h := flow_record_update_byte_count_histogram false true flow_record_bytes_initial
    [7, 0, 7] (by simp) (by simp) (fun _ => by simp [flow_record_bytes_initial])
  have h2 := (h.1 rfl).2.2.2.1
    (fun b => by
      have h : List.count b [7, 0, 7] ≤ 3 := List.count_le_length _ _
      have h0 : flow_record_bytes_initial.byte_count b = 0 := rfl
      omega)
  exact ⟨by decide, by decide, h2⟩

/-! ### The byte distribution of a pair -/

theorem two_bytes_record_values :
    mean_var_of two_bytes_record = (2, 1, 2) := by
  norm_num [mean_var_of, two_bytes_record, flow_record_update_byte_dist_mean_var,
    flow_record_update_byte_count, flow_record_bytes_initial]

/-- C35, as claimed, fails: for a pair whose two records have each seen the bytes 0 and
2 (two samples, mean 1, accumulator 2), the square of bd_std is 2/3, while the pooled
variance of the two sides is 2. -/
theorem flow_record_print_json_byte_dist_counterexample :
    (flow_record_print_json_byte_dist two_bytes_record (some two_bytes_record)).variance = 2 / 3
    ∧ pooled_variance two_bytes_record.num_bytes two_bytes_record.num_bytes
        two_bytes_record.bd_variance two_bytes_record.bd_variance = 2
    ∧ (flow_record_print_json_byte_dist two_bytes_record (some two_bytes_record)).variance
        ≠ pooled_variance two_bytes_record.num_bytes two_bytes_record.num_bytes
            two_bytes_record.bd_variance two_bytes_record.bd_variance := by
  have h := two_bytes_record_values
  unfold mean_var_of at h
  have h1 : two_bytes_record.num_bytes = 2 := congrArg Prod.fst h
  have h2 : two_bytes_record.bd_variance = 2 := congrArg (fun x => x.2.2) h
  have e1 : (flow_record_print_json_byte_dist two_bytes_record (some two_bytes_record)).variance
      = 2 / 3 := by
    unfold flow_record_print_json_byte_dist
    simp only [h1, h2]
    norm_num
  have e2 : pooled_variance two_bytes_record.num_bytes two_bytes_record.num_bytes
        two_bytes_record.bd_variance two_bytes_record.bd_variance = 2 := by
    unfold pooled_variance
    rw [h1, h2]
    norm_num
  refine ⟨e1, e2, ?_⟩
  rw [e1, e2]
  norm_num

/-- C35, corrected: for a record a with the twin b, in exact arithmetic and before the
square root, the printed histogram is the sum of the two histograms bin by bin (modulo
2 ^ 32), and with N = a.num_bytes + b.num_bytes: for N not 0 bd_mean is the weighted
average (n_a * mean_a + n_b * mean_b) / N; for N at least 2 the square of bd_std is the
weighted average of the two accumulators bd_variance divided by N - 1, that is
(n_a * M2_a + n_b * M2_b) / (N * (N - 1)); for N = 1 bd_std is 0; for N = 0 mean and
bd_std are 0. -/
theorem flow_record_print_json_byte_dist_pair (a b : flow_record_bytes) :
    (∀ i, (flow_record_print_json_byte_dist a (some b)).array i
        = (a.byte_count i + b.byte_count i) % 4294967296)
    ∧ (flow_record_print_json_byte_dist a (some b)).num_bytes = (a.ob + b.ob) % 4294967296
    ∧ (a.num_bytes + b.num_bytes ≠ 0 →
        (flow_record_print_json_byte_dist a (some b)).mean
          = ((a.num_bytes : ℚ) * a.bd_mean + (b.num_bytes : ℚ) * b.bd_mean)
            / ((a.num_bytes : ℚ) + (b.num_bytes : ℚ)))
    ∧ (2 ≤ a.num_bytes + b.num_bytes →
        (flow_record_print_json_byte_dist a (some b)).variance
          = ((a.num_bytes : ℚ) * a.bd_variance + (b.num_bytes : ℚ) * b.bd_variance)
            / (((a.num_bytes : ℚ) + (b.num_bytes : ℚ))
              * ((a.num_bytes : ℚ) + (b.num_bytes : ℚ) - 1)))
    ∧ (a.num_bytes + b.num_bytes = 1 →
        (flow_record_print_json_byte_dist a (some b)).variance = 0)
    ∧ (a.num_bytes + b.num_bytes = 0 →
        (flow_record_print_json_byte_dist a (some b)).mean = 0
        ∧ (flow_record_print_json_byte_dist a (some b)).variance = 0) := by
  unfold flow_record_print_json_byte_dist
  dsimp only
  refine ⟨?_, ?_, ?_, ?_, ?_, ?_⟩
  · intro i
    split_ifs <;> rfl
  · split_ifs <;> rfl
  · intro hN
    rw [if_pos hN]
    dsimp only
    have hne : ((a.num_bytes : ℚ) + (b.num_bytes : ℚ)) ≠ 0 := by
      exact_mod_cast hN
    push_cast
    field_simp
  · intro hN
    have h0 : a.num_bytes + b.num_bytes ≠ 0 := by omega
    have h1 : a.num_bytes + b.num_bytes ≠ 1 := by omega
    rw [if_pos h0]
    dsimp only
    rw [if_neg h1]
    have hne : ((a.num_bytes : ℚ) + (b.num_bytes : ℚ)) ≠ 0 := by
      exact_mod_cast h0
    have hc : ((a.num_bytes + b.num_bytes - 1 : Nat) : ℚ)
        = (a.num_bytes : ℚ) + (b.num_bytes : ℚ) - 1 := by
      rw [Nat.cast_sub (by omega)]
      push_cast
      ring
    have hne1 : (a.num_bytes : ℚ) + (b.num_bytes : ℚ) - 1 ≠ 0 := by
      rw [← hc]
      exact_mod_cast (by omega : a.num_bytes + b.num_bytes - 1 ≠ 0)
    rw [hc]
    push_cast
    field_simp
  · intro hN
    have h0 : a.num_bytes + b.num_bytes ≠ 0 := by omega
    rw [if_pos h0]
    dsimp only
    rw [if_pos hN]
  · intro hN
    rw [if_neg (by omega)]
    exact ⟨rfl, rfl⟩

theorem flow_record_print_json_byte_dist_pair_witness :
    (flow_record_print_json_byte_dist two_bytes_record (some two_bytes_record)).mean = 1
    ∧ (flow_record_print_json_byte_dist two_bytes_record (some two_bytes_record)).variance
        = ((two_bytes_record.num_bytes : ℚ) * two_bytes_record.bd_variance
            + (two_bytes_record.num_bytes : ℚ) * two_bytes_record.bd_variance)
          / (((two_bytes_record.num_bytes : ℚ) + (two_bytes_record.num_bytes : ℚ))
            * ((two_bytes_record.num_bytes : ℚ) + (two_bytes_record.num_bytes : ℚ) - 1)) := by
  have h := two_bytes_record_values
  unfold mean_var_of at h
  have h1 : two_bytes_record.num_bytes = 2 := congrArg Prod.fst h
  have h3 : two_bytes_record.bd_mean = 1 := congrArg (fun x => x.2.1) h
  have hp := flow_record_print_json_byte_dist_pair two_bytes_record two_bytes_record
  refine ⟨?_, hp.2.2.2.1 (by rw [h1]; decide)⟩
  rw [hp.2.2.1 (by rw [h1]; decide), h1, h3]
  norm_num

/-! ### convert_string_to_printable -/

theorem printable_char_idem (c : Nat) : printable_char (printable_char c) = printable_char c := by
  unfold printable_char
  by_cases h : isalnum c = true
  · simp [h]
  · have h46 : isalnum 46 = false := by decide
    simp [h, h46]

theorem printable_char_ne_zero (c : Nat) (h : c ≠ 0) : printable_char c ≠ 0 := by
  unfold printable_char
  split_ifs
  · exact h
  · decide

theorem printable_char_cases (c : Nat) :
    (isalnum c = true ∧ printable_char c = c) ∨ (isalnum c = false ∧ printable_char c = 46) := by
  unfold printable_char
  by_cases h : isalnum c = true
  · left; simp [h]
  · right; simp [h]

theorem convert_string_to_printable_loop_spec :
    ∀ (n i : Nat) (s : List Nat), i + n ≤ s.length →
      ∃ out, convert_string_to_printable_loop n i s = some out ∧ out.length = s.length
        ∧ (∀ j, i ≤ j → j < i + n → before_nul s i j →
            out[j]? = (s[j]?).map printable_char)
        ∧ (∀ j, ¬ (i ≤ j ∧ j < i + n ∧ before_nul s i j) → out[j]? = s[j]?) := by
  intro n
  induction n with
  | zero =>
    intro i s _
    exact ⟨s, rfl, rfl, fun j h1 h2 => by omega, fun _ _ => rfl⟩
  | succ n ih =>
    intro i s hlen
    have hi : i < s.length := by omega
    have hget : s[i]? = some s[i] := List.getElem?_eq_getElem hi
    unfold convert_string_to_printable_loop
    rw [hget]
    dsimp only
    by_cases hc : s[i] = 0
    · rw [if_pos hc]
      refine ⟨s, rfl, rfl, ?_, fun _ _ => rfl⟩
      intro j h1 _ hb
      exact absurd (by rw [hget, hc]) (hb i (Nat.le_refl _) h1)
    · rw [if_neg hc]
      have key : ∀ s2 : List Nat, s2.length = s.length →
          s2[i]? = some (printable_char s[i]) → (∀ j, j ≠ i → s2[j]? = s[j]?) →
          ∃ out, convert_string_to_printable_loop n (i + 1) s2 = some out
            ∧ out.length = s.length
            ∧ (∀ j, i ≤ j → j < i + (n + 1) → before_nul s i j →
                out[j]? = (s[j]?).map printable_char)
            ∧ (∀ j, ¬ (i ≤ j ∧ j < i + (n + 1) ∧ before_nul s i j) → out[j]? = s[j]?) := by
        intro s2 hl2 h2i h2o
        obtain ⟨out, hout, hol, h3, h4⟩ := ih (i + 1) s2 (by omega)
        have hbn : ∀ j, i + 1 ≤ j → (before_nul s2 (i + 1) j ↔ before_nul s i j) := by
          intro j hj
          constructor
          · intro hb m hm1 hm2
            by_cases hmi : m = i
            · subst hmi
              rw [hget]
              intro e
              exact hc (Option.some.inj e)
            · rw [← h2o m hmi]
              exact hb m (by omega) hm2
          · intro hb m hm1 hm2
            rw [h2o m (by omega)]
            exact hb m (by omega) hm2
        refine ⟨out, hout, hol.trans hl2, ?_, ?_⟩
        · intro j h1 h2 hb
          by_cases hji : j = i
          · subst hji
            rw [h4 j (by omega), h2i, hget]
            rfl
          · rw [h3 j (by omega) (by omega) ((hbn j (by omega)).2 hb), h2o j hji]
        · intro j hnot
          have hji : j ≠ i := by
            intro e
            subst e
            apply hnot
            refine ⟨Nat.le_refl _, by omega, ?_⟩
            intro m hm1 hm2
            have : m = j := by omega
            subst this
            rw [hget]
            intro e
            exact hc (Option.some.inj e)
          rw [h4 j ?_, h2o j hji]
          rintro ⟨g1, g2, g3⟩
          exact hnot ⟨by omega, by omega, (hbn j g1).1 g3⟩
      by_cases ha : isalnum s[i] = true
      · have e : (!isalnum s[i]) = false := by rw [ha]; rfl
        rw [e]
        simp only [Bool.false_eq_true, if_false]
        apply key s rfl _ (fun _ _ => rfl)
        rw [hget]
        unfold printable_char
        rw [if_pos ha]
      · have ha2 : isalnum s[i] = false := by simpa using ha
        have e : (!isalnum s[i]) = true := by rw [ha2]; rfl
        rw [e]
        simp only [if_true]
        apply key (s.set i 46) (by simp)
        · rw [List.getElem?_set_self hi]
          unfold printable_char
          rw [if_neg ha]
        · intro j hj
          exact List.getElem?_set_ne (Ne.symm hj)

theorem convert_string_to_printable_get (s : List Nat) (len : Nat) (h1 : 1 ≤ len)
    (h2 : len ≤ s.length) (h3 : len < 4294967296) :
    ∃ out, convert_string_to_printable s len = some out ∧ out.length = s.length
      ∧ out[len - 1]? = some 0
      ∧ (∀ j, j ≠ len - 1 → j < len → before_nul s 0 j →
          out[j]? = (s[j]?).map printable_char)
      ∧ (∀ j, j ≠ len - 1 → ¬ (j < len ∧ before_nul s 0 j) → out[j]? = s[j]?) := by
  obtain ⟨s1, hloop, hl1, ha, hb⟩ := convert_string_to_printable_loop_spec len 0 s (by omega)
  have hlast : (len + 4294967295) % 4294967296 = len - 1 := by omega
  have hlt : len - 1 < s1.length := by omega
  refine ⟨s1.set (len - 1) 0, ?_, by simp [hl1], List.getElem?_set_self hlt, ?_, ?_⟩
  · unfold convert_string_to_printable
    rw [hloop]
    dsimp only
    rw [hlast, if_pos hlt]
  · intro j hj hjl hbn
    rw [List.getElem?_set_ne (Ne.symm hj)]
    exact ha j (Nat.zero_le _) (by omega) hbn
  · intro j hj hnot
    rw [List.getElem?_set_ne (Ne.symm hj)]
    apply hb j
    rintro ⟨_, g2, g3⟩
    exact hnot ⟨by omega, g3⟩

theorem before_nul_of_output (s out : List Nat) (len : Nat)
    (hlast : out[len - 1]? = some 0)
    (hkeep : ∀ j, j ≠ len - 1 → ¬ (j < len ∧ before_nul s 0 j) → out[j]? = s[j]?)
    (j : Nat) (hb : before_nul out 0 j) : j < len - 1 ∧ before_nul s 0 j := by
  have hj : j < len - 1 := by
    by_contra hge
    exact hb (len - 1) (Nat.zero_le _) (by omega) hlast
  refine ⟨hj, ?_⟩
  intro m _ hm2 hsm
  have hm : m ≠ len - 1 := by omega
  have hno : ¬ (m < len ∧ before_nul s 0 m) := by
    rintro ⟨_, g⟩
    exact g m (Nat.zero_le _) (Nat.le_refl _) hsm
  have := hkeep m hm hno
  rw [hsm] at this
  exact hb m (Nat.zero_le _) hm2 this

/-- C36: for a buffer s of at least len characters with len at least 1,
convert_string_to_printable returns, and afterwards the character at the index len - 1 is
NUL, so the string ends within the first len characters; every character before the
first NUL of the result is the character of the input at this index if that is
alphanumeric and '.' if not, and no NUL of the input comes before it; every character of
the input before the first NUL of the input and before the index len - 1 is kept if it
is alphanumeric and is '.' if not; the characters from the index len on are not touched;
and the function applied to the result returns the result. -/
theorem convert_string_to_printable_printable (s : List Nat) (len : Nat) (h1 : 1 ≤ len)
    (h2 : len ≤ s.length) (h3 : len < 4294967296) :
    ∃ out, convert_string_to_printable s len = some out ∧ out.length = s.length
      ∧ out[len - 1]? = some 0
      ∧ (∃ k, k < len ∧ out[k]? = some 0 ∧ ∀ m, m < k → out[m]? ≠ some 0)
      ∧ (∀ j, before_nul out 0 j →
          j < len - 1 ∧ before_nul s 0 j
          ∧ ∃ c, s[j]? = some c ∧ out[j]? = some (printable_char c)
            ∧ (isalnum c = true → out[j]? = some c)
            ∧ (isalnum c = false → out[j]? = some 46))
      ∧ (∀ j, j < len - 1 → before_nul s 0 j →
          ∃ c, s[j]? = some c ∧ out[j]? = some (printable_char c)
            ∧ (isalnum c = true → out[j]? = some c)
            ∧ (isalnum c = false → out[j]? = some 46))
      ∧ (∀ j, len ≤ j → out[j]? = s[j]?)
      ∧ convert_string_to_printable out len = some out := by
  obtain ⟨out, hconv, hlen, hlast, hmap, hkeep⟩ := convert_string_to_printable_get s len h1 h2 h3
  have hchar : ∀ j, j < len - 1 → before_nul s 0 j →
      ∃ c, s[j]? = some c ∧ out[j]? = some (printable_char c)
        ∧ (isalnum c = true → out[j]? = some c)
        ∧ (isalnum c = false → out[j]? = some 46) := by
    intro j hj hb
    have hjs : j < s.length := by omega
    have hget : s[j]? = some s[j] := List.getElem?_eq_getElem hjs
    have ho := hmap j (by omega) (by omega) hb
    rw [hget] at ho
    refine ⟨s[j], hget, ho, ?_, ?_⟩
    · intro ha
      rw [ho]
      rcases printable_char_cases s[j] with ⟨_, e⟩ | ⟨e, _⟩
      · rw [Option.map_some', e]
      · rw [ha] at e; exact absurd e (by decide)
    · intro ha
      rw [ho]
      rcases printable_char_cases s[j] with ⟨e, _⟩ | ⟨_, e⟩
      · rw [ha] at e; exact absurd e (by decide)
      · rw [Option.map_some', e]
  have hfirst : ∃ k, k < len ∧ out[k]? = some 0 ∧ ∀ m, m < k → out[m]? ≠ some 0 := by
    have hex : ∃ k, k < len ∧ out[k]? = some 0 := ⟨len - 1, by omega, hlast⟩
    classical
    refine ⟨Nat.find hex, (Nat.find_spec hex).1, (Nat.find_spec hex).2, ?_⟩
    intro m hm hz
    exact Nat.find_min hex hm ⟨Nat.lt_trans hm (Nat.find_spec hex).1, hz⟩
  refine ⟨out, hconv, hlen, hlast, hfirst, ?_, hchar, ?_, ?_⟩
  · intro j hb
    obtain ⟨hj, hbs⟩ := before_nul_of_output s out len hlast hkeep j hb
    exact ⟨hj, hbs, hchar j hj hbs⟩
  · intro j hj
    exact hkeep j (by omega) (by rintro ⟨g, _⟩; omega)
  · obtain ⟨out2, hconv2, hlen2, hlast2, hmap2, hkeep2⟩ :=
      convert_string_to_printable_get out len h1 (by omega) h3
    rw [hconv2]
    congr 1
    apply List.ext_getElem?
    intro j
    by_cases hj : j = len - 1
    · rw [hj, hlast2, hlast]
    · by_cases hc : j < len ∧ before_nul out 0 j
      · rw [hmap2 j hj hc.1 hc.2]
        obtain ⟨hj2, hbs⟩ := before_nul_of_output s out len hlast hkeep j hc.2
        obtain ⟨c, _, ho, _⟩ := hchar j hj2 hbs
        rw [ho, Option.map_some', printable_char_idem]
      · exact hkeep2 j hj hc

theorem convert_string_to_printable_printable_witness :
    convert_string_to_printable [119, 119, 45, 97, 0, 33, 98, 99] 7
      = some [119, 119, 46, 97, 0, 33, 0, 99]
    ∧ convert_string_to_printable [97, 47, 98, 99] 3 = some [97, 46, 0, 99]
    ∧ ∃ out, convert_string_to_printable [97, 47, 98, 99] 3 = some out
        ∧ out[3 - 1]? = some 0
        ∧ convert_string_to_printable out 3 = some out :=
  ⟨by decide, by decide,
    match convert_string_to_printable_printable [97, 47, 98, 99] 3 (by decide) (by decide)
      (by decide) with
    | ⟨out, h1, _, h2, _, _, _, _, h3⟩ => ⟨out, h1, h2, h3⟩⟩

/-! ### Membership test of the chronological list -/

theorem flow_record_is_in_chrono_list_iff (s : flow_cache) (cl : List Nat) (r : Nat)
    (rr : flow_record) (hcl : is_chrono_list s cl) (hoff : off_chrono_inv s.heap cl)
    (hrr : s.heap r = some rr) :
    (flow_record_is_in_chrono_list s.heap r = .ok 1 ↔ (r ∈ cl ∧ cl ≠ [r]))
    ∧ (flow_record_is_in_chrono_list s.heap r = .ok 0 ↔ (r ∉ cl ∨ cl = [r])) := by
  have hval : flow_record_is_in_chrono_list s.heap r
      = .ok (if rr.time_next ≠ none ∨ rr.time_prev ≠ none then 1 else 0) := by
    unfold flow_record_is_in_chrono_list
    rw [hrr]
  have hlk : chrono_link s.heap r = some (rr.time_prev, rr.time_next) := by
    unfold chrono_link
    rw [hrr]
    rfl
  have hmain : (rr.time_next ≠ none ∨ rr.time_prev ≠ none) ↔ (r ∈ cl ∧ cl ≠ [r]) := by
    constructor
    · intro h
      have hmem : r ∈ cl := by
        by_contra hn
        obtain ⟨h1, h2⟩ := hoff r rr hrr hn
        rcases h with h | h
        · exact h h2
        · exact h h1
      refine ⟨hmem, ?_⟩
      intro e
      have hd := hcl.1
      rw [e] at hd
      obtain ⟨_, nx, hp, hrest⟩ := hd
      rw [hlk] at hp
      have h1 := Prod.mk.inj (Option.some.inj hp)
      have h2 : nx = none := hrest
      rcases h with h | h
      · exact h (h1.2.trans h2)
      · exact h h1.1
    · rintro ⟨hmem, hne⟩
      obtain ⟨l1, l2, e⟩ := List.append_of_mem hmem
      have hd := hcl.1
      rw [e] at hd
      obtain ⟨hpv, hrest⟩ := Dll_mid l1 _ _ r l2 _ _ hd hlk
      cases l1 with
      | nil =>
        cases l2 with
        | nil => exact absurd e hne
        | cons q l2 =>
          left
          rw [hrest.1]
          exact Option.some_ne_none q
      | cons x l1 =>
        right
        obtain ⟨q, _, hq⟩ := last_or_mem none (x :: l1) (List.cons_ne_nil _ _)
        rw [hpv, hq]
        exact Option.some_ne_none q
  rw [hval]
  constructor
  · rw [← hmain]
    constructor
    · intro h
      by_contra hn
      rw [if_neg hn] at h
      exact absurd (Except.ok.inj h) (by decide)
    · intro h
      rw [if_pos h]
  · have hneg : (r ∉ cl ∨ cl = [r]) ↔ ¬ (r ∈ cl ∧ cl ≠ [r]) := by
      constructor
      · rintro (h | h) ⟨g1, g2⟩
        · exact h g1
        · exact g2 h
      · intro h
        by_cases g1 : r ∈ cl
        · right
          by_contra g2
          exact h ⟨g1, g2⟩
        · left; exact g1
    rw [hneg, ← hmain]
    constructor
    · intro h hn
      rw [if_pos hn] at h
      exact absurd (Except.ok.inj h) (by decide)
    · intro h
      rw [if_neg h]

/-- C37 (evaluation at the failing input): after one creating lookup from the empty
cache in exact mode the record at the address 1 is the only element of the chronological
list, and flow_record_is_in_chrono_list returns 0 for it; once a second record without
twin is on the list, the function returns 1 for both. -/
theorem flow_record_is_in_chrono_list_single :
    Reachable config_exact_bidir (cache_one config_exact_bidir)
    ∧ is_chrono_list (cache_one config_exact_bidir) [1]
    ∧ value_of (flow_record_is_in_chrono_list (cache_one config_exact_bidir).heap 1) = some 0
    ∧ is_chrono_list cache_two_unpaired [1, 2]
    ∧ value_of (flow_record_is_in_chrono_list cache_two_unpaired.heap 1) = some 1
    ∧ value_of (flow_record_is_in_chrono_list cache_two_unpaired.heap 2) = some 1 :=
  ⟨cache_one_reachable config_exact_bidir, ⟨⟨rfl, none, rfl, rfl⟩, by decide, rfl⟩, rfl,
    ⟨⟨rfl, some 2, rfl, rfl, none, rfl, rfl⟩, by decide, rfl⟩, rfl, rfl⟩

/-! ### A record that is its own twin -/

/-- C38 (evaluation at the failing input): in exact mode and in near mode, the creating
lookup of the key 10.0.0.1:53 to 10.0.0.1:53 in the empty cache returns a new record, at
the address 1, whose twin pointer is the record itself; the record is not appended to
the chronological list, which stays empty, although it is the only record of the table;
the full
sweep then emits nothing and leaves the record in the table. -/
theorem flow_key_get_record_self_twin :
    returned (flow_key_get_record config_exact_bidir 4 (flow_record_list_init flow_cache_start)
        key_self true (some 1)) = some (some 1)
    ∧ twin_of (cache_self config_exact_bidir) 1 = some (some 1)
    ∧ is_chrono_list (cache_self config_exact_bidir) []
    ∧ (cache_self config_exact_bidir).stats.num_records_in_table = 1
    ∧ returned (flow_key_get_record config_near_bidir 4 (flow_record_list_init flow_cache_start)
        key_self true (some 1)) = some (some 1)
    ∧ twin_of (cache_self config_near_bidir) 1 = some (some 1)
    ∧ is_chrono_list (cache_self config_near_bidir) []
    ∧ (cache_of (flow_record_list_print_json config_exact_bidir 4
        (cache_self config_exact_bidir) none)).output = []
    ∧ twin_of (cache_of (flow_record_list_print_json config_exact_bidir 4
        (cache_self config_exact_bidir) none)) 1 = some (some 1)
    ∧ (cache_of (flow_record_list_print_json config_exact_bidir 4
        (cache_self config_exact_bidir) none)).stats.num_records_in_table = 1 :=
  ⟨rfl, rfl, ⟨rfl, List.nodup_nil, rfl⟩,
    rfl, rfl, rfl, ⟨rfl, List.nodup_nil, rfl⟩, rfl, rfl, rfl⟩

/-! ### Uniqueness of keys and repeated lookups -/

theorem cache_inv_same_lists {config : configuration} {s s1 : flow_cache}
    {bl : Nat → List Nat} {cl : List Nat} (h : same_lists s1 s)
    (hinv : cache_inv config s bl cl) : cache_inv config s1 bl cl := by
  obtain ⟨harr, hf, hl, ha⟩ := h
  have h1 : heap_agree (fun r => (r.prev, r.next)) s1.heap s.heap :=
    heap_agree_of_factor _ (fun v => v.2.1) (fun _ => rfl) ha
  have h2 : heap_agree (fun r => r.key) s1.heap s.heap :=
    heap_agree_of_factor _ (fun v => v.1) (fun _ => rfl) ha
  have h3 : heap_agree (fun r => (r.time_prev, r.time_next)) s1.heap s.heap :=
    heap_agree_of_factor _ (fun v => v.2.2.1) (fun _ => rfl) ha
  have h4 : heap_agree (fun r => r.twin) s1.heap s.heap :=
    heap_agree_of_factor _ (fun v => v.2.2.2) (fun _ => rfl) ha
  exact ⟨buckets_inv_congr h1 h2 harr hinv.1, is_chrono_list_congr h3 hf hl hinv.2.1,
    off_chrono_inv_congr h3 hinv.2.2.1, twin_inv_congr h4 hinv.2.2.2⟩

theorem keys_unique_same_lists {s s1 : flow_cache} (h : same_lists s1 s)
    (hk : keys_unique s.heap) : keys_unique s1.heap := by
  have h2 : heap_agree (fun r => r.key) s1.heap s.heap :=
    heap_agree_of_factor _ (fun v => v.1) (fun _ => rfl) h.2.2.2
  intro p q rp rq hp hq hkey
  obtain ⟨rp0, hp0, ep⟩ := heap_agree_live (heap_agree_symm h2) p rp hp
  obtain ⟨rq0, hq0, eq⟩ := heap_agree_live (heap_agree_symm h2) q rq hq
  have ep : rp0.key = rp.key := ep
  have eq : rq0.key = rq.key := eq
  exact hk p q rp0 rq0 hp0 hq0 (by rw [ep, eq]; exact hkey)

theorem same_lists_refl (s : flow_cache) : same_lists s s :=
  ⟨rfl, rfl, rfl, heap_agree_refl _ _⟩

theorem lookup_present_key (config : configuration) (s : flow_cache) (bl : Nat → List Nat)
    (cl : List Nat) (r : Nat) (rr : flow_record) (hinv : cache_inv config s bl cl)
    (hk : keys_unique s.heap) (hr : s.heap r = some rr) (fuel : Nat)
    (hf : (bl (flow_key_hash config rr.key)).length ≤ fuel) (create : Bool)
    (malloc : Option Nat)
    (hc : create = true → value_of (flow_record_is_in_chrono_list s.heap r) = some 0
      ∨ value_of (flow_record_is_past_active_expiration s.heap r) = some 0) :
    flow_key_get_record config fuel s rr.key create malloc = .ok (s, some r) := by
  have hb := hinv.1
  have hfind := find_record_by_key_spec s.heap rr.key _ none _ fuel
    (hb.1 (flow_key_hash config rr.key)).1 hf
  have hlf : list_find s.heap (flow_key_is_eq rr.key) (bl (flow_key_hash config rr.key))
      = some r := by
    cases h : list_find s.heap (flow_key_is_eq rr.key) (bl (flow_key_hash config rr.key)) with
    | none =>
      have hno := list_find_none s.heap (flow_key_is_eq rr.key) _
        (fun p hp => by
          obtain ⟨x, hx, _⟩ := hb.2.1 _ p hp
          exact ⟨x, hx⟩) h r (hb.2.2 r rr hr) rr hr
      exact absurd ((flow_key_is_eq_zero _ _).2 rfl) hno
    | some q =>
      obtain ⟨_, rq, hq, he⟩ := list_find_some _ _ _ q h
      have e : rr.key = rq.key := (flow_key_is_eq_zero _ _).1 he
      rw [hk q r rq rr hq hr e.symm]
  unfold flow_key_get_record
  dsimp only
  rw [hfind, hlf]
  dsimp only
  cases create with
  | false => rfl
  | true =>
    simp only [if_true]
    have hin : ∃ a, flow_record_is_in_chrono_list s.heap r = .ok a := by
      unfold flow_record_is_in_chrono_list
      rw [hr]
      exact ⟨_, rfl⟩
    obtain ⟨a, ha⟩ := hin
    rw [ha]
    dsimp only
    by_cases ha0 : a = 0
    · subst ha0
      rfl
    · rw [if_pos ha0]
      rcases hc rfl with h | h
      · rw [ha] at h
        exact absurd (Option.some.inj h) ha0
      · cases hp : flow_record_is_past_active_expiration s.heap r with
        | error e => rw [hp] at h; exact absurd h (by simp [value_of])
        | ok b =>
          rw [hp] at h
          have hb0 : b = 0 := Option.some.inj h
          subst hb0
          rfl

theorem lookup_returns_key (config : configuration) (s : flow_cache) (bl : Nat → List Nat)
    (cl : List Nat) (fuel : Nat) (key : flow_key) (create : Bool) (malloc : Option Nat)
    (res : flow_cache × Option Nat) (r : Nat) (hinv : cache_inv config s bl cl)
    (h : flow_key_get_record config fuel s key create malloc = .ok res)
    (hres : res.2 = some r) : ∃ rr, res.1.heap r = some rr ∧ rr.key = key := by
  have hcreate : ∀ (s1 : flow_cache) (bl1 : Nat → List Nat), buckets_inv config s1 bl1 →
      flow_key_get_record_create config fuel s1 key (flow_key_hash config key) create malloc
        = .ok res → ∃ rr, res.1.heap r = some rr ∧ rr.key = key := by
    intro s1 bl1 hb1 hcr
    obtain ⟨_, _, _, h4, h5⟩ :=
      flow_key_get_record_create_frame config s1 bl1 key fuel create malloc res hb1 hcr
    cases hcm : create with
    | false =>
      rw [(h5 (Or.inl hcm)).2.1] at hres
      exact absurd hres (by simp)
    | true =>
      cases hm : malloc with
      | none =>
        rw [(h5 (Or.inr hm)).2.1] at hres
        exact absurd hres (by simp)
      | some a =>
        obtain ⟨_, h6, _, h7⟩ := h4 a hcm hm
        rw [h6] at hres
        have e : a = r := Option.some.inj hres
        subst e
        have h8 := h7 a
        rw [Function.update_same] at h8
        cases hx : res.1.heap a with
        | none => rw [hx] at h8; simp at h8
        | some rr =>
          rw [hx] at h8
          exact ⟨rr, rfl, by simpa [flow_record_initial] using h8⟩
  unfold flow_key_get_record at h
  dsimp only at h
  cases hfind : flow_record_list_find_record_by_key fuel s.heap
      (s.flow_record_list_array (flow_key_hash config key)) key with
  | error e => rw [hfind] at h; simp at h
  | ok found =>
    rw [hfind] at h
    cases found with
    | none => exact hcreate s bl hinv.1 h
    | some q =>
      dsimp only at h
      have hmono := find_record_by_key_mono s.heap key fuel
        (fuel + (bl (flow_key_hash config key)).length) _ _ (by omega) hfind
      rw [find_record_by_key_spec s.heap key _ none _ _
        (hinv.1.1 (flow_key_hash config key)).1 (by omega)] at hmono
      obtain ⟨_, rq, hq, he⟩ := list_find_some _ _ _ q (Except.ok.inj hmono)
      have hkey : rq.key = key := ((flow_key_is_eq_zero _ _).1 he).symm
      have hsame : (.ok (s, some q) : Except Err (flow_cache × Option Nat)) = .ok res →
          ∃ rr, res.1.heap r = some rr ∧ rr.key = key := by
        intro e
        have e2 := Except.ok.inj e
        subst e2
        have e3 : q = r := Option.some.inj hres
        subst e3
        exact ⟨rq, hq, hkey⟩
      cases hcm : create with
      | false =>
        rw [hcm] at h
        exact hsame h
      | true =>
        rw [hcm] at h
        simp only [if_true] at h
        have hin : flow_record_is_in_chrono_list s.heap q
            = .ok (if rq.time_next ≠ none ∨ rq.time_prev ≠ none then 1 else 0) := by
          unfold flow_record_is_in_chrono_list
          rw [hq]
        rw [hin] at h
        dsimp only at h
        by_cases hlinks : rq.time_next ≠ none ∨ rq.time_prev ≠ none
        · rw [if_pos hlinks] at h
          simp only [ne_eq, one_ne_zero, not_false_eq_true, if_true] at h
          cases hpast : flow_record_is_past_active_expiration s.heap q with
          | error e => rw [hpast] at h; simp at h
          | ok b =>
            rw [hpast] at h
            dsimp only at h
            by_cases hb0 : b = 0
            · rw [if_neg (by simpa using hb0)] at h
              exact hsame h
            · rw [if_pos hb0] at h
              have hqcl : q ∈ cl := by
                by_contra hn
                obtain ⟨g1, g2⟩ := hinv.2.2.1 q rq hq hn
                rcases hlinks with g | g
                · exact g g2
                · exact g g1
              obtain ⟨s4, bl4, _, hpd4, hinv4, _⟩ :=
                print_and_delete_step config s bl cl q rq hinv hqcl hq
              rw [hpd4] at h
              dsimp only at h
              rw [← hcm] at h
              exact hcreate s4 bl4 hinv4.1 h
        · rw [if_neg hlinks] at h
          simp only [ne_eq, not_true_eq_false, if_false] at h
          exact hsame h

/-- C39: in every state s reached from the empty cache by calls of flow_key_get_record,
flow_record_print_and_delete and flow_record_list_print_json, no two allocated records
have equal keys. Consequently, when a lookup of the key in s returns the record r, then
r has this key, and in the state after the call, also after packet processing changed
fields of records other than the key and the pointers, a second lookup of the key
returns (with enough fuel) the same record r and leaves the state as it is, creating
nothing, unless it is a creating lookup that takes the active-expiration path, for
which flow_record_is_in_chrono_list and flow_record_is_past_active_expiration are both
non-zero. -/
theorem key_uniqueness (config : configuration) (s : flow_cache) (h : Reachable config s) :
    keys_unique s.heap
    ∧ ∀ fuel key create malloc res r,
        flow_key_get_record config fuel s key create malloc = .ok res → res.2 = some r →
        keys_unique res.1.heap
        ∧ (∃ rr, res.1.heap r = some rr ∧ rr.key = key)
        ∧ ∀ s1, same_lists s1 res.1 →
            keys_unique s1.heap
            ∧ ∃ n, ∀ fuel2, n ≤ fuel2 → ∀ create2 malloc2,
                (create2 = true →
                  value_of (flow_record_is_in_chrono_list s1.heap r) = some 0
                  ∨ value_of (flow_record_is_past_active_expiration s1.heap r) = some 0) →
                flow_key_get_record config fuel2 s1 key create2 malloc2 = .ok (s1, some r) := by
  refine ⟨reachable_keys_unique config s h, ?_⟩
  intro fuel key create malloc res r hcall hres
  have hreach : Reachable config res.1 := Reachable.get_record s fuel key create malloc res h hcall
  have hk := reachable_keys_unique config res.1 hreach
  obtain ⟨bl0, cl0, hinv0⟩ := reachable_cache_inv config s h
  obtain ⟨bl, cl, hinv⟩ := reachable_cache_inv config res.1 hreach
  obtain ⟨rr, hrr, hkey⟩ := lookup_returns_key config s bl0 cl0 fuel key create malloc res r
    hinv0 hcall hres
  refine ⟨hk, ⟨rr, hrr, hkey⟩, ?_⟩
  intro s1 hsame
  have hinv1 := cache_inv_same_lists hsame hinv
  have hk1 := keys_unique_same_lists hsame hk
  have h2 : heap_agree (fun r => r.key) s1.heap res.1.heap :=
    heap_agree_of_factor _ (fun v => v.1) (fun _ => rfl) hsame.2.2.2
  obtain ⟨rr1, hrr1, e1⟩ := heap_agree_live h2 r rr hrr
  have e1 : rr1.key = rr.key := e1
  refine ⟨hk1, (bl (flow_key_hash config key)).length, ?_⟩
  intro fuel2 hf create2 malloc2 hc
  have := lookup_present_key config s1 bl cl r rr1 hinv1 hk1 hrr1 fuel2
    (by rw [e1, hkey]; exact hf) create2 malloc2 hc
  rw [e1, hkey] at this
  exact this

theorem key_uniqueness_witness :
    Reachable config_exact_bidir (flow_record_list_init flow_cache_start)
    ∧ flow_key_get_record config_exact_bidir 4 (flow_record_list_init flow_cache_start)
        key_forward true (some 1) = .ok (cache_one config_exact_bidir, some 1)
    ∧ same_lists (aged (cache_one config_exact_bidir)) (cache_one config_exact_bidir)
    ∧ flow_key_get_record config_exact_bidir 4 (cache_one config_exact_bidir)
        key_forward true (some 2) = .ok (cache_one config_exact_bidir, some 1)
    ∧ (∃ n, ∀ fuel2, n ≤ fuel2 → ∀ create2 malloc2,
        (create2 = true →
          value_of (flow_record_is_in_chrono_list (aged (cache_one config_exact_bidir)).heap 1)
              = some 0
          ∨ value_of (flow_record_is_past_active_expiration
              (aged (cache_one config_exact_bidir)).heap 1) = some 0) →
        flow_key_get_record config_exact_bidir fuel2 (aged (cache_one config_exact_bidir))
            key_forward create2 malloc2
          = .ok (aged (cache_one config_exact_bidir), some 1)) := by
  have hs : same_lists (aged (cache_one config_exact_bidir)) (cache_one config_exact_bidir) := by
    refine ⟨rfl, rfl, rfl, ?_⟩
    intro p
    by_cases hp : p = 1
    · subst hp; rfl
    · simp only [aged, hp, if_false]
  exact ⟨Reachable.init, cache_one_eq config_exact_bidir, hs, rfl,
    (((key_uniqueness config_exact_bidir _ Reachable.init).2 4 key_forward true (some 1)
      (cache_one config_exact_bidir, some 1) 1 (cache_one_eq config_exact_bidir) rfl).2.2
      (aged (cache_one config_exact_bidir)) hs).2⟩

/-! ### The indices of the dns array -/

/-- C40 (evaluation at the failing input): for every length M of the per-packet arrays,
a primary with op = 0 and a twin with op = M + 1 make flow_record_print_json read
dns_name at the index M, which is outside the arrays: count is op of the primary capped
by M, and then the larger of this and op of the twin, which is not capped. Without a
twin count is at most M. -/
theorem flow_record_print_json_dns_out_of_bounds (M : Nat) :
    M ∈ flow_record_print_json_dns_reads M 0 (some (M + 1))
    ∧ flow_record_print_json_dns_count M 0 (some (M + 1)) = M + 1
    ∧ (∀ op top, flow_record_print_json_dns_count M op (some top) = max top (min op M))
    ∧ (∀ op, flow_record_print_json_dns_count M op none = min op M)
    ∧ (∀ op, flow_record_print_json_dns_count M op none ≤ M) := by
  have hmin : ∀ op, (if op > M then M else op) = min op M := by
    intro op
    by_cases h : op > M
    · rw [if_pos h, min_eq_right (le_of_lt h)]
    · rw [if_neg h, min_eq_left (Nat.not_lt.mp h)]
  have hpair : ∀ op top, flow_record_print_json_dns_count M op (some top)
      = max top (min op M) := by
    intro op top
    unfold flow_record_print_json_dns_count
    dsimp only
    rw [hmin]
    by_cases h : top > min op M
    · rw [if_pos h, max_eq_left (le_of_lt h)]
    · rw [if_neg h, max_eq_right (Nat.not_lt.mp h)]
  have hnone : ∀ op, flow_record_print_json_dns_count M op none = min op M := by
    intro op
    unfold flow_record_print_json_dns_count
    dsimp only
    rw [hmin]
  have hc : flow_record_print_json_dns_count M 0 (some (M + 1)) = M + 1 := by
    rw [hpair]
    simp
  refine ⟨?_, hc, hpair, hnone, fun op => by rw [hnone]; exact min_le_right _ _⟩
  unfold flow_record_print_json_dns_reads
  rw [hc, List.mem_range]
  exact Nat.lt_succ_self M

end P2F
